import Mathlib

/-!
# Term writer of SWI-Prolog (`src/pl-write.c`)

A shallow embedding of the term writer: characters are natural-number code
points, the output stream is a record holding the characters delivered so far
and its last-character slot, and every C function that writes becomes a pure
function returning its C result together with the updated state.

Everything the writer consumes from other compilation units (character-class
macros, operator tables, the portray hook, the digit generator, prolog flags,
the atom table) is a field of `Env` or `Module`; `defaultEnv` and `userModule`
give one concrete instance used for the worked examples.
-/

namespace PlWrite

/-! ## Atoms and terms -/

/-- The blob type of an atom (`atom->type`): ordinary text (no `write` hook),
wide-character text (hook `writeUCSAtom`), reserved symbol (hook
`writeReservedSymbol`, not `PL_BLOB_TEXT`), or a non-text blob without hook. -/
inductive PL_blob_t where
  | text
  | ucs
  | reserved
  | blob
deriving DecidableEq, Repr

/-- An atom handle: its characters (`atom->name`, bytes for text atoms, code
points for wide atoms) and its blob type.  Two handles are the same atom when
both agree. -/
structure Atom where
  name : List Nat
  type : PL_blob_t
deriving DecidableEq, Repr

/-- The flag `PL_BLOB_TEXT` of the atom's type. -/
def Atom.isText (a : Atom) : Bool :=
  match a.type with
  | .text => true
  | .ucs => true
  | _ => false

/-- The test `isUCSAtom(atom)`. -/
def isUCSAtom (a : Atom) : Bool :=
  match a.type with
  | .ucs => true
  | _ => false

/-- The test `atom->type->write != NULL`. -/
def Atom.hasWrite (a : Atom) : Bool :=
  match a.type with
  | .ucs => true
  | .reserved => true
  | _ => false

/-- Terms as the writer sees them through the foreign interface.  A variable is
identified by the address of its cell; it is unbound unless the engine binds
it (see `PL_local_data.bindings`), which is also how cyclic terms arise. -/
inductive Term where
  | var (p : Nat)
  | attvar (p : Nat) (att : Term)
  | atom (a : Atom)
  | integer (i : Int)
  | mpz (i : Int)
  | mpq (num : Int) (den : Int)
  | float (bits : Nat)
  | string (text : List Nat)
  | compound (functor : Atom) (args : List Term)
deriving Repr

/-- Characters of a string literal as code points. -/
def str (s : String) : List Nat := s.toList.map Char.toNat

/-- The C string stored in a character buffer: the characters before the first
NUL. -/
def cstr (b : List Nat) : List Nat := b.takeWhile (fun c => c != 0)

/-! ## Operators and modules -/

/-- Operator kinds of `currentOperator()`. -/
inductive OpKind where
  | OP_PREFIX
  | OP_INFIX
  | OP_POSTFIX
deriving DecidableEq, Repr

/-- Operator types. -/
inductive OpType where
  | OP_FX
  | OP_FY
  | OP_XF
  | OP_YF
  | OP_XFX
  | OP_XFY
  | OP_YFX
deriving DecidableEq, Repr

/-- A module as far as the writer is concerned: its operator table
(`currentOperator(module, name, kind, &type, &priority)` succeeds with the pair
or fails) and the module flags it tests. -/
structure Module where
  currentOperator : Atom → OpKind → Option (OpType × Int)
  M_VARPREFIX : Bool
  M_CHARESCAPE : Bool
  RAT_NATURAL : Bool
  BQ_STRING : Bool

/-- Modelled from the spec: `priorityOperator()` lives in the operator table
unit, which is not under src/; "the atom is itself a registered
operator" is read as the largest priority the atom has in any fixity, 0 when it
has none. -/
def priorityOperator (m : Module) (a : Atom) : Int :=
  let pri := fun (k : OpKind) =>
    match m.currentOperator a k with
    | some (_, p) => p
    | none => 0
  max (pri .OP_PREFIX) (max (pri .OP_INFIX) (pri .OP_POSTFIX))

/-! ## Output stream -/

/-- The output stream: characters delivered so far, the last-character slot
(a 32-bit `int` in two's complement, so `EOF` is `0xFFFFFFFF`), the number of
characters the transport still accepts (`none` for no limit), its error flag
and the `int` values its encoding reports as representable. -/
structure IOSTREAM where
  buffer : List Nat
  lastc : Nat
  room : Option Nat
  ferr : Bool
  canrepresent : Int → Bool

/-- The `int` value -1. -/
def EOF : Nat := 0xFFFFFFFF

/-- Modelled from the spec: `Sputcode()` belongs to the stream unit, which is
not under src/.  It delivers one character and records it in
the "last character" slot; when the transport accepts no more it reports failure,
raises the stream's error flag and delivers nothing. -/
def Sputcode (c : Nat) (s : IOSTREAM) : Bool × IOSTREAM :=
  match s.room with
  | some 0 => (false, { s with ferr := true })
  | some (n + 1) => (true, { s with buffer := s.buffer ++ [c], lastc := c, room := some n })
  | none => (true, { s with buffer := s.buffer ++ [c], lastc := c })

/-- Modelled from the spec: `Scanrepresent(c, fd)` is 0 exactly when the
transport reports that it can represent the `int` it is given. -/
def Scanrepresent (c : Int) (fd : IOSTREAM) : Int :=
  if fd.canrepresent c then 0 else -1

/-- Modelled from the spec: `streamStatus()` reports whether the stream is free
of errors. -/
def streamStatus (s : IOSTREAM) : Bool := !s.ferr

/-! ## Environment -/

/-- The values of the option `back_quotes` as `setBackQuotes()` reports them:
`BQ_STRING`, `BQ_CODES` or no flag (backquote is a symbol character). -/
inductive BackQuotes where
  | string
  | codes
  | symbol_char
deriving DecidableEq, Repr

/-- Errors raised through `PL_error()` and friends. -/
inductive PlError where
  | domain (what : String)
  | type (what : String)
  | resource (what : String)
deriving DecidableEq, Repr

/-- What the writer consumes from the rest of the system.  Character classes
are the macros of the character-type unit; `dtoa` is the digit generator
(digits, decimal point position, sign); the hooks stand for calls into user
code, which may write to the stream and return 1 (true), 0 (false) or -1
(exception); the term operations at the end take the engine's bindings and
stand for the functions of the same name of the foreign interface
(`PL_unify` returns the new bindings, or nothing when it fails). -/
structure Env where
  isLower : Nat → Bool
  isUpper : Nat → Bool
  isAlpha : Nat → Bool
  isDigit : Nat → Bool
  isSymbol : Nat → Bool
  isSolo : Nat → Bool
  isBlank : Nat → Bool
  isPunctW : Nat → Bool
  f_is_prolog_symbol : Nat → Bool
  f_is_prolog_identifier_continue : Nat → Bool
  f_is_prolog_atom_start : Nat → Bool
  atom_varnameW : List Nat → Bool
  unicode_quoted_escape : Nat → Bool
  PLFLAG_DOT_IN_ATOM : Bool
  PLFLAG_CHARESCAPE_UNICODE : Bool
  cleaning_gt_CLN_PROLOG : Bool
  MAX_PORTRAY_NESTING : Nat
  dtoa : Nat → List Nat × Int × Bool
  ATOM_nil : Atom
  ATOM_curl : Atom
  ATOM_dot : Atom
  ATOM_minus : Atom
  ATOM_comma : Atom
  ATOM_bar : Atom
  ATOM_dict : Atom
  ATOM_isovar : Atom
  ATOM_xpceref : Atom
  ATOM_equals : Atom
  ATOM_standard : Atom
  ATOM_next_argument : Atom
  ATOM_ignore : Atom
  ATOM_dots : Atom
  ATOM_write : Atom
  ATOM_portray : Atom
  ATOM_default : Atom
  ATOM_user : Atom
  MODULE_user : Module
  isCurrentModule : Atom → Option Module
  portray_defined : Bool
  portray_hook : Option Term → Term → Int → IOSTREAM → Int × IOSTREAM
  portray_attvar_hook : Term → IOSTREAM → Int × IOSTREAM
  saveWakeup : Bool
  PL_is_dict : Term → Bool
  dict_pairs : Term → List (Term × Term)
  older_isovar : Term → Bool
  setBackQuotes : Atom → Option BackQuotes
  PL_is_acyclic : List (Nat × Term) → Term → Bool
  PL_factorize_term : List (Nat × Term) → Term → Option (Term × List Term)
  PL_var_occurs_in : List (Nat × Term) → Term → Term → Bool
  PL_unify : List (Nat × Term) → Term → Term → Option (List (Nat × Term))
  lengthList : List (Nat × Term) → Term → Int

/-! ## Write options and engine state -/

/-- The `PL_WRT_*` bits of `write_options.flags`, one boolean per bit. -/
structure WrtFlags where
  PL_WRT_QUOTED : Bool := false
  PL_WRT_IGNOREOPS : Bool := false
  PL_WRT_NUMBERVARS : Bool := false
  PL_WRT_PORTRAY : Bool := false
  PL_WRT_CHARESCAPES : Bool := false
  PL_WRT_NO_CHARESCAPES : Bool := false
  PL_WRT_BACKQUOTED_STRING : Bool := false
  PL_WRT_ATTVAR_IGNORE : Bool := false
  PL_WRT_ATTVAR_DOTS : Bool := false
  PL_WRT_ATTVAR_WRITE : Bool := false
  PL_WRT_ATTVAR_PORTRAY : Bool := false
  PL_WRT_BLOB_PORTRAY : Bool := false
  PL_WRT_NO_CYCLES : Bool := false
  PL_WRT_NEWLINE : Bool := false
  PL_WRT_VARNAMES : Bool := false
  PL_WRT_BACKQUOTE_IS_SYMBOL : Bool := false
  PL_WRT_DOTLISTS : Bool := false
  PL_WRT_BRACETERMS : Bool := false
  PL_WRT_NODICT : Bool := false
  PL_WRT_NODOTINATOM : Bool := false
  PL_WRT_NO_LISTS : Bool := false
  PL_WRT_RAT_NATURAL : Bool := false
  PL_WRT_CHARESCAPES_UNICODE : Bool := false
  PL_WRT_QUOTE_NON_ASCII : Bool := false
  PL_WRT_PARTIAL : Bool := false
deriving DecidableEq, Repr

/-- Bitwise or of two flag sets. -/
def WrtFlags.or (a b : WrtFlags) : WrtFlags :=
  { PL_WRT_QUOTED := a.PL_WRT_QUOTED || b.PL_WRT_QUOTED
    PL_WRT_IGNOREOPS := a.PL_WRT_IGNOREOPS || b.PL_WRT_IGNOREOPS
    PL_WRT_NUMBERVARS := a.PL_WRT_NUMBERVARS || b.PL_WRT_NUMBERVARS
    PL_WRT_PORTRAY := a.PL_WRT_PORTRAY || b.PL_WRT_PORTRAY
    PL_WRT_CHARESCAPES := a.PL_WRT_CHARESCAPES || b.PL_WRT_CHARESCAPES
    PL_WRT_NO_CHARESCAPES := a.PL_WRT_NO_CHARESCAPES || b.PL_WRT_NO_CHARESCAPES
    PL_WRT_BACKQUOTED_STRING := a.PL_WRT_BACKQUOTED_STRING || b.PL_WRT_BACKQUOTED_STRING
    PL_WRT_ATTVAR_IGNORE := a.PL_WRT_ATTVAR_IGNORE || b.PL_WRT_ATTVAR_IGNORE
    PL_WRT_ATTVAR_DOTS := a.PL_WRT_ATTVAR_DOTS || b.PL_WRT_ATTVAR_DOTS
    PL_WRT_ATTVAR_WRITE := a.PL_WRT_ATTVAR_WRITE || b.PL_WRT_ATTVAR_WRITE
    PL_WRT_ATTVAR_PORTRAY := a.PL_WRT_ATTVAR_PORTRAY || b.PL_WRT_ATTVAR_PORTRAY
    PL_WRT_BLOB_PORTRAY := a.PL_WRT_BLOB_PORTRAY || b.PL_WRT_BLOB_PORTRAY
    PL_WRT_NO_CYCLES := a.PL_WRT_NO_CYCLES || b.PL_WRT_NO_CYCLES
    PL_WRT_NEWLINE := a.PL_WRT_NEWLINE || b.PL_WRT_NEWLINE
    PL_WRT_VARNAMES := a.PL_WRT_VARNAMES || b.PL_WRT_VARNAMES
    PL_WRT_BACKQUOTE_IS_SYMBOL := a.PL_WRT_BACKQUOTE_IS_SYMBOL || b.PL_WRT_BACKQUOTE_IS_SYMBOL
    PL_WRT_DOTLISTS := a.PL_WRT_DOTLISTS || b.PL_WRT_DOTLISTS
    PL_WRT_BRACETERMS := a.PL_WRT_BRACETERMS || b.PL_WRT_BRACETERMS
    PL_WRT_NODICT := a.PL_WRT_NODICT || b.PL_WRT_NODICT
    PL_WRT_NODOTINATOM := a.PL_WRT_NODOTINATOM || b.PL_WRT_NODOTINATOM
    PL_WRT_NO_LISTS := a.PL_WRT_NO_LISTS || b.PL_WRT_NO_LISTS
    PL_WRT_RAT_NATURAL := a.PL_WRT_RAT_NATURAL || b.PL_WRT_RAT_NATURAL
    PL_WRT_CHARESCAPES_UNICODE := a.PL_WRT_CHARESCAPES_UNICODE || b.PL_WRT_CHARESCAPES_UNICODE
    PL_WRT_QUOTE_NON_ASCII := a.PL_WRT_QUOTE_NON_ASCII || b.PL_WRT_QUOTE_NON_ASCII
    PL_WRT_PARTIAL := a.PL_WRT_PARTIAL || b.PL_WRT_PARTIAL }

/-- The part of the engine's thread-local data (`LD`) the writer reads or
changes: the portray nesting counter, the outcomes of the coming polls of
`PL_handle_signals()` (`true` for an interrupt; none pending when exhausted),
the variable bindings, the stack bases used to name variables, whether a
numbervars frame is active, the attribute-variable flags of the
`write_attributes` prolog flag and the pending exception. -/
structure PL_local_data where
  portray_nesting : Nat
  signals : List Bool
  bindings : List (Nat × Term)
  lBase : Nat
  gBase : Nat
  numbervars_frame : Bool
  write_attributes : WrtFlags
  exception : Option PlError

/-- The record `write_options`.  The stream `out` points to is kept in the
record, and so is the engine state reached through `GET_LD`, so that every
function passes its state explicitly. -/
structure write_options where
  flags : WrtFlags
  max_depth : Int
  depth : Int
  spacing : Atom
  module : Module
  out : IOSTREAM
  portray_goal : Option Term
  ld : PL_local_data

/-- The location flag `W_OP_ARG` of `writeTerm()`; every other location is 0. -/
def W_OP_ARG : Nat := 1

/-- The location flag `W_TOP` (also list argument, list tail, compound argument,
dict key, value and tag, and block operator). -/
def W_TOP : Nat := 0

/-! ## Primitive writes -/

/-- The result `TRUE_WITH_SPACE`. -/
def TRUE_WITH_SPACE : Nat := 2

/-- The function `Putc()`. -/
def Putc (c : Nat) (s : IOSTREAM) : Bool × IOSTREAM :=
  Sputcode c s

/-- The function `PutString()`, on the characters of the C string. -/
def PutString : List Nat → IOSTREAM → Bool × IOSTREAM
  | [], s => (true, s)
  | q :: qs, s =>
    match Sputcode q s with
    | (false, s1) => (false, s1)
    | (true, s1) => PutString qs s1

/-- The function `PutStringN()`: same loop, over a buffer with explicit length. -/
def PutStringN : List Nat → IOSTREAM → Bool × IOSTREAM
  | [], s => (true, s)
  | q :: qs, s =>
    match Sputcode q s with
    | (false, s1) => (false, s1)
    | (true, s1) => PutStringN qs s1

def C_PREFIX_SIGN : Nat := 0x00200000

def C_PREFIX_OP : Nat := 0x00400000

def C_INFIX_OP : Nat := 0x00800000

def C_MASK : Nat := 0xffe00000

/-- The macro `isquote(c)`. -/
def isquote (c : Nat) : Bool := c == 39 || c == 34

/-- The function `needSpace()`.  `s->lastc &= ~C_MASK` keeps the low 21 bits. -/
def needSpace (E : Env) (c : Nat) (s : IOSTREAM) : Bool × IOSTREAM :=
  if c = EOF then (false, { s with lastc := EOF })
  else if s.lastc = EOF then (false, s)
  else if (s.lastc &&& C_PREFIX_SIGN != 0) && (E.isDigit c || E.f_is_prolog_symbol c) then
    (true, s)
  else if (s.lastc &&& C_PREFIX_OP != 0) && (c == 40 || c == 123) then (true, s)
  else if (s.lastc &&& C_INFIX_OP != 0) && c == 40 then (false, s)
  else
    let lastc := s.lastc &&& (0xFFFFFFFF - C_MASK)
    let s1 := { s with lastc := lastc }
    if (E.f_is_prolog_identifier_continue lastc && E.f_is_prolog_identifier_continue c) ||
       (E.f_is_prolog_symbol lastc && E.f_is_prolog_symbol c) ||
       (c == 40 && !(E.isPunctW lastc || E.isBlank lastc)) ||
       (c == 39 && E.isDigit lastc) ||
       (isquote c && lastc == c)
    then (true, s1) else (false, s1)

/-- The function `PutOpenToken()`: 0 is failure, 1 success, 2 success after a
space was written. -/
def PutOpenToken (E : Env) (c : Nat) (s : IOSTREAM) : Nat × IOSTREAM :=
  match needSpace E c s with
  | (true, s1) =>
    (match Putc 32 s1 with
     | (false, s2) => (0, s2)
     | (true, s2) => (TRUE_WITH_SPACE, s2))
  | (false, s1) => (1, s1)

/-- The function `PutToken()`. -/
def PutToken (E : Env) (t : List Nat) (stream : IOSTREAM) : Nat × IOSTREAM :=
  match t with
  | [] => (1, stream)
  | c :: _ =>
    match PutOpenToken E (c % 256) stream with
    | (0, s1) => (0, s1)
    | (rc, s1) =>
      match PutString t s1 with
      | (false, s2) => (0, s2)
      | (true, s2) => (rc, s2)

/-- The function `PutTokenN()`. -/
def PutTokenN (E : Env) (t : List Nat) (stream : IOSTREAM) : Nat × IOSTREAM :=
  match t with
  | [] => (1, stream)
  | c :: _ =>
    match PutOpenToken E (c % 256) stream with
    | (0, s1) => (0, s1)
    | (rc, s1) =>
      match PutStringN t s1 with
      | (false, s2) => (0, s2)
      | (true, s2) => (rc, s2)

/-- The function `PutOpenBrace()`. -/
def PutOpenBrace (E : Env) (s : IOSTREAM) : Nat × IOSTREAM :=
  match PutOpenToken E 40 s with
  | (0, s1) => (0, s1)
  | (rc, s1) =>
    match Putc 40 s1 with
    | (false, s2) => (0, s2)
    | (true, s2) => (rc, s2)

/-- The function `PutCloseBrace()`. -/
def PutCloseBrace (s : IOSTREAM) : Bool × IOSTREAM :=
  Putc 41 s

/-! ## Quoted text -/

/-- One uppercase hexadecimal digit. -/
def hexDigit (d : Nat) : Nat := if d < 10 then 48 + d else 55 + d

/-- Digits of `n` in hexadecimal, most significant first, before `acc`. -/
def hexCore : Nat → Nat → List Nat → List Nat
  | 0, _, acc => acc
  | fuel + 1, n, acc =>
    if n / 16 = 0 then hexDigit (n % 16) :: acc
    else hexCore fuel (n / 16) (hexDigit (n % 16) :: acc)

/-- The conversion `%X`. -/
def sprintf_X (n : Nat) : List Nat := hexCore (n + 1) n []

/-- The conversion `%0wX`: `%X` padded with zeros on the left to width `w`. -/
def sprintf_0X (w n : Nat) : List Nat :=
  List.replicate (w - (sprintf_X n).length) 48 ++ sprintf_X n

/-- Digits of `n` in decimal, most significant first, before `acc`. -/
def decCore : Nat → Nat → List Nat → List Nat
  | 0, _, acc => acc
  | fuel + 1, n, acc =>
    if n / 10 = 0 then (48 + n % 10) :: acc
    else decCore fuel (n / 10) ((48 + n % 10) :: acc)

/-- The conversion `%d` of a natural number. -/
def sprintf_u (n : Nat) : List Nat := decCore (n + 1) n []

/-- The conversion `%d` (also `PRId64`) of an integer. -/
def sprintf_d (i : Int) : List Nat :=
  if i < 0 then 45 :: sprintf_u i.natAbs else sprintf_u i.natAbs

/-- The value of an integer expression stored in an `int64_t`. -/
def int64 (x : Int) : Int := (x + 2 ^ 63) % 2 ^ 64 - 2 ^ 63

/-- The contents of the buffer `esc` of `putQuoted()` for a character that is
written as an escape sequence. -/
def putQuoted_esc (c quote : Nat) (flags : WrtFlags) : List Nat :=
  if c = quote then [c]
  else if c = 7 then [97]
  else if c = 8 then [98]
  else if c = 9 then [116]
  else if c = 10 then [110]
  else if c = 11 then [118]
  else if c = 13 then [114]
  else if c = 12 then [102]
  else if c = 92 then [92]
  else if flags.PL_WRT_CHARESCAPES_UNICODE then
    (if c ≤ 0xffff then 117 :: sprintf_0X 4 c else 85 :: sprintf_0X 8 c)
  else 120 :: (sprintf_X c ++ [92])

/-- The function `putQuoted()`.  The buffer `esc` is printed as a C string. -/
def putQuoted (E : Env) (c quote : Nat) (flags : WrtFlags) (stream : IOSTREAM) :
    Bool × IOSTREAM :=
  if flags.PL_WRT_CHARESCAPES then
    if !E.unicode_quoted_escape c && c != quote && c != 92 &&
       Scanrepresent c stream == 0 then
      Putc c stream
    else
      match Putc 92 stream with
      | (false, s1) => (false, s1)
      | (true, s1) => PutString (cstr (putQuoted_esc c quote flags)) s1
  else
    match Putc c stream with
    | (false, s1) => (false, s1)
    | (true, s1) => if c = quote then Putc c s1 else (true, s1)

/-- The loop of `writeQuoted()` over the characters of the text. -/
def writeQuoted_loop (E : Env) (quote : Nat) (flags : WrtFlags) :
    List Nat → IOSTREAM → Bool × IOSTREAM
  | [], s => (true, s)
  | c :: cs, s =>
    match putQuoted E c quote flags s with
    | (false, s1) => (false, s1)
    | (true, s1) => writeQuoted_loop E quote flags cs s1

/-- The function `writeQuoted()`. -/
def writeQuoted (E : Env) (stream : IOSTREAM) (text : List Nat) (quote : Nat)
    (options : write_options) : Bool × IOSTREAM :=
  match Putc quote stream with
  | (false, s1) => (false, s1)
  | (true, s1) =>
    match writeQuoted_loop E quote options.flags text s1 with
    | (false, s2) => (false, s2)
    | (true, s2) => Putc quote s2

/-! ## Token classifier -/

def AT_LOWER : Nat := 0

def AT_QUOTE : Nat := 1

def AT_FULLSTOP : Nat := 2

def AT_SYMBOL : Nat := 3

def AT_SOLO : Nat := 4

def AT_SPECIAL : Nat := 5

/-- The function `wr_is_symbol()`; `options` may be `NULL`. -/
def wr_is_symbol (E : Env) (c : Nat) (options : Option write_options) : Bool :=
  E.isSymbol c ||
  (c == 96 &&
    (match options with
     | some o => o.flags.PL_WRT_BACKQUOTE_IS_SYMBOL
     | none => false))

/-- The value of `*s` for a `char *s` that points at the byte `b`.  Plain `char`
is a signed 8-bit type on the x86-64 ABI the code is built for, so a byte from
0x80 on is read as the negative `int` `b - 256`. -/
def plainChar (b : Nat) : Int :=
  if b % 256 < 128 then ((b % 256 : Nat) : Int) else ((b % 256 : Nat) : Int) - 256

/-- The function `code_requires_quoted()`; `c` is an `int`, `fd` may be
`NULL`. -/
def code_requires_quoted (c : Int) (fd : Option IOSTREAM) (flags : WrtFlags) : Bool :=
  if c > 0x7f && flags.PL_WRT_QUOTE_NON_ASCII then true
  else
    match fd with
    | some s => Scanrepresent c s != 0
    | none => false

/-- The `for` loop of the lower-case branch of `atomType()`, from the character
`s` points to after `++s`: the characters left when it stops (`len` is their
number).  The character class macros index their table with the byte;
`code_requires_quoted()` receives `*s`, a plain `char` converted to `int`. -/
def atomType_alpha (E : Env) (fd : Option IOSTREAM) (flags : WrtFlags) :
    List Nat → List Nat
  | [] => []
  | c :: cs =>
    if E.isAlpha c && !code_requires_quoted (plainChar c) fd flags then
      atomType_alpha E fd flags cs
    else c :: cs

/-- The `do ... while` loop of the lower-case branch of `atomType()`, entered
with `s` on a character that is skipped: the characters left when it ends.
`dot` is the conjunction of the dot-in-atom prolog flag and the absence of
`PL_WRT_NODOTINATOM`; the first argument bounds the number of rounds. -/
def atomType_lower (E : Env) (fd : Option IOSTREAM) (flags : WrtFlags) (dot : Bool) :
    Nat → List Nat → List Nat
  | 0, s => s
  | fuel + 1, s =>
    match atomType_alpha E fd flags s.tail with
    | d :: x :: r =>
      if d == 46 && E.isAlpha x && dot then atomType_lower E fd flags dot fuel (d :: x :: r)
      else d :: x :: r
    | r => r

/-- The `for` loop of the symbol branch of `atomType()`: the characters left
when it stops. -/
def atomType_symbol (E : Env) (options : Option write_options) (fd : Option IOSTREAM)
    (flags : WrtFlags) : List Nat → List Nat
  | [] => []
  | c :: cs =>
    if wr_is_symbol E c options && !code_requires_quoted (plainChar c) fd flags then
      atomType_symbol E options fd flags cs
    else c :: cs

/-- The function `atomType()`; `options` may be `NULL`. -/
def atomType (E : Env) (a : Atom) (options : Option write_options) : Nat :=
  let s := a.name
  let len := a.name.length
  let fd : Option IOSTREAM := options.map (fun o => o.out)
  let m : Module := match options with
    | some o => o.module
    | none => E.MODULE_user
  let flags : WrtFlags := match options with
    | some o => o.flags
    | none => {}
  match s with
  | [] => AT_QUOTE
  | c :: rest =>
    if E.isLower c || (m.M_VARPREFIX && E.isAlpha c) then
      let dot := E.PLFLAG_DOT_IN_ATOM && !flags.PL_WRT_NODOTINATOM
      if (atomType_lower E fd flags dot len s).length = 0 then AT_LOWER else AT_QUOTE
    else if wr_is_symbol E c options then
      if len = 1 && c = 46 then AT_FULLSTOP
      else if len ≥ 2 && c = 47 && rest.head? = some 42 then AT_QUOTE
      else if (atomType_symbol E options fd flags s).length > 0 then AT_QUOTE
      else AT_SYMBOL
    else if len = 1 && c != 37 && E.isSolo c then AT_SOLO
    else if a = E.ATOM_nil || a = E.ATOM_curl then AT_SPECIAL
    else AT_QUOTE

/-- The loop of `unquoted_atomW()` over the code points after an identifier
start. -/
def unquoted_atomW_ident (E : Env) (fd : Option IOSTREAM) (flags : WrtFlags)
    (dot_in_atom : Bool) : List Nat → Bool
  | [] => true
  | [c] =>
    if !E.f_is_prolog_identifier_continue c || code_requires_quoted c fd flags then false
    else true
  | c :: x :: r =>
    if c == 46 && dot_in_atom then
      if E.f_is_prolog_identifier_continue x && !code_requires_quoted x fd flags then
        unquoted_atomW_ident E fd flags dot_in_atom r
      else false
    else if !E.f_is_prolog_identifier_continue c || code_requires_quoted c fd flags then false
    else unquoted_atomW_ident E fd flags dot_in_atom (x :: r)

/-- The function `unquoted_atomW()`. -/
def unquoted_atomW (E : Env) (atom : Atom) (fd : Option IOSTREAM) (flags : WrtFlags) : Bool :=
  match atom.name with
  | [] => false
  | c :: s1 =>
    if !E.f_is_prolog_atom_start c then
      (c :: s1).all (fun d => !(!E.f_is_prolog_symbol d || code_requires_quoted d fd flags))
    else if code_requires_quoted c fd flags then false
    else
      unquoted_atomW_ident E fd flags
        (E.PLFLAG_DOT_IN_ATOM && !flags.PL_WRT_NODOTINATOM) s1

/-- The function `unquoted_atom()`. -/
def unquoted_atom (E : Env) (a : Atom) : Bool :=
  if a.isText then
    if !a.hasWrite then atomType E a none != AT_QUOTE
    else if isUCSAtom a then unquoted_atomW E a none {}
    else false
  else false

/-- The function `atomIsVarName()`. -/
def atomIsVarName (E : Env) (a : Atom) : Bool :=
  if !a.isText || a.name.length = 0 then false
  else if isUCSAtom a then E.atom_varnameW a.name
  else
    match a.name with
    | [] => false
    | c :: rest =>
      if E.isUpper c || c == 95 then rest.all (fun d => E.isAlpha d) else false

/-! ## Portray hook -/

/-- The function `enterPortray()`: the result and the new engine state. -/
def enterPortray (E : Env) (ld : PL_local_data) : Bool × PL_local_data :=
  if ld.portray_nesting ≥ E.MAX_PORTRAY_NESTING then
    (false, { ld with exception := some (.resource "portray_nesting") })
  else (true, { ld with portray_nesting := ld.portray_nesting + 1 })

/-- The function `leavePortray()`. -/
def leavePortray (ld : PL_local_data) : PL_local_data :=
  { ld with portray_nesting := ld.portray_nesting - 1 }

/-- The function `callPortray()`: -1 error, 0 failed, 1 succeeded. -/
def callPortray (E : Env) (arg : Term) (prec : Int) (options : write_options) :
    Int × write_options :=
  if E.cleaning_gt_CLN_PROLOG then (0, options)
  else if options.portray_goal.isNone && !E.portray_defined then (0, options)
  else
    match enterPortray E options.ld with
    | (false, ld1) => (-1, { options with ld := ld1 })
    | (true, ld1) =>
      if !E.saveWakeup then (-1, { options with ld := ld1 })
      else
        match E.portray_hook options.portray_goal arg prec options.out with
        | (rval, out1) => (rval, { options with out := out1, ld := leavePortray ld1 })

/-! ## Atoms -/

/-- One lowercase hexadecimal digit, as in the table of `writeBlob()`. -/
def blobDigit (d : Nat) : Nat := if d < 10 then 48 + d else 87 + d

/-- The loop of `writeBlob()` over the bytes of the blob. -/
def writeBlob_loop : List Nat → IOSTREAM → Bool × IOSTREAM
  | [], s => (true, s)
  | b :: bs, s =>
    match Putc (blobDigit ((b / 16) % 16)) s with
    | (false, s1) => (false, s1)
    | (true, s1) =>
      match Putc (blobDigit (b % 16)) s1 with
      | (false, s2) => (false, s2)
      | (true, s2) => writeBlob_loop bs s2

/-- The function `writeBlob()`. -/
def writeBlob (a : Atom) (out : IOSTREAM) : Bool × IOSTREAM :=
  match PutString (str "<#") out with
  | (false, s1) => (false, s1)
  | (true, s1) =>
    match writeBlob_loop a.name s1 with
    | (false, s2) => (false, s2)
    | (true, s2) => PutString (str ">") s2

/-- The function `writeUCSAtom()`. -/
def writeUCSAtom (E : Env) (fd : IOSTREAM) (atom : Atom) (flags : WrtFlags) : Nat × IOSTREAM :=
  if flags.PL_WRT_QUOTED && !unquoted_atomW E atom (some fd) flags then
    match PutOpenToken E 39 fd with
    | (0, s1) => (0, s1)
    | (_, s1) =>
      match Putc 39 s1 with
      | (false, s2) => (0, s2)
      | (true, s2) =>
        match writeQuoted_loop E 39 flags atom.name s2 with
        | (false, s3) => (0, s3)
        | (true, s3) =>
          match Putc 39 s3 with
          | (false, s4) => (0, s4)
          | (true, s4) => (1, s4)
  else
    match atom.name with
    | [] => (1, fd)
    | c :: _ =>
      match PutOpenToken E c fd with
      | (0, s1) => (0, s1)
      | (_, s1) =>
        match PutStringN atom.name s1 with
        | (false, s2) => (0, s2)
        | (true, s2) => (1, s2)

/-- The unquoted tail of `writeReservedSymbol()`. -/
def writeReservedSymbol_plain (E : Env) (fd : IOSTREAM) (atom : Atom) : Nat × IOSTREAM :=
  match atom.name with
  | [] => (1, fd)
  | c :: _ =>
    match PutOpenToken E c fd with
    | (0, s1) => (0, s1)
    | (_, s1) =>
      match PutStringN atom.name s1 with
      | (false, s2) => (0, s2)
      | (true, s2) => (1, s2)

/-- The function `writeReservedSymbol()`.  When the opening `C'` cannot be
written the function goes on with the unquoted tail. -/
def writeReservedSymbol (E : Env) (fd : IOSTREAM) (atom : Atom) (flags : WrtFlags) :
    Nat × IOSTREAM :=
  if atom = E.ATOM_nil then PutToken E (str "[]") fd
  else if flags.PL_WRT_QUOTED then
    match PutOpenToken E 67 fd with
    | (0, s1) => writeReservedSymbol_plain E s1 atom
    | (_, s1) =>
      match Putc 67 s1 with
      | (false, s2) => writeReservedSymbol_plain E s2 atom
      | (true, s2) =>
        match Putc 39 s2 with
        | (false, s3) => writeReservedSymbol_plain E s3 atom
        | (true, s3) =>
          match writeQuoted_loop E 39 flags atom.name s3 with
          | (false, s4) => (0, s4)
          | (true, s4) =>
            match Putc 39 s4 with
            | (false, s5) => (0, s5)
            | (true, s5) => (1, s5)
  else writeReservedSymbol_plain E fd atom

/-- The part of `writeAtom()` after the blob portray hook: 0 is failure, 1
success, 2 success after a leading space. -/
def writeAtom_plain (E : Env) (a : Atom) (options : write_options) : Nat × IOSTREAM :=
  match a.type with
  | .ucs => writeUCSAtom E options.out a options.flags
  | .reserved => writeReservedSymbol E options.out a options.flags
  | .blob =>
    (match writeBlob a options.out with
     | (false, s1) => (0, s1)
     | (true, s1) => (1, s1))
  | .text =>
    if options.flags.PL_WRT_QUOTED then
      let ty := atomType E a (some options)
      if ty = AT_LOWER || ty = AT_SYMBOL || ty = AT_SOLO || ty = AT_SPECIAL then
        PutToken E (cstr a.name) options.out
      else
        match PutOpenToken E 39 options.out with
        | (0, s1) => (0, s1)
        | (rc, s1) =>
          match writeQuoted E s1 a.name 39 options with
          | (false, s2) => (0, s2)
          | (true, s2) => (rc, s2)
    else PutTokenN E a.name options.out

/-- The function `writeAtom()`. -/
def writeAtom (E : Env) (a : Atom) (options : write_options) : Nat × write_options :=
  if options.flags.PL_WRT_BLOB_PORTRAY && !a.isText && !E.cleaning_gt_CLN_PROLOG &&
     a != E.ATOM_nil then
    match callPortray E (.atom a) 1200 options with
    | (1, o1) => (1, o1)
    | (0, o1) =>
      (match writeAtom_plain E a o1 with
       | (rc, s1) => (rc, { o1 with out := s1 }))
    | (_, o1) => (0, o1)
  else
    match writeAtom_plain E a options with
    | (rc, s1) => (rc, { options with out := s1 })

/-! ## Numbers -/

/-- Exponent field of an IEEE-754 double given by its 64 bits. -/
def ieee_exponent (f : Nat) : Nat := (f / 2 ^ 52) % 2 ^ 11

/-- Mantissa field of a double. -/
def ieee_mantissa (f : Nat) : Nat := f % 2 ^ 52

/-- Sign bit of a double. -/
def ieee_negative (f : Nat) : Nat := (f / 2 ^ 63) % 2

/-- The function `NaN_value()`: the same double with exponent field `0x3ff`. -/
def NaN_value (f : Nat) : Nat :=
  ieee_negative f * 2 ^ 63 + 0x3ff * 2 ^ 52 + ieee_mantissa f

/-- The function `writeINF()`. -/
def writeINF (f : Nat) : List Nat :=
  if ieee_negative f = 1 then str "-1.0Inf" else str "1.0Inf"

/-- The function `writeNaN()`, over the formatter it calls back. -/
def writeNaN (format_float : Nat → List Nat) (f : Nat) : List Nat :=
  format_float (NaN_value f) ++ str "NaN"

/-- The macro `isnan()` read off the bits of a double: exponent field all ones
and mantissa not zero. -/
def isnan (f : Nat) : Bool := ieee_exponent f == 0x7ff && ieee_mantissa f != 0

/-- The function `make_nan()`: the status (`true` for `NUM_OK`, `false` for
`NUM_CONSTRANGE`) and the double left in `*f`. -/
def make_nan (f : Nat) : Bool × Nat :=
  let u := ieee_negative f * 2 ^ 63 + 0x7ff * 2 ^ 52 + ieee_mantissa f
  if isnan u then (true, u) else (false, f)

/-- The function `format_special_float()`, with `fpclassify()` read off the
bits. -/
def format_special_float (format_float : Nat → List Nat) (f : Nat) : Option (List Nat) :=
  if ieee_exponent f = 0x7ff then
    if ieee_mantissa f ≠ 0 then some (writeNaN format_float f)
    else some (writeINF f)
  else none

/-- The layout part of `format_float()`: from the digits `s`, the decimal point
position and the sign delivered by `dtoa()` to the buffer. -/
def format_float_layout (s : List Nat) (decpt : Int) (sign : Bool) : List Nat :=
  let len : Int := s.length
  let o : List Nat := if sign then [45] else []
  if decpt ≤ 0 then
    if decpt ≤ -4 then
      o ++ [s.headD 0, 46] ++ (if len > 1 then s.tail else [48]) ++ (101 :: sprintf_d (decpt - 1))
    else
      o ++ [48, 46] ++ List.replicate (-decpt).toNat 48 ++ s
  else if len > decpt then
    o ++ s.take decpt.toNat ++ [46] ++ s.drop decpt.toNat
  else
    let trailing : Int := decpt - len
    if decpt > 15 then
      o ++ [s.headD 0, 46] ++ (if len > 1 then s.tail else [48]) ++
        (101 :: 43 :: sprintf_d (if len > 1 then trailing + (len - 1) else trailing))
    else
      o ++ s ++ List.replicate (decpt - len).toNat 48 ++ [46, 48]

/-- The function `format_float()`; the first argument bounds the calls through
`writeNaN()`. -/
def format_float_rec (E : Env) : Nat → Nat → List Nat
  | 0, _ => []
  | fuel + 1, f =>
    match format_special_float (format_float_rec E fuel) f with
    | some s => s
    | none =>
      match E.dtoa f with
      | (s, decpt, sign) => format_float_layout s decpt sign

/-- The function `format_float()`: the text left in the buffer. -/
def format_float (E : Env) (f : Nat) : List Nat := cstr (format_float_rec E 2 f)

/-- The conversion `mpz_get_str(buf, 10, mpz)`. -/
def mpz_get_str (mpz : Int) : List Nat := sprintf_d mpz

/-- Number of digits of `n` in the given base, one for 0; the first argument
bounds the number of rounds. -/
def sizeCore (base : Nat) : Nat → Nat → Nat
  | 0, _ => 0
  | fuel + 1, n => if n / base = 0 then 1 else sizeCore base fuel (n / base) + 1

/-- The GMP function `mpz_sizeinbase(mpz, base)`, exact for base 2: the number
of digits of the absolute value, 1 for zero. -/
def mpz_sizeinbase (mpz : Int) (base : Nat) : Nat :=
  sizeCore base (mpz.natAbs + 1) mpz.natAbs

/-- The local `sz` of `writeMPZ()`, a `size_t`. -/
def writeMPZ_sz (mpz : Int) : Nat :=
  ((mpz_sizeinbase mpz 2 * 10 % 2 ^ 64) / 3 + 10) % 2 ^ 64

/-- The test `sz <= sizeof(tmp)` of `writeMPZ()`: the digits go to the stack
buffer `tmp` when it holds, to memory from `PL_malloc(sz)` otherwise. -/
def writeMPZ_tmp (mpz : Int) : Bool := writeMPZ_sz mpz ≤ 1024

/-- The function `writeMPZ()`: the text `mpz_get_str()` leaves in the buffer is
handed to `PutToken()`. -/
def writeMPZ (E : Env) (mpz : Int) (out : IOSTREAM) : Nat × IOSTREAM :=
  PutToken E (mpz_get_str mpz) out

/-- The function `WriteNumber()`, on the number a term holds. -/
def WriteNumber (E : Env) (n : Term) (options : write_options) : Nat × IOSTREAM :=
  match n with
  | .integer i => PutToken E (sprintf_d i) options.out
  | .mpz i => writeMPZ E i options.out
  | .mpq num den =>
    let sep : Nat := if options.flags.PL_WRT_RAT_NATURAL then 47 else 114
    (match writeMPZ E num options.out with
     | (0, s1) => (0, s1)
     | (_, s1) =>
       match Sputcode sep s1 with
       | (false, s2) => (0, s2)
       | (true, s2) =>
         match writeMPZ E den { s2 with lastc := EOF } with
         | (0, s3) => (0, s3)
         | (_, s3) => (1, s3))
  | .float f => PutToken E (format_float E f) options.out
  | _ => (0, options.out)

/-! ## Term access -/

/-- The value a variable cell is bound to, if any. -/
def lookup (b : List (Nat × Term)) (p : Nat) : Option Term :=
  match b.find? (fun e => e.1 == p) with
  | some e => some e.2
  | none => none

/-- Following a reference chain for at most the given number of steps. -/
def deRef_rec (b : List (Nat × Term)) : Nat → Term → Term
  | 0, t => t
  | fuel + 1, .var p =>
    (match lookup b p with
     | some v => deRef_rec b fuel v
     | none => .var p)
  | fuel + 1, .attvar p att =>
    (match lookup b p with
     | some v => deRef_rec b fuel v
     | none => .attvar p att)
  | _, t => t

/-- The macro `deRef()`: the term a handle stands for under the engine's
bindings. -/
def deRef (ld : PL_local_data) (t : Term) : Term :=
  deRef_rec ld.bindings (ld.bindings.length + 1) t

/-- The test `PL_is_variable()`, on a dereferenced term: unbound plain or
attributed variable. -/
def PL_is_variable (t : Term) : Bool :=
  match t with
  | .var _ => true
  | .attvar _ _ => true
  | _ => false

/-- The test `PL_is_atom()`, on a dereferenced term. -/
def PL_is_atom (t : Term) : Bool :=
  match t with
  | .atom a => a.isText
  | _ => false

/-- The test `PL_is_functor(t, f/n)`, on a dereferenced term. -/
def PL_is_functor (t : Term) (f : Atom) (n : Nat) : Bool :=
  match t with
  | .compound g args => g == f && args.length == n
  | _ => false

/-- The test `PL_get_nil()`, on a dereferenced term. -/
def PL_get_nil (E : Env) (t : Term) : Bool :=
  match t with
  | .atom a => a == E.ATOM_nil
  | _ => false

/-- The function `var_name_ptr()` on the address of an unbound cell. -/
def var_name_ptr (ld : PL_local_data) (p : Nat) : List Nat :=
  let iref : Int :=
    if p > ld.lBase then ((p : Int) - (ld.lBase : Int)) * 2 + 1
    else ((p : Int) - (ld.gBase : Int)) * 2
  95 :: sprintf_d (int64 iref)

/-- The function `varName()`, on a dereferenced variable. -/
def varName (ld : PL_local_data) (t : Term) : List Nat :=
  match t with
  | .var p => var_name_ptr ld p
  | .attvar p _ => var_name_ptr ld p
  | _ => []

/-- The constant atom `ATOM_fdot`, created by `PL_new_atom(".")`. -/
def ATOM_fdot : Atom := ⟨[46], .text⟩

/-! ## Writing terms -/

/-- The type of `writeTerm()`: term, priority, options and location flag to
result and options; `none` stands for a computation cut short by the recursion
bound of the embedding. -/
abbrev WT := Term → Int → write_options → Nat → Option (Bool × write_options)

/-- The macro `TRY(goal)` followed by the rest of the function. -/
def TRY (r : Option (Bool × write_options))
    (k : write_options → Option (Bool × write_options)) : Option (Bool × write_options) :=
  match r with
  | none => none
  | some (false, o) => some (false, o)
  | some (true, o) => k o

/-- The result of a stream primitive as result of a writer step. -/
def onOut (o : write_options) (r : Bool × IOSTREAM) : Option (Bool × write_options) :=
  some (r.1, { o with out := r.2 })

/-- The result of a token primitive (0, 1 or 2) as result of a writer step. -/
def onOutN (o : write_options) (r : Nat × IOSTREAM) : Option (Bool × write_options) :=
  some (r.1 != 0, { o with out := r.2 })

/-- The result of `writeAtom()` (0, 1 or 2) as result of a writer step. -/
def atomStep (E : Env) (a : Atom) (o : write_options) : Option (Bool × write_options) :=
  match writeAtom E a o with
  | (rc, o1) => some (rc != 0, o1)

/-- The function `PutComma()`. -/
def PutComma (E : Env) (options : write_options) : Bool × IOSTREAM :=
  if options.spacing = E.ATOM_next_argument then PutString (str ", ") options.out
  else PutString (str ",") options.out

/-- The function `PutBar()`. -/
def PutBar (E : Env) (options : write_options) : Bool × IOSTREAM :=
  if options.spacing = E.ATOM_next_argument then PutString (str "| ") options.out
  else PutString (str "|") options.out

/-- The function `writeNumberVar()`: 1 processed, 0 not processed, -1 error. -/
def writeNumberVar (E : Env) (t : Term) (options : write_options) : Int × write_options :=
  match deRef options.ld t with
  | .compound f [a0] =>
    if f != E.ATOM_isovar then (0, options)
    else if options.ld.numbervars_frame && !options.flags.PL_WRT_NUMBERVARS &&
            E.older_isovar t then (0, options)
    else
      match deRef options.ld a0 with
      | .integer n =>
        let buf : List Nat :=
          if n < 0 then str "S_" ++ sprintf_d (int64 (-n))
          else
            let i := n % 26
            let j := n / 26
            if j = 0 then [(i + 65).toNat] else (i + 65).toNat :: sprintf_d j
        let r := PutToken E buf options.out
        (if r.1 = 0 then -1 else 1, { options with out := r.2 })
      | .atom a =>
        if atomIsVarName E a then
          let o2 := { options with flags := { options.flags with PL_WRT_QUOTED := false } }
          let r := writeAtom E a o2
          (if r.1 = 0 then -1 else 1, { options with out := r.2.out, ld := r.2.ld })
        else (0, options)
      | _ => (0, options)
  | _ => (0, options)

/-- The loop of `writeString()` without quotes. -/
def writeString_plain : List Nat → IOSTREAM → Bool × IOSTREAM
  | [], s => (true, s)
  | c :: cs, s =>
    match Putc c s with
    | (false, s1) => (false, s1)
    | (true, s1) => writeString_plain cs s1

/-- The function `writeString()`, on the text of the string. -/
def writeString (E : Env) (text : List Nat) (options : write_options) : Bool × IOSTREAM :=
  if options.flags.PL_WRT_QUOTED then
    let quote : Nat := if options.flags.PL_WRT_BACKQUOTED_STRING then 96 else 34
    match Putc quote options.out with
    | (false, s1) => (false, s1)
    | (true, s1) =>
      match writeQuoted_loop E quote options.flags text s1 with
      | (false, s2) => (false, s2)
      | (true, s2) => Putc quote s2
  else writeString_plain text options.out

/-- The function `writeAttVar()`. -/
def writeAttVar (E : Env) (wt : WT) (av : Term) (options : write_options) :
    Option (Bool × write_options) :=
  TRY (onOutN options (PutToken E (varName options.ld av) options.out)) fun o1 =>
    if o1.flags.PL_WRT_ATTVAR_DOTS then
      onOut o1 (PutString [123, 46, 46, 46, 125] o1.out)
    else if o1.flags.PL_WRT_ATTVAR_WRITE then
      let o2 := { o1 with out := (Sputcode 123 o1.out).2 }
      let a := match av with
        | .attvar _ att => att
        | _ => av
      TRY (wt a 1200 o2 W_TOP) fun o3 =>
        some (true, { o3 with out := (Sputcode 125 o3.out).2 })
    else if o1.flags.PL_WRT_ATTVAR_PORTRAY && !E.cleaning_gt_CLN_PROLOG then
      match enterPortray E o1.ld with
      | (false, ld1) => some (false, { o1 with ld := ld1 })
      | (true, ld1) =>
        if !E.saveWakeup then some (false, { o1 with ld := ld1 })
        else
          match E.portray_attvar_hook av o1.out with
          | (rc, out1) =>
            some (rc != -1, { o1 with out := out1, ld := leavePortray ld1 })
    else some (true, o1)

/-- The function `writePrimitive()`, on a dereferenced term. -/
def writePrimitive (E : Env) (wt : WT) (t : Term) (options : write_options) :
    Option (Bool × write_options) :=
  match t with
  | .attvar _ _ => writeAttVar E wt t options
  | .var _ => onOutN options (PutToken E (varName options.ld t) options.out)
  | .atom a =>
    atomStep E a options
  | .integer _ => onOutN options (WriteNumber E t options)
  | .mpz _ => onOutN options (WriteNumber E t options)
  | .mpq _ _ => onOutN options (WriteNumber E t options)
  | .float _ => onOutN options (WriteNumber E t options)
  | .string text => onOut options (writeString E text options)
  | .compound _ _ => some (false, options)

/-- The closing loop `while(depth-->0) Putc(')')` of `writeList()`. -/
def writeList_close : Nat → IOSTREAM → Bool × IOSTREAM
  | 0, s => (true, s)
  | depth + 1, s =>
    match Putc 41 s with
    | (false, s1) => (false, s1)
    | (true, s1) => writeList_close depth s1

/-- The loop of `writeList()` in bracket mode, entered at `PL_get_list(l, head,
l)`; the first argument bounds the number of rounds. -/
def writeList_bracket (E : Env) (wt : WT) : Nat → Term → write_options →
    Option (Bool × write_options)
  | 0, _, _ => none
  | fuel + 1, l, options =>
    match deRef options.ld l with
    | .compound _ [head, tail] =>
      TRY (wt head 999 options W_TOP) fun o1 =>
        let l1 := deRef o1.ld tail
        if PL_get_nil E l1 then onOut o1 (Putc 93 o1.out)
        else
          let o2 := { o1 with depth := o1.depth + 1 }
          if o2.depth ≥ o2.max_depth && o2.max_depth != 0 then
            onOut o2 (PutString (str "|...]") o2.out)
          else if !PL_is_functor l1 E.ATOM_dot 2 then
            TRY (onOut o2 (Putc 124 o2.out)) fun o3 =>
              TRY (wt l1 999 o3 W_TOP) fun o4 =>
                onOut o4 (Putc 93 o4.out)
          else
            TRY (onOut o2 (PutComma E o2)) fun o3 =>
              writeList_bracket E wt fuel l1 o3
    | _ => some (false, options)

/-- The loop of `writeList()` in nested-call mode; `depth` is the local counter
of open parentheses. -/
def writeList_dot (E : Env) (wt : WT) : Nat → Nat → Term → write_options →
    Option (Bool × write_options)
  | 0, _, _, _ => none
  | fuel + 1, depth, l, options =>
    match deRef options.ld l with
    | .compound _ [head, tail] =>
      TRY (if options.flags.PL_WRT_DOTLISTS then onOutN options (PutToken E [46] options.out)
           else atomStep E E.ATOM_dot options) fun o1 =>
        TRY (onOut o1 (Putc 40 o1.out)) fun o2 =>
          TRY (wt head 999 o2 W_TOP) fun o3 =>
            TRY (onOut o3 (PutComma E o3)) fun o4 =>
              let depth1 := depth + 1
              let l1 := deRef o4.ld tail
              if PL_get_nil E l1 then
                TRY (onOutN o4 (PutToken E (str "[]") o4.out)) fun o5 =>
                  onOut o5 (writeList_close depth1 o5.out)
              else
                let o5 := { o4 with depth := o4.depth + 1 }
                if o5.depth ≥ o5.max_depth && o5.max_depth != 0 then
                  TRY (onOutN o5 (PutToken E (str "...") o5.out)) fun o6 =>
                    onOut o6 (writeList_close depth1 o6.out)
                else if !PL_is_functor l1 E.ATOM_dot 2 then
                  TRY (wt l1 999 o5 W_TOP) fun o6 =>
                    onOut o6 (writeList_close depth1 o6.out)
                else writeList_dot E wt fuel depth1 l1 o5
    | _ => some (false, options)

/-- The function `writeList()`; `fuel` bounds the length of the spine walked. -/
def writeList (E : Env) (wt : WT) (fuel : Nat) (list : Term) (options : write_options) :
    Option (Bool × write_options) :=
  if !(options.flags.PL_WRT_DOTLISTS || options.flags.PL_WRT_NO_LISTS) then
    TRY (onOut options (Putc 91 options.out)) fun o1 =>
      writeList_bracket E wt fuel list o1
  else writeList_dot E wt fuel 0 list options

/-- The function `isBlockOp()`, on the arguments of the term. -/
def isBlockOp (E : Env) (ld : PL_local_data) (args : List Term) (functor : Atom) : Bool :=
  if functor = E.ATOM_nil || functor = E.ATOM_curl then
    match args with
    | [] => false
    | a1 :: _ =>
      let arg := deRef ld a1
      (functor == E.ATOM_nil && PL_is_functor arg E.ATOM_dot 2) ||
      (functor == E.ATOM_curl && PL_is_functor arg E.ATOM_curl 1)
  else false

/-- The function `writeDictPair()`: `true` for 0 (continue), `false` for -1. -/
def writeDictPair (E : Env) (wt : WT) (name value : Term) (last : Bool)
    (options : write_options) : Option (Bool × write_options) :=
  TRY (wt name 1200 options W_TOP) fun o1 =>
    TRY (onOutN o1 (PutToken E [58] o1.out)) fun o2 =>
      TRY (wt value 999 o2 W_TOP) fun o3 =>
        if last then some (true, o3) else onOut o3 (PutComma E o3)

/-- The enumeration `PL_for_dict(t, writeDictPair, options, DICT_SORTED)` over
the ordered pairs: `true` when every call returned 0. -/
def PL_for_dict (E : Env) (wt : WT) : List (Term × Term) → write_options →
    Option (Bool × write_options)
  | [], o => some (true, o)
  | (k, v) :: rest, o =>
    TRY (writeDictPair E wt k v rest.isEmpty o) fun o1 => PL_for_dict E wt rest o1

/-- The argument loop of the canonical form in `writeTerm2()`; `n` is the
index of the first argument of the list. -/
def writeTerm2_args (E : Env) (wt : WT) : Nat → List Term → write_options →
    Option (Bool × write_options)
  | _, [], o => some (true, o)
  | n, a :: rest, o =>
    TRY (if n > 0 then onOut o (PutComma E o) else some (true, o)) fun o1 =>
      TRY (wt a 999 o1 W_TOP) fun o2 => writeTerm2_args E wt (n + 1) rest o2

/-- The canonical form `functor(<args> ...)` at the end of `writeTerm2()`. -/
def writeTerm2_canonical (E : Env) (wt : WT) (functor : Atom) (args : List Term)
    (options : write_options) : Option (Bool × write_options) :=
  TRY (atomStep E functor options) fun o1 =>
    TRY (onOut o1 (Putc 40 o1.out)) fun o2 =>
      TRY (writeTerm2_args E wt 0 args o2) fun o3 =>
        onOut o3 (Putc 41 o3.out)

/-- Setting marker bits in the last-character slot (`out->lastc |= bits`). -/
def orLastc (o : write_options) (bits : Nat) : write_options :=
  { o with out := { o.out with lastc := o.out.lastc ||| bits } }

/-- The prefix operator branch of `writeTerm2()`, with the value of `embrace`
and the maximum priority `pa` passed for the operand as arguments. -/
def writeTerm2_prefix_at (E : Env) (wt : WT) (functor : Atom) (args : List Term)
    (embrace : Bool) (pa : Int) (options : write_options) :
    Option (Bool × write_options) :=
  let arity := args.length
  TRY (if embrace then onOutN options (PutOpenBrace E options.out) else some (true, options))
    fun o1 =>
    TRY (if arity = 1 then
           atomStep E functor o1
         else wt (args.getD 0 (.atom functor)) 1200 o1 W_TOP) fun o2 =>
      let o3 := orLastc o2 C_PREFIX_OP
      let o4 := if functor = E.ATOM_minus then orLastc o3 C_PREFIX_SIGN else o3
      TRY (wt (args.getD (arity - 1) (.atom functor)) pa o4 W_OP_ARG) fun o5 =>
        if embrace then onOut o5 (PutCloseBrace o5.out) else some (true, o5)

/-- The prefix operator branch of `writeTerm2()`. -/
def writeTerm2_prefix_op (E : Env) (wt : WT) (functor : Atom) (args : List Term)
    (op_type : OpType) (op_pri : Int) (prec : Int) (options : write_options) :
    Option (Bool × write_options) :=
  writeTerm2_prefix_at E wt functor args (op_pri > prec)
    (if op_type = .OP_FX then op_pri - 1 else op_pri) options

/-- The postfix operator branch of `writeTerm2()`, with the outcome of the test
`op_pri > prec` and the maximum priority `pa` passed for the operand as
arguments. -/
def writeTerm2_postfix_at (E : Env) (wt : WT) (functor : Atom) (args : List Term)
    (embrace : Bool) (pa : Int) (options : write_options) :
    Option (Bool × write_options) :=
  let arity := args.length
  TRY (if embrace then onOutN options (PutOpenBrace E options.out)
       else some (true, options)) fun o1 =>
    let arg := args.getD (arity - 1) (.atom functor)
    TRY (wt arg pa o1 W_OP_ARG) fun o2 =>
      TRY (if arity = 1 then
             atomStep E functor o2
           else
             TRY (if functor = E.ATOM_curl &&
                     (PL_is_atom (deRef o2.ld arg) || PL_is_variable (deRef o2.ld arg))
                  then onOut o2 (Putc 32 o2.out) else some (true, o2)) fun o3 =>
               wt (args.getD 0 (.atom functor)) 1200 o3 W_TOP) fun o4 =>
        if embrace then onOut o4 (PutCloseBrace o4.out) else some (true, o4)

/-- The postfix operator branch of `writeTerm2()`. -/
def writeTerm2_postfix_op (E : Env) (wt : WT) (functor : Atom) (args : List Term)
    (op_type : OpType) (op_pri : Int) (prec : Int) (options : write_options) :
    Option (Bool × write_options) :=
  writeTerm2_postfix_at E wt functor args (op_pri > prec)
    (if op_type = .OP_XF then op_pri - 1 else op_pri) options

/-- The infix operator branch of `writeTerm2()`, with the outcome of the test
`op_pri > prec` and the maximum priorities `pl` and `pr` passed for the left and
the right operand as arguments. -/
def writeTerm2_infix_at (E : Env) (wt : WT) (functor : Atom) (args : List Term)
    (embrace : Bool) (pl pr : Int) (options : write_options) :
    Option (Bool × write_options) :=
  let arity := args.length
  TRY (if embrace then onOutN options (PutOpenBrace E options.out)
       else some (true, options)) fun o1 =>
    TRY (wt (args.getD (arity - 2) (.atom functor)) pl o1 W_OP_ARG) fun o2 =>
      TRY (if arity = 2 then
             TRY (if functor = E.ATOM_comma then onOut o2 (PutComma E o2)
                  else if functor = E.ATOM_bar then onOut o2 (PutBar E o2)
                  else if functor = ATOM_fdot then onOutN o2 (PutToken E [46] o2.out)
                  else
                    match writeAtom E functor o2 with
                    | (0, o) => some (false, o)
                    | (2, o) => onOut o (Putc 32 o.out)
                    | (_, o) => some (true, o)) fun o3 =>
               some (true, orLastc o3 C_INFIX_OP)
           else wt (args.getD 0 (.atom functor)) 1200 o2 W_TOP) fun o4 =>
        TRY (wt (args.getD (arity - 1) (.atom functor)) pr o4 W_OP_ARG) fun o5 =>
          if embrace then onOut o5 (PutCloseBrace o5.out) else some (true, o5)

/-- The infix operator branch of `writeTerm2()`. -/
def writeTerm2_infix_op (E : Env) (wt : WT) (functor : Atom) (args : List Term)
    (op_type : OpType) (op_pri : Int) (prec : Int) (options : write_options) :
    Option (Bool × write_options) :=
  writeTerm2_infix_at E wt functor args (op_pri > prec)
    (if op_type = .OP_XFX || op_type = .OP_XFY then op_pri - 1 else op_pri)
    (if op_type = .OP_XFX || op_type = .OP_YFX then op_pri - 1 else op_pri) options

/-- The operator part and the canonical form of `writeTerm2()`. -/
def writeTerm2_operators (E : Env) (wt : WT) (functor : Atom) (args : List Term)
    (prec : Int) (options : write_options) : Option (Bool × write_options) :=
  let arity := args.length
  if !options.flags.PL_WRT_IGNOREOPS then
    if arity = 1 || (arity = 2 && isBlockOp E options.ld args functor) then
      match options.module.currentOperator functor .OP_PREFIX with
      | some (op_type, op_pri) =>
        writeTerm2_prefix_op E wt functor args op_type op_pri prec options
      | none =>
        match options.module.currentOperator functor .OP_POSTFIX with
        | some (op_type, op_pri) =>
          writeTerm2_postfix_op E wt functor args op_type op_pri prec options
        | none => writeTerm2_canonical E wt functor args options
    else if arity = 2 || (arity = 3 && isBlockOp E options.ld args functor) then
      match options.module.currentOperator functor .OP_INFIX with
      | some (op_type, op_pri) =>
        writeTerm2_infix_op E wt functor args op_type op_pri prec options
      | none => writeTerm2_canonical E wt functor args options
    else writeTerm2_canonical E wt functor args options
  else writeTerm2_canonical E wt functor args options

/-- The part of `writeTerm2()` for a term with name and arity, from the
numbered-variable test on. -/
def writeTerm2_compound (E : Env) (wt : WT) (fuel : Nat) (t : Term) (functor : Atom)
    (args : List Term) (prec : Int) (options : write_options) :
    Option (Bool × write_options) :=
  let nv : Int × write_options :=
    if options.flags.PL_WRT_NUMBERVARS || options.flags.PL_WRT_VARNAMES then
      writeNumberVar E t options
    else (0, options)
  match nv with
  | (-1, o) => some (false, o)
  | (1, o) => some (true, o)
  | (_, o) =>
    if !o.flags.PL_WRT_BRACETERMS && functor = E.ATOM_curl && args.length = 1 then
      TRY (onOutN o (PutToken E [123] o.out)) fun o1 =>
        TRY (wt (args.getD 0 t) 1200 o1 W_TOP) fun o2 =>
          onOut o2 (Putc 125 o2.out)
    else if functor = E.ATOM_dot && args.length = 2 then writeList E wt fuel t o
    else if !o.flags.PL_WRT_NODICT && functor = E.ATOM_dict && E.PL_is_dict t then
      match args with
      | [] => some (false, o)
      | cls :: _ =>
        TRY (wt cls 1200 o W_TOP) fun o1 =>
          TRY (onOut o1 (Putc 123 o1.out)) fun o2 =>
            TRY (PL_for_dict E wt (E.dict_pairs t) o2) fun o3 =>
              onOut o3 (Putc 125 o3.out)
    else writeTerm2_operators E wt functor args prec o

/-- The part of `writeTerm2()` from `PL_get_name_arity()` on, for a dereferenced
term: compound terms and text atoms have name and arity, everything else is
primitive. -/
def writeTerm2_rest (E : Env) (wt : WT) (fuel : Nat) (t : Term) (prec : Int)
    (options : write_options) : Option (Bool × write_options) :=
  match t with
  | .compound functor args => writeTerm2_compound E wt fuel t functor args prec options
  | .atom a =>
    if a.isText then writeTerm2_compound E wt fuel t a [] prec options
    else writePrimitive E wt t options
  | _ => writePrimitive E wt t options

/-- The part of `writeTerm2()` after the portray hook, for a dereferenced
term.  An operator atom in operand position is embraced; when one of the three
writes fails, control goes on to `PL_get_name_arity()`. -/
def writeTerm2_atom (E : Env) (wt : WT) (fuel : Nat) (t : Term) (prec : Int)
    (options : write_options) (flags : Nat) : Option (Bool × write_options) :=
  match t with
  | .atom a =>
    if (flags &&& W_OP_ARG != 0) && priorityOperator options.module a > 0 then
      match PutOpenBrace E options.out with
      | (0, s1) => writeTerm2_rest E wt fuel t prec { options with out := s1 }
      | (_, s1) =>
        match writeAtom E a { options with out := s1 } with
        | (0, o2) => writeTerm2_rest E wt fuel t prec o2
        | (_, o2) =>
          match PutCloseBrace o2.out with
          | (false, s3) => writeTerm2_rest E wt fuel t prec { o2 with out := s3 }
          | (true, s3) => some (true, { o2 with out := s3 })
    else
      atomStep E a options
  | _ => writeTerm2_rest E wt fuel t prec options

/-- The function `writeTerm2()`; `wt` is `writeTerm()` and `fuel` bounds the
list loops. -/
def writeTerm2 (E : Env) (wt : WT) (fuel : Nat) (t : Term) (prec : Int)
    (options : write_options) (flags : Nat) : Option (Bool × write_options) :=
  let t1 := deRef options.ld t
  if !PL_is_variable t1 && options.flags.PL_WRT_PORTRAY then
    match callPortray E t1 prec options with
    | (1, o1) => some (true, o1)
    | (0, o1) => writeTerm2_atom E wt fuel t1 prec o1 flags
    | (_, o1) => some (false, o1)
  else writeTerm2_atom E wt fuel t1 prec options flags

/-- The function `writeTerm()`.  The first argument bounds the nesting of the
calls; `none` is returned only when it is exhausted. -/
def writeTerm (E : Env) : Nat → WT
  | 0 => fun _ _ _ _ => none
  | fuel + 1 => fun t prec options flags =>
    let levelSave := options.depth
    match options.ld.signals with
    | true :: rest =>
      some (false, { options with ld := { options.ld with signals := rest }, depth := levelSave })
    | sigs =>
      let o1 : write_options :=
        { options with ld := { options.ld with signals := sigs.tail },
                       depth := options.depth + 1 }
      if o1.depth > o1.max_depth && o1.max_depth != 0 then
        match PutString (str "...") (PutOpenToken E 46 o1.out).2 with
        | (rval, s2) => some (rval, { o1 with out := s2, depth := levelSave })
      else
        match writeTerm2 E (writeTerm E fuel) fuel t prec o1 flags with
        | none => none
        | some (rval, o2) => some (rval, { o2 with depth := levelSave })

/-! ## Cycle handling and top level -/

/-- A proper list term with the given elements and tail. -/
def mkList (E : Env) (es : List Term) (tail : Term) : Term :=
  es.foldr (fun e t => .compound E.ATOM_dot [e, t]) tail

/-- The argument `n` (from 1) of a term, as `_PL_get_arg()` delivers it. -/
def PL_get_arg (ld : PL_local_data) (n : Nat) (t : Term) : Term :=
  match deRef ld t with
  | .compound _ args => args.getD (n - 1) t
  | _ => t

/-- The loop of `reunify_acyclic_substitutions()` over the elements of the
substitution list: the elements kept as cycles and the new engine state, or
nothing when a unification fails.  `count` is the local counter. -/
def reunify_loop (E : Env) (options : write_options) :
    List Term → Int → PL_local_data → Option (List Term × PL_local_data)
  | [], _, ld => some ([], ld)
  | s_head :: s_tail, count, ld =>
    let var := PL_get_arg ld 1 s_head
    let value := PL_get_arg ld 2 s_head
    if E.PL_var_occurs_in ld.bindings var value then
      let step : Option (Int × PL_local_data) :=
        if options.flags.PL_WRT_NUMBERVARS then
          match E.PL_unify ld.bindings var (.compound E.ATOM_isovar [.integer (count - 1)]) with
          | some b => some (count - 1, { ld with bindings := b })
          | none => none
        else some (count, ld)
      match step with
      | none => none
      | some (count1, ld1) =>
        match reunify_loop E options s_tail count1 ld1 with
        | some (cycles, ld2) => some (s_head :: cycles, ld2)
        | none => none
    else
      match E.PL_unify ld.bindings var value with
      | some b => reunify_loop E options s_tail count { ld with bindings := b }
      | none => none

/-- The function `reunify_acyclic_substitutions()`: the list of cycles and the
new engine state, or nothing for `FALSE`. -/
def reunify_acyclic_substitutions (E : Env) (substitutions : List Term)
    (options : write_options) : Option (Term × PL_local_data) :=
  match reunify_loop E options substitutions 0 options.ld with
  | some (cycles, ld) => some (mkList E cycles (.atom E.ATOM_nil), ld)
  | none => none

/-- The function `writeTopTerm()`; `fuel` bounds the nesting of `writeTerm()`. -/
def writeTopTerm (E : Env) (fuel : Nat) (term : Term) (prec : Int)
    (options : write_options) : Option (Bool × write_options) :=
  let wflags : Nat :=
    if options.flags.PL_WRT_PARTIAL && prec != 999 && prec != 1200 then W_OP_ARG else W_TOP
  if (!options.flags.PL_WRT_NO_CYCLES && options.max_depth != 0) ||
     E.PL_is_acyclic options.ld.bindings term then
    writeTerm E fuel term prec options wflags
  else if options.flags.PL_WRT_NO_CYCLES then
    some (false, { options with
      ld := { options.ld with exception := some (.domain "cyclic_term") } })
  else
    match E.PL_factorize_term options.ld.bindings term with
    | none => some (false, options)
    | some (template, substitutions) =>
      match reunify_acyclic_substitutions E substitutions options with
      | none => some (false, options)
      | some (cycles, ld1) =>
        let at_term : Term := .compound E.ATOM_xpceref [template, cycles]
        match writeTerm E fuel at_term prec { options with ld := ld1 } wflags with
        | none => none
        | some (rc, o) =>
          some (rc, { o with ld := { o.ld with bindings := options.ld.bindings } })

/-- The loop of `bind_varnames()`: the new engine state and the result; the
first argument bounds the number of elements visited. -/
def bind_varnames_loop (E : Env) : Nat → Int → Term → PL_local_data → Bool × PL_local_data
  | 0, _, _, ld => (false, ld)
  | fuel + 1, check_cycle_after, tail, ld =>
    match deRef ld tail with
    | .compound f [head, tail1] =>
      if f != E.ATOM_dot then
        (false, { ld with exception := some (.type "list") })
      else
        match deRef ld head with
        | .compound eq [namet, var] =>
          if eq != E.ATOM_equals then
            (false, { ld with exception := some (.type "variable_assignment") })
          else
            match deRef ld namet with
            | .atom name =>
              if !atomIsVarName E name then
                (false, { ld with exception := some (.domain "variable_name") })
              else
                let bound : Option PL_local_data :=
                  if PL_is_variable (deRef ld var) then
                    match E.PL_unify ld.bindings var (.compound E.ATOM_isovar [.atom name]) with
                    | some b => some { ld with bindings := b }
                    | none => none
                  else some ld
                (match bound with
                 | none => (false, ld)
                 | some ld1 =>
                   if check_cycle_after - 1 = 0 && E.lengthList ld1.bindings tail1 = -1 then
                     (false, { ld1 with exception := some (.type "list") })
                   else bind_varnames_loop E fuel (check_cycle_after - 1) tail1 ld1)
            | _ => (false, { ld with exception := some (.type "atom") })
        | _ => (false, { ld with exception := some (.type "variable_assignment") })
    | .atom a =>
      if a = E.ATOM_nil then (true, ld)
      else (false, { ld with exception := some (.type "list") })
    | _ => (false, { ld with exception := some (.type "list") })

/-- The function `bind_varnames()`. -/
def bind_varnames (E : Env) (fuel : Nat) (names : Term) (ld : PL_local_data) :
    Bool × PL_local_data :=
  bind_varnames_loop E fuel 1000 names ld

/-- The function `writeAttributeMask()`: the flag it returns, nothing for 0. -/
def writeAttributeMask (E : Env) (a : Atom) : Option WrtFlags :=
  if a = E.ATOM_ignore then some { PL_WRT_ATTVAR_IGNORE := true }
  else if a = E.ATOM_dots then some { PL_WRT_ATTVAR_DOTS := true }
  else if a = E.ATOM_write then some { PL_WRT_ATTVAR_WRITE := true }
  else if a = E.ATOM_portray then some { PL_WRT_ATTVAR_PORTRAY := true }
  else none

/-- The function `writeBlobMask()`: the flags it returns, nothing for -1. -/
def writeBlobMask (E : Env) (a : Atom) : Option WrtFlags :=
  if a = E.ATOM_default then some {}
  else if a = E.ATOM_portray then some { PL_WRT_BLOB_PORTRAY := true }
  else none

/-- The local variables of `pl_write_term3()` that `PL_scan_options()` fills
from the option list, with the value each has when its option is absent (see
`scanned_defaults`); `none` stands for -1 or 0 ("not set"). -/
structure scanned_options where
  quoted : Bool
  quote_non_ascii : Bool
  ignore_ops : Bool
  dotlists : Bool
  braceterms : Bool
  numbervars : Option Bool
  portray : Bool
  gportray : Option Term
  charescape : Option Bool
  charescape_unicode : Option Bool
  max_depth : Int
  mname : Atom
  bq : Option Atom
  attr : Atom
  priority : Int
  partial_ : Bool
  spacing : Atom
  blobs : Atom
  cycles : Bool
  varnames : Option Term
  nl : Bool
  fullstop : Bool
  no_lists : Bool

/-- The initial values of the locals of `pl_write_term3()`. -/
def scanned_defaults (E : Env) : scanned_options :=
  { quoted := false, quote_non_ascii := false, ignore_ops := false, dotlists := false,
    braceterms := true, numbervars := none, portray := false, gportray := none,
    charescape := none, charescape_unicode := none, max_depth := 0, mname := E.ATOM_user,
    bq := none, attr := E.ATOM_nil, priority := 1200, partial_ := false,
    spacing := E.ATOM_standard, blobs := E.ATOM_nil, cycles := true, varnames := none,
    nl := false, fullstop := false, no_lists := false }

/-- The constant `OP_MAXPRIORITY`. -/
def OP_MAXPRIORITY : Int := 1200

/-- What `pl_write_term3()` leaves behind: its result, the stream (when one was
obtained) and the engine state. -/
structure top_result where
  rc : Bool
  out : Option IOSTREAM
  ld : PL_local_data

/-- The function `pl_write_term3()`.  `stream` is what `getTextOutputStream()`
delivers (nothing when it fails), `opts` what `PL_scan_options()` delivers
(nothing when it fails); `fuel` bounds the nesting of `writeTerm()` and the
length of the list of variable names. -/
def pl_write_term3 (E : Env) (fuel : Nat) (stream : Option IOSTREAM) (term : Term)
    (opts : Option scanned_options) (ld : PL_local_data) : Option top_result :=
  match opts with
  | none => some { rc := false, out := none, ld := ld }
  | some sc =>
    let err := fun (e : PlError) =>
      (some { rc := false, out := none, ld := { ld with exception := some e } } :
        Option top_result)
    let attrMask : Option WrtFlags :=
      if sc.attr = E.ATOM_nil then some ld.write_attributes else writeAttributeMask E sc.attr
    match attrMask with
    | none => err (.domain "write_option")
    | some f1 =>
      let blobMask : Option WrtFlags :=
        if sc.blobs != E.ATOM_nil then writeBlobMask E sc.blobs else some {}
      match blobMask with
      | none => err (.domain "write_option")
      | some f2 =>
        if sc.priority < 0 || sc.priority > OP_MAXPRIORITY then err (.domain "operator_priority")
        else if !(sc.spacing = E.ATOM_standard || sc.spacing = E.ATOM_next_argument) then
          err (.domain "spacing")
        else
          let module : Module :=
            match E.isCurrentModule sc.mname with
            | some m => m
            | none => E.MODULE_user
          let f3 : WrtFlags := (f1.or f2).or
            { PL_WRT_CHARESCAPES :=
                sc.charescape = some true || (sc.charescape = none && module.M_CHARESCAPE)
              PL_WRT_CHARESCAPES_UNICODE :=
                sc.charescape_unicode = some true ||
                (sc.charescape_unicode = none && E.PLFLAG_CHARESCAPE_UNICODE)
              PL_WRT_RAT_NATURAL := module.RAT_NATURAL }
          let portray : Bool :=
            if sc.gportray.isSome && !f3.PL_WRT_BLOB_PORTRAY then true else sc.portray
          let numbervars : Bool :=
            match sc.numbervars with
            | none => portray
            | some b => b
          let f4 : WrtFlags := f3.or
            { PL_WRT_QUOTED := sc.quoted
              PL_WRT_QUOTE_NON_ASCII := sc.quote_non_ascii
              PL_WRT_IGNOREOPS := sc.ignore_ops
              PL_WRT_DOTLISTS := sc.dotlists
              PL_WRT_BRACETERMS := !sc.braceterms
              PL_WRT_NUMBERVARS := numbervars
              PL_WRT_PORTRAY := portray
              PL_WRT_NO_CYCLES := !sc.cycles
              PL_WRT_NO_LISTS := sc.no_lists
              PL_WRT_PARTIAL := sc.partial_ }
          let bqFlags : Option WrtFlags :=
            match sc.bq with
            | none => some {}
            | some bq =>
              match E.setBackQuotes bq with
              | none => none
              | some .string => some { PL_WRT_BACKQUOTED_STRING := true }
              | some .symbol_char => some { PL_WRT_BACKQUOTE_IS_SYMBOL := true }
              | some .codes => some {}
          match bqFlags with
          | none => some { rc := false, out := none, ld := ld }
          | some f5 =>
            let ld0 : PL_local_data :=
              { ld with numbervars_frame := ld.numbervars_frame || sc.varnames.isSome }
            let finish := fun (r : top_result) =>
              (some { r with ld := { r.ld with numbervars_frame := ld.numbervars_frame,
                                               bindings := ld.bindings } } : Option top_result)
            let bound : Bool × PL_local_data × WrtFlags :=
              match sc.varnames with
              | none => (true, ld0, f4.or f5)
              | some names =>
                match bind_varnames E fuel names ld0 with
                | (true, ld1) => (true, ld1, (f4.or f5).or { PL_WRT_VARNAMES := true })
                | (false, ld1) => (false, ld1, f4.or f5)
            match bound with
            | (false, ld1, _) => finish { rc := false, out := none, ld := ld1 }
            | (true, ld1, flags) =>
              match stream with
              | none => finish { rc := false, out := none, ld := ld1 }
              | some s =>
                let s1 := if !sc.partial_ then (PutOpenToken E EOF s).2 else s
                let options : write_options :=
                  { flags := flags, max_depth := sc.max_depth, depth := 0,
                    spacing := sc.spacing, module := module, out := s1,
                    portray_goal := sc.gportray, ld := ld1 }
                match writeTopTerm E fuel term sc.priority options with
                | none => none
                | some (rc, o) =>
                  let fin : Bool × IOSTREAM :=
                    if rc && sc.fullstop then
                      match PutToken E [46] o.out with
                      | (0, s2) => (false, s2)
                      | (_, s2) => Putc (if sc.nl then 10 else 32) s2
                    else if sc.nl then Putc 10 o.out
                    else (rc, o.out)
                  finish { rc := streamStatus fin.2 && fin.1, out := some fin.2, ld := o.ld }

/-- The function `do_write2()`; `stream` is what `getTextOutputStream()`
delivers (nothing when it fails).  The zeroed `spacing` field is no atom; it
is represented by `ATOM_standard`, which the writer treats alike, as it only
tests the field for `ATOM_next_argument`. -/
def do_write2 (E : Env) (fuel : Nat) (stream : Option IOSTREAM) (term : Term)
    (flags : WrtFlags) (canonical : Bool) (ld : PL_local_data) : Option top_result :=
  match stream with
  | none => some { rc := false, out := none, ld := ld }
  | some s =>
    let f1 : WrtFlags := if !canonical then flags.or ld.write_attributes else flags
    let f2 : WrtFlags := f1.or
      { PL_WRT_CHARESCAPES := E.MODULE_user.M_CHARESCAPE
        PL_WRT_BACKQUOTED_STRING := E.MODULE_user.BQ_STRING }
    let options : write_options :=
      { flags := f2, max_depth := 0, depth := 0, spacing := E.ATOM_standard,
        module := E.MODULE_user, out := (PutOpenToken E EOF s).2, portray_goal := none,
        ld := ld }
    match writeTopTerm E fuel term 1200 options with
    | none => none
    | some (rc, o) =>
      let fin : Bool × IOSTREAM :=
        if rc && flags.PL_WRT_NEWLINE then Putc 10 o.out else (rc, o.out)
      some { rc := streamStatus fin.2 && fin.1, out := some fin.2, ld := o.ld }

/-- The function `pl_write2()`. -/
def pl_write2 (E : Env) (fuel : Nat) (stream : Option IOSTREAM) (term : Term)
    (ld : PL_local_data) : Option top_result :=
  do_write2 E fuel stream term { PL_WRT_NUMBERVARS := true } false ld

/-- The function `pl_writeq2()`. -/
def pl_writeq2 (E : Env) (fuel : Nat) (stream : Option IOSTREAM) (term : Term)
    (ld : PL_local_data) : Option top_result :=
  do_write2 E fuel stream term { PL_WRT_QUOTED := true, PL_WRT_NUMBERVARS := true } false ld

/-! ## A concrete environment -/

mutual
/-- Number of nodes of a term. -/
def Term.size : Term → Nat
  | .compound _ args => 1 + Term.sizeList args
  | .attvar _ att => 1 + att.size
  | _ => 1
/-- Number of nodes of a list of terms. -/
def Term.sizeList : List Term → Nat
  | [] => 0
  | t :: ts => t.size + Term.sizeList ts
end

/-- A bound on the length of any path through a term under acyclic bindings. -/
def pathBound (b : List (Nat × Term)) (t : Term) : Nat :=
  t.size + Term.sizeList (b.map (fun e => e.2)) + b.length + 1

/-- Depth-first search for a reference back into the path being walked. -/
def acyclic_rec (b : List (Nat × Term)) : Nat → List Nat → Term → Bool
  | 0, _, _ => false
  | fuel + 1, path, t =>
    match t with
    | .var p =>
      (match lookup b p with
       | some v => if path.contains p then false else acyclic_rec b fuel (p :: path) v
       | none => true)
    | .attvar p _ =>
      (match lookup b p with
       | some v => if path.contains p then false else acyclic_rec b fuel (p :: path) v
       | none => true)
    | .compound _ args => args.all (fun a => acyclic_rec b fuel path a)
    | _ => true

/-- Occurrence of the variable cell `p` in a term, through the bindings. -/
def occurs_rec (b : List (Nat × Term)) (p : Nat) : Nat → Term → Bool
  | 0, _ => false
  | fuel + 1, t =>
    match t with
    | .var q =>
      (match lookup b q with
       | some v => occurs_rec b p fuel v
       | none => q == p)
    | .attvar q _ =>
      (match lookup b q with
       | some v => occurs_rec b p fuel v
       | none => q == p)
    | .compound _ args => args.any (fun a => occurs_rec b p fuel a)
    | _ => false

/-- Length of a proper list through the bindings, -1 for anything else. -/
def lengthList_rec (b : List (Nat × Term)) (dot nil : Atom) : Nat → Term → Int
  | 0, _ => -1
  | fuel + 1, t =>
    match deRef_rec b (b.length + 1) t with
    | .atom a => if a = nil then 0 else -1
    | .compound f [_, tail] =>
      if f = dot then
        (match lengthList_rec b dot nil fuel tail with
         | -1 => -1
         | n => n + 1)
      else -1
    | _ => -1

/-- Modelled from the spec: the character-class table of the reader (ISO
Latin-1), which is not under src/.  Classes: 0 control, 1 space, 2 solo,
3 symbol, 4 punctuation, 5 double quote, 6 single quote, 7 back quote,
8 uppercase (with underscore), 9 lowercase, 10 digit. -/
def charType (c : Nat) : Nat :=
  if c < 9 then 0
  else if c < 14 then 1
  else if c < 32 then 0
  else if c = 32 then 1
  else if c = 33 then 2
  else if c = 34 then 5
  else if c = 35 || c = 36 then 3
  else if c = 37 then 2
  else if c = 38 then 3
  else if c = 39 then 6
  else if c = 40 || c = 41 then 4
  else if c = 42 || c = 43 then 3
  else if c = 44 then 4
  else if c < 48 then 3
  else if c < 58 then 10
  else if c = 58 then 3
  else if c = 59 then 2
  else if c < 65 then 3
  else if c < 91 then 8
  else if c = 91 then 4
  else if c = 92 then 3
  else if c = 93 then 4
  else if c = 94 then 3
  else if c = 95 then 8
  else if c = 96 then 7
  else if c < 123 then 9
  else if c < 126 then 4
  else if c = 126 then 3
  else if c < 160 then 0
  else if c = 160 then 1
  else if c < 192 then 3
  else if c = 215 then 3
  else if c < 223 then 8
  else if c = 247 then 3
  else if c < 256 then 9
  else 0

/-- An atom with ordinary text. -/
def textAtom (s : String) : Atom := ⟨str s, .text⟩

/-- Modelled from the spec: a sample of the default operator table, which is
not under src/: `(name, kind, type, priority)`. -/
def defaultOps : List (String × OpKind × OpType × Int) :=
  [ (":-", .OP_INFIX, .OP_XFX, 1200), ("-->", .OP_INFIX, .OP_XFX, 1200),
    (":-", .OP_PREFIX, .OP_FX, 1200), ("?-", .OP_PREFIX, .OP_FX, 1200),
    (";", .OP_INFIX, .OP_XFY, 1100), ("|", .OP_INFIX, .OP_XFY, 1100),
    ("->", .OP_INFIX, .OP_XFY, 1050), ("*->", .OP_INFIX, .OP_XFY, 1050),
    (",", .OP_INFIX, .OP_XFY, 1000), (":=", .OP_INFIX, .OP_XFX, 990),
    ("\\+", .OP_PREFIX, .OP_FY, 900),
    ("=", .OP_INFIX, .OP_XFX, 700), ("\\=", .OP_INFIX, .OP_XFX, 700),
    ("==", .OP_INFIX, .OP_XFX, 700), ("is", .OP_INFIX, .OP_XFX, 700),
    ("<", .OP_INFIX, .OP_XFX, 700), (">", .OP_INFIX, .OP_XFX, 700),
    ("=<", .OP_INFIX, .OP_XFX, 700), (">=", .OP_INFIX, .OP_XFX, 700),
    ("=..", .OP_INFIX, .OP_XFX, 700),
    (":", .OP_INFIX, .OP_XFY, 200),
    ("+", .OP_INFIX, .OP_YFX, 500), ("-", .OP_INFIX, .OP_YFX, 500),
    ("*", .OP_INFIX, .OP_YFX, 400), ("/", .OP_INFIX, .OP_YFX, 400),
    ("//", .OP_INFIX, .OP_YFX, 400), ("mod", .OP_INFIX, .OP_YFX, 400),
    ("rem", .OP_INFIX, .OP_YFX, 400),
    ("**", .OP_INFIX, .OP_XFX, 200), ("^", .OP_INFIX, .OP_XFY, 200),
    ("-", .OP_PREFIX, .OP_FY, 200), ("+", .OP_PREFIX, .OP_FY, 200),
    ("\\", .OP_PREFIX, .OP_FY, 200),
    ("dynamic", .OP_PREFIX, .OP_FX, 1150), ("$", .OP_PREFIX, .OP_FX, 1) ]

/-- Looking an atom up in a table of operators. -/
def lookupOp (ops : List (String × OpKind × OpType × Int)) (a : Atom) (k : OpKind) :
    Option (OpType × Int) :=
  match ops.find? (fun e => textAtom e.1 == a && e.2.1 == k) with
  | some e => some (e.2.2.1, e.2.2.2)
  | none => none

/-- The module `user` with the sample operator table and character escapes. -/
def userModule : Module :=
  { currentOperator := lookupOp defaultOps
    M_VARPREFIX := false
    M_CHARESCAPE := true
    RAT_NATURAL := false
    BQ_STRING := false }

/-- Modelled from the spec: one concrete environment (Latin-1 character classes,
the usual texts of the builtin atoms, no portray hook, a digit generator that
knows the doubles 0.0, 1.0 and 0.1 only, no factorizer, unification that only
binds an unbound left-hand side). -/
def defaultEnv : Env :=
  { isLower := fun c => charType (c % 256) == 9
    isUpper := fun c => charType (c % 256) == 8
    isAlpha := fun c => charType (c % 256) ≥ 8
    isDigit := fun c => charType (c % 256) == 10
    isSymbol := fun c => charType (c % 256) == 3
    isSolo := fun c => charType (c % 256) == 2
    isBlank := fun c => charType (c % 256) == 1
    isPunctW := fun c => c ≤ 255 && charType c == 4
    f_is_prolog_symbol := fun c => c ≤ 255 && charType c == 3
    f_is_prolog_identifier_continue := fun c => c ≤ 255 && charType c ≥ 8
    f_is_prolog_atom_start := fun c => c ≤ 255 && charType c == 9
    atom_varnameW := fun _ => false
    unicode_quoted_escape := fun c => c < 32 || c == 127
    PLFLAG_DOT_IN_ATOM := false
    PLFLAG_CHARESCAPE_UNICODE := false
    cleaning_gt_CLN_PROLOG := false
    MAX_PORTRAY_NESTING := 100
    dtoa := fun f =>
      if f = 0x3FF0000000000000 then ([49], 1, false)
      else if f = 0x3FB999999999999A then ([49], 0, false)
      else ([48], 1, false)
    ATOM_nil := ⟨str "[]", .reserved⟩
    ATOM_curl := textAtom "\x7b\x7d"
    ATOM_dot := textAtom "[|]"
    ATOM_minus := textAtom "-"
    ATOM_comma := textAtom ","
    ATOM_bar := textAtom "|"
    ATOM_dict := textAtom "dict"
    ATOM_isovar := textAtom "$VAR"
    ATOM_xpceref := textAtom "@"
    ATOM_equals := textAtom "="
    ATOM_standard := textAtom "standard"
    ATOM_next_argument := textAtom "next_argument"
    ATOM_ignore := textAtom "ignore"
    ATOM_dots := textAtom "dots"
    ATOM_write := textAtom "write"
    ATOM_portray := textAtom "portray"
    ATOM_default := textAtom "default"
    ATOM_user := textAtom "user"
    MODULE_user := userModule
    isCurrentModule := fun a => if a = textAtom "user" then some userModule else none
    portray_defined := false
    portray_hook := fun _ _ _ s => (0, s)
    portray_attvar_hook := fun _ s => (1, s)
    saveWakeup := true
    PL_is_dict := fun _ => false
    dict_pairs := fun _ => []
    older_isovar := fun _ => false
    setBackQuotes := fun a =>
      if a = textAtom "string" then some .string
      else if a = textAtom "codes" then some .codes
      else if a = textAtom "symbol_char" then some .symbol_char
      else none
    PL_is_acyclic := fun b t => acyclic_rec b (pathBound b t) [] t
    PL_factorize_term := fun _ _ => none
    PL_var_occurs_in := fun b v t =>
      match deRef_rec b (b.length + 1) v with
      | .var p => occurs_rec b p (pathBound b t) t
      | .attvar p _ => occurs_rec b p (pathBound b t) t
      | _ => false
    PL_unify := fun b v t =>
      match deRef_rec b (b.length + 1) v with
      | .var p => some ((p, t) :: b)
      | .attvar p _ => some ((p, t) :: b)
      | _ => none
    lengthList := fun b t =>
      lengthList_rec b (textAtom "[|]") ⟨str "[]", .reserved⟩ (pathBound b t) t }

/-- A stream that has just been reset: nothing written, last character `EOF`,
no limit, every code point representable. -/
def freshStream : IOSTREAM :=
  { buffer := [], lastc := EOF, room := none, ferr := false, canrepresent := fun _ => true }

/-- Engine state with no bindings, no pending signal and no exception. -/
def freshLD : PL_local_data :=
  { portray_nesting := 0, signals := [], bindings := [], lBase := 1000000, gBase := 0,
    numbervars_frame := false, write_attributes := {}, exception := none }

/-- Options as `do_write2()` builds them for the module `user`, with the given
flags, writing to a fresh stream. -/
def defaultOptions (flags : WrtFlags) : write_options :=
  { flags := flags, max_depth := 0, depth := 0, spacing := textAtom "standard",
    module := userModule, out := freshStream, portray_goal := none, ld := freshLD }

/-- What a writer step reports and has delivered to the stream. -/
def written (r : Option (Bool × write_options)) : Option (Bool × List Nat) :=
  match r with
  | some (rc, o) => some (rc, o.out.buffer)
  | none => none

/-- Engine state in which the variable 7 is bound to `'[|]'(1, _7)`: the
cyclic list `X = [1|X]`. -/
def cyclicLD : PL_local_data :=
  { freshLD with bindings := [(7, .compound defaultEnv.ATOM_dot [.integer 1, .var 7])] }

/-- What a top-level write reports: its result, the text on the stream (when a
stream was obtained) and the pending exception. -/
def outcome (r : Option top_result) : Option (Bool × Option (List Nat) × Option PlError) :=
  match r with
  | some x => some (x.rc, x.out.map (fun s => s.buffer), x.ld.exception)
  | none => none

/-! # Theorems -/

/-! ## The configuration is not changed by writing -/

/-- The fields of the engine state that no writer function assigns. -/
def ldconfig (ld : PL_local_data) :=
  (ld.bindings, ld.lBase, ld.gBase, ld.numbervars_frame, ld.write_attributes)

/-- The fields of the options and of the engine state that no writer function
assigns: everything but the stream, the depth counter, the pending signals,
the portray nesting counter and the pending exception. -/
def config (o : write_options) :=
  (o.flags, o.max_depth, o.spacing, o.module, o.portray_goal, ldconfig o.ld)

/-- A writer step started in `o` leaves the configuration alone. -/
def Frames (o : write_options) (r : Option (Bool × write_options)) : Prop :=
  ∀ x, r = some x → config x.2 = config o

/-- Every call of `wt` leaves the configuration alone. -/
def WT.Frames (wt : WT) : Prop :=
  ∀ t p o f, PlWrite.Frames o (wt t p o f)

theorem Frames_none (o : write_options) : Frames o none := by
  intro x h; cases h

theorem Frames_some {o o1 : write_options} (b : Bool) (h : config o1 = config o) :
    Frames o (some (b, o1)) := by
  intro x hx; cases hx; exact h

theorem Frames_mono {o o1 : write_options} {r : Option (Bool × write_options)}
    (h1 : config o1 = config o) (h : Frames o1 r) : Frames o r := by
  intro x hx; rw [h x hx, h1]

theorem Frames_TRY {o : write_options} {r : Option (Bool × write_options)}
    {k : write_options → Option (Bool × write_options)}
    (hr : Frames o r) (hk : ∀ o1, config o1 = config o → Frames o1 (k o1)) :
    Frames o (TRY r k) := by
  unfold TRY
  split
  · exact Frames_none o
  · next o1 => exact Frames_some false (hr (false, o1) rfl)
  · next o1 => exact Frames_mono (hr (true, o1) rfl) (hk o1 (hr (true, o1) rfl))

theorem Frames_onOut (o : write_options) (r : Bool × IOSTREAM) : Frames o (onOut o r) :=
  Frames_some _ rfl

theorem Frames_onOutN (o : write_options) (r : Nat × IOSTREAM) : Frames o (onOutN o r) :=
  Frames_some _ rfl

theorem enterPortray_ldconfig (E : Env) (ld : PL_local_data) :
    ldconfig (enterPortray E ld).2 = ldconfig ld := by
  unfold enterPortray
  split <;> rfl

theorem callPortray_config (E : Env) (arg : Term) (prec : Int) (o : write_options) :
    config (callPortray E arg prec o).2 = config o := by
  have hl := enterPortray_ldconfig E o.ld
  unfold callPortray
  repeat' split
  all_goals simp_all [config, ldconfig, leavePortray]

theorem writeAtom_config (E : Env) (a : Atom) (o : write_options) :
    config (writeAtom E a o).2 = config o := by
  have h := callPortray_config E (.atom a) 1200 o
  unfold writeAtom
  repeat' split
  all_goals simp_all [config]

theorem writeAtom_ldconfig (E : Env) (a : Atom) (o : write_options) :
    ldconfig (writeAtom E a o).2.ld = ldconfig o.ld := by
  have h := writeAtom_config E a o
  simp only [config, Prod.mk.injEq] at h
  exact h.2.2.2.2.2

theorem Frames_atomStep (E : Env) (a : Atom) (o : write_options) :
    Frames o (atomStep E a o) := by
  unfold atomStep
  exact Frames_some _ (writeAtom_config E a o)

theorem writeNumberVar_config (E : Env) (t : Term) (o : write_options) :
    config (writeNumberVar E t o).2 = config o := by
  unfold writeNumberVar
  repeat' split
  all_goals first
    | rfl
    | simp only [config, writeAtom_ldconfig]

theorem Frames_writeAttVar (E : Env) (wt : WT) (hwt : WT.Frames wt) (av : Term)
    (o : write_options) : Frames o (writeAttVar E wt av o) := by
  unfold writeAttVar
  apply Frames_TRY (Frames_onOutN _ _)
  intro o1 h1
  split
  · exact Frames_onOut _ _
  · split
    · apply Frames_TRY
      · exact Frames_mono rfl (hwt _ _ _ _)
      · intro o3 h3
        exact Frames_some _ rfl
    · have hl := enterPortray_ldconfig E o1.ld
      repeat' split
      all_goals first
        | exact Frames_some _ rfl
        | (apply Frames_some; simp_all [config, ldconfig, leavePortray])

theorem Frames_writePrimitive (E : Env) (wt : WT) (hwt : WT.Frames wt) (t : Term)
    (o : write_options) : Frames o (writePrimitive E wt t o) := by
  unfold writePrimitive
  split
  · exact Frames_writeAttVar E wt hwt _ o
  · exact Frames_onOutN _ _
  · exact Frames_atomStep E _ o
  · exact Frames_onOutN _ _
  · exact Frames_onOutN _ _
  · exact Frames_onOutN _ _
  · exact Frames_onOutN _ _
  · exact Frames_onOut _ _
  · exact Frames_some _ rfl

theorem Frames_writeList_bracket (E : Env) (wt : WT) (hwt : WT.Frames wt) :
    ∀ (fuel : Nat) (l : Term) (o : write_options),
      Frames o (writeList_bracket E wt fuel l o) := by
  intro fuel
  induction fuel with
  | zero => intro l o; exact Frames_none o
  | succ n ih =>
    intro l o
    unfold writeList_bracket
    split
    · apply Frames_TRY (hwt _ _ _ _)
      intro o1 h1
      simp only
      split
      · exact Frames_onOut _ _
      · split
        · exact Frames_mono rfl (Frames_onOut _ _)
        · split
          · apply @Frames_mono _ { o1 with depth := o1.depth + 1 } _ rfl
            apply Frames_TRY (Frames_onOut _ _)
            intro o3 h3
            apply Frames_TRY (hwt _ _ _ _)
            intro o4 h4
            exact Frames_onOut _ _
          · apply @Frames_mono _ { o1 with depth := o1.depth + 1 } _ rfl
            apply Frames_TRY (Frames_onOut _ _)
            intro o3 h3
            exact ih _ _
    · exact Frames_some _ rfl

theorem Frames_writeList_dot (E : Env) (wt : WT) (hwt : WT.Frames wt) :
    ∀ (fuel depth : Nat) (l : Term) (o : write_options),
      Frames o (writeList_dot E wt fuel depth l o) := by
  intro fuel
  induction fuel with
  | zero => intro depth l o; exact Frames_none o
  | succ n ih =>
    intro depth l o
    unfold writeList_dot
    split
    · apply Frames_TRY
      · split
        · exact Frames_onOutN _ _
        · exact Frames_atomStep E _ o
      · intro o1 h1
        apply Frames_TRY (Frames_onOut _ _)
        intro o2 h2
        apply Frames_TRY (hwt _ _ _ _)
        intro o3 h3
        apply Frames_TRY (Frames_onOut _ _)
        intro o4 h4
        simp only
        split
        · apply Frames_TRY (Frames_onOutN _ _)
          intro o5 h5
          exact Frames_onOut _ _
        · split
          · apply @Frames_mono _ { o4 with depth := o4.depth + 1 } _ rfl
            apply Frames_TRY (Frames_onOutN _ _)
            intro o6 h6
            exact Frames_onOut _ _
          · split
            · apply @Frames_mono _ { o4 with depth := o4.depth + 1 } _ rfl
              apply Frames_TRY (hwt _ _ _ _)
              intro o6 h6
              exact Frames_onOut _ _
            · exact @Frames_mono _ { o4 with depth := o4.depth + 1 } _ rfl (ih _ _ _)
    · exact Frames_some _ rfl

theorem Frames_writeList (E : Env) (wt : WT) (hwt : WT.Frames wt) (fuel : Nat) (l : Term)
    (o : write_options) : Frames o (writeList E wt fuel l o) := by
  unfold writeList
  split
  · apply Frames_TRY (Frames_onOut _ _)
    intro o1 h1
    exact Frames_writeList_bracket E wt hwt _ _ _
  · exact Frames_writeList_dot E wt hwt _ _ _ _

theorem Frames_writeDictPair (E : Env) (wt : WT) (hwt : WT.Frames wt) (name value : Term)
    (last : Bool) (o : write_options) : Frames o (writeDictPair E wt name value last o) := by
  unfold writeDictPair
  apply Frames_TRY (hwt _ _ _ _)
  intro o1 h1
  apply Frames_TRY (Frames_onOutN _ _)
  intro o2 h2
  apply Frames_TRY (hwt _ _ _ _)
  intro o3 h3
  split
  · exact Frames_some _ rfl
  · exact Frames_onOut _ _

theorem Frames_PL_for_dict (E : Env) (wt : WT) (hwt : WT.Frames wt) :
    ∀ (pairs : List (Term × Term)) (o : write_options),
      Frames o (PL_for_dict E wt pairs o) := by
  intro pairs
  induction pairs with
  | nil => intro o; exact Frames_some _ rfl
  | cons kv rest ih =>
    intro o
    obtain ⟨k, v⟩ := kv
    unfold PL_for_dict
    apply Frames_TRY (Frames_writeDictPair E wt hwt _ _ _ _)
    intro o1 h1
    exact ih o1

theorem Frames_writeTerm2_args (E : Env) (wt : WT) (hwt : WT.Frames wt) :
    ∀ (args : List Term) (n : Nat) (o : write_options),
      Frames o (writeTerm2_args E wt n args o) := by
  intro args
  induction args with
  | nil => intro n o; exact Frames_some _ rfl
  | cons a rest ih =>
    intro n o
    unfold writeTerm2_args
    apply Frames_TRY
    · split
      · exact Frames_onOut _ _
      · exact Frames_some _ rfl
    · intro o1 h1
      apply Frames_TRY (hwt _ _ _ _)
      intro o2 h2
      exact ih _ _

theorem Frames_writeTerm2_canonical (E : Env) (wt : WT) (hwt : WT.Frames wt) (functor : Atom)
    (args : List Term) (o : write_options) :
    Frames o (writeTerm2_canonical E wt functor args o) := by
  unfold writeTerm2_canonical
  apply Frames_TRY (Frames_atomStep E _ o)
  intro o1 h1
  apply Frames_TRY (Frames_onOut _ _)
  intro o2 h2
  apply Frames_TRY (Frames_writeTerm2_args E wt hwt _ _ _)
  intro o3 h3
  exact Frames_onOut _ _

theorem orLastc_config (o : write_options) (bits : Nat) : config (orLastc o bits) = config o :=
  rfl

theorem Frames_writeTerm2_prefix_at (E : Env) (wt : WT) (hwt : WT.Frames wt) (functor : Atom)
    (args : List Term) (embrace : Bool) (pa : Int) (o : write_options) :
    Frames o (writeTerm2_prefix_at E wt functor args embrace pa o) := by
  unfold writeTerm2_prefix_at
  apply Frames_TRY
  · split
    · exact Frames_onOutN _ _
    · exact Frames_some _ rfl
  · intro o1 h1
    apply Frames_TRY
    · split
      · exact Frames_atomStep E _ _
      · exact hwt _ _ _ _
    · intro o2 h2
      simp only
      apply @Frames_mono _ (if functor = E.ATOM_minus then
          orLastc (orLastc o2 C_PREFIX_OP) C_PREFIX_SIGN else orLastc o2 C_PREFIX_OP) _
      · split <;> rfl
      · apply Frames_TRY (hwt _ _ _ _)
        intro o5 h5
        split
        · exact Frames_onOut _ _
        · exact Frames_some _ rfl

theorem Frames_writeTerm2_postfix_at (E : Env) (wt : WT) (hwt : WT.Frames wt) (functor : Atom)
    (args : List Term) (embrace : Bool) (pa : Int) (o : write_options) :
    Frames o (writeTerm2_postfix_at E wt functor args embrace pa o) := by
  unfold writeTerm2_postfix_at
  apply Frames_TRY
  · split
    · exact Frames_onOutN _ _
    · exact Frames_some _ rfl
  · intro o1 h1
    apply Frames_TRY (hwt _ _ _ _)
    intro o2 h2
    apply Frames_TRY
    · split
      · exact Frames_atomStep E _ _
      · apply Frames_TRY
        · split
          · exact Frames_onOut _ _
          · exact Frames_some _ rfl
        · intro o3 h3
          exact hwt _ _ _ _
    · intro o4 h4
      split
      · exact Frames_onOut _ _
      · exact Frames_some _ rfl

theorem Frames_writeTerm2_infix_at (E : Env) (wt : WT) (hwt : WT.Frames wt) (functor : Atom)
    (args : List Term) (embrace : Bool) (pl pr : Int) (o : write_options) :
    Frames o (writeTerm2_infix_at E wt functor args embrace pl pr o) := by
  unfold writeTerm2_infix_at
  apply Frames_TRY
  · split
    · exact Frames_onOutN _ _
    · exact Frames_some _ rfl
  · intro o1 h1
    apply Frames_TRY (hwt _ _ _ _)
    intro o2 h2
    apply Frames_TRY
    · split
      · apply Frames_TRY
        · split
          · exact Frames_onOut _ _
          · split
            · exact Frames_onOut _ _
            · split
              · exact Frames_onOutN _ _
              · have h := writeAtom_config E functor o2
                split
                · apply Frames_some; simp_all
                · next o heq =>
                  rw [heq] at h
                  exact Frames_mono h (Frames_onOut _ _)
                · apply Frames_some; simp_all
        · intro o3 h3
          exact Frames_some _ rfl
      · exact hwt _ _ _ _
    · intro o4 h4
      apply Frames_TRY (hwt _ _ _ _)
      intro o5 h5
      split
      · exact Frames_onOut _ _
      · exact Frames_some _ rfl

theorem Frames_writeTerm2_operators (E : Env) (wt : WT) (hwt : WT.Frames wt) (functor : Atom)
    (args : List Term) (prec : Int) (o : write_options) :
    Frames o (writeTerm2_operators E wt functor args prec o) := by
  unfold writeTerm2_operators
  simp only
  split
  · split
    · split
      · exact Frames_writeTerm2_prefix_at E wt hwt _ _ _ _ _
      · split
        · exact Frames_writeTerm2_postfix_at E wt hwt _ _ _ _ _
        · exact Frames_writeTerm2_canonical E wt hwt _ _ _
    · split
      · split
        · exact Frames_writeTerm2_infix_at E wt hwt _ _ _ _ _ _
        · exact Frames_writeTerm2_canonical E wt hwt _ _ _
      · exact Frames_writeTerm2_canonical E wt hwt _ _ _
  · exact Frames_writeTerm2_canonical E wt hwt _ _ _

theorem Frames_writeTerm2_compound (E : Env) (wt : WT) (hwt : WT.Frames wt) (fuel : Nat)
    (t : Term) (functor : Atom) (args : List Term) (prec : Int) (o : write_options) :
    Frames o (writeTerm2_compound E wt fuel t functor args prec o) := by
  unfold writeTerm2_compound
  have hnv := writeNumberVar_config E t o
  have key : ∀ nv : Int × write_options, config nv.2 = config o →
      Frames o (match nv with
        | (-1, o) => some (false, o)
        | (1, o) => some (true, o)
        | (_, o) =>
          if !o.flags.PL_WRT_BRACETERMS && functor = E.ATOM_curl && args.length = 1 then
            TRY (onOutN o (PutToken E [123] o.out)) fun o1 =>
              TRY (wt (args.getD 0 t) 1200 o1 W_TOP) fun o2 =>
                onOut o2 (Putc 125 o2.out)
          else if functor = E.ATOM_dot && args.length = 2 then writeList E wt fuel t o
          else if !o.flags.PL_WRT_NODICT && functor = E.ATOM_dict && E.PL_is_dict t then
            match args with
            | [] => some (false, o)
            | cls :: _ =>
              TRY (wt cls 1200 o W_TOP) fun o1 =>
                TRY (onOut o1 (Putc 123 o1.out)) fun o2 =>
                  TRY (PL_for_dict E wt (E.dict_pairs t) o2) fun o3 =>
                    onOut o3 (Putc 125 o3.out)
          else writeTerm2_operators E wt functor args prec o) := by
    intro nv hc
    split
    · exact Frames_some _ hc
    · exact Frames_some _ hc
    · next o1 _ _ =>
      apply Frames_mono hc
      split
      · apply Frames_TRY (Frames_onOutN _ _)
        intro o2 h2
        apply Frames_TRY (hwt _ _ _ _)
        intro o3 h3
        exact Frames_onOut _ _
      · split
        · exact Frames_writeList E wt hwt _ _ _
        · split
          · split
            · exact Frames_some _ rfl
            · apply Frames_TRY (hwt _ _ _ _)
              intro o2 h2
              apply Frames_TRY (Frames_onOut _ _)
              intro o3 h3
              apply Frames_TRY (Frames_PL_for_dict E wt hwt _ _)
              intro o4 h4
              exact Frames_onOut _ _
          · exact Frames_writeTerm2_operators E wt hwt _ _ _ _
  apply key
  split
  · exact hnv
  · rfl

theorem Frames_writeTerm2_rest (E : Env) (wt : WT) (hwt : WT.Frames wt) (fuel : Nat)
    (t : Term) (prec : Int) (o : write_options) :
    Frames o (writeTerm2_rest E wt fuel t prec o) := by
  unfold writeTerm2_rest
  split
  · exact Frames_writeTerm2_compound E wt hwt _ _ _ _ _ _
  · split
    · exact Frames_writeTerm2_compound E wt hwt _ _ _ _ _ _
    · exact Frames_writePrimitive E wt hwt _ _
  · exact Frames_writePrimitive E wt hwt _ _

theorem Frames_writeTerm2_atom (E : Env) (wt : WT) (hwt : WT.Frames wt) (fuel : Nat)
    (t : Term) (prec : Int) (o : write_options) (flags : Nat) :
    Frames o (writeTerm2_atom E wt fuel t prec o flags) := by
  unfold writeTerm2_atom
  split
  · next a =>
    split
    · split
      · exact Frames_mono rfl (Frames_writeTerm2_rest E wt hwt _ _ _ _)
      · next s1 _ _ =>
        have h := writeAtom_config E a { o with out := s1 }
        split
        · next o2 heq =>
          rw [heq] at h
          exact Frames_mono h (Frames_writeTerm2_rest E wt hwt _ _ _ _)
        · next o2 _ heq =>
          rw [heq] at h
          split
          · exact @Frames_mono _ o2 _ h
              (Frames_mono rfl (Frames_writeTerm2_rest E wt hwt _ _ _ _))
          · exact Frames_some _ h
    · exact Frames_atomStep E _ _
  · exact Frames_writeTerm2_rest E wt hwt _ _ _ _

theorem Frames_writeTerm2 (E : Env) (wt : WT) (hwt : WT.Frames wt) (fuel : Nat)
    (t : Term) (prec : Int) (o : write_options) (flags : Nat) :
    Frames o (writeTerm2 E wt fuel t prec o flags) := by
  unfold writeTerm2
  simp only
  split
  · have h := callPortray_config E (deRef o.ld t) prec o
    split
    · next o1 heq => rw [heq] at h; exact Frames_some _ h
    · next o1 heq =>
      rw [heq] at h
      exact Frames_mono h (Frames_writeTerm2_atom E wt hwt _ _ _ _ _)
    · next o1 _ _ heq => rw [heq] at h; exact Frames_some _ h
  · exact Frames_writeTerm2_atom E wt hwt _ _ _ _ _

/-- The configuration is the same after every call of `writeTerm()`. -/
theorem Frames_writeTerm (E : Env) : ∀ fuel : Nat, WT.Frames (writeTerm E fuel) := by
  intro fuel
  induction fuel with
  | zero => intro t p o f; exact Frames_none o
  | succ n ih =>
    intro t p o f
    unfold writeTerm
    simp only
    split
    · exact Frames_some _ rfl
    · split
      · exact Frames_some _ rfl
      · have h := Frames_writeTerm2 E (writeTerm E n) ih n t p
          { o with ld := { o.ld with signals := (o.ld.signals).tail }, depth := o.depth + 1 } f
        split
        · exact Frames_none o
        · next rval o2 heq =>
          have h2 := h (rval, o2) heq
          exact Frames_some _ h2

/-! ## Parentheses around operator terms -/

theorem TRY_true (o : write_options) (k : write_options → Option (Bool × write_options)) :
    TRY (some (true, o)) k = k o := rfl

theorem TRY_false (o : write_options) (k : write_options → Option (Bool × write_options)) :
    TRY (some (false, o)) k = some (false, o) := rfl

theorem TRY_none (k : write_options → Option (Bool × write_options)) :
    TRY none k = none := rfl

theorem TRY_assoc (r : Option (Bool × write_options))
    (k k1 : write_options → Option (Bool × write_options)) :
    TRY (TRY r k) k1 = TRY r (fun o => TRY (k o) k1) := by
  unfold TRY
  rcases r with _ | ⟨b, o⟩
  · rfl
  · cases b <;> rfl

theorem TRY_pure (r : Option (Bool × write_options)) :
    TRY r (fun o => some (true, o)) = r := by
  unfold TRY
  rcases r with _ | ⟨b, o⟩
  · rfl
  · cases b <;> rfl

/-- Writing `PutOpenBrace()`, then a rendering, then `PutCloseBrace()`. -/
def embraced (E : Env) (o : write_options)
    (body : write_options → Option (Bool × write_options)) : Option (Bool × write_options) :=
  TRY (onOutN o (PutOpenBrace E o.out)) fun o1 =>
    TRY (body o1) fun o2 => onOut o2 (PutCloseBrace o2.out)

theorem writeTerm2_prefix_at_true (E : Env) (wt : WT) (functor : Atom) (args : List Term)
    (pa : Int) (o : write_options) :
    writeTerm2_prefix_at E wt functor args true pa o =
      embraced E o (writeTerm2_prefix_at E wt functor args false pa) := by
  unfold embraced writeTerm2_prefix_at
  simp only [if_true, TRY_assoc, TRY_true, Bool.false_eq_true, if_false, TRY_pure]

theorem writeTerm2_postfix_at_true (E : Env) (wt : WT) (functor : Atom) (args : List Term)
    (pa : Int) (o : write_options) :
    writeTerm2_postfix_at E wt functor args true pa o =
      embraced E o (writeTerm2_postfix_at E wt functor args false pa) := by
  unfold embraced writeTerm2_postfix_at
  simp only [if_true, TRY_assoc, TRY_true, Bool.false_eq_true, if_false, TRY_pure]

theorem writeTerm2_infix_at_true (E : Env) (wt : WT) (functor : Atom) (args : List Term)
    (pl pr : Int) (o : write_options) :
    writeTerm2_infix_at E wt functor args true pl pr o =
      embraced E o (writeTerm2_infix_at E wt functor args false pl pr) := by
  unfold embraced writeTerm2_infix_at
  simp only [if_true, TRY_assoc, TRY_true, Bool.false_eq_true, if_false, TRY_pure]

theorem Sputcode_buffer (c : Nat) (s : IOSTREAM) (h : (Sputcode c s).1 = true) :
    (Sputcode c s).2.buffer = s.buffer ++ [c] := by
  unfold Sputcode at h ⊢
  split <;> simp_all

theorem needSpace_buffer (E : Env) (c : Nat) (s : IOSTREAM) :
    (needSpace E c s).2.buffer = s.buffer := by
  unfold needSpace
  repeat' split
  all_goals first
    | rfl
    | (simp only; split <;> rfl)

theorem PutOpenToken_buffer (E : Env) (c : Nat) (s : IOSTREAM)
    (h : (PutOpenToken E c s).1 ≠ 0) :
    (PutOpenToken E c s).2.buffer =
      s.buffer ++ (if (needSpace E c s).1 then [32] else []) := by
  have hb := needSpace_buffer E c s
  unfold PutOpenToken at h ⊢
  rcases hn : needSpace E c s with ⟨b, s1⟩
  simp only [hn] at h hb ⊢
  cases b
  · simp [hb]
  · have hs := Sputcode_buffer 32 s1
    rcases hp : Sputcode 32 s1 with ⟨b2, s2⟩
    simp only [Putc, hp] at h hs ⊢
    cases b2
    · simp at h
    · simp [hs, hb]

theorem PutOpenBrace_buffer (E : Env) (s : IOSTREAM) (h : (PutOpenBrace E s).1 ≠ 0) :
    (PutOpenBrace E s).2.buffer =
      s.buffer ++ (if (needSpace E 40 s).1 then [32] else []) ++ [40] := by
  have ht := PutOpenToken_buffer E 40 s
  unfold PutOpenBrace at h ⊢
  rcases hp : PutOpenToken E 40 s with ⟨rc, s1⟩
  simp only [hp] at h ht ⊢
  have hs := Sputcode_buffer 40 s1
  rcases rc with _ | rc
  · simp at h
  · rcases hq : Sputcode 40 s1 with ⟨b2, s2⟩
    simp only [Putc, hq] at h hs ⊢
    cases b2
    · simp at h
    · simp at ht hs ⊢
      rw [hs, ht, List.append_assoc]

theorem embraced_buffer (E : Env) (o o' : write_options)
    (body : write_options → Option (Bool × write_options))
    (h : embraced E o body = some (true, o')) :
    ∃ o2, body { o with out := (PutOpenBrace E o.out).2 } = some (true, o2) ∧
      (PutOpenBrace E o.out).2.buffer =
        o.out.buffer ++ (if (needSpace E 40 o.out).1 then [32] else []) ++ [40] ∧
      o'.out.buffer = o2.out.buffer ++ [41] := by
  unfold embraced onOutN at h
  have hb := PutOpenBrace_buffer E o.out
  rcases hp : PutOpenBrace E o.out with ⟨rc, s1⟩
  rw [hp] at h hb
  by_cases hrc : rc = 0
  · subst hrc
    simp [TRY] at h
  · have hne : (rc != 0) = true := by simpa using hrc
    simp only [hne, TRY_true] at h
    rcases hbody : body { o with out := s1 } with _ | ⟨b, o2⟩
    · rw [hbody] at h; simp [TRY] at h
    · rw [hbody] at h
      cases b
      · simp [TRY] at h
      · simp only [TRY_true, onOut, PutCloseBrace, Putc] at h
        have hs := Sputcode_buffer 41 o2.out
        rcases hq : Sputcode 41 o2.out with ⟨b2, s2⟩
        rw [hq] at h hs
        simp only [Option.some.injEq, Prod.mk.injEq] at h
        obtain ⟨h1, h2⟩ := h
        subst h1
        refine ⟨o2, rfl, hb hrc, ?_⟩
        rw [← h2]
        exact hs rfl

/-- The term with the given functor and arguments is written in operator
notation of the given kind: operators are not ignored and the lookups of
`writeTerm2()` end at this kind, with type `ty` and priority `P`. -/
def operatorNotation (E : Env) (o : write_options) (functor : Atom) (args : List Term)
    (kind : OpKind) (ty : OpType) (P : Int) : Prop :=
  o.flags.PL_WRT_IGNOREOPS = false ∧
  match kind with
  | .OP_PREFIX =>
    (args.length = 1 ∨ (args.length = 2 ∧ isBlockOp E o.ld args functor = true)) ∧
    o.module.currentOperator functor .OP_PREFIX = some (ty, P)
  | .OP_POSTFIX =>
    (args.length = 1 ∨ (args.length = 2 ∧ isBlockOp E o.ld args functor = true)) ∧
    o.module.currentOperator functor .OP_PREFIX = none ∧
    o.module.currentOperator functor .OP_POSTFIX = some (ty, P)
  | .OP_INFIX =>
    ¬(args.length = 1 ∨ (args.length = 2 ∧ isBlockOp E o.ld args functor = true)) ∧
    (args.length = 2 ∨ (args.length = 3 ∧ isBlockOp E o.ld args functor = true)) ∧
    o.module.currentOperator functor .OP_INFIX = some (ty, P)

/-- The operator term written without enclosing parentheses: the branch of
`writeTerm2()` for the kind, with `embrace` false. -/
def operatorBody (E : Env) (wt : WT) (functor : Atom) (args : List Term)
    (kind : OpKind) (ty : OpType) (P : Int) (o : write_options) :
    Option (Bool × write_options) :=
  match kind with
  | .OP_PREFIX =>
    writeTerm2_prefix_at E wt functor args false (if ty = .OP_FX then P - 1 else P) o
  | .OP_POSTFIX =>
    writeTerm2_postfix_at E wt functor args false (if ty = .OP_XF then P - 1 else P) o
  | .OP_INFIX =>
    writeTerm2_infix_at E wt functor args false
      (if ty = .OP_XFX || ty = .OP_XFY then P - 1 else P)
      (if ty = .OP_XFX || ty = .OP_YFX then P - 1 else P) o

theorem writeTerm2_operators_eq (E : Env) (wt : WT) (functor : Atom) (args : List Term)
    (kind : OpKind) (ty : OpType) (P prec : Int) (o : write_options)
    (h : operatorNotation E o functor args kind ty P) :
    writeTerm2_operators E wt functor args prec o =
      if P > prec then embraced E o (operatorBody E wt functor args kind ty P)
      else operatorBody E wt functor args kind ty P o := by
  obtain ⟨hign, hk⟩ := h
  unfold writeTerm2_operators
  simp only [hign, Bool.not_false, if_true]
  cases kind
  · obtain ⟨har, hop⟩ := hk
    have hc : (decide (args.length = 1) ||
        decide (args.length = 2) && isBlockOp E o.ld args functor) = true := by
      rcases har with h1 | ⟨h2, h3⟩
      · simp [h1]
      · simp [h2, h3]
    simp only [hc, if_true, hop, writeTerm2_prefix_op, operatorBody]
    by_cases hp : P > prec
    · simp only [hp, decide_True, if_true, writeTerm2_prefix_at_true]
      rfl
    · simp only [hp, decide_False, if_false]
  · obtain ⟨har, hop⟩ := hk
    have hc : (decide (args.length = 1) ||
        decide (args.length = 2) && isBlockOp E o.ld args functor) = false := by
      rcases h1 : (decide (args.length = 1) ||
        decide (args.length = 2) && isBlockOp E o.ld args functor) with _ | _
      · rfl
      · exfalso
        apply har
        simp only [Bool.or_eq_true, Bool.and_eq_true, decide_eq_true_eq] at h1
        exact h1
    obtain ⟨har2, hop⟩ := hop
    have hc2 : (decide (args.length = 2) ||
        decide (args.length = 3) && isBlockOp E o.ld args functor) = true := by
      rcases har2 with h1 | ⟨h2, h3⟩
      · simp [h1]
      · simp [h2, h3]
    simp only [hc, hc2, if_true, hop, writeTerm2_infix_op, operatorBody, Bool.false_eq_true,
      if_false]
    by_cases hp : P > prec
    · simp only [hp, decide_True, if_true, writeTerm2_infix_at_true]
      rfl
    · simp only [hp, decide_False, if_false]
  · obtain ⟨har, hop1, hop⟩ := hk
    have hc : (decide (args.length = 1) ||
        decide (args.length = 2) && isBlockOp E o.ld args functor) = true := by
      rcases har with h1 | ⟨h2, h3⟩
      · simp [h1]
      · simp [h2, h3]
    simp only [hc, if_true, hop1, hop, writeTerm2_postfix_op, operatorBody]
    by_cases hp : P > prec
    · simp only [hp, decide_True, if_true, writeTerm2_postfix_at_true]
      rfl
    · simp only [hp, decide_False, if_false]

/-- C1. An operator term of priority `P` written at maximum priority `prec` is
the same term written without enclosing parentheses, put between
`PutOpenBrace()` and `PutCloseBrace()` exactly when `P > prec`: then the output
gains one `(` (after a space when the token rules ask for one) before and one
`)` after the text of the term; when `P <= prec` nothing is added. -/
theorem operator_parentheses_iff (E : Env) (wt : WT) (functor : Atom) (args : List Term)
    (kind : OpKind) (ty : OpType) (P prec : Int) (o : write_options)
    (h : operatorNotation E o functor args kind ty P) :
    (writeTerm2_operators E wt functor args prec o =
      if P > prec then embraced E o (operatorBody E wt functor args kind ty P)
      else operatorBody E wt functor args kind ty P o) ∧
    (P > prec → ∀ o', writeTerm2_operators E wt functor args prec o = some (true, o') →
      ∃ o2, operatorBody E wt functor args kind ty P
              { o with out := (PutOpenBrace E o.out).2 } = some (true, o2) ∧
        (PutOpenBrace E o.out).2.buffer =
          o.out.buffer ++ (if (needSpace E 40 o.out).1 then [32] else []) ++ [40] ∧
        o'.out.buffer = o2.out.buffer ++ [41]) := by
  have heq := writeTerm2_operators_eq E wt functor args kind ty P prec o h
  refine ⟨heq, ?_⟩
  intro hp o' ho
  rw [heq, if_pos hp] at ho
  exact embraced_buffer E o o' _ ho

/-- The atom with the given text as a term. -/
def atomTerm (s : String) : Term := .atom (textAtom s)

/-- C1 at `a+b` written at maximum priority 400 with the sample operators. -/
theorem operator_parentheses_iff_witness :
    operatorNotation defaultEnv (defaultOptions {}) (textAtom "+")
        [atomTerm "a", atomTerm "b"] .OP_INFIX .OP_YFX 500 ∧
    written (writeTerm2_operators defaultEnv (writeTerm defaultEnv 3) (textAtom "+")
        [atomTerm "a", atomTerm "b"] 400 (defaultOptions {})) = some (true, str "(a+b)") ∧
    written (writeTerm2_operators defaultEnv (writeTerm defaultEnv 3) (textAtom "+")
        [atomTerm "a", atomTerm "b"] 500 (defaultOptions {})) = some (true, str "a+b") ∧
    (writeTerm2_operators defaultEnv (writeTerm defaultEnv 3) (textAtom "+")
        [atomTerm "a", atomTerm "b"] 400 (defaultOptions {}) =
      if (500 : Int) > 400 then
        embraced defaultEnv (defaultOptions {})
          (operatorBody defaultEnv (writeTerm defaultEnv 3) (textAtom "+")
            [atomTerm "a", atomTerm "b"] .OP_INFIX .OP_YFX 500)
      else operatorBody defaultEnv (writeTerm defaultEnv 3) (textAtom "+")
            [atomTerm "a", atomTerm "b"] .OP_INFIX .OP_YFX 500 (defaultOptions {})) :=
  have h : operatorNotation defaultEnv (defaultOptions {}) (textAtom "+")
      [atomTerm "a", atomTerm "b"] .OP_INFIX .OP_YFX 500 := by
    unfold operatorNotation
    decide
  ⟨h, by decide, by decide,
    (operator_parentheses_iff defaultEnv (writeTerm defaultEnv 3) (textAtom "+")
      [atomTerm "a", atomTerm "b"] .OP_INFIX .OP_YFX 500 400 (defaultOptions {}) h).1⟩

/-! ## Maximum priority of the operands -/

/-- The associativity tag left of the `f` in the name of an operator type is
`x` (strict). -/
def strictLeft : OpType → Bool
  | .OP_XFX => true
  | .OP_XFY => true
  | .OP_XF => true
  | _ => false

/-- The associativity tag right of the `f` in the name of an operator type is
`x` (strict). -/
def strictRight : OpType → Bool
  | .OP_XFX => true
  | .OP_YFX => true
  | .OP_FX => true
  | _ => false

/-- The maximum priority of an operand of an operator of priority `P`: `P - 1`
on a strict side, `P` otherwise. -/
def operandPriority (strict : Bool) (P : Int) : Int :=
  if strict then P - 1 else P

/-- What the infix branch of `writeTerm2()` writes between the operands of a
term with two arguments: the comma, the bar, the dot or the operator atom (with
a space after it when `writeAtom()` has put one before it), and the infix
marker in the last-character slot. -/
def infixSymbol (E : Env) (functor : Atom) (o2 : write_options) :
    Option (Bool × write_options) :=
  TRY (if functor = E.ATOM_comma then onOut o2 (PutComma E o2)
       else if functor = E.ATOM_bar then onOut o2 (PutBar E o2)
       else if functor = ATOM_fdot then onOutN o2 (PutToken E [46] o2.out)
       else
         match writeAtom E functor o2 with
         | (0, o) => some (false, o)
         | (2, o) => onOut o (Putc 32 o.out)
         | (_, o) => some (true, o)) fun o3 =>
    some (true, orLastc o3 C_INFIX_OP)

/-- The prefix markers `writeTerm2()` sets in the last-character slot after the
operator of a prefix term. -/
def prefixMarks (E : Env) (functor : Atom) (o2 : write_options) : write_options :=
  if functor = E.ATOM_minus then orLastc (orLastc o2 C_PREFIX_OP) C_PREFIX_SIGN
  else orLastc o2 C_PREFIX_OP

/-- What the postfix branch of `writeTerm2()` writes after the operand of a
block operator term: a space after an atom or a variable in front of a brace
block, and the block by `writeTerm()` at 1200. -/
def blockAfter (E : Env) (wt : WT) (functor : Atom) (args : List Term)
    (o2 : write_options) : Option (Bool × write_options) :=
  TRY (if functor = E.ATOM_curl &&
          (PL_is_atom (deRef o2.ld (args.getD (args.length - 1) (.atom functor))) ||
           PL_is_variable (deRef o2.ld (args.getD (args.length - 1) (.atom functor))))
       then onOut o2 (Putc 32 o2.out) else some (true, o2)) fun o3 =>
    wt (args.getD 0 (.atom functor)) 1200 o3 W_TOP

/-- A stand-in for `writeTerm()` that writes, in place of the term, the maximum
priority it is called with, in decimal. -/
def priorityProbe : WT := fun _ p o _ => onOut o (PutString (sprintf_d p) o.out)

/-- The module `user` with two postfix operators added to the sample table:
`xx` of type xf and `yy` of type yf, both of priority 200. -/
def suffixModule : Module :=
  { userModule with
    currentOperator := lookupOp (("xx", .OP_POSTFIX, .OP_XF, 200) ::
      ("yy", .OP_POSTFIX, .OP_YF, 200) :: defaultOps) }

theorem writeTerm2_infix_at_eq (E : Env) (wt : WT) (functor : Atom) (args : List Term)
    (embrace : Bool) (pl pr : Int) (o : write_options) :
    writeTerm2_infix_at E wt functor args embrace pl pr o =
      TRY (if embrace then onOutN o (PutOpenBrace E o.out) else some (true, o)) fun o1 =>
        TRY (wt (args.getD (args.length - 2) (.atom functor)) pl o1 W_OP_ARG) fun o2 =>
          TRY (if args.length = 2 then infixSymbol E functor o2
               else wt (args.getD 0 (.atom functor)) 1200 o2 W_TOP) fun o4 =>
            TRY (wt (args.getD (args.length - 1) (.atom functor)) pr o4 W_OP_ARG) fun o5 =>
              if embrace then onOut o5 (PutCloseBrace o5.out) else some (true, o5) := rfl

theorem writeTerm2_prefix_at_eq (E : Env) (wt : WT) (functor : Atom) (args : List Term)
    (embrace : Bool) (pa : Int) (o : write_options) :
    writeTerm2_prefix_at E wt functor args embrace pa o =
      TRY (if embrace then onOutN o (PutOpenBrace E o.out) else some (true, o)) fun o1 =>
        TRY (if args.length = 1 then atomStep E functor o1
             else wt (args.getD 0 (.atom functor)) 1200 o1 W_TOP) fun o2 =>
          TRY (wt (args.getD (args.length - 1) (.atom functor)) pa
                (prefixMarks E functor o2) W_OP_ARG) fun o5 =>
            if embrace then onOut o5 (PutCloseBrace o5.out) else some (true, o5) := by
  unfold writeTerm2_prefix_at prefixMarks
  by_cases h : functor = E.ATOM_minus <;> simp only [h, if_true, if_false]

theorem writeTerm2_postfix_at_eq (E : Env) (wt : WT) (functor : Atom) (args : List Term)
    (embrace : Bool) (pa : Int) (o : write_options) :
    writeTerm2_postfix_at E wt functor args embrace pa o =
      TRY (if embrace then onOutN o (PutOpenBrace E o.out) else some (true, o)) fun o1 =>
        TRY (wt (args.getD (args.length - 1) (.atom functor)) pa o1 W_OP_ARG) fun o2 =>
          TRY (if args.length = 1 then atomStep E functor o2
               else blockAfter E wt functor args o2) fun o4 =>
            if embrace then onOut o4 (PutCloseBrace o4.out) else some (true, o4) := rfl

theorem writeTerm2_infix_operands (E : Env) (wt : WT) (functor : Atom) (args : List Term)
    (ty : OpType) (P prec : Int) (o : write_options)
    (h : operatorNotation E o functor args .OP_INFIX ty P) :
    writeTerm2_operators E wt functor args prec o =
      writeTerm2_infix_op E wt functor args ty P prec o := by
  obtain ⟨hign, har, har2, hop⟩ := h
  have hc : (decide (args.length = 1) ||
      decide (args.length = 2) && isBlockOp E o.ld args functor) = false := by
    rcases h1 : (decide (args.length = 1) ||
      decide (args.length = 2) && isBlockOp E o.ld args functor) with _ | _
    · rfl
    · exfalso
      apply har
      simp only [Bool.or_eq_true, Bool.and_eq_true, decide_eq_true_eq] at h1
      exact h1
  have hc2 : (decide (args.length = 2) ||
      decide (args.length = 3) && isBlockOp E o.ld args functor) = true := by
    rcases har2 with h1 | ⟨h2, h3⟩
    · simp [h1]
    · simp [h2, h3]
  unfold writeTerm2_operators
  simp only [hign, Bool.not_false, if_true, hc, hc2, hop, Bool.false_eq_true, if_false]

theorem writeTerm2_prefix_operand (E : Env) (wt : WT) (functor : Atom) (args : List Term)
    (ty : OpType) (P prec : Int) (o : write_options)
    (h : operatorNotation E o functor args .OP_PREFIX ty P) :
    writeTerm2_operators E wt functor args prec o =
      writeTerm2_prefix_op E wt functor args ty P prec o := by
  obtain ⟨hign, har, hop⟩ := h
  have hc : (decide (args.length = 1) ||
      decide (args.length = 2) && isBlockOp E o.ld args functor) = true := by
    rcases har with h1 | ⟨h2, h3⟩
    · simp [h1]
    · simp [h2, h3]
  unfold writeTerm2_operators
  simp only [hign, Bool.not_false, if_true, hc, hop]

theorem writeTerm2_postfix_operand (E : Env) (wt : WT) (functor : Atom) (args : List Term)
    (ty : OpType) (P prec : Int) (o : write_options)
    (h : operatorNotation E o functor args .OP_POSTFIX ty P) :
    writeTerm2_operators E wt functor args prec o =
      writeTerm2_postfix_op E wt functor args ty P prec o := by
  obtain ⟨hign, har, hop1, hop⟩ := h
  have hc : (decide (args.length = 1) ||
      decide (args.length = 2) && isBlockOp E o.ld args functor) = true := by
    rcases har with h1 | ⟨h2, h3⟩
    · simp [h1]
    · simp [h2, h3]
  unfold writeTerm2_operators
  simp only [hign, Bool.not_false, if_true, hc, hop1, hop]

/-- C2. An operator term of priority `P` is written by `writeTerm2()` as
follows, each step being abandoned when the one before it fails.  Infix: the
opening parenthesis when `P` exceeds the maximum priority of the call; the left
operand by `writeTerm()` with maximum priority `P - 1` for xfx and xfy and `P`
for yfx; the operator (for a block operator the block by `writeTerm()` at 1200);
the right operand by `writeTerm()` with maximum priority `P - 1` for xfx and yfx
and `P` for xfy; the closing parenthesis.  Prefix: parenthesis, operator,
operand by `writeTerm()` with `P - 1` for fx and `P` for fy, parenthesis.
Postfix: parenthesis, operand by `writeTerm()` with `P - 1` for xf and `P` for
yf, operator (for a block operator the block), parenthesis.  Every operand is
passed with the location flag `W_OP_ARG`.  With a stand-in for `writeTerm()` that writes the maximum priority
it is given, the sample operators give `1199:-1199` (xfx 1200), `999,1000` (xfy
1000), `500-499` (yfx 500), `:-1199` (fx 1200), `-200` (fy 200), `199 xx` (xf 200)
and `200 yy` (yf 200); the writer itself gives `a-b-c` for `(a-b)-c` and
`a-(b-c)` for `a-(b-c)`, `a,b,c` for `a,(b,c)` and `(a,b),c` for `(a,b),c`,
`(a=b)=c` and `c=(a=b)` for the two nestings of `=`, `- -a` for `-(-(a))`,
`:- (:-a)` for `:-(:-(a))`, `(a xx)xx` for `xx(xx(a))` and `a yy yy` for
`yy(yy(a))`. -/
theorem operand_priorities :
    (∀ (E : Env) (wt : WT) (functor : Atom) (args : List Term) (ty : OpType) (P prec : Int)
      (o : write_options),
      operatorNotation E o functor args .OP_INFIX ty P →
      ty = .OP_XFX ∨ ty = .OP_XFY ∨ ty = .OP_YFX →
      writeTerm2_operators E wt functor args prec o =
        TRY (if P > prec then onOutN o (PutOpenBrace E o.out) else some (true, o)) fun o1 =>
          TRY (wt (args.getD (args.length - 2) (.atom functor))
                (operandPriority (strictLeft ty) P) o1 W_OP_ARG) fun o2 =>
            TRY (if args.length = 2 then infixSymbol E functor o2
                 else wt (args.getD 0 (.atom functor)) 1200 o2 W_TOP) fun o4 =>
              TRY (wt (args.getD (args.length - 1) (.atom functor))
                    (operandPriority (strictRight ty) P) o4 W_OP_ARG) fun o5 =>
                if P > prec then onOut o5 (PutCloseBrace o5.out) else some (true, o5)) ∧
    (∀ (E : Env) (wt : WT) (functor : Atom) (args : List Term) (ty : OpType) (P prec : Int)
      (o : write_options),
      operatorNotation E o functor args .OP_PREFIX ty P →
      ty = .OP_FX ∨ ty = .OP_FY →
      writeTerm2_operators E wt functor args prec o =
        TRY (if P > prec then onOutN o (PutOpenBrace E o.out) else some (true, o)) fun o1 =>
          TRY (if args.length = 1 then atomStep E functor o1
               else wt (args.getD 0 (.atom functor)) 1200 o1 W_TOP) fun o2 =>
            TRY (wt (args.getD (args.length - 1) (.atom functor))
                  (operandPriority (strictRight ty) P)
                  (prefixMarks E functor o2) W_OP_ARG) fun o5 =>
              if P > prec then onOut o5 (PutCloseBrace o5.out) else some (true, o5)) ∧
    (∀ (E : Env) (wt : WT) (functor : Atom) (args : List Term) (ty : OpType) (P prec : Int)
      (o : write_options),
      operatorNotation E o functor args .OP_POSTFIX ty P →
      ty = .OP_XF ∨ ty = .OP_YF →
      writeTerm2_operators E wt functor args prec o =
        TRY (if P > prec then onOutN o (PutOpenBrace E o.out) else some (true, o)) fun o1 =>
          TRY (wt (args.getD (args.length - 1) (.atom functor))
                (operandPriority (strictLeft ty) P) o1 W_OP_ARG) fun o2 =>
            TRY (if args.length = 1 then atomStep E functor o2
                 else blockAfter E wt functor args o2) fun o4 =>
              if P > prec then onOut o4 (PutCloseBrace o4.out) else some (true, o4)) ∧
    (∀ P : Int,
      operandPriority (strictLeft .OP_XFX) P = P - 1 ∧
      operandPriority (strictLeft .OP_XFY) P = P - 1 ∧
      operandPriority (strictLeft .OP_YFX) P = P ∧
      operandPriority (strictRight .OP_XFX) P = P - 1 ∧
      operandPriority (strictRight .OP_YFX) P = P - 1 ∧
      operandPriority (strictRight .OP_XFY) P = P ∧
      operandPriority (strictRight .OP_FX) P = P - 1 ∧
      operandPriority (strictRight .OP_FY) P = P ∧
      operandPriority (strictLeft .OP_XF) P = P - 1 ∧
      operandPriority (strictLeft .OP_YF) P = P) ∧
    (written (writeTerm2_operators defaultEnv priorityProbe (textAtom ":-")
        [atomTerm "a", atomTerm "b"] 1200 (defaultOptions {})) = some (true, str "1199:-1199") ∧
     written (writeTerm2_operators defaultEnv priorityProbe (textAtom ",")
        [atomTerm "a", atomTerm "b"] 1200 (defaultOptions {})) = some (true, str "999,1000") ∧
     written (writeTerm2_operators defaultEnv priorityProbe (textAtom "-")
        [atomTerm "a", atomTerm "b"] 1200 (defaultOptions {})) = some (true, str "500-499") ∧
     written (writeTerm2_operators defaultEnv priorityProbe (textAtom ":-")
        [atomTerm "a"] 1200 (defaultOptions {})) = some (true, str ":-1199") ∧
     written (writeTerm2_operators defaultEnv priorityProbe (textAtom "-")
        [atomTerm "a"] 1200 (defaultOptions {})) = some (true, str "-200") ∧
     written (writeTerm2_operators defaultEnv priorityProbe (textAtom "xx")
        [atomTerm "a"] 1200 { defaultOptions {} with module := suffixModule }) =
          some (true, str "199 xx") ∧
     written (writeTerm2_operators defaultEnv priorityProbe (textAtom "yy")
        [atomTerm "a"] 1200 { defaultOptions {} with module := suffixModule }) =
          some (true, str "200 yy")) ∧
    (written (writeTerm defaultEnv 5
        (.compound (textAtom "-")
          [.compound (textAtom "-") [atomTerm "a", atomTerm "b"], atomTerm "c"])
        1200 (defaultOptions {}) W_TOP) = some (true, str "a-b-c") ∧
     written (writeTerm defaultEnv 5
        (.compound (textAtom "-")
          [atomTerm "a", .compound (textAtom "-") [atomTerm "b", atomTerm "c"]])
        1200 (defaultOptions {}) W_TOP) = some (true, str "a-(b-c)") ∧
     written (writeTerm defaultEnv 5
        (.compound (textAtom ",")
          [atomTerm "a", .compound (textAtom ",") [atomTerm "b", atomTerm "c"]])
        1200 (defaultOptions {}) W_TOP) = some (true, str "a,b,c") ∧
     written (writeTerm defaultEnv 5
        (.compound (textAtom ",")
          [.compound (textAtom ",") [atomTerm "a", atomTerm "b"], atomTerm "c"])
        1200 (defaultOptions {}) W_TOP) = some (true, str "(a,b),c") ∧
     written (writeTerm defaultEnv 5
        (.compound (textAtom "-") [.compound (textAtom "-") [atomTerm "a"]])
        1200 (defaultOptions {}) W_TOP) = some (true, str "- -a") ∧
     written (writeTerm defaultEnv 5
        (.compound (textAtom ":-") [.compound (textAtom ":-") [atomTerm "a"]])
        1200 (defaultOptions {}) W_TOP) = some (true, str ":- (:-a)") ∧
     written (writeTerm defaultEnv 5
        (.compound (textAtom "xx") [.compound (textAtom "xx") [atomTerm "a"]])
        1200 { defaultOptions {} with module := suffixModule } W_TOP) =
          some (true, str "(a xx)xx") ∧
     written (writeTerm defaultEnv 5
        (.compound (textAtom "yy") [.compound (textAtom "yy") [atomTerm "a"]])
        1200 { defaultOptions {} with module := suffixModule } W_TOP) =
          some (true, str "a yy yy") ∧
     written (writeTerm defaultEnv 5
        (.compound (textAtom "=")
          [.compound (textAtom "=") [atomTerm "a", atomTerm "b"], atomTerm "c"])
        1200 (defaultOptions {}) W_TOP) = some (true, str "(a=b)=c") ∧
     written (writeTerm defaultEnv 5
        (.compound (textAtom "=")
          [atomTerm "c", .compound (textAtom "=") [atomTerm "a", atomTerm "b"]])
        1200 (defaultOptions {}) W_TOP) = some (true, str "c=(a=b)")) := by
  refine ⟨?_, ?_, ?_, ?_, ?_, ?_⟩
  · intro E wt functor args ty P prec o h hty
    rw [writeTerm2_infix_operands E wt functor args ty P prec o h]
    have e1 : (if ty = .OP_XFX || ty = .OP_XFY then P - 1 else P) =
        operandPriority (strictLeft ty) P := by
      rcases hty with h | h | h <;> subst h <;> rfl
    have e2 : (if ty = .OP_XFX || ty = .OP_YFX then P - 1 else P) =
        operandPriority (strictRight ty) P := by
      rcases hty with h | h | h <;> subst h <;> rfl
    unfold writeTerm2_infix_op
    rw [e1, e2, writeTerm2_infix_at_eq]
    simp only [decide_eq_true_eq]
  · intro E wt functor args ty P prec o h hty
    rw [writeTerm2_prefix_operand E wt functor args ty P prec o h]
    have e1 : (if ty = .OP_FX then P - 1 else P) = operandPriority (strictRight ty) P := by
      rcases hty with h | h <;> subst h <;> rfl
    unfold writeTerm2_prefix_op
    rw [e1, writeTerm2_prefix_at_eq]
    simp only [decide_eq_true_eq]
  · intro E wt functor args ty P prec o h hty
    rw [writeTerm2_postfix_operand E wt functor args ty P prec o h]
    have e1 : (if ty = .OP_XF then P - 1 else P) = operandPriority (strictLeft ty) P := by
      rcases hty with h | h <;> subst h <;> rfl
    unfold writeTerm2_postfix_op
    rw [e1, writeTerm2_postfix_at_eq]
    simp only [decide_eq_true_eq]
  · intro P
    exact ⟨rfl, rfl, rfl, rfl, rfl, rfl, rfl, rfl, rfl, rfl⟩
  · exact ⟨by decide!, by decide!, by decide!, by decide!, by decide!, by decide!, by decide!⟩
  · exact ⟨by decide!, by decide!, by decide!, by decide!, by decide!, by decide!, by decide!,
      by decide!, by decide!, by decide!⟩

/-- C2 at `a-b` (yfx, 500: left operand at 500, right operand at 499), at `-a`
(fy, 200: operand at 200) and at `a xx` (xf, 200: operand at 199), written at
maximum priority 1200 by the writer itself. -/
theorem operand_priorities_witness :
    (operatorNotation defaultEnv (defaultOptions {}) (textAtom "-")
        [atomTerm "a", atomTerm "b"] .OP_INFIX .OP_YFX 500 ∧
     operatorNotation defaultEnv (defaultOptions {}) (textAtom "-")
        [atomTerm "a"] .OP_PREFIX .OP_FY 200 ∧
     operatorNotation defaultEnv { defaultOptions {} with module := suffixModule }
        (textAtom "xx") [atomTerm "a"] .OP_POSTFIX .OP_XF 200) ∧
    writeTerm2_operators defaultEnv (writeTerm defaultEnv 3) (textAtom "-")
        [atomTerm "a", atomTerm "b"] 1200 (defaultOptions {}) =
      (TRY (if (500 : Int) > 1200 then
              onOutN (defaultOptions {}) (PutOpenBrace defaultEnv (defaultOptions {}).out)
            else some (true, defaultOptions {})) fun o1 =>
        TRY (writeTerm defaultEnv 3
              (([atomTerm "a", atomTerm "b"] : List Term).getD
                (([atomTerm "a", atomTerm "b"] : List Term).length - 2) (.atom (textAtom "-")))
              (operandPriority (strictLeft .OP_YFX) 500) o1 W_OP_ARG) fun o2 =>
          TRY (if ([atomTerm "a", atomTerm "b"] : List Term).length = 2 then
                 infixSymbol defaultEnv (textAtom "-") o2
               else writeTerm defaultEnv 3
                 (([atomTerm "a", atomTerm "b"] : List Term).getD 0 (.atom (textAtom "-")))
                 1200 o2 W_TOP) fun o4 =>
            TRY (writeTerm defaultEnv 3
                  (([atomTerm "a", atomTerm "b"] : List Term).getD
                    (([atomTerm "a", atomTerm "b"] : List Term).length - 1)
                    (.atom (textAtom "-")))
                  (operandPriority (strictRight .OP_YFX) 500) o4 W_OP_ARG) fun o5 =>
              if (500 : Int) > 1200 then onOut o5 (PutCloseBrace o5.out)
              else some (true, o5)) ∧
    writeTerm2_operators defaultEnv (writeTerm defaultEnv 3) (textAtom "-")
        [atomTerm "a"] 1200 (defaultOptions {}) =
      (TRY (if (200 : Int) > 1200 then
              onOutN (defaultOptions {}) (PutOpenBrace defaultEnv (defaultOptions {}).out)
            else some (true, defaultOptions {})) fun o1 =>
        TRY (if ([atomTerm "a"] : List Term).length = 1 then
               atomStep defaultEnv (textAtom "-") o1
             else writeTerm defaultEnv 3
               (([atomTerm "a"] : List Term).getD 0 (.atom (textAtom "-"))) 1200 o1 W_TOP)
          fun o2 =>
          TRY (writeTerm defaultEnv 3
                (([atomTerm "a"] : List Term).getD (([atomTerm "a"] : List Term).length - 1)
                  (.atom (textAtom "-")))
                (operandPriority (strictRight .OP_FY) 200)
                (prefixMarks defaultEnv (textAtom "-") o2) W_OP_ARG) fun o5 =>
            if (200 : Int) > 1200 then onOut o5 (PutCloseBrace o5.out)
            else some (true, o5)) ∧
    writeTerm2_operators defaultEnv (writeTerm defaultEnv 3) (textAtom "xx")
        [atomTerm "a"] 1200 { defaultOptions {} with module := suffixModule } =
      (TRY (if (200 : Int) > 1200 then
              onOutN { defaultOptions {} with module := suffixModule }
                (PutOpenBrace defaultEnv
                  ({ defaultOptions {} with module := suffixModule } : write_options).out)
            else some (true, { defaultOptions {} with module := suffixModule })) fun o1 =>
        TRY (writeTerm defaultEnv 3
              (([atomTerm "a"] : List Term).getD (([atomTerm "a"] : List Term).length - 1)
                (.atom (textAtom "xx")))
              (operandPriority (strictLeft .OP_XF) 200) o1 W_OP_ARG) fun o2 =>
          TRY (if ([atomTerm "a"] : List Term).length = 1 then
                 atomStep defaultEnv (textAtom "xx") o2
               else blockAfter defaultEnv (writeTerm defaultEnv 3) (textAtom "xx")
                 [atomTerm "a"] o2) fun o4 =>
            if (200 : Int) > 1200 then onOut o4 (PutCloseBrace o4.out)
            else some (true, o4)) ∧
    (written (writeTerm2_operators defaultEnv (writeTerm defaultEnv 3) (textAtom "-")
        [atomTerm "a", atomTerm "b"] 1200 (defaultOptions {})) = some (true, str "a-b") ∧
     written (writeTerm2_operators defaultEnv (writeTerm defaultEnv 3) (textAtom "-")
        [atomTerm "a"] 1200 (defaultOptions {})) = some (true, str "-a") ∧
     written (writeTerm2_operators defaultEnv (writeTerm defaultEnv 3) (textAtom "xx")
        [atomTerm "a"] 1200 { defaultOptions {} with module := suffixModule }) =
          some (true, str "a xx")) :=
  have h1 : operatorNotation defaultEnv (defaultOptions {}) (textAtom "-")
      [atomTerm "a", atomTerm "b"] .OP_INFIX .OP_YFX 500 := by
    unfold operatorNotation
    decide
  have h2 : operatorNotation defaultEnv (defaultOptions {}) (textAtom "-")
      [atomTerm "a"] .OP_PREFIX .OP_FY 200 := by
    unfold operatorNotation
    decide
  have h3 : operatorNotation defaultEnv { defaultOptions {} with module := suffixModule }
      (textAtom "xx") [atomTerm "a"] .OP_POSTFIX .OP_XF 200 := by
    unfold operatorNotation
    decide
  ⟨⟨h1, h2, h3⟩,
    operand_priorities.1 defaultEnv (writeTerm defaultEnv 3) (textAtom "-")
      [atomTerm "a", atomTerm "b"] .OP_YFX 500 1200 (defaultOptions {}) h1
      (Or.inr (Or.inr rfl)),
    operand_priorities.2.1 defaultEnv (writeTerm defaultEnv 3) (textAtom "-")
      [atomTerm "a"] .OP_FY 200 1200 (defaultOptions {}) h2 (Or.inr rfl),
    operand_priorities.2.2.1 defaultEnv (writeTerm defaultEnv 3) (textAtom "xx")
      [atomTerm "a"] .OP_XF 200 1200 { defaultOptions {} with module := suffixModule } h3
      (Or.inl rfl),
    ⟨by decide!, by decide!, by decide!⟩⟩

/-! ## Quoting of atoms -/

theorem Sputcode_eq {c : Nat} {s s1 : IOSTREAM} (h : Sputcode c s = (true, s1)) :
    s1.buffer = s.buffer ++ [c] := by
  have := Sputcode_buffer c s (by rw [h])
  rw [h] at this
  exact this

theorem PutString_buffer : ∀ (t : List Nat) (s : IOSTREAM), (PutString t s).1 = true →
    (PutString t s).2.buffer = s.buffer ++ t := by
  intro t
  induction t with
  | nil => intro s _; simp [PutString]
  | cons c cs ih =>
    intro s h
    unfold PutString at h ⊢
    rcases hp : Sputcode c s with ⟨b, s1⟩
    simp only [hp] at h ⊢
    cases b
    · simp at h
    · simp only at h ⊢
      rw [ih s1 h, Sputcode_eq hp]
      simp

theorem PutString_eq {t : List Nat} {s s1 : IOSTREAM} (h : PutString t s = (true, s1)) :
    s1.buffer = s.buffer ++ t := by
  have := PutString_buffer t s (by rw [h])
  rw [h] at this
  exact this

theorem PutToken_buffer (E : Env) (t : List Nat) (s : IOSTREAM) (h : (PutToken E t s).1 ≠ 0) :
    ∃ sp, (sp = [] ∨ sp = [32]) ∧ (PutToken E t s).2.buffer = s.buffer ++ sp ++ t := by
  unfold PutToken at h ⊢
  cases t with
  | nil => exact ⟨[], Or.inl rfl, by simp⟩
  | cons c cs =>
    simp only at h ⊢
    have ht := PutOpenToken_buffer E (c % 256) s
    rcases hp : PutOpenToken E (c % 256) s with ⟨rc, s1⟩
    simp only [hp] at h ht ⊢
    rcases rc with _ | rc
    · simp at h
    · rcases hq : PutString (c :: cs) s1 with ⟨b, s2⟩
      simp only [hq] at h ⊢
      cases b
      · simp at h
      · refine ⟨if (needSpace E (c % 256) s).1 then [32] else [], ?_, ?_⟩
        · split <;> simp
        · simp only
          rw [PutString_eq hq, ht (by simp)]

theorem putQuoted_buffer (E : Env) (c quote : Nat) (flags : WrtFlags) (s : IOSTREAM)
    (h : (putQuoted E c quote flags s).1 = true) :
    ∃ e, 1 ≤ e.length ∧ (putQuoted E c quote flags s).2.buffer = s.buffer ++ e := by
  unfold putQuoted at h ⊢
  by_cases h1 : flags.PL_WRT_CHARESCAPES = true
  · simp only [h1, if_true] at h ⊢
    split
    · rename_i h2
      simp only [h2, if_true] at h
      exact ⟨[c], by simp, Sputcode_buffer c s h⟩
    · rename_i h2
      simp only [h2, if_false] at h
      rcases hp : Sputcode 92 s with ⟨b, s1⟩
      simp only [Putc, hp] at h ⊢
      cases b
      · simp at h
      · simp only at h ⊢
        refine ⟨92 :: cstr (putQuoted_esc c quote flags), by simp, ?_⟩
        rw [PutString_buffer _ s1 h, Sputcode_eq hp]
        simp
  · simp only [h1, if_false] at h ⊢
    rcases hp : Sputcode c s with ⟨b, s1⟩
    simp only [Putc, Bool.false_eq_true, if_false, hp] at h ⊢
    cases b
    · simp at h
    · simp only at h ⊢
      by_cases hq : c = quote
      · simp only [hq, if_true] at h ⊢
        refine ⟨[quote, quote], by simp, ?_⟩
        rw [Sputcode_buffer quote s1 h, Sputcode_eq hp, hq]
        simp
      · simp only [hq, if_false]
        exact ⟨[c], by simp, Sputcode_eq hp⟩

theorem writeQuoted_loop_buffer (E : Env) (quote : Nat) (flags : WrtFlags) :
    ∀ (text : List Nat) (s : IOSTREAM), (writeQuoted_loop E quote flags text s).1 = true →
      ∃ esc, text.length ≤ esc.length ∧
        (writeQuoted_loop E quote flags text s).2.buffer = s.buffer ++ esc := by
  intro text
  induction text with
  | nil => intro s _; exact ⟨[], by simp, by simp [writeQuoted_loop]⟩
  | cons c cs ih =>
    intro s h
    unfold writeQuoted_loop at h ⊢
    have hq := putQuoted_buffer E c quote flags s
    rcases hp : putQuoted E c quote flags s with ⟨b, s1⟩
    simp only [hp] at h hq ⊢
    cases b
    · simp at h
    · simp only at h ⊢
      obtain ⟨e, he, hb⟩ := hq (by trivial)
      obtain ⟨esc, hl, hb2⟩ := ih s1 h
      refine ⟨e ++ esc, ?_, ?_⟩
      · simp only [List.length_cons, List.length_append]; omega
      · rw [hb2, hb, List.append_assoc]

theorem cstr_length_le (b : List Nat) : (cstr b).length ≤ b.length := by
  unfold cstr
  exact (List.takeWhile_sublist _).length_le

theorem writeAtom_text (E : Env) (a : Atom) (o : write_options) (ha : a.type = .text) :
    writeAtom E a o = ((writeAtom_plain E a o).1, { o with out := (writeAtom_plain E a o).2 }) := by
  unfold writeAtom
  have ht : a.isText = true := by unfold Atom.isText; rw [ha]
  simp [ht]

/-- The atom is written without quotes: its text follows what was written
before, after at most one separating space. -/
def writtenUnquoted (a : Atom) (before after : IOSTREAM) : Prop :=
  ∃ sp, (sp = [] ∨ sp = [32]) ∧ after.buffer = before.buffer ++ sp ++ cstr a.name

/-- The atom is written in single quotes: after at most one separating space
come a quote, the characters `writeQuoted()` produces for the text of the atom
(at least one for each character of the text) and a quote. -/
def writtenQuoted (E : Env) (a : Atom) (o : write_options) (after : IOSTREAM) : Prop :=
  ∃ sp esc s1, (sp = [] ∨ sp = [32]) ∧ a.name.length ≤ esc.length ∧
    (writeQuoted_loop E 39 o.flags a.name s1).1 = true ∧
    (writeQuoted_loop E 39 o.flags a.name s1).2.buffer = s1.buffer ++ esc ∧
    after.buffer = o.out.buffer ++ sp ++ [39] ++ esc ++ [39]

theorem writeAtom_plain_unquoted (E : Env) (a : Atom) (o : write_options)
    (ha : a.type = .text) (hq : o.flags.PL_WRT_QUOTED = true)
    (hok : (writeAtom_plain E a o).1 ≠ 0)
    (hty : atomType E a (some o) = AT_LOWER ∨ atomType E a (some o) = AT_SYMBOL ∨
      atomType E a (some o) = AT_SOLO ∨ atomType E a (some o) = AT_SPECIAL) :
    writtenUnquoted a o.out (writeAtom_plain E a o).2 := by
  unfold writeAtom_plain at hok ⊢
  have hc : (decide (atomType E a (some o) = AT_LOWER) ||
      decide (atomType E a (some o) = AT_SYMBOL) ||
      decide (atomType E a (some o) = AT_SOLO) ||
      decide (atomType E a (some o) = AT_SPECIAL)) = true := by
    rcases hty with h | h | h | h <;> simp [h]
  simp only [ha, hq, if_true, hc] at hok ⊢
  exact PutToken_buffer E _ _ hok

theorem writeAtom_plain_quoted (E : Env) (a : Atom) (o : write_options)
    (ha : a.type = .text) (hq : o.flags.PL_WRT_QUOTED = true)
    (hok : (writeAtom_plain E a o).1 ≠ 0)
    (hty : ¬(atomType E a (some o) = AT_LOWER ∨ atomType E a (some o) = AT_SYMBOL ∨
      atomType E a (some o) = AT_SOLO ∨ atomType E a (some o) = AT_SPECIAL)) :
    writtenQuoted E a o (writeAtom_plain E a o).2 := by
  unfold writeAtom_plain at hok ⊢
  have hc : (decide (atomType E a (some o) = AT_LOWER) ||
      decide (atomType E a (some o) = AT_SYMBOL) ||
      decide (atomType E a (some o) = AT_SOLO) ||
      decide (atomType E a (some o) = AT_SPECIAL)) = false := by
    simp only [not_or] at hty
    obtain ⟨h1, h2, h3, h4⟩ := hty
    simp [h1, h2, h3, h4]
  simp only [ha, hq, if_true, hc, Bool.false_eq_true, if_false] at hok ⊢
  have ht := PutOpenToken_buffer E 39 o.out
  rcases hp : PutOpenToken E 39 o.out with ⟨rc, s1⟩
  simp only [hp] at hok ht ⊢
  rcases rc with _ | rc
  · simp at hok
  · simp only [writeQuoted] at hok ⊢
    rcases h1 : Putc 39 s1 with ⟨b1, s2⟩
    simp only [h1] at hok ⊢
    cases b1
    · simp at hok
    · have hl := writeQuoted_loop_buffer E 39 o.flags a.name s2
      rcases h2 : writeQuoted_loop E 39 o.flags a.name s2 with ⟨b2, s3⟩
      simp only [h2] at hok hl ⊢
      cases b2
      · simp at hok
      · rcases h3 : Putc 39 s3 with ⟨b3, s4⟩
        simp only [h3] at hok ⊢
        cases b3
        · simp at hok
        · obtain ⟨esc, hlen, hb⟩ := hl (by trivial)
          refine ⟨if (needSpace E 39 o.out).1 then [32] else [], esc, s2, ?_, hlen, ?_, ?_, ?_⟩
          · split <;> simp
          · rw [h2]
          · rw [h2]; exact hb
          · simp only
            unfold Putc at h1 h3
            rw [Sputcode_eq h3, hb, Sputcode_eq h1, ht (by simp)]

theorem writtenQuoted_not_unquoted (E : Env) (a : Atom) (o : write_options) (after : IOSTREAM)
    (h : writtenQuoted E a o after) : ¬writtenUnquoted a o.out after := by
  obtain ⟨sp, esc, s1, hsp, hlen, _, _, hb⟩ := h
  rintro ⟨sp2, hsp2, hb2⟩
  have h1 := congrArg List.length hb
  have h2 := congrArg List.length hb2
  have h3 := cstr_length_le a.name
  have h4 : sp2.length ≤ 1 := by rcases hsp2 with h | h <;> simp [h]
  simp only [List.length_append, List.length_cons, List.length_nil] at h1 h2
  omega

/-- C5. With `+` and `*` infix yfx of priority 500 and 400 and a freshly reset
stream, `+(a, *(b, c))` written at priority 1200 gives exactly `a+b*c`, and
`*(+(a, b), c)` gives exactly `(a+b)*c`, in unquoted as well as in quoted
mode. -/
theorem write_a_plus_b_times_c :
    userModule.currentOperator (textAtom "+") .OP_INFIX = some (.OP_YFX, 500) ∧
    userModule.currentOperator (textAtom "*") .OP_INFIX = some (.OP_YFX, 400) ∧
    freshStream.lastc = EOF ∧
    written (writeTerm defaultEnv 4
      (.compound (textAtom "+")
        [atomTerm "a", .compound (textAtom "*") [atomTerm "b", atomTerm "c"]])
      1200 (defaultOptions {}) W_TOP) = some (true, str "a+b*c") ∧
    written (writeTerm defaultEnv 4
      (.compound (textAtom "*")
        [.compound (textAtom "+") [atomTerm "a", atomTerm "b"], atomTerm "c"])
      1200 (defaultOptions {}) W_TOP) = some (true, str "(a+b)*c") ∧
    written (writeTerm defaultEnv 4
      (.compound (textAtom "+")
        [atomTerm "a", .compound (textAtom "*") [atomTerm "b", atomTerm "c"]])
      1200 (defaultOptions { PL_WRT_QUOTED := true, PL_WRT_NUMBERVARS := true }) W_TOP) =
        some (true, str "a+b*c") ∧
    written (writeTerm defaultEnv 4
      (.compound (textAtom "*")
        [.compound (textAtom "+") [atomTerm "a", atomTerm "b"], atomTerm "c"])
      1200 (defaultOptions { PL_WRT_QUOTED := true, PL_WRT_NUMBERVARS := true }) W_TOP) =
        some (true, str "(a+b)*c") := by
  refine ⟨by decide, by decide, rfl, by decide!, by decide!, by decide!, by decide!⟩

/-! ## Lists in bracket notation -/

/-- The text of a list after the opening bracket, as a sequence of steps: the
element `e` at maximum priority 999; then, while elements are left, a comma and
the next element; at the end `]` when the tail is the empty list, and otherwise
`|`, the tail at maximum priority 999 and `]`.  The depth counter goes up by one
after each element that is not followed by the empty list. -/
def bracketText (E : Env) (wt : WT) : Term → List Term → Term → write_options →
    Option (Bool × write_options)
  | e, [], tail, o =>
    TRY (wt e 999 o W_TOP) fun o1 =>
      if PL_get_nil E (deRef o1.ld tail) then onOut o1 (Putc 93 o1.out)
      else
        TRY (onOut { o1 with depth := o1.depth + 1 } (Putc 124 o1.out)) fun o3 =>
          TRY (wt (deRef o1.ld tail) 999 o3 W_TOP) fun o4 =>
            onOut o4 (Putc 93 o4.out)
  | e, e2 :: rest, tail, o =>
    TRY (wt e 999 o W_TOP) fun o1 =>
      TRY (onOut { o1 with depth := o1.depth + 1 }
            (PutComma E { o1 with depth := o1.depth + 1 })) fun o3 =>
        bracketText E wt e2 rest tail o3

theorem deRef_compound (ld : PL_local_data) (f : Atom) (args : List Term) :
    deRef ld (.compound f args) = .compound f args := by
  unfold deRef
  rfl

theorem deRef_config {o o1 : write_options} (h : config o1 = config o) (t : Term) :
    deRef o1.ld t = deRef o.ld t := by
  simp only [config, ldconfig, Prod.mk.injEq] at h
  unfold deRef
  rw [h.2.2.2.2.2.1]

theorem max_depth_config {o o1 : write_options} (h : config o1 = config o) :
    o1.max_depth = o.max_depth := by
  simp only [config, Prod.mk.injEq] at h
  exact h.2.1

theorem TRY_congr {o : write_options} {r : Option (Bool × write_options)}
    {k k1 : write_options → Option (Bool × write_options)} (hr : Frames o r)
    (hk : ∀ o1, config o1 = config o → k o1 = k1 o1) : TRY r k = TRY r k1 := by
  unfold TRY
  rcases r with _ | ⟨b, o1⟩
  · rfl
  · cases b
    · rfl
    · exact hk o1 (hr (true, o1) rfl)

theorem writeList_bracket_eq (E : Env) (wt : WT) (hwt : WT.Frames wt) (tail : Term) :
    ∀ (es : List Term) (e : Term) (fuel : Nat) (o : write_options),
      es.length < fuel → o.max_depth = 0 →
      PL_is_functor (deRef o.ld tail) E.ATOM_dot 2 = false →
      writeList_bracket E wt fuel (mkList E (e :: es) tail) o = bracketText E wt e es tail o := by
  intro es
  induction es with
  | nil =>
    intro e fuel o hf hm ht
    obtain ⟨n, rfl⟩ : ∃ n, fuel = n + 1 := ⟨fuel - 1, by simp at hf; omega⟩
    unfold writeList_bracket bracketText
    simp only [mkList, List.foldr, deRef_compound]
    apply TRY_congr (hwt e 999 o W_TOP)
    intro o1 hc
    have hmd : o1.max_depth = 0 := by rw [max_depth_config hc, hm]
    have hcond : ∀ d : Int, (decide (d ≥ o1.max_depth) && (o1.max_depth != 0)) = false := by
      intro d; simp [hmd]
    have ht1 : PL_is_functor (deRef o1.ld tail) E.ATOM_dot 2 = false := by
      rw [deRef_config hc]; exact ht
    simp only [hcond, ht1, Bool.false_eq_true, if_false, Bool.not_false, if_true]
  | cons e2 rest ih =>
    intro e fuel o hf hm ht
    obtain ⟨n, rfl⟩ : ∃ n, fuel = n + 1 := ⟨fuel - 1, by simp at hf; omega⟩
    unfold writeList_bracket bracketText
    simp only [mkList, List.foldr, deRef_compound]
    apply TRY_congr (hwt e 999 o W_TOP)
    intro o1 hc
    have hmd : o1.max_depth = 0 := by rw [max_depth_config hc, hm]
    have hcond : ∀ d : Int, (decide (d ≥ o1.max_depth) && (o1.max_depth != 0)) = false := by
      intro d; simp [hmd]
    have hnil : ∀ x : Term, PL_get_nil E (Term.compound E.ATOM_dot [e2, x]) = false := by
      intro x; rfl
    have hdot : ∀ x : Term, PL_is_functor (Term.compound E.ATOM_dot [e2, x]) E.ATOM_dot 2 = true := by
      intro x; simp [PL_is_functor]
    simp only [hcond, hnil, hdot, Bool.false_eq_true, if_false, Bool.not_true]
    apply TRY_congr (o := { o1 with depth := o1.depth + 1 }) (Frames_onOut _ _)
    intro o3 h3
    have := ih e2 n o3 (by simp at hf; omega)
      (by rw [max_depth_config h3]; exact hmd)
      (by rw [deRef_config h3]
          show PL_is_functor (deRef o1.ld tail) E.ATOM_dot 2 = false
          rw [deRef_config hc]; exact ht)
    simpa [mkList] using this

/-- C6. In bracket-list mode without depth limit, a list with the elements
`e :: es` whose spine ends in `tail` (not a list cell) is written as `[`, the
elements in turn, each by `writeTerm()` at maximum priority 999 and separated by
the comma of `PutComma()`, then `]` when `tail` is the empty list and `|`, the
tail at maximum priority 999 and `]` otherwise.  `[1,2,3]` gives `[1,2,3]` and
`[1,2|X]` with `X` unbound gives `[1,2|`, the name of `X` and `]`. -/
theorem writeList_bracket_form :
    (∀ (E : Env) (wt : WT) (e : Term) (es : List Term) (tail : Term) (fuel : Nat)
        (o : write_options),
      WT.Frames wt →
      o.flags.PL_WRT_DOTLISTS = false → o.flags.PL_WRT_NO_LISTS = false →
      o.max_depth = 0 →
      PL_is_functor (deRef o.ld tail) E.ATOM_dot 2 = false →
      es.length < fuel →
      writeList E wt fuel (mkList E (e :: es) tail) o =
        TRY (onOut o (Putc 91 o.out)) fun o1 => bracketText E wt e es tail o1) ∧
    written (writeTerm defaultEnv 5
      (mkList defaultEnv [.integer 1, .integer 2, .integer 3] (.atom defaultEnv.ATOM_nil))
      1200 (defaultOptions {}) W_TOP) = some (true, str "[1,2,3]") ∧
    written (writeTerm defaultEnv 5
      (mkList defaultEnv [.integer 1, .integer 2] (.var 17))
      1200 (defaultOptions {}) W_TOP) =
        some (true, str "[1,2|" ++ varName freshLD (.var 17) ++ str "]") := by
  refine ⟨?_, by decide!, by decide!⟩
  intro E wt e es tail fuel o hwt hd hn hm ht hf
  unfold writeList
  simp only [hd, hn, Bool.or_self, Bool.not_false, if_true]
  apply TRY_congr (Frames_onOut _ _)
  intro o1 h1
  exact writeList_bracket_eq E wt hwt tail es e fuel o1 hf
    (by rw [max_depth_config h1]; exact hm)
    (by rw [deRef_config h1]; exact ht)

/-- C6 at the list `[a,b|c]`. -/
theorem writeList_bracket_form_witness :
    WT.Frames (writeTerm defaultEnv 3) ∧
    (defaultOptions {}).flags.PL_WRT_DOTLISTS = false ∧
    (defaultOptions {}).flags.PL_WRT_NO_LISTS = false ∧
    (defaultOptions {}).max_depth = 0 ∧
    PL_is_functor (deRef (defaultOptions {}).ld (atomTerm "c")) defaultEnv.ATOM_dot 2 = false ∧
    [atomTerm "b"].length < 3 ∧
    writeList defaultEnv (writeTerm defaultEnv 3) 3
        (mkList defaultEnv [atomTerm "a", atomTerm "b"] (atomTerm "c")) (defaultOptions {}) =
      (TRY (onOut (defaultOptions {}) (Putc 91 (defaultOptions {}).out)) fun o1 =>
        bracketText defaultEnv (writeTerm defaultEnv 3) (atomTerm "a") [atomTerm "b"]
          (atomTerm "c") o1) ∧
    written (writeList defaultEnv (writeTerm defaultEnv 3) 3
        (mkList defaultEnv [atomTerm "a", atomTerm "b"] (atomTerm "c")) (defaultOptions {})) =
      some (true, str "[a,b|c]") :=
  ⟨Frames_writeTerm defaultEnv 3, rfl, rfl, rfl, by decide, by decide,
    writeList_bracket_form.1 defaultEnv (writeTerm defaultEnv 3) (atomTerm "a") [atomTerm "b"]
      (atomTerm "c") 3 (defaultOptions {}) (Frames_writeTerm defaultEnv 3) rfl rfl rfl
      (by decide) (by decide),
    by decide!⟩

/-! ## Canonical compound terms -/

/-- The arguments of a compound term in turn, each by `writeTerm()` at maximum
priority 999 with location flag 0 (not an operand), separated by the comma of
`PutComma()`. -/
def argumentsText (E : Env) (wt : WT) : List Term → write_options →
    Option (Bool × write_options)
  | [], o => some (true, o)
  | [a], o => wt a 999 o W_TOP
  | a :: b :: rest, o =>
    TRY (wt a 999 o W_TOP) fun o1 =>
      TRY (onOut o1 (PutComma E o1)) fun o2 => argumentsText E wt (b :: rest) o2

/-- The canonical form: the functor by `writeAtom()`, `(`, the arguments and
`)`. -/
def canonicalText (E : Env) (wt : WT) (functor : Atom) (args : List Term)
    (o : write_options) : Option (Bool × write_options) :=
  TRY (atomStep E functor o) fun o1 =>
    TRY (onOut o1 (Putc 40 o1.out)) fun o2 =>
      TRY (argumentsText E wt args o2) fun o3 => onOut o3 (Putc 41 o3.out)

theorem writeTerm2_args_succ (E : Env) (wt : WT) :
    ∀ (args : List Term) (a : Term) (n : Nat) (o : write_options),
      writeTerm2_args E wt (n + 1) (a :: args) o =
        TRY (onOut o (PutComma E o)) fun o1 => argumentsText E wt (a :: args) o1 := by
  intro args
  induction args with
  | nil =>
    intro a n o
    simp only [writeTerm2_args, argumentsText, Nat.succ_pos, if_true, gt_iff_lt, TRY_pure,
      Nat.zero_lt_succ]
  | cons b rest ih =>
    intro a n o
    unfold writeTerm2_args argumentsText
    simp only [gt_iff_lt, Nat.zero_lt_succ, if_true, ih]

theorem writeTerm2_args_zero (E : Env) (wt : WT) (args : List Term) (o : write_options) :
    writeTerm2_args E wt 0 args o = argumentsText E wt args o := by
  cases args with
  | nil => rfl
  | cons a rest =>
    cases rest with
    | nil =>
      simp only [writeTerm2_args, argumentsText, gt_iff_lt, Nat.lt_irrefl, if_false, TRY_true,
        TRY_pure]
    | cons b rest =>
      unfold writeTerm2_args argumentsText
      simp only [gt_iff_lt, Nat.lt_irrefl, if_false, TRY_true, Nat.zero_add,
        writeTerm2_args_succ]

theorem writeTerm2_canonical_eq (E : Env) (wt : WT) (functor : Atom) (args : List Term)
    (o : write_options) :
    writeTerm2_canonical E wt functor args o = canonicalText E wt functor args o := by
  unfold writeTerm2_canonical canonicalText
  simp only [writeTerm2_args_zero]

/-- No operator notation applies to the term: operators are ignored, or the
lookups of `writeTerm2()` for its arity all fail. -/
def noOperatorNotation (E : Env) (o : write_options) (functor : Atom) (args : List Term) :
    Prop :=
  o.flags.PL_WRT_IGNOREOPS = true ∨
  (((args.length = 1 ∨ (args.length = 2 ∧ isBlockOp E o.ld args functor = true)) →
      o.module.currentOperator functor .OP_PREFIX = none ∧
      o.module.currentOperator functor .OP_POSTFIX = none) ∧
   (¬(args.length = 1 ∨ (args.length = 2 ∧ isBlockOp E o.ld args functor = true)) →
    (args.length = 2 ∨ (args.length = 3 ∧ isBlockOp E o.ld args functor = true)) →
      o.module.currentOperator functor .OP_INFIX = none))

theorem writeTerm2_operators_none (E : Env) (wt : WT) (functor : Atom) (args : List Term)
    (prec : Int) (o : write_options) (h : noOperatorNotation E o functor args) :
    writeTerm2_operators E wt functor args prec o =
      writeTerm2_canonical E wt functor args o := by
  unfold writeTerm2_operators
  rcases h with h | ⟨h1, h2⟩
  · simp [h]
  · simp only
    split
    · split
      · rename_i hc
        simp only [Bool.or_eq_true, Bool.and_eq_true, decide_eq_true_eq] at hc
        obtain ⟨hp, hq⟩ := h1 hc
        simp only [hp, hq]
      · rename_i hc
        simp only [Bool.or_eq_true, Bool.and_eq_true, decide_eq_true_eq] at hc
        split
        · rename_i hc2
          simp only [Bool.or_eq_true, Bool.and_eq_true, decide_eq_true_eq] at hc2
          simp only [h2 hc hc2]
        · rfl
    · rfl

theorem writeTerm2_compound_canonical (E : Env) (wt : WT) (fuel : Nat) (functor : Atom)
    (args : List Term) (prec : Int) (o : write_options)
    (hnv : (o.flags.PL_WRT_NUMBERVARS || o.flags.PL_WRT_VARNAMES) = false ∨
      writeNumberVar E (.compound functor args) o = (0, o))
    (hcurl : ¬(o.flags.PL_WRT_BRACETERMS = false ∧ functor = E.ATOM_curl ∧ args.length = 1))
    (hlist : ¬(functor = E.ATOM_dot ∧ args.length = 2))
    (hdict : ¬(o.flags.PL_WRT_NODICT = false ∧ functor = E.ATOM_dict ∧
      E.PL_is_dict (.compound functor args) = true))
    (hop : noOperatorNotation E o functor args) :
    writeTerm2_compound E wt fuel (.compound functor args) functor args prec o =
      canonicalText E wt functor args o := by
  unfold writeTerm2_compound
  have hnv2 : (if (o.flags.PL_WRT_NUMBERVARS || o.flags.PL_WRT_VARNAMES) = true then
      writeNumberVar E (.compound functor args) o else (0, o)) = (0, o) := by
    rcases hnv with h | h
    · simp [h]
    · split
      · exact h
      · rfl
  simp only [hnv2]
  have h1 : (!o.flags.PL_WRT_BRACETERMS && decide (functor = E.ATOM_curl) &&
      decide (args.length = 1)) = false := by
    rcases hb : (!o.flags.PL_WRT_BRACETERMS && decide (functor = E.ATOM_curl) &&
      decide (args.length = 1)) with _ | _
    · rfl
    · exfalso
      apply hcurl
      simp only [Bool.and_eq_true, Bool.not_eq_true', decide_eq_true_eq] at hb
      exact ⟨hb.1.1, hb.1.2, hb.2⟩
  have h2 : (decide (functor = E.ATOM_dot) && decide (args.length = 2)) = false := by
    rcases hb : (decide (functor = E.ATOM_dot) && decide (args.length = 2)) with _ | _
    · rfl
    · exfalso
      apply hlist
      simp only [Bool.and_eq_true, decide_eq_true_eq] at hb
      exact hb
  have h3 : (!o.flags.PL_WRT_NODICT && decide (functor = E.ATOM_dict) &&
      E.PL_is_dict (.compound functor args)) = false := by
    rcases hb : (!o.flags.PL_WRT_NODICT && decide (functor = E.ATOM_dict) &&
      E.PL_is_dict (.compound functor args)) with _ | _
    · rfl
    · exfalso
      apply hdict
      simp only [Bool.and_eq_true, Bool.not_eq_true', decide_eq_true_eq] at hb
      exact ⟨hb.1.1, hb.1.2, hb.2⟩
  simp only [h1, h2, h3, Bool.false_eq_true, if_false]
  rw [writeTerm2_operators_none E wt functor args prec o hop, writeTerm2_canonical_eq]

/-- C7. A compound term that is neither taken by the portray hook nor written
as a numbered variable, brace term, list, dict or operator term (no operator
term at all when `ignore_ops` is set) is written as the functor, `(`, the
arguments separated by commas and `)`; each argument is written by `writeTerm()`
at maximum priority 999 with location flag 0, so a comma term as argument comes
out in parentheses, as in `f((a,b))`.  The options `o1` are those the dispatch
runs with: `o` itself when portray is off, and what the declining hook has left
otherwise. -/
theorem canonical_compound_form :
    (∀ (E : Env) (wt : WT) (fuel : Nat) (functor : Atom) (args : List Term) (prec : Int)
        (o o1 : write_options) (flags : Nat),
      (o.flags.PL_WRT_PORTRAY = false ∧ o1 = o ∨
        o.flags.PL_WRT_PORTRAY = true ∧
          callPortray E (.compound functor args) prec o = (0, o1)) →
      ((o1.flags.PL_WRT_NUMBERVARS || o1.flags.PL_WRT_VARNAMES) = false ∨
        writeNumberVar E (.compound functor args) o1 = (0, o1)) →
      ¬(o1.flags.PL_WRT_BRACETERMS = false ∧ functor = E.ATOM_curl ∧ args.length = 1) →
      ¬(functor = E.ATOM_dot ∧ args.length = 2) →
      ¬(o1.flags.PL_WRT_NODICT = false ∧ functor = E.ATOM_dict ∧
        E.PL_is_dict (.compound functor args) = true) →
      noOperatorNotation E o1 functor args →
      writeTerm2 E wt fuel (.compound functor args) prec o flags =
        canonicalText E wt functor args o1) ∧
    written (writeTerm defaultEnv 5
      (.compound (textAtom "f") [.compound (textAtom ",") [atomTerm "a", atomTerm "b"]])
      1200 (defaultOptions {}) W_TOP) = some (true, str "f((a,b))") ∧
    written (writeTerm defaultEnv 5
      (.compound (textAtom "+") [atomTerm "a", .compound (textAtom "*")
        [atomTerm "b", atomTerm "c"]])
      1200 (defaultOptions { PL_WRT_IGNOREOPS := true }) W_TOP) =
        some (true, str "+(a,*(b,c))") := by
  refine ⟨?_, by decide!, by decide!⟩
  intro E wt fuel functor args prec o o1 flags hp hnv hcurl hlist hdict hop
  unfold writeTerm2
  rcases hp with ⟨hp, rfl⟩ | ⟨hp, hc⟩
  · simp only [deRef_compound, PL_is_variable, hp, Bool.and_false, Bool.false_eq_true,
      if_false]
    unfold writeTerm2_atom writeTerm2_rest
    exact writeTerm2_compound_canonical E wt fuel functor args prec o1 hnv hcurl hlist hdict hop
  · simp only [deRef_compound, PL_is_variable, hp, hc, Bool.not_false, Bool.and_self, if_true]
    unfold writeTerm2_atom writeTerm2_rest
    exact writeTerm2_compound_canonical E wt fuel functor args prec o1 hnv hcurl hlist hdict hop

/-- C7 at `f(a,b)` written with the default options, and with portray switched
on where a hook is defined that declines every term. -/
theorem canonical_compound_form_witness :
    noOperatorNotation defaultEnv (defaultOptions {}) (textAtom "f")
      [atomTerm "a", atomTerm "b"] ∧
    writeTerm2 defaultEnv (writeTerm defaultEnv 3) 3
        (.compound (textAtom "f") [atomTerm "a", atomTerm "b"]) 1200 (defaultOptions {}) W_TOP =
      canonicalText defaultEnv (writeTerm defaultEnv 3) (textAtom "f")
        [atomTerm "a", atomTerm "b"] (defaultOptions {}) ∧
    written (canonicalText defaultEnv (writeTerm defaultEnv 3) (textAtom "f")
        [atomTerm "a", atomTerm "b"] (defaultOptions {})) = some (true, str "f(a,b)") ∧
    writeTerm2 { defaultEnv with portray_defined := true }
        (writeTerm { defaultEnv with portray_defined := true } 3) 3
        (.compound (textAtom "f") [atomTerm "a", atomTerm "b"]) 1200
        (defaultOptions { PL_WRT_PORTRAY := true }) W_TOP =
      canonicalText { defaultEnv with portray_defined := true }
        (writeTerm { defaultEnv with portray_defined := true } 3) (textAtom "f")
        [atomTerm "a", atomTerm "b"]
        (callPortray { defaultEnv with portray_defined := true }
          (.compound (textAtom "f") [atomTerm "a", atomTerm "b"]) 1200
          (defaultOptions { PL_WRT_PORTRAY := true })).2 :=
  have hop : noOperatorNotation defaultEnv (defaultOptions {}) (textAtom "f")
      [atomTerm "a", atomTerm "b"] := by
    unfold noOperatorNotation
    decide
  have hop1 : noOperatorNotation { defaultEnv with portray_defined := true }
      (callPortray { defaultEnv with portray_defined := true }
        (.compound (textAtom "f") [atomTerm "a", atomTerm "b"]) 1200
        (defaultOptions { PL_WRT_PORTRAY := true })).2 (textAtom "f")
      [atomTerm "a", atomTerm "b"] := by
    unfold noOperatorNotation
    decide
  ⟨hop,
    canonical_compound_form.1 defaultEnv (writeTerm defaultEnv 3) 3 (textAtom "f")
      [atomTerm "a", atomTerm "b"] 1200 (defaultOptions {}) (defaultOptions {}) W_TOP
      (Or.inl ⟨rfl, rfl⟩) (Or.inl rfl) (by decide) (by decide) (by decide) hop,
    by decide!,
    canonical_compound_form.1 { defaultEnv with portray_defined := true }
      (writeTerm { defaultEnv with portray_defined := true } 3) 3 (textAtom "f")
      [atomTerm "a", atomTerm "b"] 1200 (defaultOptions { PL_WRT_PORTRAY := true }) _ W_TOP
      (Or.inr ⟨rfl, rfl⟩) (Or.inl rfl) (by decide) (by decide) (by decide) hop1⟩

/-! ## The depth counter -/

/-- C9. Whatever `writeTerm()` returns (success, failure of a nested write, an
interrupt seen at entry, or the depth cut-off) and whatever the term, the depth
counter of the options has on return the value it had on entry. -/
theorem writeTerm_depth_restored (E : Env) (fuel : Nat) (t : Term) (prec : Int)
    (o : write_options) (flags : Nat) (r : Bool × write_options)
    (h : writeTerm E fuel t prec o flags = some r) : r.2.depth = o.depth := by
  cases fuel with
  | zero => simp [writeTerm] at h
  | succ n =>
    unfold writeTerm at h
    simp only at h
    split at h
    · cases h; rfl
    · split at h
      · cases h; rfl
      · split at h
        · cases h
        · cases h; rfl

/-- C9 at the list `[1,2,3]` (whose renderer moves the counter), written with
success, and written to a stream that accepts two characters only, which
fails. -/
theorem writeTerm_depth_restored_witness :
    written (writeTerm defaultEnv 5
        (mkList defaultEnv [.integer 1, .integer 2, .integer 3] (.atom defaultEnv.ATOM_nil))
        1200 (defaultOptions {}) W_TOP) = some (true, str "[1,2,3]") ∧
    (∃ r, writeTerm defaultEnv 5
        (mkList defaultEnv [.integer 1, .integer 2, .integer 3] (.atom defaultEnv.ATOM_nil))
        1200 (defaultOptions {}) W_TOP = some r ∧ r.2.depth = (defaultOptions {}).depth) ∧
    written (writeTerm defaultEnv 5
        (mkList defaultEnv [.integer 1, .integer 2, .integer 3] (.atom defaultEnv.ATOM_nil))
        1200 { defaultOptions {} with out := { freshStream with room := some 2 }, depth := 7 }
        W_TOP) = some (false, str "[1") ∧
    (∃ r, writeTerm defaultEnv 5
        (mkList defaultEnv [.integer 1, .integer 2, .integer 3] (.atom defaultEnv.ATOM_nil))
        1200 { defaultOptions {} with out := { freshStream with room := some 2 }, depth := 7 }
        W_TOP = some r ∧ r.2.depth = 7) :=
  have h1 : (writeTerm defaultEnv 5
        (mkList defaultEnv [.integer 1, .integer 2, .integer 3] (.atom defaultEnv.ATOM_nil))
        1200 (defaultOptions {}) W_TOP).isSome = true := by decide!
  have h2 : (writeTerm defaultEnv 5
        (mkList defaultEnv [.integer 1, .integer 2, .integer 3] (.atom defaultEnv.ATOM_nil))
        1200 { defaultOptions {} with out := { freshStream with room := some 2 }, depth := 7 }
        W_TOP).isSome = true := by decide!
  ⟨by decide!,
   ⟨_, (Option.some_get h1).symm,
     writeTerm_depth_restored _ _ _ _ _ _ _ (Option.some_get h1).symm⟩,
   by decide!,
   ⟨_, (Option.some_get h2).symm,
     writeTerm_depth_restored _ _ _ _ _ _ _ (Option.some_get h2).symm⟩⟩

theorem writeTerm_depth (E : Env) (fuel : Nat) (t : Term) (prec : Int)
    (o : write_options) (flags : Nat) (r : Bool × write_options)
    (h : writeTerm E fuel t prec o flags = some r) : r.2.depth = o.depth := by
  cases fuel with
  | zero => simp [writeTerm] at h
  | succ n =>
    unfold writeTerm at h
    simp only at h
    split at h
    · cases h; rfl
    · split at h
      · cases h; rfl
      · split at h
        · cases h
        · cases h; rfl

theorem TRY_congr_of {P : write_options → Prop} {r : Option (Bool × write_options)}
    {k k1 : write_options → Option (Bool × write_options)}
    (hr : ∀ x, r = some x → P x.2) (hk : ∀ o1, P o1 → k o1 = k1 o1) : TRY r k = TRY r k1 := by
  unfold TRY
  rcases r with _ | ⟨b, o1⟩
  · rfl
  · cases b
    · rfl
    · exact hk o1 (hr (true, o1) rfl)

theorem callPortray_depth (E : Env) (arg : Term) (prec : Int) (o : write_options) :
    (callPortray E arg prec o).2.depth = o.depth := by
  unfold callPortray
  repeat' split
  all_goals rfl

theorem writeAtom_depth (E : Env) (a : Atom) (o : write_options) :
    (writeAtom E a o).2.depth = o.depth := by
  have h := callPortray_depth E (.atom a) 1200 o
  unfold writeAtom
  repeat' split
  all_goals simp_all

theorem argumentsText_depth_congr (E : Env) (n : Nat) (wt' : WT) (d : Int)
    (hwt : ∀ t p o' f, o'.depth = d → wt' t p o' f = writeTerm E n t p o' f) :
    ∀ (args : List Term) (o : write_options), o.depth = d →
      argumentsText E wt' args o = argumentsText E (writeTerm E n) args o := by
  intro args
  induction args with
  | nil => intro o _; rfl
  | cons a rest ih =>
    intro o hd
    cases rest with
    | nil => exact hwt a 999 o W_TOP hd
    | cons b rest =>
      unfold argumentsText
      rw [hwt a 999 o W_TOP hd]
      apply TRY_congr_of (P := fun o1 => o1.depth = d)
      · intro x hx
        rw [writeTerm_depth E n a 999 o W_TOP x hx, hd]
      · intro o1 h1
        apply TRY_congr_of (P := fun o2 => o2.depth = d)
        · intro x hx
          unfold onOut at hx
          cases hx
          exact h1
        · intro o2 h2
          exact ih o2 h2

theorem canonicalText_depth_congr (E : Env) (n : Nat) (wt' : WT) (functor : Atom)
    (args : List Term) (o : write_options)
    (hwt : ∀ t p o' f, o'.depth = o.depth → wt' t p o' f = writeTerm E n t p o' f) :
    canonicalText E wt' functor args o = canonicalText E (writeTerm E n) functor args o := by
  unfold canonicalText
  apply TRY_congr_of (P := fun o1 => o1.depth = o.depth)
  · intro x hx
    unfold atomStep at hx
    cases hx
    exact writeAtom_depth E functor o
  · intro o1 h1
    apply TRY_congr_of (P := fun o2 => o2.depth = o.depth)
    · intro x hx
      unfold onOut at hx
      cases hx
      exact h1
    · intro o2 h2
      rw [argumentsText_depth_congr E n wt' o.depth hwt args o2 h2]

theorem PutString_room_zero (t : List Nat) (s : IOSTREAM) (ht : t ≠ []) (hs : s.room = some 0) :
    (PutString t s).1 = false := by
  cases t with
  | nil => exact absurd rfl ht
  | cons c cs =>
    unfold PutString Sputcode
    simp [hs]

theorem Sputcode_fail {c : Nat} {s s1 : IOSTREAM} (h : Sputcode c s = (false, s1)) :
    s1.room = some 0 := by
  unfold Sputcode at h
  split at h
  · rename_i hr
    cases h
    exact hr
  · cases h
  · cases h

theorem ellipsis_buffer (E : Env) (s : IOSTREAM)
    (h : (PutString (str "...") (PutOpenToken E 46 s).2).1 = true) :
    (PutString (str "...") (PutOpenToken E 46 s).2).2.buffer =
      s.buffer ++ (if (needSpace E 46 s).1 then [32] else []) ++ str "..." := by
  rw [PutString_buffer _ _ h]
  congr 1
  by_cases hrc : (PutOpenToken E 46 s).1 = 0
  · exfalso
    have hz : (PutOpenToken E 46 s).2.room = some 0 := by
      unfold PutOpenToken at hrc ⊢
      rcases hn : needSpace E 46 s with ⟨b, s1⟩
      simp only [hn] at hrc ⊢
      cases b
      · simp at hrc
      · rcases hp : Sputcode 32 s1 with ⟨b2, s2⟩
        simp only [Putc, hp] at hrc ⊢
        cases b2
        · exact Sputcode_fail hp
        · simp [TRUE_WITH_SPACE] at hrc
    have := PutString_room_zero (str "...") _ (by decide) hz
    rw [this] at h
    cases h
  · exact PutOpenToken_buffer E 46 s hrc

/-! ## The depth limit along a list -/

/-- The options `o1` have the configuration and the depth counter of `o`. -/
def SameLevel (o o1 : write_options) : Prop :=
  config o1 = config o ∧ o1.depth = o.depth

theorem SameLevel_onOut {o o1 : write_options} (h : SameLevel o o1) (r : Bool × IOSTREAM) :
    ∀ x, onOut o1 r = some x → SameLevel o x.2 := by
  intro x hx
  unfold onOut at hx
  cases hx
  exact h

theorem SameLevel_onOutN {o o1 : write_options} (h : SameLevel o o1) (r : Nat × IOSTREAM) :
    ∀ x, onOutN o1 r = some x → SameLevel o x.2 := by
  intro x hx
  unfold onOutN at hx
  cases hx
  exact h

theorem SameLevel_atomStep (E : Env) (a : Atom) {o o1 : write_options} (h : SameLevel o o1) :
    ∀ x, atomStep E a o1 = some x → SameLevel o x.2 := by
  intro x hx
  have hc := Frames_atomStep E a o1 x hx
  unfold atomStep at hx
  cases hx
  exact ⟨hc.trans h.1, (writeAtom_depth E a o1).trans h.2⟩

theorem SameLevel_wt {wt : WT} (hwt : WT.Frames wt)
    (hwd : ∀ t p o f r, wt t p o f = some r → r.2.depth = o.depth)
    {o o1 : write_options} (h : SameLevel o o1) (t : Term) (p : Int) (f : Nat) :
    ∀ x, wt t p o1 f = some x → SameLevel o x.2 := by
  intro x hx
  exact ⟨(hwt t p o1 f x hx).trans h.1, (hwd t p o1 f x hx).trans h.2⟩

theorem writeList_bracket_cut (E : Env) (wt : WT) (hwt : WT.Frames wt)
    (hwd : ∀ t p o f r, wt t p o f = some r → r.2.depth = o.depth)
    (fuel : Nat) (l : Term) (f : Atom) (head tail : Term) (o : write_options)
    (hl : deRef o.ld l = .compound f [head, tail])
    (hn : PL_get_nil E (deRef o.ld tail) = false)
    (hm : o.max_depth ≠ 0) (hd : o.depth + 1 ≥ o.max_depth) :
    writeList_bracket E wt (fuel + 1) l o =
      TRY (wt head 999 o W_TOP) fun o1 =>
        onOut { o1 with depth := o1.depth + 1 } (PutString (str "|...]") o1.out) := by
  unfold writeList_bracket
  simp only [hl]
  apply TRY_congr_of (SameLevel_wt hwt hwd ⟨rfl, rfl⟩ head 999 W_TOP)
  intro o1 h1
  have hn1 : PL_get_nil E (deRef o1.ld tail) = false := by rw [deRef_config h1.1]; exact hn
  have hc : (decide (o1.depth + 1 ≥ o1.max_depth) && (o1.max_depth != 0)) = true := by
    rw [max_depth_config h1.1, h1.2]
    simp [hd, hm]
  simp only [hn1, hc, Bool.false_eq_true, if_false, if_true]

theorem writeList_bracket_step (E : Env) (wt : WT) (hwt : WT.Frames wt)
    (hwd : ∀ t p o f r, wt t p o f = some r → r.2.depth = o.depth)
    (fuel : Nat) (l : Term) (f : Atom) (head tail : Term) (o : write_options)
    (hl : deRef o.ld l = .compound f [head, tail])
    (hn : PL_get_nil E (deRef o.ld tail) = false)
    (hd : o.max_depth = 0 ∨ o.depth + 1 < o.max_depth) :
    writeList_bracket E wt (fuel + 1) l o =
      TRY (wt head 999 o W_TOP) fun o1 =>
        if PL_is_functor (deRef o1.ld tail) E.ATOM_dot 2 then
          TRY (onOut { o1 with depth := o1.depth + 1 }
                (PutComma E { o1 with depth := o1.depth + 1 })) fun o3 =>
            writeList_bracket E wt fuel (deRef o1.ld tail) o3
        else
          TRY (onOut { o1 with depth := o1.depth + 1 } (Putc 124 o1.out)) fun o3 =>
            TRY (wt (deRef o1.ld tail) 999 o3 W_TOP) fun o4 =>
              onOut o4 (Putc 93 o4.out) := by
  conv_lhs => unfold writeList_bracket
  simp only [hl]
  apply TRY_congr_of (SameLevel_wt hwt hwd ⟨rfl, rfl⟩ head 999 W_TOP)
  intro o1 h1
  have hn1 : PL_get_nil E (deRef o1.ld tail) = false := by rw [deRef_config h1.1]; exact hn
  have hc : (decide (o1.depth + 1 ≥ o1.max_depth) && (o1.max_depth != 0)) = false := by
    rw [max_depth_config h1.1, h1.2]
    rcases hd with h | h
    · simp [h]
    · have : ¬(o.depth + 1 ≥ o.max_depth) := by omega
      simp [this]
  simp only [hn1, hc, Bool.false_eq_true, if_false]
  by_cases hf : PL_is_functor (deRef o1.ld tail) E.ATOM_dot 2 = true
  · simp only [hf, Bool.not_true, Bool.false_eq_true, if_false, if_true]
  · simp only [hf, Bool.not_eq_true] at hf ⊢
    simp only [hf, Bool.not_false, if_true, Bool.false_eq_true, if_false]

/-- The steps of `writeList()` in nested-call mode up to the comma after the
head: the functor, the parenthesis, the head at maximum priority 999 and the
comma; `k` is what follows. -/
def dotCellText (E : Env) (wt : WT) (head : Term) (o : write_options)
    (k : write_options → Option (Bool × write_options)) : Option (Bool × write_options) :=
  TRY (if o.flags.PL_WRT_DOTLISTS then onOutN o (PutToken E [46] o.out)
       else atomStep E E.ATOM_dot o) fun o1 =>
    TRY (onOut o1 (Putc 40 o1.out)) fun o2 =>
      TRY (wt head 999 o2 W_TOP) fun o3 =>
        TRY (onOut o3 (PutComma E o3)) k

theorem dotCellText_congr (E : Env) (wt : WT) (hwt : WT.Frames wt)
    (hwd : ∀ t p o f r, wt t p o f = some r → r.2.depth = o.depth)
    (head : Term) (o : write_options)
    (k k1 : write_options → Option (Bool × write_options))
    (hk : ∀ o4, SameLevel o o4 → k o4 = k1 o4) :
    dotCellText E wt head o k = dotCellText E wt head o k1 := by
  unfold dotCellText
  have h0 : SameLevel o o := ⟨rfl, rfl⟩
  apply TRY_congr_of (P := SameLevel o)
  · split
    · exact SameLevel_onOutN h0 _
    · exact SameLevel_atomStep E _ h0
  · intro o1 h1
    apply TRY_congr_of (SameLevel_onOut h1 _)
    intro o2 h2
    apply TRY_congr_of (SameLevel_wt hwt hwd h2 head 999 W_TOP)
    intro o3 h3
    apply TRY_congr_of (SameLevel_onOut h3 _)
    exact hk

theorem writeList_dot_cut (E : Env) (wt : WT) (hwt : WT.Frames wt)
    (hwd : ∀ t p o f r, wt t p o f = some r → r.2.depth = o.depth)
    (fuel depth : Nat) (l : Term) (f : Atom) (head tail : Term) (o : write_options)
    (hl : deRef o.ld l = .compound f [head, tail])
    (hn : PL_get_nil E (deRef o.ld tail) = false)
    (hm : o.max_depth ≠ 0) (hd : o.depth + 1 ≥ o.max_depth) :
    writeList_dot E wt (fuel + 1) depth l o =
      dotCellText E wt head o fun o4 =>
        TRY (onOutN { o4 with depth := o4.depth + 1 } (PutToken E (str "...") o4.out))
          fun o6 => onOut o6 (writeList_close (depth + 1) o6.out) := by
  unfold writeList_dot
  simp only [hl]
  apply dotCellText_congr E wt hwt hwd
  intro o4 h4
  have hn1 : PL_get_nil E (deRef o4.ld tail) = false := by rw [deRef_config h4.1]; exact hn
  have hc : (decide (o4.depth + 1 ≥ o4.max_depth) && (o4.max_depth != 0)) = true := by
    rw [max_depth_config h4.1, h4.2]
    simp [hd, hm]
  simp only [hn1, hc, Bool.false_eq_true, if_false, if_true]

theorem writeList_dot_step (E : Env) (wt : WT) (hwt : WT.Frames wt)
    (hwd : ∀ t p o f r, wt t p o f = some r → r.2.depth = o.depth)
    (fuel depth : Nat) (l : Term) (f : Atom) (head tail : Term) (o : write_options)
    (hl : deRef o.ld l = .compound f [head, tail])
    (hn : PL_get_nil E (deRef o.ld tail) = false)
    (hd : o.max_depth = 0 ∨ o.depth + 1 < o.max_depth) :
    writeList_dot E wt (fuel + 1) depth l o =
      dotCellText E wt head o fun o4 =>
        if PL_is_functor (deRef o4.ld tail) E.ATOM_dot 2 then
          writeList_dot E wt fuel (depth + 1) (deRef o4.ld tail)
            { o4 with depth := o4.depth + 1 }
        else
          TRY (wt (deRef o4.ld tail) 999 { o4 with depth := o4.depth + 1 } W_TOP) fun o6 =>
            onOut o6 (writeList_close (depth + 1) o6.out) := by
  conv_lhs => unfold writeList_dot
  simp only [hl]
  apply dotCellText_congr E wt hwt hwd
  intro o4 h4
  have hn1 : PL_get_nil E (deRef o4.ld tail) = false := by rw [deRef_config h4.1]; exact hn
  have hc : (decide (o4.depth + 1 ≥ o4.max_depth) && (o4.max_depth != 0)) = false := by
    rw [max_depth_config h4.1, h4.2]
    rcases hd with h | h
    · simp [h]
    · have : ¬(o.depth + 1 ≥ o.max_depth) := by omega
      simp [this]
  simp only [hn1, hc, Bool.false_eq_true, if_false]
  by_cases hf : PL_is_functor (deRef o4.ld tail) E.ATOM_dot 2 = true
  · simp only [hf, Bool.not_true, Bool.false_eq_true, if_false, if_true]
  · simp only [hf, Bool.not_eq_true] at hf ⊢
    simp only [hf, Bool.not_false, if_true, Bool.false_eq_true, if_false]

/-- C8 fails along a list: in `[1|foo]` the tail `foo` is an argument of the
top-level term, so it lies at nesting level 2, and no subterm lies deeper; with
`max_depth = 2` it is nevertheless written as `...`, in list notation and in
nested-call notation alike, while the arguments of `f(1,foo)` are both written
normally under the same limit. -/
theorem depth_limit_list_tail :
    written (writeTerm defaultEnv 3
      (.compound defaultEnv.ATOM_dot [.integer 1, atomTerm "foo"]) 1200
      { defaultOptions {} with max_depth := 2 } W_TOP) = some (true, str "[1|...]") ∧
    written (writeTerm defaultEnv 3
      (.compound defaultEnv.ATOM_dot [.integer 1, atomTerm "foo"]) 1200
      { defaultOptions { PL_WRT_NO_LISTS := true, PL_WRT_QUOTED := true } with
        max_depth := 2 } W_TOP) = some (true, str "'[|]'(1,...)") ∧
    written (writeTerm defaultEnv 3
      (.compound defaultEnv.ATOM_dot [.integer 1, atomTerm "foo"]) 1200
      (defaultOptions {}) W_TOP) = some (true, str "[1|foo]") ∧
    written (writeTerm defaultEnv 3
      (.compound (textAtom "f") [.integer 1, atomTerm "foo"]) 1200
      { defaultOptions {} with max_depth := 2 } W_TOP) = some (true, str "f(1,foo)") := by
  refine ⟨by decide!, by decide!, by decide!, by decide!⟩

/-- C8, amended for lists. With `max_depth = d > 0` a term entered at depth
counter `d` or more (nesting level `d + 1`, the top term being entered at 0) is
written as `...` (after a space when the token rules ask for one) whatever the
term is, so none of its subterms is visited; a term entered below `d`, and
every term when `max_depth = 0`, is written by `writeTerm2()` with the counter
one higher; the arguments of a canonical compound are all entered at the
counter value its own `writeTerm2()` runs with, one level deeper than the
compound.  Along a list the counter runs one ahead: `writeList()` writes the
head of a cell at the counter value `c` it holds on reaching the cell, and when
`max_depth > 0`, `c + 1 >= max_depth` and the rest is not the empty list, the
rest of the list is not visited and `|...]` (`...` and the closing parentheses
in nested-call notation) is written in its place; when `max_depth = 0` or
`c + 1 < max_depth` the walk goes on with the counter at `c + 1` and writes no
ellipsis of its own.  `f(g(h(i(j))))` with `max_depth = 3` and operators ignored
gives `f(g(h(...)))`; `[1,2,3]` with `max_depth = 3` gives `[1,2|...]`. -/
theorem depth_limit :
    (∀ (E : Env) (fuel : Nat) (t : Term) (prec : Int) (o : write_options) (flags : Nat),
      o.max_depth ≠ 0 → o.depth + 1 > o.max_depth → o.ld.signals.head? ≠ some true →
      writeTerm E (fuel + 1) t prec o flags =
        some ((PutString (str "...") (PutOpenToken E 46 o.out).2).1,
          { o with ld := { o.ld with signals := o.ld.signals.tail },
                   out := (PutString (str "...") (PutOpenToken E 46 o.out).2).2 }) ∧
      ((PutString (str "...") (PutOpenToken E 46 o.out).2).1 = true →
        (PutString (str "...") (PutOpenToken E 46 o.out).2).2.buffer =
          o.out.buffer ++ (if (needSpace E 46 o.out).1 then [32] else []) ++ str "...")) ∧
    (∀ (E : Env) (fuel : Nat) (t : Term) (prec : Int) (o : write_options) (flags : Nat),
      (o.max_depth = 0 ∨ o.depth + 1 ≤ o.max_depth) → o.ld.signals.head? ≠ some true →
      writeTerm E (fuel + 1) t prec o flags =
        match writeTerm2 E (writeTerm E fuel) fuel t prec
            { o with ld := { o.ld with signals := o.ld.signals.tail },
                     depth := o.depth + 1 } flags with
        | none => none
        | some (rval, o2) => some (rval, { o2 with depth := o.depth })) ∧
    (∀ (E : Env) (n : Nat) (wt1 : WT) (functor : Atom) (args : List Term) (o : write_options),
      (∀ t p o1 f, o1.depth = o.depth → wt1 t p o1 f = writeTerm E n t p o1 f) →
      canonicalText E wt1 functor args o = canonicalText E (writeTerm E n) functor args o) ∧
    (∀ (E : Env) (n fuel depth : Nat) (l : Term) (f : Atom) (head tail : Term)
      (o : write_options),
      deRef o.ld l = .compound f [head, tail] → PL_get_nil E (deRef o.ld tail) = false →
      o.max_depth ≠ 0 → o.depth + 1 ≥ o.max_depth →
      writeList_bracket E (writeTerm E n) (fuel + 1) l o =
        (TRY (writeTerm E n head 999 o W_TOP) fun o1 =>
          onOut { o1 with depth := o1.depth + 1 } (PutString (str "|...]") o1.out)) ∧
      writeList_dot E (writeTerm E n) (fuel + 1) depth l o =
        dotCellText E (writeTerm E n) head o fun o4 =>
          TRY (onOutN { o4 with depth := o4.depth + 1 } (PutToken E (str "...") o4.out))
            fun o6 => onOut o6 (writeList_close (depth + 1) o6.out)) ∧
    (∀ (E : Env) (n fuel depth : Nat) (l : Term) (f : Atom) (head tail : Term)
      (o : write_options),
      deRef o.ld l = .compound f [head, tail] → PL_get_nil E (deRef o.ld tail) = false →
      (o.max_depth = 0 ∨ o.depth + 1 < o.max_depth) →
      writeList_bracket E (writeTerm E n) (fuel + 1) l o =
        (TRY (writeTerm E n head 999 o W_TOP) fun o1 =>
          if PL_is_functor (deRef o1.ld tail) E.ATOM_dot 2 then
            TRY (onOut { o1 with depth := o1.depth + 1 }
                  (PutComma E { o1 with depth := o1.depth + 1 })) fun o3 =>
              writeList_bracket E (writeTerm E n) fuel (deRef o1.ld tail) o3
          else
            TRY (onOut { o1 with depth := o1.depth + 1 } (Putc 124 o1.out)) fun o3 =>
              TRY (writeTerm E n (deRef o1.ld tail) 999 o3 W_TOP) fun o4 =>
                onOut o4 (Putc 93 o4.out)) ∧
      writeList_dot E (writeTerm E n) (fuel + 1) depth l o =
        dotCellText E (writeTerm E n) head o fun o4 =>
          if PL_is_functor (deRef o4.ld tail) E.ATOM_dot 2 then
            writeList_dot E (writeTerm E n) fuel (depth + 1) (deRef o4.ld tail)
              { o4 with depth := o4.depth + 1 }
          else
            TRY (writeTerm E n (deRef o4.ld tail) 999 { o4 with depth := o4.depth + 1 }
                  W_TOP) fun o6 =>
              onOut o6 (writeList_close (depth + 1) o6.out)) ∧
    written (writeTerm defaultEnv 6
      (.compound (textAtom "f") [.compound (textAtom "g") [.compound (textAtom "h")
        [.compound (textAtom "i") [atomTerm "j"]]]])
      1200 { defaultOptions { PL_WRT_IGNOREOPS := true } with max_depth := 3 } W_TOP) =
        some (true, str "f(g(h(...)))") ∧
    written (writeTerm defaultEnv 5
      (mkList defaultEnv [.integer 1, .integer 2, .integer 3] (.atom defaultEnv.ATOM_nil))
      1200 { defaultOptions {} with max_depth := 3 } W_TOP) = some (true, str "[1,2|...]") := by
  refine ⟨?_, ?_, ?_, ?_, ?_, by decide!, by decide!⟩
  · intro E fuel t prec o flags hm hd hs
    refine ⟨?_, ellipsis_buffer E o.out⟩
    unfold writeTerm
    simp only
    split
    · rename_i rest hsig
      rw [hsig] at hs
      exact absurd rfl hs
    · have hc : (decide (o.depth + 1 > o.max_depth) && (o.max_depth != 0)) = true := by
        simp [hd, hm]
      simp only [hc, if_true]
  · intro E fuel t prec o flags hm hs
    conv_lhs => unfold writeTerm
    simp only
    split
    · rename_i rest hsig
      rw [hsig] at hs
      exact absurd rfl hs
    · have hc : (decide (o.depth + 1 > o.max_depth) && (o.max_depth != 0)) = false := by
        rcases hm with h | h
        · simp [h]
        · have : ¬(o.depth + 1 > o.max_depth) := by omega
          simp [this]
      simp only [hc, Bool.false_eq_true, if_false]
  · intro E n wt1 functor args o hwt
    exact canonicalText_depth_congr E n wt1 functor args o hwt
  · intro E n fuel depth l f head tail o hl hn hm hd
    exact ⟨writeList_bracket_cut E _ (Frames_writeTerm E n) (writeTerm_depth E n)
        fuel l f head tail o hl hn hm hd,
      writeList_dot_cut E _ (Frames_writeTerm E n) (writeTerm_depth E n)
        fuel depth l f head tail o hl hn hm hd⟩
  · intro E n fuel depth l f head tail o hl hn hd
    exact ⟨writeList_bracket_step E _ (Frames_writeTerm E n) (writeTerm_depth E n)
        fuel l f head tail o hl hn hd,
      writeList_dot_step E _ (Frames_writeTerm E n) (writeTerm_depth E n)
        fuel depth l f head tail o hl hn hd⟩

/-- C8 at a term entered with the counter at the limit 3, at the canonical
compound `f(a)` whose argument is written by a `writeTerm()` that works at depth
counter 1 only, and at the cell `[1|foo]` reached with the counter at 1 under
`max_depth = 2`. -/
theorem depth_limit_witness :
    ({ defaultOptions {} with max_depth := 3, depth := 3 } : write_options).max_depth ≠ 0 ∧
    written (writeTerm defaultEnv 1 (.compound (textAtom "f") [atomTerm "a"]) 999
      { defaultOptions {} with max_depth := 3, depth := 3 } W_TOP) = some (true, str "...") ∧
    writeTerm defaultEnv 1 (.compound (textAtom "f") [atomTerm "a"]) 999
        { defaultOptions {} with max_depth := 3, depth := 3 } W_TOP =
      writeTerm defaultEnv 1 (atomTerm "b") 999
        { defaultOptions {} with max_depth := 3, depth := 3 } W_TOP ∧
    canonicalText defaultEnv
        (fun t p o1 f => if o1.depth = 1 then writeTerm defaultEnv 2 t p o1 f else none)
        (textAtom "f") [atomTerm "a"] { defaultOptions {} with depth := 1 } =
      canonicalText defaultEnv (writeTerm defaultEnv 2) (textAtom "f") [atomTerm "a"]
        { defaultOptions {} with depth := 1 } ∧
    writeList_bracket defaultEnv (writeTerm defaultEnv 2) 1
        (.compound defaultEnv.ATOM_dot [.integer 1, atomTerm "foo"])
        { defaultOptions {} with max_depth := 2, depth := 1 } =
      (TRY (writeTerm defaultEnv 2 (.integer 1) 999
          { defaultOptions {} with max_depth := 2, depth := 1 } W_TOP) fun o1 =>
        onOut { o1 with depth := o1.depth + 1 } (PutString (str "|...]") o1.out)) ∧
    written (writeList_bracket defaultEnv (writeTerm defaultEnv 2) 1
        (.compound defaultEnv.ATOM_dot [.integer 1, atomTerm "foo"])
        { defaultOptions {} with max_depth := 2, depth := 1 }) = some (true, str "1|...]") :=
  have h1 := (depth_limit.1 defaultEnv 0 (.compound (textAtom "f") [atomTerm "a"]) 999
      { defaultOptions {} with max_depth := 3, depth := 3 } W_TOP (by decide) (by decide)
      (by decide)).1
  have h2 := (depth_limit.1 defaultEnv 0 (atomTerm "b") 999
      { defaultOptions {} with max_depth := 3, depth := 3 } W_TOP (by decide) (by decide)
      (by decide)).1
  ⟨by decide, by decide!, h1.trans h2.symm,
    depth_limit.2.2.1 defaultEnv 2
      (fun t p o1 f => if o1.depth = 1 then writeTerm defaultEnv 2 t p o1 f else none)
      (textAtom "f") [atomTerm "a"] { defaultOptions {} with depth := 1 }
      (fun t p o1 f hd => by
        have hd1 : o1.depth = 1 := hd
        simp only [hd1, if_true]),
    (depth_limit.2.2.2.1 defaultEnv 2 0 0
      (.compound defaultEnv.ATOM_dot [.integer 1, atomTerm "foo"]) defaultEnv.ATOM_dot
      (.integer 1) (atomTerm "foo") { defaultOptions {} with max_depth := 2, depth := 1 }
      rfl (by decide) (by decide) (by decide)).1,
    by decide!⟩

/-! ## Cyclic terms with `cycles(false)` -/

theorem PutOpenToken_EOF (E : Env) (s : IOSTREAM) :
    PutOpenToken E EOF s = (1, { s with lastc := EOF }) := by
  simp [PutOpenToken, needSpace]

theorem writeTopTerm_no_cycles (E : Env) (fuel : Nat) (term : Term) (prec : Int)
    (o : write_options) (hf : o.flags.PL_WRT_NO_CYCLES = true)
    (hc : E.PL_is_acyclic o.ld.bindings term = false) :
    writeTopTerm E fuel term prec o =
      some (false, { o with ld := { o.ld with exception := some (.domain "cyclic_term") } }) := by
  unfold writeTopTerm
  simp [hf, hc]


theorem Putc_room {c : Nat} {s : IOSTREAM} (h : s.room ≠ some 0) :
    (Putc c s).1 = true ∧ (Putc c s).2.buffer = s.buffer ++ [c] ∧
      (Putc c s).2.ferr = s.ferr := by
  unfold Putc Sputcode
  split <;> simp_all

theorem pl_write_term3_cyclic (E : Env) (fuel : Nat) (s : IOSTREAM) (term : Term)
    (sc : scanned_options) (ld : PL_local_data)
    (hc : sc.cycles = false) (hv : sc.varnames = none)
    (hcyc : E.PL_is_acyclic ld.bindings term = false) :
    ∃ r, pl_write_term3 E fuel (some s) term (some sc) ld = some r ∧
      (sc.nl = false → r.rc = false ∧
        ∀ s1, r.out = some s1 → s1.buffer = s.buffer ∧
          r.ld.exception = some (.domain "cyclic_term")) ∧
      (sc.nl = true → s.room ≠ some 0 →
        ∀ s1, r.out = some s1 → s1.buffer = s.buffer ++ [10] ∧ r.rc = !s.ferr ∧
          r.ld.exception = some (.domain "cyclic_term")) := by
  unfold pl_write_term3
  simp only [hv, hc]
  simp only [writeTopTerm_no_cycles, WrtFlags.or, hc, hcyc, Bool.not_false, Bool.or_true,
    Bool.true_or, Bool.false_and, Bool.false_eq_true, if_false]
  repeat' split
  all_goals first
    | (refine ⟨_, rfl, ?_, ?_⟩ <;> intros <;> simp_all; done)
    | skip
  all_goals
    have hr1 := fun h => @Putc_room 10 s h
    have hr2 := fun h => @Putc_room 10 { s with lastc := EOF } h
    refine ⟨_, rfl, ?_, ?_⟩ <;> intros <;> simp_all [PutOpenToken_EOF, streamStatus]

/-- C10 (the code departs from the claim when `nl(true)` is given): for a cyclic
term and options with `cycles(false)` (and no `variable_names`),
`pl_write_term3()` returns a result without running out of fuel.  Without
`nl(true)` it reports failure, the stream, if one was obtained, holds what it
held before, and the domain error `cyclic_term` is pending, whatever `fullstop`
and the other options are.  With `nl(true)` and room on the stream a newline has
been added after the domain error was raised, and the result is success on a
stream without error.  On the cyclic list `X = [1|X]` with
`[cycles(false), nl(true)]` and a fresh stream: result true, output one newline,
domain error `cyclic_term` pending; with `[cycles(false)]`, with and without
`fullstop(true)`: result false, no output. -/
theorem cyclic_term_cycles_false :
    (∀ (E : Env) (fuel : Nat) (s : IOSTREAM) (term : Term) (sc : scanned_options)
      (ld : PL_local_data),
      sc.cycles = false → sc.varnames = none →
      E.PL_is_acyclic ld.bindings term = false →
      ∃ r, pl_write_term3 E fuel (some s) term (some sc) ld = some r ∧
        (sc.nl = false → r.rc = false ∧
          ∀ s1, r.out = some s1 → s1.buffer = s.buffer ∧
            r.ld.exception = some (.domain "cyclic_term")) ∧
        (sc.nl = true → s.room ≠ some 0 →
          ∀ s1, r.out = some s1 → s1.buffer = s.buffer ++ [10] ∧ r.rc = !s.ferr ∧
            r.ld.exception = some (.domain "cyclic_term"))) ∧
    outcome (pl_write_term3 defaultEnv 0 (some freshStream) (.var 7)
      (some { scanned_defaults defaultEnv with cycles := false, nl := true }) cyclicLD) =
        some (true, some [10], some (.domain "cyclic_term")) ∧
    outcome (pl_write_term3 defaultEnv 0 (some freshStream) (.var 7)
      (some { scanned_defaults defaultEnv with cycles := false }) cyclicLD) =
        some (false, some [], some (.domain "cyclic_term")) ∧
    outcome (pl_write_term3 defaultEnv 0 (some freshStream) (.var 7)
      (some { scanned_defaults defaultEnv with cycles := false, fullstop := true }) cyclicLD) =
        some (false, some [], some (.domain "cyclic_term")) :=
  ⟨pl_write_term3_cyclic, by decide!, by decide!, by decide!⟩

/-- C10 at the cyclic list `X = [1|X]`, options `[cycles(false), nl(true)]`, on a
fresh stream. -/
theorem cyclic_term_cycles_false_witness :
    ({ scanned_defaults defaultEnv with cycles := false, nl := true } :
      scanned_options).cycles = false ∧
    ({ scanned_defaults defaultEnv with cycles := false, nl := true } :
      scanned_options).varnames = none ∧
    defaultEnv.PL_is_acyclic cyclicLD.bindings (.var 7) = false ∧
    ∃ r, pl_write_term3 defaultEnv 0 (some freshStream) (.var 7)
        (some { scanned_defaults defaultEnv with cycles := false, nl := true }) cyclicLD =
          some r ∧
      (({ scanned_defaults defaultEnv with cycles := false, nl := true } :
          scanned_options).nl = false → r.rc = false ∧
        ∀ s1, r.out = some s1 → s1.buffer = freshStream.buffer ∧
          r.ld.exception = some (.domain "cyclic_term")) ∧
      (({ scanned_defaults defaultEnv with cycles := false, nl := true } :
          scanned_options).nl = true → freshStream.room ≠ some 0 →
        ∀ s1, r.out = some s1 → s1.buffer = freshStream.buffer ++ [10] ∧
          r.rc = !freshStream.ferr ∧ r.ld.exception = some (.domain "cyclic_term")) :=
  ⟨rfl, rfl, by decide!,
    cyclic_term_cycles_false.1 defaultEnv 0 freshStream (.var 7)
      { scanned_defaults defaultEnv with cycles := false, nl := true } cyclicLD rfl rfl
      (by decide!)⟩

/-! ## Numbered variables under `writeq/1` -/

theorem writeq_numbered_variable_clash :
    outcome (pl_writeq2 defaultEnv 2 (some freshStream)
      (.compound defaultEnv.ATOM_isovar [.integer 1]) freshLD) =
        some (true, some (str "B"), none) ∧
    outcome (pl_writeq2 defaultEnv 2 (some freshStream)
      (.compound defaultEnv.ATOM_isovar [atomTerm "B"]) freshLD) =
        some (true, some (str "B"), none) ∧
    Term.compound defaultEnv.ATOM_isovar [.integer 1] ≠
      Term.compound defaultEnv.ATOM_isovar [atomTerm "B"] ∧
    defaultEnv.PL_is_acyclic [] (.compound defaultEnv.ATOM_isovar [.integer 1]) = true ∧
    defaultEnv.PL_is_acyclic [] (.compound defaultEnv.ATOM_isovar [atomTerm "B"]) = true := by
  refine ⟨by decide!, by decide!, ?_, by decide!, by decide!⟩
  intro h
  injection h with _ h2
  injection h2 with h3 _
  exact Term.noConfusion h3

/-! ## Cycle substitutions -/

/-- The local counter of `reunify_acyclic_substitutions()` after `n` more pairs
have been retained: it is decremented for each retained pair when numbered
naming is active and not touched otherwise. -/
def countAfter (o : write_options) (count : Int) (n : Nat) : Int :=
  if o.flags.PL_WRT_NUMBERVARS then count - n else count

/-- What `reunify_acyclic_substitutions()` does to the placeholder of a retained
pair: with numbered naming it is unified with the marker `'$VAR'(index)`,
otherwise nothing happens. -/
def markRetained (E : Env) (o : write_options) (ld : PL_local_data) (var : Term)
    (index : Int) : Option PL_local_data :=
  if o.flags.PL_WRT_NUMBERVARS then
    match E.PL_unify ld.bindings var (.compound E.ATOM_isovar [.integer index]) with
    | some b => some { ld with bindings := b }
    | none => none
  else some ld

theorem countAfter_zero (o : write_options) (count : Int) : countAfter o count 0 = count := by
  unfold countAfter
  split <;> simp

theorem countAfter_succ (o : write_options) (count : Int) (n : Nat) :
    countAfter o (countAfter o count 1) n = countAfter o count (n + 1) := by
  unfold countAfter
  split
  · push_cast; ring
  · rfl

theorem countAfter_one (o : write_options) (count : Int) (n : Nat) :
    countAfter o (countAfter o count n) 1 = countAfter o count (n + 1) := by
  unfold countAfter
  split
  · push_cast; ring
  · rfl

theorem reunify_loop_cons (E : Env) (o : write_options) (p : Term) (t : List Term)
    (count : Int) (ld : PL_local_data) :
    reunify_loop E o (p :: t) count ld =
      if E.PL_var_occurs_in ld.bindings (PL_get_arg ld 1 p) (PL_get_arg ld 2 p) then
        match markRetained E o ld (PL_get_arg ld 1 p) (count - 1) with
        | none => none
        | some ld1 =>
          match reunify_loop E o t (countAfter o count 1) ld1 with
          | some (cycles, ld2) => some (p :: cycles, ld2)
          | none => none
      else
        match E.PL_unify ld.bindings (PL_get_arg ld 1 p) (PL_get_arg ld 2 p) with
        | some b => reunify_loop E o t count { ld with bindings := b }
        | none => none := by
  conv_lhs => unfold reunify_loop
  simp only
  split
  · unfold markRetained countAfter
    by_cases hn : o.flags.PL_WRT_NUMBERVARS = true
    · simp only [hn, if_true, Nat.cast_one]
      rcases E.PL_unify ld.bindings (PL_get_arg ld 1 p)
          (.compound E.ATOM_isovar [.integer (count - 1)]) with _ | b <;> rfl
    · simp only [hn, Bool.false_eq_true, if_false]
  · rfl

theorem reunify_loop_append (E : Env) (o : write_options) :
    ∀ (pre rest : List Term) (count : Int) (ld : PL_local_data),
      reunify_loop E o (pre ++ rest) count ld =
        match reunify_loop E o pre count ld with
        | none => none
        | some (c1, ld1) =>
          match reunify_loop E o rest (countAfter o count c1.length) ld1 with
          | none => none
          | some (c2, ld2) => some (c1 ++ c2, ld2) := by
  intro pre
  induction pre with
  | nil =>
    intro rest count ld
    simp only [List.nil_append, reunify_loop, List.length_nil, countAfter_zero]
    rcases reunify_loop E o rest count ld with _ | ⟨c2, ld2⟩ <;> rfl
  | cons p pre ih =>
    intro rest count ld
    simp only [List.cons_append, reunify_loop_cons, ih]
    split
    · rcases markRetained E o ld (PL_get_arg ld 1 p) (count - 1) with _ | ld1
      · rfl
      · simp only
        rcases reunify_loop E o pre (countAfter o count 1) ld1 with _ | ⟨c1, ld2⟩
        · rfl
        · simp only [List.length_cons, countAfter_succ]
          rcases reunify_loop E o rest (countAfter o count (c1.length + 1)) ld2
            with _ | ⟨c2, ld3⟩ <;> rfl
    · rcases E.PL_unify ld.bindings (PL_get_arg ld 1 p) (PL_get_arg ld 2 p) with _ | b <;> rfl

theorem reunify_loop_sublist (E : Env) (o : write_options) :
    ∀ (subs : List Term) (count : Int) (ld : PL_local_data) (c : List Term)
      (ld1 : PL_local_data), reunify_loop E o subs count ld = some (c, ld1) →
      c.Sublist subs := by
  intro subs
  induction subs with
  | nil =>
    intro count ld c ld1 h
    simp only [reunify_loop, Option.some.injEq, Prod.mk.injEq] at h
    rw [← h.1]
  | cons p t ih =>
    intro count ld c ld1 h
    rw [reunify_loop_cons] at h
    split at h
    · rcases hm : markRetained E o ld (PL_get_arg ld 1 p) (count - 1) with _ | ld2
      · simp [hm] at h
      · simp only [hm] at h
        rcases hr : reunify_loop E o t (countAfter o count 1) ld2 with _ | ⟨c2, ld3⟩
        · simp [hr] at h
        · simp only [hr, Option.some.injEq, Prod.mk.injEq] at h
          rw [← h.1]
          exact (ih _ _ _ _ hr).cons₂ p
    · rcases hu : E.PL_unify ld.bindings (PL_get_arg ld 1 p) (PL_get_arg ld 2 p) with _ | b
      · simp [hu] at h
      · simp only [hu] at h
        exact (ih _ _ _ _ h).cons p

theorem markRetained_plain (E : Env) (o : write_options) (ld : PL_local_data) (var : Term)
    (i j : Int) (h : o.flags.PL_WRT_NUMBERVARS = false) :
    markRetained E o ld var i = markRetained E o ld var j := by
  unfold markRetained
  simp [h]

/-- C11. Let `pre ++ p :: post` be the substitution list and let the loop of
`reunify_acyclic_substitutions()` have run over `pre`, retaining the pairs `c1`
and leaving the engine state `ld1`: this is the state in which the pair `p` is
visited.  If the placeholder of `p` occurs in its value then `p` is retained: it
comes in the cycle list right after `c1` and before whatever is retained from
`post`, and with numbered naming its placeholder is unified with the marker
`'$VAR'(-k)`, where `k = c1.length + 1` is the position of `p` among the
retained pairs; otherwise `p` is not retained and its placeholder is unified
with its value.  The cycle list handed back is a sublist of the substitution
list, closed by the empty list.  Example: from `[_1 = f(_1), _2 = a,
_3 = g(_3)]` with numbered naming the pairs of `_1` and `_3` are retained, `_1`
is bound to `'$VAR'(-1)`, `_2` to `a` and `_3` to `'$VAR'(-2)`. -/
theorem reunify_cycles :
    (∀ (E : Env) (o : write_options) (pre : List Term) (p : Term) (post c1 : List Term)
        (ld1 : PL_local_data),
      reunify_loop E o pre 0 o.ld = some (c1, ld1) →
      -((c1.length + 1 : Nat) : Int) < 0 ∧
      reunify_loop E o (pre ++ p :: post) 0 o.ld =
        if E.PL_var_occurs_in ld1.bindings (PL_get_arg ld1 1 p) (PL_get_arg ld1 2 p) then
          match markRetained E o ld1 (PL_get_arg ld1 1 p) (-((c1.length + 1 : Nat) : Int)) with
          | none => none
          | some ld2 =>
            match reunify_loop E o post (countAfter o 0 (c1.length + 1)) ld2 with
            | some (c2, ld3) => some (c1 ++ p :: c2, ld3)
            | none => none
        else
          match E.PL_unify ld1.bindings (PL_get_arg ld1 1 p) (PL_get_arg ld1 2 p) with
          | some b =>
            match reunify_loop E o post (countAfter o 0 c1.length)
                { ld1 with bindings := b } with
            | some (c2, ld3) => some (c1 ++ c2, ld3)
            | none => none
          | none => none) ∧
    (∀ (E : Env) (o : write_options) (subs : List Term) (cycles : Term)
        (ld1 : PL_local_data),
      reunify_acyclic_substitutions E subs o = some (cycles, ld1) →
      ∃ c, c.Sublist subs ∧ cycles = mkList E c (.atom E.ATOM_nil) ∧
        reunify_loop E o subs 0 o.ld = some (c, ld1)) ∧
    reunify_acyclic_substitutions defaultEnv
        [.compound defaultEnv.ATOM_equals [.var 1, .compound (textAtom "f") [.var 1]],
         .compound defaultEnv.ATOM_equals [.var 2, atomTerm "a"],
         .compound defaultEnv.ATOM_equals [.var 3, .compound (textAtom "g") [.var 3]]]
        (defaultOptions { PL_WRT_NUMBERVARS := true }) =
      some (mkList defaultEnv
          [.compound defaultEnv.ATOM_equals [.var 1, .compound (textAtom "f") [.var 1]],
           .compound defaultEnv.ATOM_equals [.var 3, .compound (textAtom "g") [.var 3]]]
          (.atom defaultEnv.ATOM_nil),
        { freshLD with bindings :=
            [(3, .compound defaultEnv.ATOM_isovar [.integer (-2)]), (2, atomTerm "a"),
             (1, .compound defaultEnv.ATOM_isovar [.integer (-1)])] }) := by
  refine ⟨?_, ?_, ?_⟩
  · intro E o pre p post c1 ld1 h
    refine ⟨by omega, ?_⟩
    rw [reunify_loop_append, h]
    simp only [reunify_loop_cons]
    have hidx : markRetained E o ld1 (PL_get_arg ld1 1 p) (countAfter o 0 c1.length - 1) =
        markRetained E o ld1 (PL_get_arg ld1 1 p) (-((c1.length + 1 : Nat) : Int)) := by
      by_cases hn : o.flags.PL_WRT_NUMBERVARS = true
      · have hi : countAfter o 0 c1.length - 1 = -((c1.length + 1 : Nat) : Int) := by
          unfold countAfter
          simp only [hn, if_true]
          push_cast; ring
        rw [hi]
      · exact markRetained_plain E o ld1 _ _ _ (by simpa using hn)
    rw [hidx, countAfter_one]
    by_cases ho : E.PL_var_occurs_in ld1.bindings (PL_get_arg ld1 1 p) (PL_get_arg ld1 2 p) = true
    · simp only [ho, if_true]
      rcases markRetained E o ld1 (PL_get_arg ld1 1 p) (-((c1.length + 1 : Nat) : Int))
        with _ | ld2
      · rfl
      · simp only
        rcases reunify_loop E o post (countAfter o 0 (c1.length + 1)) ld2 with _ | ⟨c2, ld3⟩
          <;> rfl
    · simp only [ho, Bool.false_eq_true, if_false]
      rcases E.PL_unify ld1.bindings (PL_get_arg ld1 1 p) (PL_get_arg ld1 2 p) with _ | b
      · rfl
      · simp only
        rcases reunify_loop E o post (countAfter o 0 c1.length) { ld1 with bindings := b }
          with _ | ⟨c2, ld3⟩ <;> rfl
  · intro E o subs cycles ld1 h
    unfold reunify_acyclic_substitutions at h
    rcases hr : reunify_loop E o subs 0 o.ld with _ | ⟨c, ld2⟩
    · simp [hr] at h
    · simp only [hr, Option.some.injEq, Prod.mk.injEq] at h
      exact ⟨c, reunify_loop_sublist E o subs 0 o.ld c ld2 hr, h.1.symm, by rw [h.2]⟩
  · rfl

/-- C11 at the pair `_2 = a` visited after `_1 = f(_1)` has been retained: its
placeholder does not occur in its value, so it is unified with `a` and the
retained pair of `_3` comes right after that of `_1`. -/
theorem reunify_cycles_witness :
    reunify_loop defaultEnv (defaultOptions { PL_WRT_NUMBERVARS := true })
        [.compound defaultEnv.ATOM_equals [.var 1, .compound (textAtom "f") [.var 1]]] 0
        (defaultOptions { PL_WRT_NUMBERVARS := true }).ld =
      some ([.compound defaultEnv.ATOM_equals [.var 1, .compound (textAtom "f") [.var 1]]],
        { freshLD with bindings := [(1, .compound defaultEnv.ATOM_isovar [.integer (-1)])] }) ∧
    reunify_loop defaultEnv (defaultOptions { PL_WRT_NUMBERVARS := true })
        ([.compound defaultEnv.ATOM_equals [.var 1, .compound (textAtom "f") [.var 1]]] ++
          .compound defaultEnv.ATOM_equals [.var 2, atomTerm "a"] ::
          [.compound defaultEnv.ATOM_equals [.var 3, .compound (textAtom "g") [.var 3]]]) 0
        (defaultOptions { PL_WRT_NUMBERVARS := true }).ld =
      some ([.compound defaultEnv.ATOM_equals [.var 1, .compound (textAtom "f") [.var 1]]] ++
          [.compound defaultEnv.ATOM_equals [.var 3, .compound (textAtom "g") [.var 3]]],
        { freshLD with bindings :=
            [(3, .compound defaultEnv.ATOM_isovar [.integer (-2)]), (2, atomTerm "a"),
             (1, .compound defaultEnv.ATOM_isovar [.integer (-1)])] }) :=
  ⟨rfl,
    ((reunify_cycles.1 defaultEnv (defaultOptions { PL_WRT_NUMBERVARS := true })
      [.compound defaultEnv.ATOM_equals [.var 1, .compound (textAtom "f") [.var 1]]]
      (.compound defaultEnv.ATOM_equals [.var 2, atomTerm "a"])
      [.compound defaultEnv.ATOM_equals [.var 3, .compound (textAtom "g") [.var 3]]]
      [.compound defaultEnv.ATOM_equals [.var 1, .compound (textAtom "f") [.var 1]]]
      { freshLD with bindings := [(1, .compound defaultEnv.ATOM_isovar [.integer (-1)])] }
      rfl).2).trans rfl⟩

/-! ## Separating spaces -/

/-- The character kept in the last-character slot once the markers are
removed (`s->lastc & ~C_MASK`). -/
def previousChar (s : IOSTREAM) : Nat := s.lastc &&& (0xFFFFFFFF - C_MASK)

/-- One of the three marker rules of `needSpace()` decides for the next
character `c`: prefix sign before a digit or symbol character, prefix operator
before `(` or `{`, infix operator before `(`. -/
def markerRule (E : Env) (c : Nat) (s : IOSTREAM) : Bool :=
  ((s.lastc &&& C_PREFIX_SIGN != 0) && (E.isDigit c || E.f_is_prolog_symbol c)) ||
  ((s.lastc &&& C_PREFIX_OP != 0) && (c == 40 || c == 123)) ||
  ((s.lastc &&& C_INFIX_OP != 0) && c == 40)

/-- The rule of the specification for a previous character `p` and a next
character `c`: both are identifier-continuation characters, or both are symbol
characters, or `c` is `(` and `p` is neither punctuation nor blank, or `c` is a
quote character equal to `p`, or `c` is `'` and `p` is a digit. -/
def spaceBetween (E : Env) (p c : Nat) : Prop :=
  (E.f_is_prolog_identifier_continue p = true ∧ E.f_is_prolog_identifier_continue c = true) ∨
  (E.f_is_prolog_symbol p = true ∧ E.f_is_prolog_symbol c = true) ∨
  (c = 40 ∧ E.isPunctW p = false ∧ E.isBlank p = false) ∨
  ((c = 39 ∨ c = 34) ∧ c = p) ∨
  (c = 39 ∧ E.isDigit p = true)

theorem needSpace_plain (E : Env) (c : Nat) (s : IOSTREAM) (hc : c ≠ EOF)
    (hl : s.lastc ≠ EOF) (hm : markerRule E c s = false) :
    ((needSpace E c s).1 = true ↔ spaceBetween E (previousChar s) c) ∧
    (needSpace E c s).2 = { s with lastc := previousChar s } := by
  unfold markerRule at hm
  simp only [Bool.or_eq_false_iff] at hm
  obtain ⟨⟨h1, h2⟩, h3⟩ := hm
  unfold needSpace
  simp only [hc, hl, h1, h2, h3, if_false, Bool.false_eq_true]
  unfold spaceBetween previousChar isquote
  constructor
  · split
    · rename_i h
      simp only [true_iff]
      simp only [Bool.or_eq_true, Bool.and_eq_true, beq_iff_eq, Bool.not_eq_true',
        Bool.or_eq_false_iff] at h
      rcases h with (((h | h) | h) | h) | h
      · exact Or.inl h
      · exact Or.inr (Or.inl h)
      · exact Or.inr (Or.inr (Or.inl h))
      · exact Or.inr (Or.inr (Or.inr (Or.inr h)))
      · exact Or.inr (Or.inr (Or.inr (Or.inl ⟨h.1, h.2.symm⟩)))
    · rename_i h
      simp only [Bool.false_eq_true, false_iff]
      intro hs
      apply h
      simp only [Bool.or_eq_true, Bool.and_eq_true, beq_iff_eq, Bool.not_eq_true',
        Bool.or_eq_false_iff]
      rcases hs with h | h | h | h | h
      · exact Or.inl (Or.inl (Or.inl (Or.inl h)))
      · exact Or.inl (Or.inl (Or.inl (Or.inr h)))
      · exact Or.inl (Or.inl (Or.inr h))
      · exact Or.inr ⟨h.1, h.2.symm⟩
      · exact Or.inl (Or.inr h)
  · split <;> rfl

theorem PutOpenToken_space (E : Env) (c : Nat) (s : IOSTREAM)
    (hn : needSpace E c s = (true, s)) (h : (PutOpenToken E c s).1 ≠ 0) :
    (PutOpenToken E c s).1 = TRUE_WITH_SPACE ∧
      (PutOpenToken E c s).2.buffer = s.buffer ++ [32] := by
  unfold PutOpenToken at h ⊢
  simp only [hn] at h ⊢
  rcases hp : Putc 32 s with ⟨b, s2⟩
  simp only [hp] at h ⊢
  cases b
  · simp at h
  · exact ⟨rfl, Sputcode_eq hp⟩

/-- C12. When neither the next character `c` nor the last-character slot is the
end-of-output marker and none of the three marker rules decides, `needSpace()`
asks for a space exactly when the rule of the specification holds for the
character `p` in the slot (markers removed) and `c`; `PutOpenToken()` then
writes one space in that case and nothing otherwise. -/
theorem needSpace_otherwise (E : Env) (c : Nat) (s : IOSTREAM) (hc : c ≠ EOF)
    (hl : s.lastc ≠ EOF) (hm : markerRule E c s = false) :
    ((needSpace E c s).1 = true ↔ spaceBetween E (previousChar s) c) ∧
    ((PutOpenToken E c s).1 ≠ 0 →
      (spaceBetween E (previousChar s) c →
        (PutOpenToken E c s).2.buffer = s.buffer ++ [32]) ∧
      (¬spaceBetween E (previousChar s) c → (PutOpenToken E c s).2.buffer = s.buffer)) := by
  have h := needSpace_plain E c s hc hl hm
  refine ⟨h.1, ?_⟩
  intro hp
  have hb := PutOpenToken_buffer E c s hp
  constructor
  · intro hs
    rw [hb, h.1.2 hs]
    rfl
  · intro hs
    have : (needSpace E c s).1 = false := by
      cases hx : (needSpace E c s).1
      · rfl
      · exact absurd (h.1.1 hx) hs
    rw [hb, this]
    simp

/-- C12 at `b` after `a` (two identifier characters: space), at `(` after `a`
(space) and at `(` after a blank (no space). -/
theorem needSpace_otherwise_witness :
    (98 : Nat) ≠ EOF ∧ ({ freshStream with lastc := 97 } : IOSTREAM).lastc ≠ EOF ∧
    markerRule defaultEnv 98 { freshStream with lastc := 97 } = false ∧
    spaceBetween defaultEnv (previousChar { freshStream with lastc := 97 }) 98 ∧
    (needSpace defaultEnv 98 { freshStream with lastc := 97 }).1 = true ∧
    (needSpace defaultEnv 40 { freshStream with lastc := 97 }).1 = true ∧
    (needSpace defaultEnv 40 { freshStream with lastc := 32 }).1 = false ∧
    (PutOpenToken defaultEnv 98 { freshStream with lastc := 97 }).2.buffer = [32] :=
  have h := needSpace_otherwise defaultEnv 98 { freshStream with lastc := 97 } (by decide)
    (by decide) (by decide)
  have hs : spaceBetween defaultEnv (previousChar { freshStream with lastc := 97 }) 98 :=
    Or.inl ⟨by decide, by decide⟩
  ⟨by decide, by decide, by decide, hs, h.1.2 hs, by decide, by decide,
    (h.2 (by decide)).1 hs⟩

/-- C13. When the last-character slot holds a character with the prefix-sign
marker and the next token starts with a digit or a symbol character,
`needSpace()` asks for a space whatever the character in the slot is, and
`PutToken()` writes exactly one space and then the token. -/
theorem prefix_sign_space (E : Env) (c : Nat) (s : IOSTREAM) (hc : c ≠ EOF)
    (hl : s.lastc ≠ EOF) (hs : s.lastc &&& C_PREFIX_SIGN ≠ 0)
    (hd : E.isDigit c = true ∨ E.f_is_prolog_symbol c = true) :
    needSpace E c s = (true, s) ∧
    ((PutOpenToken E c s).1 ≠ 0 →
      (PutOpenToken E c s).1 = TRUE_WITH_SPACE ∧
        (PutOpenToken E c s).2.buffer = s.buffer ++ [32]) ∧
    (∀ (d : Nat) (t : List Nat), d % 256 = c → (PutToken E (d :: t) s).1 ≠ 0 →
      (PutToken E (d :: t) s).1 = TRUE_WITH_SPACE ∧
        (PutToken E (d :: t) s).2.buffer = s.buffer ++ [32] ++ (d :: t)) := by
  have hn : needSpace E c s = (true, s) := by
    unfold needSpace
    have h1 : ((s.lastc &&& C_PREFIX_SIGN != 0) && (E.isDigit c || E.f_is_prolog_symbol c)) =
        true := by
      rcases hd with h | h <;> simp [hs, h]
    simp only [hc, hl, h1, if_false, if_true]
  refine ⟨hn, PutOpenToken_space E c s hn, ?_⟩
  intro d t hdc hp
  unfold PutToken at hp ⊢
  simp only [hdc] at hp ⊢
  rcases ho : PutOpenToken E c s with ⟨rc, s1⟩
  simp only [ho] at hp ⊢
  have hsp := PutOpenToken_space E c s hn
  rw [ho] at hsp
  rcases rc with _ | rc
  · simp at hp
  · have h2 := hsp (by simp)
    simp only at h2
    rcases hq : PutString (d :: t) s1 with ⟨b, s2⟩
    simp only [hq] at hp ⊢
    cases b
    · simp at hp
    · simp only
      refine ⟨h2.1, ?_⟩
      rw [PutString_eq hq, h2.2]

/-- C13 at the digit `1` after `-` carrying the prefix-sign marker: the token
`12` is written after one space. -/
theorem prefix_sign_space_witness :
    (49 : Nat) ≠ EOF ∧
    ({ freshStream with lastc := 45 ||| C_PREFIX_OP ||| C_PREFIX_SIGN } : IOSTREAM).lastc ≠ EOF ∧
    ({ freshStream with lastc := 45 ||| C_PREFIX_OP ||| C_PREFIX_SIGN } : IOSTREAM).lastc &&&
      C_PREFIX_SIGN ≠ 0 ∧
    defaultEnv.isDigit 49 = true ∧
    (PutToken defaultEnv [49, 50]
      { freshStream with lastc := 45 ||| C_PREFIX_OP ||| C_PREFIX_SIGN }).2.buffer =
        [32, 49, 50] :=
  ⟨by decide, by decide, by decide, by decide,
    ((prefix_sign_space defaultEnv 49
      { freshStream with lastc := 45 ||| C_PREFIX_OP ||| C_PREFIX_SIGN } (by decide)
      (by decide) (by decide) (Or.inl (by decide))).2.2 49 [50] (by decide) (by decide)).2⟩

/-- C14. When the last-character slot holds a character with the prefix-operator
marker, `needSpace()` asks for a space before `(` and before `\x7b`, and
`PutOpenToken()` writes it.  When the slot holds a character with the
infix-operator marker and no prefix-operator marker (and the prefix-sign marker
is absent too, or `(` is neither a digit nor a symbol character), no space is
asked for before `(`: `PutOpenBrace()` writes just the parenthesis.  Neither
answer depends on the character in the slot. -/
theorem marker_open_paren :
    (∀ (E : Env) (c : Nat) (s : IOSTREAM), s.lastc ≠ EOF → s.lastc &&& C_PREFIX_OP ≠ 0 →
      c = 40 ∨ c = 123 →
      needSpace E c s = (true, s) ∧
      ((PutOpenToken E c s).1 ≠ 0 → (PutOpenToken E c s).2.buffer = s.buffer ++ [32])) ∧
    (∀ (E : Env) (s : IOSTREAM), s.lastc ≠ EOF → s.lastc &&& C_INFIX_OP ≠ 0 →
      s.lastc &&& C_PREFIX_OP = 0 →
      (s.lastc &&& C_PREFIX_SIGN = 0 ∨
        (E.isDigit 40 = false ∧ E.f_is_prolog_symbol 40 = false)) →
      needSpace E 40 s = (false, s) ∧ PutOpenToken E 40 s = (1, s) ∧
      ((PutOpenBrace E s).1 ≠ 0 → (PutOpenBrace E s).2.buffer = s.buffer ++ [40])) := by
  constructor
  · intro E c s hl hp hc
    have hce : c ≠ EOF := by rcases hc with h | h <;> rw [h] <;> decide
    have hn : needSpace E c s = (true, s) := by
      unfold needSpace
      have h2 : ((s.lastc &&& C_PREFIX_OP != 0) && (c == 40 || c == 123)) = true := by
        rcases hc with h | h <;> simp [hp, h]
      simp only [hce, hl, h2, if_false, if_true]
      split <;> rfl
    exact ⟨hn, fun h => (PutOpenToken_space E c s hn h).2⟩
  · intro E s hl hi hp hs
    have hn : needSpace E 40 s = (false, s) := by
      unfold needSpace
      have h1 : ((s.lastc &&& C_PREFIX_SIGN != 0) &&
          (E.isDigit 40 || E.f_is_prolog_symbol 40)) = false := by
        rcases hs with h | h
        · simp [h]
        · simp [h.1, h.2]
      have h2 : ((s.lastc &&& C_PREFIX_OP != 0) && ((40 : Nat) == 40 || (40 : Nat) == 123)) =
          false := by
        simp [hp]
      have h3 : ((s.lastc &&& C_INFIX_OP != 0) && ((40 : Nat) == 40)) = true := by
        simp [hi]
      have h0 : (40 : Nat) ≠ EOF := by decide
      simp only [h0, hl, h1, h2, h3, if_false, if_true, Bool.false_eq_true]
    have ho : PutOpenToken E 40 s = (1, s) := by
      unfold PutOpenToken
      rw [hn]
    refine ⟨hn, ho, ?_⟩
    intro hb
    unfold PutOpenBrace at hb ⊢
    rw [ho] at hb ⊢
    simp only at hb ⊢
    rcases hq : Putc 40 s with ⟨b, s2⟩
    simp only [hq] at hb ⊢
    cases b
    · simp at hb
    · exact Sputcode_eq hq

/-- C14 at `(` after `-` written as prefix operator (space) and after `-` written
as infix operator (no space). -/
theorem marker_open_paren_witness :
    ({ freshStream with lastc := 45 ||| C_PREFIX_OP } : IOSTREAM).lastc ≠ EOF ∧
    ({ freshStream with lastc := 45 ||| C_PREFIX_OP } : IOSTREAM).lastc &&& C_PREFIX_OP ≠ 0 ∧
    needSpace defaultEnv 40 { freshStream with lastc := 45 ||| C_PREFIX_OP } =
      (true, { freshStream with lastc := 45 ||| C_PREFIX_OP }) ∧
    ({ freshStream with lastc := 45 ||| C_INFIX_OP } : IOSTREAM).lastc &&& C_INFIX_OP ≠ 0 ∧
    ({ freshStream with lastc := 45 ||| C_INFIX_OP } : IOSTREAM).lastc &&& C_PREFIX_OP = 0 ∧
    needSpace defaultEnv 40 { freshStream with lastc := 45 ||| C_INFIX_OP } =
      (false, { freshStream with lastc := 45 ||| C_INFIX_OP }) ∧
    (PutOpenBrace defaultEnv { freshStream with lastc := 45 ||| C_INFIX_OP }).2.buffer = [40] :=
  have h1 := marker_open_paren.1 defaultEnv 40 { freshStream with lastc := 45 ||| C_PREFIX_OP }
    (by decide) (by decide) (Or.inl rfl)
  have h2 := marker_open_paren.2 defaultEnv { freshStream with lastc := 45 ||| C_INFIX_OP }
    (by decide) (by decide) (by decide) (Or.inl (by decide))
  ⟨by decide, by decide, h1.1, by decide, by decide, h2.1, h2.2.2 (by decide)⟩

/-! ## Operator atoms as operands -/

theorem deRef_atom (ld : PL_local_data) (a : Atom) : deRef ld (.atom a) = .atom a := by
  unfold deRef
  rfl

theorem writeTerm2_atom_operand (E : Env) (wt : WT) (fuel : Nat) (a : Atom) (prec : Int)
    (o o2 : write_options) (flags : Nat) (hf : flags &&& W_OP_ARG ≠ 0)
    (hp : priorityOperator o.module a > 0)
    (h : embraced E o (atomStep E a) = some (true, o2)) :
    writeTerm2_atom E wt fuel (.atom a) prec o flags = some (true, o2) := by
  unfold writeTerm2_atom
  have hc : ((flags &&& W_OP_ARG != 0) && decide (priorityOperator o.module a > 0)) = true := by
    simp [hf, hp]
  simp only [hc, if_true]
  unfold embraced onOutN at h
  rcases hb : PutOpenBrace E o.out with ⟨rc, s1⟩
  rw [hb] at h
  rcases rc with _ | rc
  · simp [TRY] at h
  · have hne : ((rc + 1 : Nat) != 0) = true := by simp
    simp only [hne, TRY_true] at h
    simp only
    unfold atomStep at h
    rcases hw : writeAtom E a { o with out := s1 } with ⟨ra, o3⟩
    rw [hw] at h
    rcases ra with _ | ra
    · simp [TRY] at h
    · have hne2 : ((ra + 1 : Nat) != 0) = true := by simp
      simp only [hne2, TRY_true, onOut] at h
      simp only
      rcases hq : PutCloseBrace o3.out with ⟨b, s3⟩
      rw [hq] at h
      simp only [Option.some.injEq, Prod.mk.injEq] at h
      cases b
      · simp at h
      · simp only
        rw [← h.2]

theorem writeTerm2_atom_plain (E : Env) (wt : WT) (fuel : Nat) (a : Atom) (prec : Int)
    (o : write_options) (flags : Nat)
    (h : flags &&& W_OP_ARG = 0 ∨ priorityOperator o.module a ≤ 0) :
    writeTerm2_atom E wt fuel (.atom a) prec o flags = atomStep E a o := by
  unfold writeTerm2_atom
  have hc : ((flags &&& W_OP_ARG != 0) && decide (priorityOperator o.module a > 0)) = false := by
    rcases h with h | h
    · simp [h]
    · have : ¬(priorityOperator o.module a > 0) := by omega
      simp [this]
  simp only [hc, Bool.false_eq_true, if_false]

theorem writeTopTerm_plain (E : Env) (fuel : Nat) (t : Term) (prec : Int) (o : write_options)
    (hp : o.flags.PL_WRT_PARTIAL = false) (ha : E.PL_is_acyclic o.ld.bindings t = true) :
    writeTopTerm E fuel t prec o = writeTerm E fuel t prec o W_TOP := by
  unfold writeTopTerm
  simp [hp, ha]

/-- The module `user` with the postfix operator `xx` added to the sample
operators. -/
def postfixModule : Module :=
  { userModule with
    currentOperator := lookupOp (("xx", .OP_POSTFIX, .OP_XF, 200) :: defaultOps) }

/-- C16. An atom reaches the atom case of `writeTerm2()` with the options `o1`
(`o` itself when portray is off, what the declining hook has left otherwise).
If it has a positive operator priority in the module and the location flag is
`W_OP_ARG`, the flag of the operands of prefix, infix and postfix operator
terms, the atom is written between `PutOpenBrace()` and `PutCloseBrace()`:
`(`, after a space when the token rules ask for one, the atom as `writeAtom()`
writes it, and `)`.  With any other location flag (top term when not partial,
argument of a canonical compound, list element, list tail) and for every atom
that is no operator the result is that of `writeAtom()` alone.  Examples with
the operator atoms `-` and `+`: `- (-)`, `(-)=(+)`, `(-)xx`; `f(-)`, `[-]`,
`[a|-]`, `-` at top level; and the operand `a`, no operator: `-a`. -/
theorem operator_atom_parentheses :
    (∀ (E : Env) (wt : WT) (fuel : Nat) (a : Atom) (prec : Int) (o o1 : write_options)
        (flags : Nat),
      (o.flags.PL_WRT_PORTRAY = false ∧ o1 = o ∨
        o.flags.PL_WRT_PORTRAY = true ∧ callPortray E (.atom a) prec o = (0, o1)) →
      (flags &&& W_OP_ARG ≠ 0 → priorityOperator o1.module a > 0 →
        ∀ o2, embraced E o1 (atomStep E a) = some (true, o2) →
          writeTerm2 E wt fuel (.atom a) prec o flags = some (true, o2) ∧
          ∃ o3, atomStep E a { o1 with out := (PutOpenBrace E o1.out).2 } = some (true, o3) ∧
            (PutOpenBrace E o1.out).2.buffer =
              o1.out.buffer ++ (if (needSpace E 40 o1.out).1 then [32] else []) ++ [40] ∧
            o2.out.buffer = o3.out.buffer ++ [41]) ∧
      (flags &&& W_OP_ARG = 0 ∨ priorityOperator o1.module a ≤ 0 →
        writeTerm2 E wt fuel (.atom a) prec o flags = atomStep E a o1)) ∧
    (W_OP_ARG &&& W_OP_ARG ≠ 0 ∧ W_TOP &&& W_OP_ARG = 0) ∧
    (∀ (E : Env) (fuel : Nat) (t : Term) (prec : Int) (o : write_options),
      o.flags.PL_WRT_PARTIAL = false → E.PL_is_acyclic o.ld.bindings t = true →
      writeTopTerm E fuel t prec o = writeTerm E fuel t prec o W_TOP) ∧
    written (writeTerm defaultEnv 4 (.compound (textAtom "-") [atomTerm "-"]) 1200
      (defaultOptions {}) W_TOP) = some (true, str "- (-)") ∧
    written (writeTerm defaultEnv 4 (.compound (textAtom "=") [atomTerm "-", atomTerm "+"])
      1200 (defaultOptions {}) W_TOP) = some (true, str "(-)=(+)") ∧
    written (writeTerm defaultEnv 4 (.compound (textAtom "xx") [atomTerm "-"]) 1200
      { defaultOptions {} with module := postfixModule } W_TOP) = some (true, str "(-)xx") ∧
    written (writeTerm defaultEnv 4 (.compound (textAtom "f") [atomTerm "-"]) 1200
      (defaultOptions {}) W_TOP) = some (true, str "f(-)") ∧
    written (writeTerm defaultEnv 4
      (.compound defaultEnv.ATOM_dot [atomTerm "-", .atom defaultEnv.ATOM_nil]) 1200
      (defaultOptions {}) W_TOP) = some (true, str "[-]") ∧
    written (writeTerm defaultEnv 4
      (.compound defaultEnv.ATOM_dot [atomTerm "a", atomTerm "-"]) 1200
      (defaultOptions {}) W_TOP) = some (true, str "[a|-]") ∧
    written (writeTopTerm defaultEnv 4 (atomTerm "-") 1200 (defaultOptions {})) =
      some (true, str "-") ∧
    written (writeTerm defaultEnv 4 (.compound (textAtom "-") [atomTerm "a"]) 1200
      (defaultOptions {}) W_TOP) = some (true, str "-a") := by
  refine ⟨?_, ⟨by decide, by decide⟩, writeTopTerm_plain, by decide!, by decide!, by decide!,
    by decide!, by decide!, by decide!, by decide!, by decide!⟩
  intro E wt fuel a prec o o1 flags hp
  have hw : writeTerm2 E wt fuel (.atom a) prec o flags =
      writeTerm2_atom E wt fuel (.atom a) prec o1 flags := by
    unfold writeTerm2
    rcases hp with ⟨hp, rfl⟩ | ⟨hp, hc⟩
    · simp only [deRef_atom, PL_is_variable, hp, Bool.and_false, Bool.false_eq_true, if_false]
    · simp only [deRef_atom, PL_is_variable, hp, hc, Bool.not_false, Bool.and_self, if_true]
  constructor
  · intro hf hpri o2 he
    exact ⟨by rw [hw]; exact writeTerm2_atom_operand E wt fuel a prec o1 o2 flags hf hpri he,
      embraced_buffer E o1 o2 _ he⟩
  · intro h
    rw [hw]
    exact writeTerm2_atom_plain E wt fuel a prec o1 flags h

/-- C16 at the operator atom `-` as operand on a fresh stream (written `(-)`) and
as argument of a canonical compound (written `-`). -/
theorem operator_atom_parentheses_witness :
    (defaultOptions {}).flags.PL_WRT_PORTRAY = false ∧
    W_OP_ARG &&& W_OP_ARG ≠ 0 ∧
    priorityOperator (defaultOptions {}).module (textAtom "-") > 0 ∧
    embraced defaultEnv (defaultOptions {}) (atomStep defaultEnv (textAtom "-")) =
      some (true, { defaultOptions {} with
        out := { freshStream with buffer := str "(-)", lastc := 41 } }) ∧
    writeTerm2 defaultEnv (writeTerm defaultEnv 1) 1 (atomTerm "-") 200
        (defaultOptions {}) W_OP_ARG =
      some (true, { defaultOptions {} with
        out := { freshStream with buffer := str "(-)", lastc := 41 } }) ∧
    writeTerm2 defaultEnv (writeTerm defaultEnv 1) 1 (atomTerm "-") 999
      (defaultOptions {}) W_TOP = atomStep defaultEnv (textAtom "-") (defaultOptions {}) :=
  have h := operator_atom_parentheses.1 defaultEnv (writeTerm defaultEnv 1) 1 (textAtom "-")
  have he : embraced defaultEnv (defaultOptions {}) (atomStep defaultEnv (textAtom "-")) =
      some (true, { defaultOptions {} with
        out := { freshStream with buffer := str "(-)", lastc := 41 } }) := rfl
  ⟨rfl, by decide, by decide, he,
    ((h 200 (defaultOptions {}) (defaultOptions {}) W_OP_ARG (Or.inl ⟨rfl, rfl⟩)).1
      (by decide) (by decide) _ he).1,
    (h 999 (defaultOptions {}) (defaultOptions {}) W_TOP (Or.inl ⟨rfl, rfl⟩)).2
      (Or.inl (by decide))⟩

/-! ## The classifier: texts starting with a lowercase letter -/

/-- A character passes the `for` loop of the lower-case branch of `atomType()`:
it is alphanumeric (letter, digit or underscore) and `code_requires_quoted()`
does not ask for quotes on its `char` value. -/
def plainAlpha (E : Env) (fd : Option IOSTREAM) (flags : WrtFlags) (c : Nat) : Bool :=
  E.isAlpha c && !code_requires_quoted (plainChar c) fd flags

theorem plainChar_le (b : Nat) : plainChar b ≤ 0x7f := by
  unfold plainChar
  split <;> omega

theorem code_requires_quoted_plainChar (b : Nat) (fd : Option IOSTREAM) (flags : WrtFlags) :
    code_requires_quoted (plainChar b) fd flags =
      match fd with
      | some s => !s.canrepresent (plainChar b)
      | none => false := by
  have h := plainChar_le b
  have h1 : decide (plainChar b > 0x7f) = false := by
    simp only [gt_iff_lt, decide_eq_false_iff_not, not_lt]
    exact h
  unfold code_requires_quoted Scanrepresent
  simp only [h1, Bool.false_and, Bool.false_eq_true, if_false]
  cases fd with
  | none => rfl
  | some s => rcases hc : s.canrepresent (plainChar b) <;> simp [hc]

theorem plainAlpha_eq (E : Env) (fd : Option IOSTREAM) (flags : WrtFlags) (c : Nat) :
    plainAlpha E fd flags c =
      (E.isAlpha c &&
        match fd with
        | some s => s.canrepresent (plainChar c)
        | none => true) := by
  unfold plainAlpha
  rw [code_requires_quoted_plainChar]
  cases fd with
  | none => rfl
  | some s => simp

/-- The rule for the characters after the first: each is a plain alphanumeric
character, except that with `dot` a `.` may stand in front of one. -/
def lowerRest (ok : Nat → Bool) (dot : Bool) : List Nat → Bool
  | [] => true
  | [c] => ok c
  | c :: x :: r =>
    if ok c then lowerRest ok dot (x :: r)
    else if c == 46 && dot then ok x && lowerRest ok dot r
    else false

theorem atomType_alpha_eq (E : Env) (fd : Option IOSTREAM) (flags : WrtFlags) :
    ∀ l : List Nat, atomType_alpha E fd flags l = l.dropWhile (plainAlpha E fd flags) := by
  intro l
  induction l with
  | nil => rfl
  | cons c cs ih =>
    unfold atomType_alpha
    by_cases h : plainAlpha E fd flags c = true
    · have h1 := h
      unfold plainAlpha at h1
      simp only [h1, if_true, List.dropWhile_cons_of_pos h, ih]
    · have h1 := h
      unfold plainAlpha at h1
      simp only [h1, Bool.false_eq_true, if_false, List.dropWhile_cons_of_neg h]

theorem lowerRest_dropWhile (ok : Nat → Bool) (dot : Bool) :
    ∀ l : List Nat, lowerRest ok dot l = lowerRest ok dot (l.dropWhile ok) := by
  intro l
  induction l with
  | nil => rfl
  | cons c cs ih =>
    by_cases h : ok c = true
    · rw [List.dropWhile_cons_of_pos h, ← ih]
      cases cs with
      | nil => simp [lowerRest, h]
      | cons x r => simp [lowerRest, h]
    · rw [List.dropWhile_cons_of_neg h]

theorem dropWhile_head (ok : Nat → Bool) :
    ∀ (l : List Nat) (d : Nat) (m : List Nat), l.dropWhile ok = d :: m → ok d = false := by
  intro l
  induction l with
  | nil => intro d m h; simp at h
  | cons c cs ih =>
    intro d m h
    by_cases hc : ok c = true
    · rw [List.dropWhile_cons_of_pos hc] at h
      exact ih d m h
    · rw [List.dropWhile_cons_of_neg hc] at h
      simp only [List.cons.injEq] at h
      rw [← h.1]
      simpa using hc

theorem dropWhile_length (ok : Nat → Bool) (l : List Nat) : (l.dropWhile ok).length ≤ l.length :=
  (List.dropWhile_suffix ok).length_le

theorem atomType_lower_eq (E : Env) (fd : Option IOSTREAM) (flags : WrtFlags) (dot : Bool)
    (hdot : E.isAlpha 46 = false) :
    ∀ (fuel : Nat) (l : List Nat) (c0 : Nat), l.length < fuel →
      ((atomType_lower E fd flags dot fuel (c0 :: l)).length = 0 ↔
        lowerRest (plainAlpha E fd flags) dot l = true) := by
  intro fuel
  induction fuel with
  | zero => intro l c0 h; omega
  | succ n ih =>
    intro l c0 hl
    unfold atomType_lower
    simp only [List.tail_cons, atomType_alpha_eq]
    rw [lowerRest_dropWhile]
    have hlen := dropWhile_length (plainAlpha E fd flags) l
    have hhead := dropWhile_head (plainAlpha E fd flags) l
    rcases hm : l.dropWhile (plainAlpha E fd flags) with _ | ⟨d, m⟩
    · simp [lowerRest]
    · rw [hm] at hlen
      have hd := hhead d m hm
      rcases m with _ | ⟨x, r⟩
      · simp [lowerRest, hd]
      · simp only [lowerRest, hd, Bool.false_eq_true, if_false]
        simp only [List.length_cons] at hlen
        by_cases hx : E.isAlpha x = true
        · by_cases hc : (d == 46 && dot) = true
          · have hc1 : (d == 46 && E.isAlpha x && dot) = true := by
              simp only [Bool.and_eq_true] at hc ⊢
              exact ⟨⟨hc.1, hx⟩, hc.2⟩
            simp only [hc1, hc, if_true]
            rw [ih (x :: r) d (by simp only [List.length_cons]; omega)]
            have hx46 : x ≠ 46 := by
              intro h46; rw [h46, hdot] at hx; cases hx
            cases r with
            | nil => simp [lowerRest]
            | cons y r1 =>
              by_cases hox : plainAlpha E fd flags x = true
              · simp [lowerRest, hox]
              · simp [lowerRest, hox, hx46]
          · have hc1 : (d == 46 && E.isAlpha x && dot) = false := by
              simp only [Bool.and_eq_true, not_and, Bool.not_eq_true, Bool.and_eq_false_imp] at hc ⊢
              intro h1
              exact hc h1.1
            simp [hc1, hc]
        · have hox : plainAlpha E fd flags x = false := by
            unfold plainAlpha
            simp [hx]
          have hc1 : (d == 46 && E.isAlpha x && dot) = false := by
            simp [hx]
          simp [hc1, hox]

theorem atomType_symbol_eq (E : Env) (options : Option write_options) (fd : Option IOSTREAM)
    (flags : WrtFlags) :
    ∀ s : List Nat, ((atomType_symbol E options fd flags s).length > 0) ↔
      s.all (fun d => wr_is_symbol E d options &&
        !code_requires_quoted (plainChar d) fd flags) = false := by
  intro s
  induction s with
  | nil => simp [atomType_symbol]
  | cons c cs ih =>
    unfold atomType_symbol
    by_cases h : (wr_is_symbol E c options &&
        !code_requires_quoted (plainChar c) fd flags) = true
    · simp only [h, if_true, List.all_cons, Bool.true_and]
      exact ih
    · simp only [h, Bool.false_eq_true, if_false, List.all_cons, List.length_cons]
      simp only [Bool.not_eq_true] at h
      simp [h]

theorem lowerRest_mem (ok : Nat → Bool) (dot : Bool) :
    ∀ (n : Nat) (l : List Nat), l.length ≤ n → lowerRest ok dot l = true →
      ∀ d ∈ l, d ≠ 46 → ok d = true := by
  intro n
  induction n with
  | zero =>
    intro l hl _ d hd
    have : l = [] := List.length_eq_zero.mp (by omega)
    rw [this] at hd
    cases hd
  | succ n ih =>
    intro l hl h d hd hne
    rcases l with _ | ⟨c, _ | ⟨x, r⟩⟩
    · cases hd
    · simp only [lowerRest] at h
      simp only [List.mem_singleton] at hd
      rw [hd]; exact h
    · simp only [lowerRest] at h
      simp only [List.length_cons] at hl
      by_cases hc : ok c = true
      · simp only [hc, if_true] at h
        rcases List.mem_cons.mp hd with h1 | h1
        · rw [h1]; exact hc
        · exact ih (x :: r) (by simp only [List.length_cons]; omega) h d h1 hne
      · simp only [hc, Bool.false_eq_true, if_false] at h
        by_cases hdt : (c == 46 && dot) = true
        · simp only [hdt, if_true, Bool.and_eq_true] at h
          have hc46 : c = 46 := by
            simp only [Bool.and_eq_true, beq_iff_eq] at hdt
            exact hdt.1
          rcases List.mem_cons.mp hd with h1 | h1
          · exact absurd (h1.trans hc46) hne
          · rcases List.mem_cons.mp h1 with h2 | h2
            · rw [h2]; exact h.1
            · exact ih r (by omega) h.2 d h2 hne
        · simp [hdt] at h

theorem atomType_lower_branch (E : Env) (a : Atom) (o : write_options) (c : Nat)
    (rest : List Nat) (ha : a.name = c :: rest) (hdot : E.isAlpha 46 = false)
    (hc : E.isLower c = true ∨ (o.module.M_VARPREFIX = true ∧ E.isAlpha c = true)) :
    atomType E a (some o) =
      if lowerRest (plainAlpha E (some o.out) o.flags)
          (E.PLFLAG_DOT_IN_ATOM && !o.flags.PL_WRT_NODOTINATOM) rest
      then AT_LOWER else AT_QUOTE := by
  have hcond : (E.isLower c || (o.module.M_VARPREFIX && E.isAlpha c)) = true := by
    rcases hc with h | h
    · simp [h]
    · simp [h.1, h.2]
  have hl := atomType_lower_eq E (some o.out) o.flags
    (E.PLFLAG_DOT_IN_ATOM && !o.flags.PL_WRT_NODOTINATOM) hdot (rest.length + 1) rest c
    (by omega)
  unfold atomType
  simp only [ha, hcond, if_true, Option.map_some', List.length_cons]
  by_cases hr : lowerRest (plainAlpha E (some o.out) o.flags)
      (E.PLFLAG_DOT_IN_ATOM && !o.flags.PL_WRT_NODOTINATOM) rest = true
  · simp only [hr, if_true, hl.2 hr]
  · have hne : ¬(atomType_lower E (some o.out) o.flags
        (E.PLFLAG_DOT_IN_ATOM && !o.flags.PL_WRT_NODOTINATOM) (rest.length + 1)
        (c :: rest)).length = 0 := fun h => hr (hl.1 h)
    simp only [hr, hne, Bool.false_eq_true, if_false]

theorem atomType_symbol_branch (E : Env) (a : Atom) (o : write_options) (c : Nat)
    (rest : List Nat) (d : Nat) (ha : a.name = c :: rest)
    (hlow : E.isLower c = false ∧ (o.module.M_VARPREFIX = false ∨ E.isAlpha c = false))
    (hw : wr_is_symbol E c (some o) = true) (hd : d ∈ a.name)
    (hq : code_requires_quoted (plainChar d) (some o.out) o.flags = true) (hne : a.name ≠ [46]) :
    atomType E a (some o) = AT_QUOTE := by
  have hcond : (E.isLower c || (o.module.M_VARPREFIX && E.isAlpha c)) = false := by
    rcases hlow.2 with h | h
    · simp [hlow.1, h]
    · simp [hlow.1, h]
  have hall : (c :: rest).all (fun d => wr_is_symbol E d (some o) &&
      !code_requires_quoted (plainChar d) (some o.out) o.flags) = false := by
    rw [← Bool.not_eq_true]
    intro h
    rw [List.all_eq_true] at h
    rw [ha] at hd
    have := h d hd
    rw [hq] at this
    simp at this
  have hlen := (atomType_symbol_eq E (some o) (some o.out) o.flags (c :: rest)).2 hall
  have hfs : ¬(rest.length + 1 = 1 ∧ c = 46) := by
    intro h
    apply hne
    have hr : rest = [] := List.length_eq_zero.mp (by omega)
    rw [ha, h.2, hr]
  unfold atomType
  simp only [ha, hcond, Bool.false_eq_true, if_false, hw, if_true, List.length_cons,
    Option.map_some', hlen]
  simp only [Bool.and_eq_true, decide_eq_true_eq, hfs, if_false]
  split <;> rfl

theorem atomType_alpha_flags (E : Env) (fd : Option IOSTREAM) (f1 f2 : WrtFlags) :
    ∀ l : List Nat, atomType_alpha E fd f1 l = atomType_alpha E fd f2 l := by
  intro l
  rw [atomType_alpha_eq, atomType_alpha_eq]
  have h : plainAlpha E fd f1 = plainAlpha E fd f2 := by
    funext c
    rw [plainAlpha_eq, plainAlpha_eq]
  rw [h]

theorem atomType_lower_flags (E : Env) (fd : Option IOSTREAM) (f1 f2 : WrtFlags) (dot : Bool) :
    ∀ (fuel : Nat) (l : List Nat),
      atomType_lower E fd f1 dot fuel l = atomType_lower E fd f2 dot fuel l := by
  intro fuel
  induction fuel with
  | zero => intro l; rfl
  | succ n ih =>
    intro l
    unfold atomType_lower
    rw [atomType_alpha_flags E fd f1 f2]
    rcases atomType_alpha E fd f2 l.tail with _ | ⟨d, _ | ⟨x, r⟩⟩
    · rfl
    · rfl
    · simp only [ih]

theorem atomType_symbol_flags (E : Env) (o1 o2 : Option write_options)
    (fd : Option IOSTREAM) (f1 f2 : WrtFlags)
    (hw : ∀ c, wr_is_symbol E c o1 = wr_is_symbol E c o2) :
    ∀ l : List Nat, atomType_symbol E o1 fd f1 l = atomType_symbol E o2 fd f2 l := by
  intro l
  induction l with
  | nil => rfl
  | cons c cs ih =>
    unfold atomType_symbol
    rw [hw c, code_requires_quoted_plainChar c fd f1, code_requires_quoted_plainChar c fd f2, ih]

theorem atomType_quote_non_ascii (E : Env) (a : Atom) (o : write_options) (b : Bool) :
    atomType E a (some { o with flags := { o.flags with PL_WRT_QUOTE_NON_ASCII := b } }) =
      atomType E a (some o) := by
  have hw : ∀ c, wr_is_symbol E c
      (some { o with flags := { o.flags with PL_WRT_QUOTE_NON_ASCII := b } }) =
        wr_is_symbol E c (some o) := fun c => rfl
  have h1 := atomType_lower_flags E (some o.out)
    { o.flags with PL_WRT_QUOTE_NON_ASCII := b } o.flags
  have h2 := atomType_symbol_flags E
    (some { o with flags := { o.flags with PL_WRT_QUOTE_NON_ASCII := b } }) (some o)
    (some o.out) { o.flags with PL_WRT_QUOTE_NON_ASCII := b } o.flags hw
  unfold atomType
  simp only [Option.map_some', h1, h2, hw]

/-- A stream that reports exactly the `int` values below 0x7f as
representable. -/
def asciiStream : IOSTREAM := { freshStream with canrepresent := fun c => decide (c < 0x7f) }

/-- C19 (the code departs from the claim).  What `atomType()` does with a
character that ought to force quoting.  It hands `code_requires_quoted()` the
`int` value of a `char`, which is never above 0x7f: the flag `quote_non_ascii`
does not change the class of any text, and the stream is asked about the value
`b - 256` for a byte `b` from 0x80 on.  A character after the first of a
Lower-initial text (other than a dot) whose `char` value the stream reports as
not representable gives NeedsQuote, and so does such a character at any
position of a text that starts with a symbol character; but the first character
of a Lower-initial text is never tested, so the text is Lower whenever the rest
passes.  With `quote_non_ascii` the texts `a`, 233 and 233 and 233, `a` (233 is
the Latin-1 letter e acute) are Lower and `a`, 233 is written without quotes;
on a stream that represents the values below 0x7f only, `a`, 233 is Lower as
well; on a stream that cannot represent `a` the text `ab` is Lower.  The
wide-character classifier `unquoted_atomW()` receives code points, tests the
first one too, and asks for quotes on each of these texts. -/
theorem quote_forcing_character :
    (∀ (E : Env) (a : Atom) (o : write_options) (b : Bool),
      atomType E a (some { o with flags := { o.flags with PL_WRT_QUOTE_NON_ASCII := b } }) =
        atomType E a (some o)) ∧
    (∀ (c : Nat) (s : IOSTREAM) (flags : WrtFlags),
      plainChar c ≤ 0x7f ∧
      code_requires_quoted (plainChar c) (some s) flags = !s.canrepresent (plainChar c) ∧
      code_requires_quoted (plainChar c) none flags = false) ∧
    (∀ (E : Env) (a : Atom) (o : write_options) (c : Nat) (rest : List Nat) (d : Nat),
      a.name = c :: rest → E.isAlpha 46 = false →
      E.isLower c = true ∨ (o.module.M_VARPREFIX = true ∧ E.isAlpha c = true) →
      d ∈ rest → d ≠ 46 → o.out.canrepresent (plainChar d) = false →
      atomType E a (some o) = AT_QUOTE) ∧
    (∀ (E : Env) (a : Atom) (o : write_options) (c : Nat) (rest : List Nat) (d : Nat),
      a.name = c :: rest →
      E.isLower c = false ∧ (o.module.M_VARPREFIX = false ∨ E.isAlpha c = false) →
      wr_is_symbol E c (some o) = true → d ∈ a.name →
      o.out.canrepresent (plainChar d) = false → a.name ≠ [46] →
      atomType E a (some o) = AT_QUOTE) ∧
    (∀ (E : Env) (a : Atom) (o : write_options) (c : Nat) (rest : List Nat),
      a.name = c :: rest → E.isAlpha 46 = false →
      E.isLower c = true ∨ (o.module.M_VARPREFIX = true ∧ E.isAlpha c = true) →
      lowerRest (fun d => E.isAlpha d && o.out.canrepresent (plainChar d))
        (E.PLFLAG_DOT_IN_ATOM && !o.flags.PL_WRT_NODOTINATOM) rest = true →
      atomType E a (some o) = AT_LOWER) ∧
    (plainChar 233 = -23 ∧ plainChar 97 = 97) ∧
    atomType defaultEnv ⟨[97, 233], .text⟩
      (some (defaultOptions { PL_WRT_QUOTED := true, PL_WRT_QUOTE_NON_ASCII := true })) =
        AT_LOWER ∧
    atomType defaultEnv ⟨[233], .text⟩
      (some (defaultOptions { PL_WRT_QUOTED := true, PL_WRT_QUOTE_NON_ASCII := true })) =
        AT_LOWER ∧
    atomType defaultEnv ⟨[233, 97], .text⟩
      (some (defaultOptions { PL_WRT_QUOTED := true, PL_WRT_QUOTE_NON_ASCII := true })) =
        AT_LOWER ∧
    (writeAtom defaultEnv ⟨[97, 233], .text⟩
      (defaultOptions { PL_WRT_QUOTED := true, PL_WRT_QUOTE_NON_ASCII := true })).2.out.buffer =
        [97, 233] ∧
    unquoted_atomW defaultEnv ⟨[97, 233], .ucs⟩ (some freshStream)
      { PL_WRT_QUOTED := true, PL_WRT_QUOTE_NON_ASCII := true } = false ∧
    unquoted_atomW defaultEnv ⟨[233], .ucs⟩ (some freshStream)
      { PL_WRT_QUOTED := true, PL_WRT_QUOTE_NON_ASCII := true } = false ∧
    atomType defaultEnv ⟨[97, 233], .text⟩
      (some { defaultOptions { PL_WRT_QUOTED := true } with out := asciiStream }) = AT_LOWER ∧
    unquoted_atomW defaultEnv ⟨[97, 233], .ucs⟩ (some asciiStream) { PL_WRT_QUOTED := true } =
      false ∧
    atomType defaultEnv (textAtom "ab")
      (some { defaultOptions { PL_WRT_QUOTED := true } with
              out := { freshStream with canrepresent := fun c => c != 97 } }) = AT_LOWER ∧
    unquoted_atomW defaultEnv ⟨[97, 98], .ucs⟩
      (some { freshStream with canrepresent := fun c => c != 97 }) { PL_WRT_QUOTED := true } =
        false := by
  refine ⟨atomType_quote_non_ascii, ?_, ?_, ?_, ?_, by decide, by decide, by decide, by decide,
    by decide, by decide, by decide, by decide, by decide, by decide, by decide⟩
  · intro c s flags
    exact ⟨plainChar_le c, code_requires_quoted_plainChar c (some s) flags,
      code_requires_quoted_plainChar c none flags⟩
  · intro E a o c rest d ha hdot hc hd hne hq
    rw [atomType_lower_branch E a o c rest ha hdot hc]
    have hr : lowerRest (plainAlpha E (some o.out) o.flags)
        (E.PLFLAG_DOT_IN_ATOM && !o.flags.PL_WRT_NODOTINATOM) rest ≠ true := by
      intro h
      have hok := lowerRest_mem _ _ rest.length rest (Nat.le_refl _) h d hd hne
      rw [plainAlpha_eq] at hok
      simp only [hq, Bool.and_false, Bool.false_eq_true] at hok
    simp only [hr, Bool.false_eq_true, if_false]
  · intro E a o c rest d ha hlow hw hd hq hne
    refine atomType_symbol_branch E a o c rest d ha hlow hw hd ?_ hne
    rw [code_requires_quoted_plainChar]
    simp only [hq, Bool.not_false]
  · intro E a o c rest ha hdot hc hr
    rw [atomType_lower_branch E a o c rest ha hdot hc]
    have h : plainAlpha E (some o.out) o.flags =
        (fun d => E.isAlpha d && o.out.canrepresent (plainChar d)) := by
      funext d
      rw [plainAlpha_eq]
    rw [h]
    simp only [hr, if_true]

/-- C19 at the text `ab` on a stream that cannot represent `b` (a later
character is honoured), at the text `=+` on a stream that cannot represent `+`,
and at the text 233, `a` under `quote_non_ascii` (Lower). -/
theorem quote_forcing_character_witness :
    (defaultEnv.isAlpha 46 = false ∧ defaultEnv.isLower 97 = true ∧
      defaultEnv.isLower 233 = true ∧ defaultEnv.isLower 61 = false ∧
      wr_is_symbol defaultEnv 61 (some { defaultOptions {} with
          out := { freshStream with canrepresent := fun c => c != 43 } }) = true) ∧
    atomType defaultEnv (textAtom "ab")
      (some { defaultOptions {} with
              out := { freshStream with canrepresent := fun c => c != 98 } }) = AT_QUOTE ∧
    atomType defaultEnv (textAtom "=+")
      (some { defaultOptions {} with
              out := { freshStream with canrepresent := fun c => c != 43 } }) = AT_QUOTE ∧
    atomType defaultEnv ⟨[233, 97], .text⟩
      (some (defaultOptions { PL_WRT_QUOTED := true, PL_WRT_QUOTE_NON_ASCII := true })) =
        AT_LOWER :=
  ⟨by decide,
    quote_forcing_character.2.2.1 defaultEnv (textAtom "ab")
      { defaultOptions {} with out := { freshStream with canrepresent := fun c => c != 98 } }
      97 [98] 98 (by decide) (by decide) (Or.inl (by decide)) (by decide) (by decide)
      (by decide),
    quote_forcing_character.2.2.2.1 defaultEnv (textAtom "=+")
      { defaultOptions {} with out := { freshStream with canrepresent := fun c => c != 43 } }
      61 [43] 43 (by decide) ⟨by decide, Or.inl (by decide)⟩ (by decide) (by decide)
      (by decide) (by decide),
    quote_forcing_character.2.2.2.2.1 defaultEnv ⟨[233, 97], .text⟩
      (defaultOptions { PL_WRT_QUOTED := true, PL_WRT_QUOTE_NON_ASCII := true }) 233 [97]
      rfl (by decide) (Or.inl (by decide)) (by decide)⟩

/-! ## The wide-character classifier -/

theorem unquoted_atomW_ident_eq (E : Env) (fd : Option IOSTREAM) (flags : WrtFlags)
    (dot : Bool) (h46 : E.f_is_prolog_identifier_continue 46 = false) :
    ∀ (n : Nat) (l : List Nat), l.length ≤ n →
      unquoted_atomW_ident E fd flags dot l =
        lowerRest (fun c => E.f_is_prolog_identifier_continue c &&
          !code_requires_quoted c fd flags) dot l := by
  intro n
  induction n with
  | zero =>
    intro l hl
    have : l = [] := List.length_eq_zero.mp (by omega)
    rw [this]
    rfl
  | succ n ih =>
    intro l hl
    rcases l with _ | ⟨c, _ | ⟨x, r⟩⟩
    · rfl
    · simp only [unquoted_atomW_ident, lowerRest]
      cases E.f_is_prolog_identifier_continue c <;>
        cases code_requires_quoted c fd flags <;> rfl
    · simp only [List.length_cons] at hl
      simp only [unquoted_atomW_ident, lowerRest]
      by_cases hd : (c == 46 && dot) = true
      · have hc46 : c = 46 := by
          simp only [Bool.and_eq_true, beq_iff_eq] at hd
          exact hd.1
        have hok : (E.f_is_prolog_identifier_continue c &&
            !code_requires_quoted c fd flags) = false := by
          rw [hc46, h46]; rfl
        simp only [hd, if_true, hok, Bool.false_eq_true, if_false]
        rw [ih r (by omega)]
        cases (E.f_is_prolog_identifier_continue x && !code_requires_quoted x fd flags) <;>
          simp
      · simp only [hd, Bool.false_eq_true, if_false]
        rw [ih (x :: r) (by simp only [List.length_cons]; omega)]
        cases E.f_is_prolog_identifier_continue c <;>
          cases code_requires_quoted c fd flags <;> simp [lowerRest]

theorem lowerRest_congr (ok1 ok2 : Nat → Bool) (dot : Bool) :
    ∀ (n : Nat) (l : List Nat), l.length ≤ n → (∀ d ∈ l, ok1 d = ok2 d) →
      lowerRest ok1 dot l = lowerRest ok2 dot l := by
  intro n
  induction n with
  | zero =>
    intro l hl _
    have : l = [] := List.length_eq_zero.mp (by omega)
    rw [this]
    rfl
  | succ n ih =>
    intro l hl h
    rcases l with _ | ⟨c, _ | ⟨x, r⟩⟩
    · rfl
    · simp only [lowerRest]
      exact h c (List.mem_singleton.2 rfl)
    · simp only [List.length_cons] at hl
      simp only [lowerRest]
      rw [h c (List.mem_cons_self _ _), h x (List.mem_cons_of_mem _ (List.mem_cons_self _ _)),
        ih (x :: r) (by simp only [List.length_cons]; omega)
          (fun d hd => h d (List.mem_cons_of_mem _ hd)),
        ih r (by omega)
          (fun d hd => h d (List.mem_cons_of_mem _ (List.mem_cons_of_mem _ hd)))]

theorem all_congr_mem (f g : Nat → Bool) :
    ∀ l : List Nat, (∀ d ∈ l, f d = g d) → l.all f = l.all g := by
  intro l
  induction l with
  | nil => intro _; rfl
  | cons c cs ih =>
    intro h
    simp only [List.all_cons]
    rw [h c (List.mem_cons_self _ _), ih (fun d hd => h d (List.mem_cons_of_mem _ hd))]

theorem plainChar_ascii (d : Nat) (h : d < 128) : plainChar d = (d : Int) := by
  unfold plainChar
  have h1 : d % 256 = d := Nat.mod_eq_of_lt (by omega)
  rw [h1, if_pos h]

/-- The rules of `unquoted_atomW()` for a text that is not empty: when the first
code point does not start an identifier, every code point is a symbol character
that does not require quotes; otherwise the first code point does not require
quotes and the rest follows the rule `lowerRest`. -/
theorem unquoted_atomW_rules (E : Env) (c : Nat) (rest : List Nat) (fd : Option IOSTREAM)
    (flags : WrtFlags) (h46 : E.f_is_prolog_identifier_continue 46 = false) :
    unquoted_atomW E ⟨c :: rest, .ucs⟩ fd flags =
      if E.f_is_prolog_atom_start c then
        (!code_requires_quoted c fd flags &&
          lowerRest (fun d => E.f_is_prolog_identifier_continue d &&
            !code_requires_quoted d fd flags)
            (E.PLFLAG_DOT_IN_ATOM && !flags.PL_WRT_NODOTINATOM) rest)
      else
        (c :: rest).all
          (fun d => E.f_is_prolog_symbol d && !code_requires_quoted d fd flags) := by
  have hfun : (fun d => !(!E.f_is_prolog_symbol d || code_requires_quoted (d : Int) fd flags)) =
      (fun d => E.f_is_prolog_symbol d && !code_requires_quoted (d : Int) fd flags) := by
    funext d
    cases E.f_is_prolog_symbol d <;> cases code_requires_quoted (d : Int) fd flags <;> rfl
  unfold unquoted_atomW
  simp only [hfun]
  rw [unquoted_atomW_ident_eq E fd flags _ h46 rest.length rest (Nat.le_refl _)]
  cases E.f_is_prolog_atom_start c <;> cases code_requires_quoted (c : Int) fd flags <;> simp

theorem unquoted_atomW_agrees (E : Env) (name : List Nat) (o : write_options)
    (hstart : ∀ c, E.f_is_prolog_atom_start c =
      (E.isLower c || (o.module.M_VARPREFIX && E.isAlpha c)))
    (hcont : ∀ c, E.f_is_prolog_identifier_continue c = E.isAlpha c)
    (hsym : ∀ c, E.f_is_prolog_symbol c = wr_is_symbol E c (some o))
    (hdot : E.isAlpha 46 = false)
    (hfull : name ≠ [46]) (hcomment : ∀ rest, name ≠ 47 :: 42 :: rest)
    (hfirst : ∀ c rest, name = c :: rest →
      (E.isLower c || (o.module.M_VARPREFIX && E.isAlpha c)) = true →
      code_requires_quoted c (some o.out) o.flags = false)
    (hascii : ∀ d ∈ name, d < 128) :
    unquoted_atomW E ⟨name, .ucs⟩ (some o.out) o.flags = true ↔
      (atomType E ⟨name, .text⟩ (some o) = AT_LOWER ∨
        atomType E ⟨name, .text⟩ (some o) = AT_SYMBOL) := by
  rcases name with _ | ⟨c, rest⟩
  · simp [unquoted_atomW, atomType, AT_QUOTE, AT_LOWER, AT_SYMBOL]
  · by_cases hl : (E.isLower c || (o.module.M_VARPREFIX && E.isAlpha c)) = true
    · have hc : E.isLower c = true ∨ (o.module.M_VARPREFIX = true ∧ E.isAlpha c = true) := by
        simp only [Bool.or_eq_true, Bool.and_eq_true] at hl
        exact hl
      rw [atomType_lower_branch E ⟨c :: rest, .text⟩ o c rest rfl hdot hc]
      have h46 : E.f_is_prolog_identifier_continue 46 = false := by rw [hcont, hdot]
      have hid := unquoted_atomW_ident_eq E (some o.out) o.flags
        (E.PLFLAG_DOT_IN_ATOM && !o.flags.PL_WRT_NODOTINATOM) h46 rest.length rest
        (Nat.le_refl _)
      have hfun : lowerRest (fun c => E.f_is_prolog_identifier_continue c &&
          !code_requires_quoted c (some o.out) o.flags)
            (E.PLFLAG_DOT_IN_ATOM && !o.flags.PL_WRT_NODOTINATOM) rest =
          lowerRest (plainAlpha E (some o.out) o.flags)
            (E.PLFLAG_DOT_IN_ATOM && !o.flags.PL_WRT_NODOTINATOM) rest :=
        lowerRest_congr _ _ _ rest.length rest (Nat.le_refl _) (fun d hd => by
          unfold plainAlpha
          rw [hcont, plainChar_ascii d (hascii d (List.mem_cons_of_mem _ hd))])
      rw [hfun] at hid
      unfold unquoted_atomW
      simp only [hstart, hl, Bool.not_true, Bool.false_eq_true, if_false,
        hfirst c rest rfl hl, hid]
      by_cases hr : lowerRest (plainAlpha E (some o.out) o.flags)
          (E.PLFLAG_DOT_IN_ATOM && !o.flags.PL_WRT_NODOTINATOM) rest = true
      · simp [hr]
      · simp [hr, AT_QUOTE, AT_LOWER, AT_SYMBOL]
    · have hl2 : (E.isLower c || (o.module.M_VARPREFIX && E.isAlpha c)) = false := by
        simpa using hl
      have hfun : (fun d => !(!E.f_is_prolog_symbol d ||
          code_requires_quoted d (some o.out) o.flags)) =
          (fun d => wr_is_symbol E d (some o) &&
            !code_requires_quoted d (some o.out) o.flags) := by
        funext d
        rw [hsym]
        cases wr_is_symbol E d (some o) <;>
          cases code_requires_quoted d (some o.out) o.flags <;> rfl
      have hs := atomType_symbol_eq E (some o) (some o.out) o.flags (c :: rest)
      rw [all_congr_mem
        (fun d => wr_is_symbol E d (some o) &&
          !code_requires_quoted (plainChar d) (some o.out) o.flags)
        (fun d => wr_is_symbol E d (some o) &&
          !code_requires_quoted (d : Int) (some o.out) o.flags) (c :: rest)
        (fun d hd => by
          show (wr_is_symbol E d (some o) &&
              !code_requires_quoted (plainChar d) (some o.out) o.flags) =
            (wr_is_symbol E d (some o) &&
              !code_requires_quoted (d : Int) (some o.out) o.flags)
          rw [plainChar_ascii d (hascii d hd)])] at hs
      unfold unquoted_atomW atomType
      simp only [hstart, hl2, Bool.not_false, if_true, hfun, Bool.false_eq_true, if_false,
        Option.map_some', List.length_cons]
      by_cases hw : wr_is_symbol E c (some o) = true
      · have hfs : ¬(rest.length + 1 = 1 ∧ c = 46) := by
          intro h
          apply hfull
          have hr : rest = [] := List.length_eq_zero.mp (by omega)
          rw [h.2, hr]
        have hcm : ¬(rest.length + 1 ≥ 2 ∧ c = 47 ∧ rest.head? = some 42) := by
          intro h
          rcases rest with _ | ⟨x, r⟩
          · simp at h
          · simp only [List.head?_cons, Option.some.injEq] at h
            exact hcomment r (by rw [h.2.1, h.2.2])
        simp only [hw, if_true, Bool.and_eq_true, decide_eq_true_eq, hfs, if_false, hcm]
        by_cases hall : (c :: rest).all (fun d => wr_is_symbol E d (some o) &&
            !code_requires_quoted d (some o.out) o.flags) = true
        · have hlen : ¬(atomType_symbol E (some o) (some o.out) o.flags (c :: rest)).length
              > 0 := by
            intro h
            rw [hs.1 h] at hall
            cases hall
          simp [hall, hlen]
          right
          intro h1 h2 h3
          exact absurd ⟨by omega, h2, h3⟩ hcm
        · have hall2 : (c :: rest).all (fun d => wr_is_symbol E d (some o) &&
              !code_requires_quoted d (some o.out) o.flags) = false := by
            simpa using hall
          have hlen := hs.2 hall2
          simp only [hall2, hlen, if_true]
          simp [AT_QUOTE, AT_LOWER, AT_SYMBOL]
      · have hw2 : wr_is_symbol E c (some o) = false := by simpa using hw
        have hall : (c :: rest).all (fun d => wr_is_symbol E d (some o) &&
            !code_requires_quoted d (some o.out) o.flags) = false := by
          simp [hw2]
        simp only [hall, hw2, Bool.false_eq_true, if_false, false_iff]
        repeat' split
        all_goals simp [AT_QUOTE, AT_LOWER, AT_SYMBOL, AT_SOLO, AT_SPECIAL]

/-- The environment `defaultEnv` in which the code point U+2192, an arrow, is a
symbol character. -/
def arrowEnv : Env :=
  { defaultEnv with
    f_is_prolog_symbol := fun c => (c ≤ 255 && charType c == 3) || c == 8594 }

/-- The environment `defaultEnv` in which the code point classes are the byte
classes. -/
def uniformEnv : Env :=
  { defaultEnv with
    f_is_prolog_atom_start := defaultEnv.isLower
    f_is_prolog_identifier_continue := defaultEnv.isAlpha
    f_is_prolog_symbol := defaultEnv.isSymbol }

theorem unquoted_atomW_comment (E : Env) (rest : List Nat) (fd : Option IOSTREAM)
    (flags : WrtFlags) (hs : E.f_is_prolog_atom_start 47 = false)
    (hall : (47 :: 42 :: rest).all
      (fun d => E.f_is_prolog_symbol d && !code_requires_quoted d fd flags) = true) :
    unquoted_atomW E ⟨47 :: 42 :: rest, .ucs⟩ fd flags = true := by
  have hfun : (fun d => !(!E.f_is_prolog_symbol d || code_requires_quoted d fd flags)) =
      (fun d => E.f_is_prolog_symbol d && !code_requires_quoted d fd flags) := by
    funext d
    cases E.f_is_prolog_symbol d <;> cases code_requires_quoted d fd flags <;> rfl
  unfold unquoted_atomW
  simp only [hs, Bool.not_false, if_true, hfun]
  exact hall

theorem atomType_comment (E : Env) (rest : List Nat) (ty : PL_blob_t) (o : write_options)
    (hl : E.isLower 47 = false ∧ (o.module.M_VARPREFIX = false ∨ E.isAlpha 47 = false))
    (hw : wr_is_symbol E 47 (some o) = true) :
    atomType E ⟨47 :: 42 :: rest, ty⟩ (some o) = AT_QUOTE := by
  have hcond : (E.isLower 47 || (o.module.M_VARPREFIX && E.isAlpha 47)) = false := by
    rcases hl.2 with h | h
    · simp [hl.1, h]
    · simp [hl.1, h]
  unfold atomType
  simp [hcond, hw]

/-- C20 (the code departs from the claim at `/*`).  Where the code point classes
are the byte classes, `unquoted_atomW()` allows a text to be written unquoted
exactly when the rules of `atomType()` applied to its code points give Lower or
Symbol, with three exceptions: a text starting with `/*`, the single dot, and a
first character that forces quoting (which only `unquoted_atomW()` tests).  The
comparison with `atomType()` itself is made for code points below 0x80, where
the `char` value `atomType()` tests is the code point; for every text the rules
are given in terms of `lowerRest` and the symbol test on the code points.  A
text starting with `/*` all of whose code points are symbol characters is
reported by `unquoted_atomW()` as writable without quotes, while `atomType()`
gives NeedsQuote for every text starting with `/*`: the wide atom `/*` followed
by the arrow U+2192 is written without quotes in quoted mode. -/
theorem unquoted_atomW_refines :
    (∀ (E : Env) (name : List Nat) (o : write_options),
      (∀ c, E.f_is_prolog_atom_start c =
        (E.isLower c || (o.module.M_VARPREFIX && E.isAlpha c))) →
      (∀ c, E.f_is_prolog_identifier_continue c = E.isAlpha c) →
      (∀ c, E.f_is_prolog_symbol c = wr_is_symbol E c (some o)) →
      E.isAlpha 46 = false →
      name ≠ [46] → (∀ rest, name ≠ 47 :: 42 :: rest) →
      (∀ c rest, name = c :: rest →
        (E.isLower c || (o.module.M_VARPREFIX && E.isAlpha c)) = true →
        code_requires_quoted c (some o.out) o.flags = false) →
      (∀ d ∈ name, d < 128) →
      (unquoted_atomW E ⟨name, .ucs⟩ (some o.out) o.flags = true ↔
        (atomType E ⟨name, .text⟩ (some o) = AT_LOWER ∨
          atomType E ⟨name, .text⟩ (some o) = AT_SYMBOL))) ∧
    (∀ (E : Env) (c : Nat) (rest : List Nat) (fd : Option IOSTREAM) (flags : WrtFlags),
      E.f_is_prolog_identifier_continue 46 = false →
      unquoted_atomW E ⟨c :: rest, .ucs⟩ fd flags =
        if E.f_is_prolog_atom_start c then
          (!code_requires_quoted c fd flags &&
            lowerRest (fun d => E.f_is_prolog_identifier_continue d &&
              !code_requires_quoted d fd flags)
              (E.PLFLAG_DOT_IN_ATOM && !flags.PL_WRT_NODOTINATOM) rest)
        else
          (c :: rest).all
            (fun d => E.f_is_prolog_symbol d && !code_requires_quoted d fd flags)) ∧
    (∀ (E : Env) (rest : List Nat) (fd : Option IOSTREAM) (flags : WrtFlags),
      E.f_is_prolog_atom_start 47 = false →
      (47 :: 42 :: rest).all
        (fun d => E.f_is_prolog_symbol d && !code_requires_quoted d fd flags) = true →
      unquoted_atomW E ⟨47 :: 42 :: rest, .ucs⟩ fd flags = true) ∧
    (∀ (E : Env) (rest : List Nat) (ty : PL_blob_t) (o : write_options),
      E.isLower 47 = false ∧ (o.module.M_VARPREFIX = false ∨ E.isAlpha 47 = false) →
      wr_is_symbol E 47 (some o) = true →
      atomType E ⟨47 :: 42 :: rest, ty⟩ (some o) = AT_QUOTE) ∧
    unquoted_atomW arrowEnv ⟨[47, 42, 8594], .ucs⟩ (some freshStream)
      { PL_WRT_QUOTED := true } = true ∧
    atomType arrowEnv ⟨[47, 42, 8594], .text⟩
      (some (defaultOptions { PL_WRT_QUOTED := true })) = AT_QUOTE ∧
    (writeAtom arrowEnv ⟨[47, 42, 8594], .ucs⟩
      (defaultOptions { PL_WRT_QUOTED := true })).2.out.buffer = [47, 42, 8594] ∧
    (writeAtom arrowEnv (textAtom "/*")
      (defaultOptions { PL_WRT_QUOTED := true })).2.out.buffer = str "'/*'" :=
  ⟨unquoted_atomW_agrees, unquoted_atomW_rules, unquoted_atomW_comment, atomType_comment,
    by decide, by decide, by decide, by decide⟩

/-- C20 at the wide text `/*`, U+2192 and, for the agreement, at the text `ab1`
where the code point classes are the byte classes. -/
theorem unquoted_atomW_refines_witness :
    arrowEnv.f_is_prolog_atom_start 47 = false ∧
    ([47, 42, 8594] : List Nat).all
      (fun d => arrowEnv.f_is_prolog_symbol d &&
        !code_requires_quoted d (some freshStream) { PL_WRT_QUOTED := true }) = true ∧
    unquoted_atomW arrowEnv ⟨47 :: 42 :: [8594], .ucs⟩ (some freshStream)
      { PL_WRT_QUOTED := true } = true ∧
    uniformEnv.isAlpha 46 = false ∧
    (unquoted_atomW uniformEnv ⟨[97, 98, 49], .ucs⟩ (some (defaultOptions {}).out)
        (defaultOptions {}).flags = true ↔
      (atomType uniformEnv ⟨[97, 98, 49], .text⟩ (some (defaultOptions {})) = AT_LOWER ∨
        atomType uniformEnv ⟨[97, 98, 49], .text⟩ (some (defaultOptions {})) = AT_SYMBOL)) :=
  ⟨by decide, by decide,
    unquoted_atomW_refines.2.2.1 arrowEnv [8594] (some freshStream) { PL_WRT_QUOTED := true }
      (by decide) (by decide),
    by decide,
    unquoted_atomW_refines.1 uniformEnv [97, 98, 49] (defaultOptions {})
      (fun c => by
        show defaultEnv.isLower c = (defaultEnv.isLower c || (false && defaultEnv.isAlpha c))
        simp)
      (fun c => rfl)
      (fun c => by
        show defaultEnv.isSymbol c = (defaultEnv.isSymbol c || (c == 96 && false))
        simp)
      (by decide) (by decide) (fun rest h => by cases h)
      (fun c rest h _ => by
        have hc : c = 97 := (List.cons.inj h).1.symm
        subst hc
        decide)
      (by decide)⟩

/-! ## Numbers after a prefix sign -/

theorem writeTerm_normal (E : Env) (fuel : Nat) (t : Term) (prec : Int) (o : write_options)
    (flags : Nat) (hm : o.max_depth = 0 ∨ o.depth + 1 ≤ o.max_depth)
    (hs : o.ld.signals.head? ≠ some true) :
    writeTerm E (fuel + 1) t prec o flags =
      match writeTerm2 E (writeTerm E fuel) fuel t prec
          { o with ld := { o.ld with signals := o.ld.signals.tail },
                   depth := o.depth + 1 } flags with
      | none => none
      | some (rval, o2) => some (rval, { o2 with depth := o.depth }) := by
  conv_lhs => unfold writeTerm
  simp only
  split
  · rename_i rest hsig
    rw [hsig] at hs
    exact absurd rfl hs
  · have hc : (decide (o.depth + 1 > o.max_depth) && (o.max_depth != 0)) = false := by
      rcases hm with h | h
      · simp [h]
      · have : ¬(o.depth + 1 > o.max_depth) := by omega
        simp [this]
    simp only [hc, Bool.false_eq_true, if_false]

theorem deRef_integer (ld : PL_local_data) (i : Int) : deRef ld (.integer i) = .integer i := by
  unfold deRef
  rfl

theorem writeTerm2_integer (E : Env) (wt : WT) (fuel : Nat) (i : Int) (prec : Int)
    (o : write_options) (flags : Nat) (hp : o.flags.PL_WRT_PORTRAY = false) :
    writeTerm2 E wt fuel (.integer i) prec o flags =
      onOutN o (PutToken E (sprintf_d i) o.out) := by
  unfold writeTerm2
  simp only [deRef_integer, hp, Bool.and_false, Bool.false_eq_true, if_false]
  rfl

theorem writeTerm_integer (E : Env) (fuel : Nat) (i : Int) (prec : Int) (o : write_options)
    (flags : Nat) (hm : o.max_depth = 0 ∨ o.depth + 1 ≤ o.max_depth)
    (hs : o.ld.signals.head? ≠ some true) (hp : o.flags.PL_WRT_PORTRAY = false) :
    writeTerm E (fuel + 1) (.integer i) prec o flags =
      some ((PutToken E (sprintf_d i) o.out).1 != 0,
        { o with ld := { o.ld with signals := o.ld.signals.tail },
                 out := (PutToken E (sprintf_d i) o.out).2 }) := by
  have h2 := writeTerm2_integer E (writeTerm E fuel) fuel i prec
    { o with ld := { o.ld with signals := o.ld.signals.tail }, depth := o.depth + 1 } flags hp
  rw [writeTerm_normal E fuel _ prec o flags hm hs, h2]
  rfl

theorem Sputcode_unlimited (c : Nat) (s : IOSTREAM) (h : s.room = none) :
    Sputcode c s = (true, { s with buffer := s.buffer ++ [c], lastc := c }) := by
  unfold Sputcode
  simp [h]

theorem PutString_unlimited : ∀ (t : List Nat) (s : IOSTREAM), s.room = none →
    (PutString t s).1 = true ∧ (PutString t s).2.buffer = s.buffer ++ t := by
  intro t
  induction t with
  | nil => intro s _; simp [PutString]
  | cons c cs ih =>
    intro s h
    unfold PutString
    rw [Sputcode_unlimited c s h]
    simp only
    have := ih { s with buffer := s.buffer ++ [c], lastc := c } h
    simp only [List.append_assoc, List.singleton_append] at this
    exact this

theorem needSpace_room (E : Env) (c : Nat) (s : IOSTREAM) :
    (needSpace E c s).2.room = s.room := by
  unfold needSpace
  repeat' split
  all_goals first | rfl | (simp only; split <;> rfl)

theorem PutOpenToken_unlimited (E : Env) (c : Nat) (s : IOSTREAM) (h : s.room = none) :
    (PutOpenToken E c s).1 ≠ 0 ∧ (PutOpenToken E c s).2.room = none ∧
    (PutOpenToken E c s).2.buffer =
      s.buffer ++ (if (needSpace E c s).1 then [32] else []) := by
  have hb := needSpace_buffer E c s
  have hr := needSpace_room E c s
  unfold PutOpenToken
  rcases hn : needSpace E c s with ⟨b, s1⟩
  rw [hn] at hb hr
  simp only at hb hr
  cases b
  · simp only
    exact ⟨by decide, hr.trans h, by simp [hb]⟩
  · simp only [Putc]
    rw [Sputcode_unlimited 32 s1 (hr.trans h)]
    simp only
    exact ⟨by decide, hr.trans h, by simp [hb]⟩

theorem PutToken_unlimited (E : Env) (c : Nat) (t : List Nat) (s : IOSTREAM)
    (h : s.room = none) :
    (PutToken E (c :: t) s).1 ≠ 0 ∧
    (PutToken E (c :: t) s).2.buffer =
      s.buffer ++ (if (needSpace E (c % 256) s).1 then [32] else []) ++ (c :: t) := by
  have ho := PutOpenToken_unlimited E (c % 256) s h
  unfold PutToken
  rcases hq : PutOpenToken E (c % 256) s with ⟨rc, s1⟩
  rw [hq] at ho
  simp only at ho
  obtain ⟨h0, hr, hb⟩ := ho
  have hp := PutString_unlimited (c :: t) s1 hr
  rcases hq2 : PutString (c :: t) s1 with ⟨b2, s2⟩
  rw [hq2] at hp
  simp only at hp
  obtain ⟨hb2, hbuf⟩ := hp
  subst hb2
  cases rc with
  | zero => exact absurd rfl h0
  | succ n =>
    simp only [hq, hq2]
    exact ⟨h0, by rw [hbuf, hb]⟩

theorem needSpace_fst_lastc (E : Env) (c : Nat) (s : IOSTREAM) :
    (needSpace E c s).1 = (needSpace E c { freshStream with lastc := s.lastc }).1 := by
  unfold needSpace
  simp only
  repeat' split
  all_goals rfl

theorem decCore_digit : ∀ (fuel n : Nat) (acc : List Nat),
    (∃ d t, acc = d :: t ∧ 48 ≤ d ∧ d ≤ 57) ∨ 0 < fuel →
    ∃ d t, decCore fuel n acc = d :: t ∧ 48 ≤ d ∧ d ≤ 57 := by
  intro fuel
  induction fuel with
  | zero =>
    intro n acc h
    rcases h with h | h
    · unfold decCore
      exact h
    · omega
  | succ k ih =>
    intro n acc _
    unfold decCore
    by_cases hn : n / 10 = 0
    · simp only [hn, if_true]
      exact ⟨48 + n % 10, acc, rfl, by omega, by omega⟩
    · simp only [hn, if_false]
      exact ih (n / 10) _ (Or.inl ⟨48 + n % 10, acc, rfl, by omega, by omega⟩)

theorem sprintf_d_head (i : Int) :
    ∃ d t, sprintf_d i = d :: t ∧ ((i < 0 ∧ d = 45) ∨ (0 ≤ i ∧ 48 ≤ d ∧ d ≤ 57)) := by
  unfold sprintf_d sprintf_u
  by_cases hi : i < 0
  · simp only [hi, if_true]
    exact ⟨45, _, rfl, Or.inl ⟨trivial, rfl⟩⟩
  · simp only [hi, if_false]
    obtain ⟨d, t, h, h1, h2⟩ := decCore_digit (i.natAbs + 1) i.natAbs [] (Or.inr (by omega))
    exact ⟨d, t, h, Or.inr ⟨by omega, h1, h2⟩⟩

/-- The marker bits `writeTerm2()` leaves in the last-character slot after the
functor of a prefix operator term. -/
def prefixMark (E : Env) (functor : Atom) (o : write_options) : write_options :=
  if functor = E.ATOM_minus then orLastc (orLastc o C_PREFIX_OP) C_PREFIX_SIGN
  else orLastc o C_PREFIX_OP

theorem writeTerm2_prefix_at_one (E : Env) (wt : WT) (functor : Atom) (arg : Term)
    (pa : Int) (o : write_options) :
    writeTerm2_prefix_at E wt functor [arg] false pa o =
      TRY (atomStep E functor o) fun o2 => wt arg pa (prefixMark E functor o2) W_OP_ARG := by
  unfold writeTerm2_prefix_at prefixMark
  simp only [Bool.false_eq_true, if_false, TRY_true, TRY_pure, List.length_singleton, if_true]
  rfl

theorem writeTerm2_compound_operators (E : Env) (wt : WT) (fuel : Nat) (functor : Atom)
    (args : List Term) (prec : Int) (o : write_options)
    (hnv : (o.flags.PL_WRT_NUMBERVARS || o.flags.PL_WRT_VARNAMES) = false ∨
      writeNumberVar E (.compound functor args) o = (0, o))
    (hcurl : ¬(o.flags.PL_WRT_BRACETERMS = false ∧ functor = E.ATOM_curl ∧ args.length = 1))
    (hlist : ¬(functor = E.ATOM_dot ∧ args.length = 2))
    (hdict : ¬(o.flags.PL_WRT_NODICT = false ∧ functor = E.ATOM_dict ∧
      E.PL_is_dict (.compound functor args) = true)) :
    writeTerm2_compound E wt fuel (.compound functor args) functor args prec o =
      writeTerm2_operators E wt functor args prec o := by
  unfold writeTerm2_compound
  have hnv2 : (if (o.flags.PL_WRT_NUMBERVARS || o.flags.PL_WRT_VARNAMES) = true then
      writeNumberVar E (.compound functor args) o else (0, o)) = (0, o) := by
    rcases hnv with h | h
    · simp [h]
    · split
      · exact h
      · rfl
  simp only [hnv2]
  have h1 : (!o.flags.PL_WRT_BRACETERMS && decide (functor = E.ATOM_curl) &&
      decide (args.length = 1)) = false := by
    rcases hb : (!o.flags.PL_WRT_BRACETERMS && decide (functor = E.ATOM_curl) &&
      decide (args.length = 1)) with _ | _
    · rfl
    · exfalso
      apply hcurl
      simp only [Bool.and_eq_true, Bool.not_eq_true', decide_eq_true_eq] at hb
      exact ⟨hb.1.1, hb.1.2, hb.2⟩
  have h2 : (decide (functor = E.ATOM_dot) && decide (args.length = 2)) = false := by
    rcases hb : (decide (functor = E.ATOM_dot) && decide (args.length = 2)) with _ | _
    · rfl
    · exfalso
      apply hlist
      simp only [Bool.and_eq_true, decide_eq_true_eq] at hb
      exact hb
  have h3 : (!o.flags.PL_WRT_NODICT && decide (functor = E.ATOM_dict) &&
      E.PL_is_dict (.compound functor args)) = false := by
    rcases hb : (!o.flags.PL_WRT_NODICT && decide (functor = E.ATOM_dict) &&
      E.PL_is_dict (.compound functor args)) with _ | _
    · rfl
    · exfalso
      apply hdict
      simp only [Bool.and_eq_true, Bool.not_eq_true', decide_eq_true_eq] at hb
      exact ⟨hb.1.1, hb.1.2, hb.2⟩
  simp only [h1, h2, h3, Bool.false_eq_true, if_false]

/-- A one-argument term whose functor is a prefix operator of priority at most
`prec`, in a context where portray, numbered variables, brace terms and dicts do
not apply: `writeTerm2()` writes the functor, marks the last-character slot and
writes the operand. -/
theorem writeTerm2_prefix_term (E : Env) (wt : WT) (fuel : Nat) (functor : Atom) (arg : Term)
    (ty : OpType) (P prec : Int) (o : write_options) (flags : Nat)
    (hp : o.flags.PL_WRT_PORTRAY = false)
    (hnv : (o.flags.PL_WRT_NUMBERVARS || o.flags.PL_WRT_VARNAMES) = false)
    (hcurl : functor ≠ E.ATOM_curl) (hdict : functor ≠ E.ATOM_dict)
    (hign : o.flags.PL_WRT_IGNOREOPS = false)
    (hop : o.module.currentOperator functor .OP_PREFIX = some (ty, P)) (hprec : P ≤ prec) :
    writeTerm2 E wt fuel (.compound functor [arg]) prec o flags =
      TRY (atomStep E functor o) fun o2 =>
        wt arg (if ty = .OP_FX then P - 1 else P) (prefixMark E functor o2) W_OP_ARG := by
  unfold writeTerm2
  simp only [deRef_compound, hp, Bool.and_false, Bool.false_eq_true, if_false]
  unfold writeTerm2_atom writeTerm2_rest
  simp only
  rw [writeTerm2_compound_operators E wt fuel functor [arg] prec o (Or.inl hnv)
    (fun h => hcurl h.2.1) (fun h => by simp at h) (fun h => hdict h.2.1),
    writeTerm2_operators_eq E wt functor [arg] .OP_PREFIX ty P prec o
      ⟨hign, Or.inl rfl, hop⟩, if_neg (by omega)]
  exact writeTerm2_prefix_at_one E wt functor arg _ o



theorem writeTerm_minus_integer (i : Int) :
    written (writeTerm defaultEnv 3 (.compound (textAtom "-") [.integer i]) 1200
      (defaultOptions {}) W_TOP) = some (true, str "- " ++ sprintf_d i) := by
  have ha : atomStep defaultEnv (textAtom "-")
      { defaultOptions {} with ld := { freshLD with signals := [] }, depth := 1 } =
    some (true,
      { defaultOptions {} with
        ld := { freshLD with signals := [] }
        depth := 1
        out := { freshStream with buffer := [45], lastc := 45 } }) := rfl
  rw [writeTerm_normal defaultEnv 2 _ 1200 (defaultOptions {}) W_TOP (Or.inl rfl) (by decide)]
  rw [writeTerm2_prefix_term defaultEnv _ 2 (textAtom "-") (.integer i) .OP_FY 200 1200 _ W_TOP
    ?_ ?_ ?_ ?_ ?_ ?_ ?_]
  rotate_left
  · rfl
  · rfl
  · decide
  · decide
  · rfl
  · decide
  · decide
  erw [ha]
  rw [TRY_true]
  rw [writeTerm_integer defaultEnv 1 i _ _ W_OP_ARG ?_ ?_ ?_]
  rotate_left
  · exact Or.inl rfl
  · decide
  · rfl
  obtain ⟨d, t, hd, hcase⟩ := sprintf_d_head i
  have hput := PutToken_unlimited defaultEnv d t
    { freshStream with buffer := [45], lastc := 45 ||| C_PREFIX_OP ||| C_PREFIX_SIGN } rfl
  have hsp : (needSpace defaultEnv (d % 256)
      { freshStream with buffer := [45], lastc := 45 ||| C_PREFIX_OP ||| C_PREFIX_SIGN }).1
        = true := by
    rcases hcase with ⟨_, rfl⟩ | ⟨_, h1, h2⟩
    · decide
    · interval_cases d <;> decide
  rw [hsp, ← hd] at hput
  change some ((PutToken defaultEnv (sprintf_d i)
      { freshStream with buffer := [45], lastc := 45 ||| C_PREFIX_OP ||| C_PREFIX_SIGN }).1 != 0,
    (PutToken defaultEnv (sprintf_d i)
      { freshStream with buffer := [45], lastc := 45 ||| C_PREFIX_OP ||| C_PREFIX_SIGN }).2.buffer)
      = _
  rw [hput.2]
  have h1 : ((PutToken defaultEnv (sprintf_d i)
      { freshStream with buffer := [45], lastc := 45 ||| C_PREFIX_OP ||| C_PREFIX_SIGN }).1 != 0)
      = true := by
    simp only [bne_iff_ne, ne_eq]
    exact hput.1
  rw [h1]
  rfl
theorem writeTerm_plus_integer (i : Int) :
    written (writeTerm defaultEnv 3 (.compound (textAtom "+") [.integer i]) 1200
      (defaultOptions {}) W_TOP) = some (true, if i < 0 then str "+ " ++ sprintf_d i else str "+" ++ sprintf_d i) := by
  have ha : atomStep defaultEnv (textAtom "+")
      { defaultOptions {} with ld := { freshLD with signals := [] }, depth := 1 } =
    some (true,
      { defaultOptions {} with
        ld := { freshLD with signals := [] }
        depth := 1
        out := { freshStream with buffer := [43], lastc := 43 } }) := rfl
  rw [writeTerm_normal defaultEnv 2 _ 1200 (defaultOptions {}) W_TOP (Or.inl rfl) (by decide)]
  rw [writeTerm2_prefix_term defaultEnv _ 2 (textAtom "+") (.integer i) .OP_FY 200 1200 _ W_TOP
    ?_ ?_ ?_ ?_ ?_ ?_ ?_]
  rotate_left
  · rfl
  · rfl
  · decide
  · decide
  · rfl
  · decide
  · decide
  erw [ha]
  rw [TRY_true]
  rw [writeTerm_integer defaultEnv 1 i _ _ W_OP_ARG ?_ ?_ ?_]
  rotate_left
  · exact Or.inl rfl
  · decide
  · rfl
  obtain ⟨d, t, hd, hcase⟩ := sprintf_d_head i
  have hput := PutToken_unlimited defaultEnv d t
    { freshStream with buffer := [43], lastc := 43 ||| C_PREFIX_OP } rfl
  have hsp : (needSpace defaultEnv (d % 256)
      { freshStream with buffer := [43], lastc := 43 ||| C_PREFIX_OP }).1
        = decide (i < 0) := by
    rcases hcase with ⟨hi, rfl⟩ | ⟨hi, h1, h2⟩
    · rw [decide_eq_true hi]
      decide
    · rw [decide_eq_false (by omega)]
      interval_cases d <;> decide
  rw [hsp, ← hd] at hput
  change some ((PutToken defaultEnv (sprintf_d i)
      { freshStream with buffer := [43], lastc := 43 ||| C_PREFIX_OP }).1 != 0,
    (PutToken defaultEnv (sprintf_d i)
      { freshStream with buffer := [43], lastc := 43 ||| C_PREFIX_OP }).2.buffer)
      = _
  rw [hput.2]
  have h1 : ((PutToken defaultEnv (sprintf_d i)
      { freshStream with buffer := [43], lastc := 43 ||| C_PREFIX_OP }).1 != 0)
      = true := by
    simp only [bne_iff_ne, ne_eq]
    exact hput.1
  rw [h1]
  by_cases hi : i < 0
  · simp only [hi, decide_True, if_true]
    rfl
  · simp only [hi, decide_False, if_false, Bool.false_eq_true]
    rfl

theorem writeTerm_minus_float : written (writeTerm defaultEnv 3 (.compound (textAtom "-") [.float 0x3FF0000000000000])
      1200 (defaultOptions {}) W_TOP) = some (true, str "- 1.0") := by decide!

theorem writeTerm_plus_float : written (writeTerm defaultEnv 3 (.compound (textAtom "+") [.float 0x3FF0000000000000])
      1200 (defaultOptions {}) W_TOP) = some (true, str "+1.0") := by decide!


/-- C15. What the code does for a prefix sign before a number.  After the
functor of a one-argument prefix operator term `writeTerm2()` always sets the
prefix-operator marker in the last-character slot, but the sign marker only when
the functor is `-`.  So for every integer `N` the term `-(N)` is written as `-`,
one space and the text of `N`, whereas `+(N)` is written without the space when
`N` is not negative: `+(1)` comes out as `+1`, `+(1.0)` as `+1.0`; only before a
negative number does `+` get a space, from the symbol-character rule. -/
theorem prefix_sign_number :
    (∀ (E : Env) (wt : WT) (functor : Atom) (arg : Term) (pa : Int) (o : write_options),
      writeTerm2_prefix_at E wt functor [arg] false pa o =
        TRY (atomStep E functor o) fun o2 =>
          wt arg pa
            (if functor = E.ATOM_minus then orLastc (orLastc o2 C_PREFIX_OP) C_PREFIX_SIGN
             else orLastc o2 C_PREFIX_OP) W_OP_ARG) ∧
    (∀ i : Int,
      written (writeTerm defaultEnv 3 (.compound (textAtom "-") [.integer i]) 1200
        (defaultOptions {}) W_TOP) = some (true, str "- " ++ sprintf_d i)) ∧
    (∀ i : Int,
      written (writeTerm defaultEnv 3 (.compound (textAtom "+") [.integer i]) 1200
        (defaultOptions {}) W_TOP) =
        some (true, if i < 0 then str "+ " ++ sprintf_d i else str "+" ++ sprintf_d i)) ∧
    written (writeTerm defaultEnv 3 (.compound (textAtom "+") [.integer 1]) 1200
      (defaultOptions {}) W_TOP) = some (true, str "+1") ∧
    written (writeTerm defaultEnv 3 (.compound (textAtom "-") [.float 0x3FF0000000000000])
      1200 (defaultOptions {}) W_TOP) = some (true, str "- 1.0") ∧
    written (writeTerm defaultEnv 3 (.compound (textAtom "+") [.float 0x3FF0000000000000])
      1200 (defaultOptions {}) W_TOP) = some (true, str "+1.0") := by
  refine ⟨?_, writeTerm_minus_integer, writeTerm_plus_integer, ?_, writeTerm_minus_float,
    writeTerm_plus_float⟩
  · intro E wt functor arg pa o
    exact writeTerm2_prefix_at_one E wt functor arg pa o
  · exact writeTerm_plus_integer 1

/-! ## Escape sequences of quoted text -/

/-- The value of a string of decimal digits. -/
def decVal (ds : List Nat) : Nat := ds.foldl (fun a d => a * 10 + (d - 48)) 0

/-- The value of a string of uppercase hexadecimal digits. -/
def hexVal (ds : List Nat) : Nat :=
  ds.foldl (fun a d => a * 16 + (if d < 58 then d - 48 else d - 55)) 0

/-- An uppercase hexadecimal digit: `0`..`9` or `A`..`F`. -/
def isUpperHex (d : Nat) : Bool := (48 ≤ d && d ≤ 57) || (65 ≤ d && d ≤ 70)

theorem decVal_append (ds : List Nat) (d : Nat) :
    decVal (ds ++ [d]) = decVal ds * 10 + (d - 48) := by
  unfold decVal
  rw [List.foldl_append]
  rfl

theorem hexVal_append (ds : List Nat) (d : Nat) :
    hexVal (ds ++ [d]) = hexVal ds * 16 + (if d < 58 then d - 48 else d - 55) := by
  unfold hexVal
  rw [List.foldl_append]
  rfl

theorem decCore_spec : ∀ (fuel n : Nat) (acc : List Nat), n < fuel →
    ∃ ds, decCore fuel n acc = ds ++ acc ∧ decVal ds = n ∧
      (∀ d ∈ ds, 48 ≤ d ∧ d ≤ 57) ∧ 1 ≤ ds.length := by
  intro fuel
  induction fuel with
  | zero => intro n acc h; omega
  | succ k ih =>
    intro n acc h
    unfold decCore
    by_cases hn : n / 10 = 0
    · simp only [hn, if_true]
      refine ⟨[48 + n % 10], rfl, ?_, ?_, by simp⟩
      · unfold decVal
        simp only [List.foldl_cons, List.foldl_nil]
        omega
      · intro d hd
        simp only [List.mem_singleton] at hd
        omega
    · simp only [hn, if_false]
      obtain ⟨ds, h1, h2, h3, h4⟩ := ih (n / 10) ((48 + n % 10) :: acc) (by omega)
      refine ⟨ds ++ [48 + n % 10], by rw [h1]; simp, ?_, ?_, by simp⟩
      · rw [decVal_append, h2]
        omega
      · intro d hd
        rcases List.mem_append.1 hd with h | h
        · exact h3 d h
        · simp only [List.mem_singleton] at h
          omega

theorem sprintf_u_spec (n : Nat) :
    decVal (sprintf_u n) = n ∧ (∀ d ∈ sprintf_u n, 48 ≤ d ∧ d ≤ 57) ∧
      1 ≤ (sprintf_u n).length := by
  unfold sprintf_u
  obtain ⟨ds, h1, h2, h3, h4⟩ := decCore_spec (n + 1) n [] (by omega)
  rw [h1, List.append_nil]
  exact ⟨h2, h3, h4⟩

theorem sprintf_u_inj {n m : Nat} (h : sprintf_u n = sprintf_u m) : n = m := by
  rw [← (sprintf_u_spec n).1, ← (sprintf_u_spec m).1, h]

theorem sprintf_d_inj {i j : Int} (h : sprintf_d i = sprintf_d j) : i = j := by
  unfold sprintf_d at h
  have hi := sprintf_u_spec i.natAbs
  have hj := sprintf_u_spec j.natAbs
  by_cases h1 : i < 0 <;> by_cases h2 : j < 0
  · simp only [h1, h2, if_true, List.cons.injEq, true_and] at h
    have := sprintf_u_inj h
    omega
  · simp only [h1, h2, if_true, if_false] at h
    have h45 : (45 : Nat) ∈ sprintf_u j.natAbs := by rw [← h]; simp
    have := hj.2.1 45 h45
    omega
  · simp only [h1, h2, if_true, if_false] at h
    have h45 : (45 : Nat) ∈ sprintf_u i.natAbs := by rw [h]; simp
    have := hi.2.1 45 h45
    omega
  · simp only [h1, h2, if_false] at h
    have := sprintf_u_inj h
    omega

theorem hexDigit_spec (d : Nat) (h : d < 16) :
    isUpperHex (hexDigit d) = true ∧
      (if hexDigit d < 58 then hexDigit d - 48 else hexDigit d - 55) = d := by
  interval_cases d <;> decide

theorem hexCore_spec : ∀ (fuel n : Nat) (acc : List Nat), n < fuel →
    ∃ ds, hexCore fuel n acc = ds ++ acc ∧ hexVal ds = n ∧
      (∀ d ∈ ds, isUpperHex d = true) ∧ 1 ≤ ds.length ∧
      (∀ k, 0 < k → n < 16 ^ k → ds.length ≤ k) := by
  intro fuel
  induction fuel with
  | zero => intro n acc h; omega
  | succ k ih =>
    intro n acc h
    unfold hexCore
    have hd := hexDigit_spec (n % 16) (Nat.mod_lt _ (by decide))
    by_cases hn : n / 16 = 0
    · simp only [hn, if_true]
      refine ⟨[hexDigit (n % 16)], rfl, ?_, ?_, by simp, ?_⟩
      · unfold hexVal
        simp only [List.foldl_cons, List.foldl_nil, hd.2]
        omega
      · intro d hm
        simp only [List.mem_singleton] at hm
        rw [hm]
        exact hd.1
      · intro j hj _
        simp only [List.length_singleton]
        omega
    · simp only [hn, if_false]
      obtain ⟨ds, h1, h2, h3, h4, h5⟩ := ih (n / 16) (hexDigit (n % 16) :: acc) (by omega)
      refine ⟨ds ++ [hexDigit (n % 16)], by rw [h1]; simp, ?_, ?_, by simp, ?_⟩
      · rw [hexVal_append, h2, hd.2]
        omega
      · intro d hm
        rcases List.mem_append.1 hm with h | h
        · exact h3 d h
        · simp only [List.mem_singleton] at h
          rw [h]
          exact hd.1
      · intro j hj hlt
        simp only [List.length_append, List.length_singleton]
        have hj1 : 0 < j - 1 := by
          rcases Nat.lt_or_ge 1 j with h | h
          · omega
          · exfalso
            have : j = 1 := by omega
            subst this
            simp only [pow_one] at hlt
            omega
        have : n / 16 < 16 ^ (j - 1) := by
          rw [Nat.div_lt_iff_lt_mul (by decide)]
          calc n < 16 ^ j := hlt
            _ = 16 ^ (j - 1 + 1) := by congr 1; omega
            _ = 16 ^ (j - 1) * 16 := pow_succ _ _
        have := h5 (j - 1) hj1 this
        omega

theorem hexVal_replicate_zero (w : Nat) (ds : List Nat) :
    hexVal (List.replicate w 48 ++ ds) = hexVal ds := by
  induction w with
  | zero => rfl
  | succ k ih =>
    rw [List.replicate_succ, List.cons_append]
    unfold hexVal at ih ⊢
    rw [List.foldl_cons]
    exact ih

theorem sprintf_0X_spec (w c : Nat) (hw : 0 < w) (hc : c < 16 ^ w) :
    (sprintf_0X w c).length = w ∧ hexVal (sprintf_0X w c) = c ∧
      (∀ d ∈ sprintf_0X w c, isUpperHex d = true) := by
  unfold sprintf_0X sprintf_X
  obtain ⟨ds, h1, h2, h3, h4, h5⟩ := hexCore_spec (c + 1) c [] (by omega)
  rw [h1, List.append_nil]
  have hl := h5 w hw hc
  refine ⟨by simp; omega, by rw [hexVal_replicate_zero, h2], ?_⟩
  intro d hd
  rcases List.mem_append.1 hd with h | h
  · rw [List.eq_of_mem_replicate h]
    decide
  · exact h3 d h

theorem sprintf_X_spec (c : Nat) :
    hexVal (sprintf_X c) = c ∧ (∀ d ∈ sprintf_X c, isUpperHex d = true) ∧
      1 ≤ (sprintf_X c).length := by
  unfold sprintf_X
  obtain ⟨ds, h1, h2, h3, h4, _⟩ := hexCore_spec (c + 1) c [] (by omega)
  rw [h1, List.append_nil]
  exact ⟨h2, h3, h4⟩

theorem cstr_of_nonzero (l : List Nat) (h : ∀ d ∈ l, d ≠ 0) : cstr l = l := by
  unfold cstr
  rw [List.takeWhile_eq_self_iff]
  intro d hd
  simp only [bne_iff_ne, ne_eq]
  exact h d hd

theorem isUpperHex_ne_zero {d : Nat} (h : isUpperHex d = true) : d ≠ 0 := by
  intro h0
  subst h0
  simp [isUpperHex] at h

theorem PutString_unlimited_room : ∀ (t : List Nat) (s : IOSTREAM), s.room = none →
    (PutString t s).2.room = none := by
  intro t
  induction t with
  | nil => intro s h; simpa [PutString] using h
  | cons c cs ih =>
    intro s h
    unfold PutString
    rw [Sputcode_unlimited c s h]
    exact ih _ h

/-- The condition under which `putQuoted()` writes the character as it is when
character escapes are on. -/
def putQuoted_plain (E : Env) (c quote : Nat) (stream : IOSTREAM) : Bool :=
  !E.unicode_quoted_escape c && c != quote && c != 92 && Scanrepresent c stream == 0

theorem putQuoted_escaped (E : Env) (c quote : Nat) (flags : WrtFlags) (s : IOSTREAM)
    (hf : flags.PL_WRT_CHARESCAPES = true) (hp : putQuoted_plain E c quote s = false) :
    ((putQuoted E c quote flags s).1 = true →
      (putQuoted E c quote flags s).2.buffer =
        s.buffer ++ 92 :: cstr (putQuoted_esc c quote flags)) ∧
    (s.room = none → (putQuoted E c quote flags s).1 = true) := by
  unfold putQuoted_plain at hp
  unfold putQuoted
  simp only [hf, if_true, hp, Bool.false_eq_true, if_false, Putc]
  constructor
  · intro h
    rcases hq : Sputcode 92 s with ⟨b, s1⟩
    rw [hq] at h
    cases b
    · simp at h
    · simp only at h ⊢
      rw [PutString_buffer _ _ h, Sputcode_eq hq]
      simp
  · intro hr
    rw [Sputcode_unlimited 92 s hr]
    simp only
    exact (PutString_unlimited (cstr (putQuoted_esc c quote flags))
      { s with buffer := s.buffer ++ [92], lastc := 92 } hr).1

theorem putQuoted_unescaped (E : Env) (c quote : Nat) (flags : WrtFlags) (s : IOSTREAM)
    (hf : flags.PL_WRT_CHARESCAPES = false) :
    ((putQuoted E c quote flags s).1 = true →
      (putQuoted E c quote flags s).2.buffer =
        s.buffer ++ (if c = quote then [c, c] else [c])) ∧
    (s.room = none → (putQuoted E c quote flags s).1 = true) := by
  unfold putQuoted
  simp only [hf, Bool.false_eq_true, if_false, Putc]
  constructor
  · intro h
    rcases hq : Sputcode c s with ⟨b, s1⟩
    rw [hq] at h
    cases b
    · simp at h
    · simp only at h ⊢
      by_cases hc : c = quote
      · simp only [hc, if_true] at h ⊢
        rw [Sputcode_buffer _ _ h, Sputcode_eq hq, hc]
        simp
      · simp only [hc, if_false]
        exact Sputcode_eq hq
  · intro hr
    rw [Sputcode_unlimited c s hr]
    simp only
    by_cases hc : c = quote
    · simp only [hc, if_true]
      rw [Sputcode_unlimited quote { s with buffer := s.buffer ++ [quote], lastc := quote } hr]
    · simp only [hc, if_false]

theorem putQuoted_esc_default (c quote : Nat) (flags : WrtFlags) (hq : c ≠ quote) (hb : c ≠ 92)
    (hl : c ∉ [7, 8, 9, 10, 11, 12, 13]) :
    putQuoted_esc c quote flags =
      if flags.PL_WRT_CHARESCAPES_UNICODE then
        (if c ≤ 0xffff then 117 :: sprintf_0X 4 c else 85 :: sprintf_0X 8 c)
      else 120 :: (sprintf_X c ++ [92]) := by
  simp only [List.mem_cons, List.mem_singleton, List.not_mem_nil, or_false, not_or] at hl
  obtain ⟨h7, h8, h9, h10, h11, h12, h13⟩ := hl
  unfold putQuoted_esc
  simp only [hq, h7, h8, h9, h10, h11, h12, h13, hb, if_false]

/-- C24 fails at the closing backslash of the Unicode forms: with character
escapes and Unicode escapes on, the control character 1 is written as
`\u0001` and the code point U+1F600 (on a Latin-1 transport) as `\U0001F600`,
in both cases with nothing after the last digit; only the `\x` form, written
with Unicode escapes off, ends in a backslash (`\x1\`). -/
theorem unicode_escape_no_closing_backslash :
    (putQuoted defaultEnv 1 39
      { PL_WRT_CHARESCAPES := true, PL_WRT_CHARESCAPES_UNICODE := true } freshStream) =
        (true, { freshStream with buffer := [92, 117, 48, 48, 48, 49], lastc := 49 }) ∧
    (putQuoted defaultEnv 0x1F600 39
      { PL_WRT_CHARESCAPES := true, PL_WRT_CHARESCAPES_UNICODE := true }
      { buffer := [], lastc := EOF, room := none, ferr := false,
        canrepresent := fun c => decide (c < 256) }).2.buffer =
        [92, 85, 48, 48, 48, 49, 70, 54, 48, 48] ∧
    (putQuoted defaultEnv 1 39 { PL_WRT_CHARESCAPES := true } freshStream).2.buffer =
        [92, 120, 49, 92] := by
  refine ⟨rfl, by decide, by decide⟩

/-- C24, amended. With character escapes on, a code point `c` (a 32-bit value)
that must be escaped (the escape test of the reader asks for it or the transport
cannot represent it) and is neither the quote character, the backslash nor one
of the control characters 7..13 with a letter escape is written as follows.
With Unicode escapes on: a backslash, the letter `u` and exactly four uppercase
hexadecimal digits of `c` when `c <= 0xFFFF`, a backslash, the letter `U` and
exactly eight such digits when `c > 0xFFFF`, in both cases with no closing
backslash.  With Unicode escapes off: a backslash, the letter `x`, the uppercase
hexadecimal digits of `c` and a closing backslash.  The write succeeds on a
transport without limit. -/
theorem unicode_escape_form (E : Env) (c quote : Nat) (flags : WrtFlags) (s : IOSTREAM)
    (hf : flags.PL_WRT_CHARESCAPES = true)
    (hesc : E.unicode_quoted_escape c = true ∨ Scanrepresent c s ≠ 0)
    (hq : c ≠ quote) (hb : c ≠ 92) (hl : c ∉ [7, 8, 9, 10, 11, 12, 13]) (hc : c < 2 ^ 32) :
    (s.room = none → (putQuoted E c quote flags s).1 = true) ∧
    ((putQuoted E c quote flags s).1 = true →
      ∃ ds, hexVal ds = c ∧ (∀ d ∈ ds, isUpperHex d = true) ∧ 1 ≤ ds.length ∧
        (flags.PL_WRT_CHARESCAPES_UNICODE = true → c ≤ 0xffff → ds.length = 4 ∧
          (putQuoted E c quote flags s).2.buffer = s.buffer ++ [92, 117] ++ ds) ∧
        (flags.PL_WRT_CHARESCAPES_UNICODE = true → 0xffff < c → ds.length = 8 ∧
          (putQuoted E c quote flags s).2.buffer = s.buffer ++ [92, 85] ++ ds) ∧
        (flags.PL_WRT_CHARESCAPES_UNICODE = false →
          (putQuoted E c quote flags s).2.buffer = s.buffer ++ [92, 120] ++ ds ++ [92])) := by
  have hp : putQuoted_plain E c quote s = false := by
    unfold putQuoted_plain
    rcases hesc with h | h
    · simp [h]
    · have : (Scanrepresent c s == 0) = false := by simpa using h
      simp [this]
  have h := putQuoted_escaped E c quote flags s hf hp
  refine ⟨h.2, ?_⟩
  intro hs
  have hbuf := h.1 hs
  rw [putQuoted_esc_default c quote flags hq hb hl] at hbuf
  by_cases hu : flags.PL_WRT_CHARESCAPES_UNICODE = true
  · simp only [hu, if_true] at hbuf
    by_cases hc4 : c ≤ 0xffff
    · simp only [hc4, if_true] at hbuf
      have hsp := sprintf_0X_spec 4 c (by decide) (by norm_num; omega)
      rw [cstr_of_nonzero] at hbuf
      · refine ⟨sprintf_0X 4 c, hsp.2.1, hsp.2.2, by omega, ?_, ?_, ?_⟩
        · intro _ _
          exact ⟨hsp.1, by rw [hbuf]; simp⟩
        · intro _ h2
          omega
        · intro h2
          rw [hu] at h2
          cases h2
      · intro d hd
        rcases List.mem_cons.1 hd with h1 | h1
        · omega
        · exact isUpperHex_ne_zero (hsp.2.2 d h1)
    · simp only [hc4, if_false] at hbuf
      have hsp := sprintf_0X_spec 8 c (by decide) (by norm_num; norm_num at hc; omega)
      rw [cstr_of_nonzero] at hbuf
      · refine ⟨sprintf_0X 8 c, hsp.2.1, hsp.2.2, by omega, ?_, ?_, ?_⟩
        · intro _ h2
          omega
        · intro _ _
          exact ⟨hsp.1, by rw [hbuf]; simp⟩
        · intro h2
          rw [hu] at h2
          cases h2
      · intro d hd
        rcases List.mem_cons.1 hd with h1 | h1
        · omega
        · exact isUpperHex_ne_zero (hsp.2.2 d h1)
  · have hu2 : flags.PL_WRT_CHARESCAPES_UNICODE = false := by
      cases hx : flags.PL_WRT_CHARESCAPES_UNICODE
      · rfl
      · exact absurd hx hu
    simp only [hu2, Bool.false_eq_true, if_false] at hbuf
    have hsp := sprintf_X_spec c
    rw [cstr_of_nonzero] at hbuf
    · refine ⟨sprintf_X c, hsp.1, hsp.2.1, hsp.2.2, ?_, ?_, ?_⟩
      · intro h2
        rw [hu2] at h2
        cases h2
      · intro h2
        rw [hu2] at h2
        cases h2
      · intro _
        rw [hbuf]
        simp
    · intro d hd
      rcases List.mem_cons.1 hd with h1 | h1
      · omega
      · rcases List.mem_append.1 h1 with h2 | h2
        · exact isUpperHex_ne_zero (hsp.2.1 d h2)
        · simp only [List.mem_singleton] at h2
          omega

/-- C24 at the control character 1 between single quotes, Unicode escapes on,
on a fresh stream: the text written is `\u0001`. -/
theorem unicode_escape_form_witness :
    (putQuoted defaultEnv 1 39
      { PL_WRT_CHARESCAPES := true, PL_WRT_CHARESCAPES_UNICODE := true } freshStream).1 = true ∧
    ∃ ds, hexVal ds = 1 ∧ (∀ d ∈ ds, isUpperHex d = true) ∧ 1 ≤ ds.length ∧
      (true = true → 1 ≤ 0xffff → ds.length = 4 ∧
        (putQuoted defaultEnv 1 39
          { PL_WRT_CHARESCAPES := true, PL_WRT_CHARESCAPES_UNICODE := true }
          freshStream).2.buffer = freshStream.buffer ++ [92, 117] ++ ds) ∧
      (true = true → 0xffff < 1 → ds.length = 8 ∧
        (putQuoted defaultEnv 1 39
          { PL_WRT_CHARESCAPES := true, PL_WRT_CHARESCAPES_UNICODE := true }
          freshStream).2.buffer = freshStream.buffer ++ [92, 85] ++ ds) ∧
      (true = false →
        (putQuoted defaultEnv 1 39
          { PL_WRT_CHARESCAPES := true, PL_WRT_CHARESCAPES_UNICODE := true }
          freshStream).2.buffer = freshStream.buffer ++ [92, 120] ++ ds ++ [92]) :=
  have h := unicode_escape_form defaultEnv 1 39
    { PL_WRT_CHARESCAPES := true, PL_WRT_CHARESCAPES_UNICODE := true } freshStream
    rfl (Or.inl (by decide)) (by decide) (by decide) (by decide) (by decide)
  ⟨h.1 rfl, h.2 (h.1 rfl)⟩

/-- C25 fails when character escapes are on: with Unicode escapes off, the
single quote inside single-quoted text is written as backslash and quote, not
doubled. -/
theorem quote_escaped_not_doubled :
    putQuoted defaultEnv 39 39 { PL_WRT_CHARESCAPES := true } freshStream =
      (true, { freshStream with buffer := [92, 39], lastc := 39 }) ∧
    ({ PL_WRT_CHARESCAPES := true } : WrtFlags).PL_WRT_CHARESCAPES_UNICODE = false ∧
    putQuoted defaultEnv 39 39 {} freshStream =
      (true, { freshStream with buffer := [39, 39], lastc := 39 }) := by
  refine ⟨rfl, rfl, rfl⟩

/-- C25, amended. The enclosing quote character inside quoted text is written
by `putQuoted()` in doubled form exactly when character escapes are off; when
they are on it is written as a backslash followed by the quote character.  The
Unicode-escapes setting plays no part.  The write succeeds on a transport
without limit. -/
theorem quote_in_quoted_text (E : Env) (quote : Nat) (flags : WrtFlags) (s : IOSTREAM)
    (hq : quote ≠ 0) :
    (s.room = none → (putQuoted E quote quote flags s).1 = true) ∧
    ((putQuoted E quote quote flags s).1 = true →
      (putQuoted E quote quote flags s).2.buffer =
        s.buffer ++ (if flags.PL_WRT_CHARESCAPES then [92, quote] else [quote, quote])) := by
  by_cases hf : flags.PL_WRT_CHARESCAPES = true
  · have hp : putQuoted_plain E quote quote s = false := by
      unfold putQuoted_plain
      simp
    have h := putQuoted_escaped E quote quote flags s hf hp
    refine ⟨h.2, ?_⟩
    intro hs
    rw [h.1 hs]
    have he : putQuoted_esc quote quote flags = [quote] := by
      unfold putQuoted_esc
      simp
    rw [he, cstr_of_nonzero [quote] (by simpa using hq)]
    simp [hf]
  · have hf2 : flags.PL_WRT_CHARESCAPES = false := by
      cases hx : flags.PL_WRT_CHARESCAPES
      · rfl
      · exact absurd hx hf
    have h := putQuoted_unescaped E quote quote flags s hf2
    refine ⟨h.2, ?_⟩
    intro hs
    rw [h.1 hs]
    simp [hf2]

/-- C25 at the single quote on a fresh stream, with character escapes on. -/
theorem quote_in_quoted_text_witness :
    (39 : Nat) ≠ 0 ∧
    (putQuoted defaultEnv 39 39 { PL_WRT_CHARESCAPES := true } freshStream).1 = true ∧
    (putQuoted defaultEnv 39 39 { PL_WRT_CHARESCAPES := true } freshStream).2.buffer =
      freshStream.buffer ++ (if true then [92, 39] else [39, 39]) :=
  have h := quote_in_quoted_text defaultEnv 39 { PL_WRT_CHARESCAPES := true } freshStream
    (by decide)
  ⟨by decide, h.1 rfl, h.2 (h.1 rfl)⟩

/-! ## Floats -/

/-- Modelled from the spec: `dtoa()` in mode 0 (shortest digit string that reads
back as the same double) on some more doubles, given by their bits: 1.0e-5,
1.0e-4, 1.5, -1.5, 1234567890123456.75 (shortest digits 12345678901234568),
1.0e15 and 123456789012345.0; `defaultEnv` elsewhere. -/
def sampleDtoa (f : Nat) : List Nat × Int × Bool :=
  if f = 0x3EE4F8B588E368F1 then (str "1", -4, false)
  else if f = 0x3F1A36E2EB1C432D then (str "1", -3, false)
  else if f = 0x3FF8000000000000 then (str "15", 1, false)
  else if f = 0xBFF8000000000000 then (str "15", 1, true)
  else if f = 0x43118B54F22AEB03 then (str "12345678901234568", 16, false)
  else if f = 0x430C6BF526340000 then (str "1", 16, false)
  else if f = 0x42DC12218377DE40 then (str "123456789012345", 15, false)
  else defaultEnv.dtoa f

/-- The environment `defaultEnv` with the digit generator `sampleDtoa`. -/
def dtoaEnv : Env := { defaultEnv with dtoa := sampleDtoa }

/-- A string of decimal digits. -/
def decimalDigits (s : List Nat) : Prop := ∀ d ∈ s, 48 ≤ d ∧ d ≤ 57

instance decimalDigits_decidable (s : List Nat) : Decidable (decimalDigits s) := by
  unfold decimalDigits
  exact inferInstance

theorem sprintf_d_nonzero (i : Int) : ∀ d ∈ sprintf_d i, d ≠ 0 := by
  intro d hd
  unfold sprintf_d at hd
  have hu := (sprintf_u_spec i.natAbs).2.1
  split at hd
  · rcases List.mem_cons.1 hd with h | h
    · omega
    · have := hu d h
      omega
  · have := hu d hd
    omega

theorem format_float_layout_nonzero (s : List Nat) (decpt : Int) (sign : Bool)
    (hs : decimalDigits s) (hne : s ≠ []) :
    ∀ d ∈ format_float_layout s decpt sign, d ≠ 0 := by
  have hd0 : s.headD 0 ≠ 0 := by
    cases s with
    | nil => exact absurd rfl hne
    | cons a r =>
      have := hs a (List.mem_cons_self _ _)
      simp only [List.headD_cons]
      omega
  have hmem : ∀ d ∈ s, d ≠ 0 := fun d hd => by
    have := hs d hd
    omega
  have htail : ∀ d ∈ s.tail, d ≠ 0 := fun d hd => hmem d (List.mem_of_mem_tail hd)
  have hsign : ∀ d ∈ (if sign then [45] else ([] : List Nat)), d ≠ 0 := by
    intro d hd
    cases sign
    · simp at hd
    · simp at hd
      omega
  have hfrac : ∀ d ∈ (if (s.length : Int) > 1 then s.tail else [48]), d ≠ 0 := by
    intro d hd
    split at hd
    · exact htail d hd
    · simp at hd
      omega
  intro d hd
  unfold format_float_layout at hd
  simp only at hd
  split at hd
  · split at hd
    · simp only [List.mem_append, List.mem_cons, List.mem_singleton, List.not_mem_nil,
        or_false] at hd
      rcases hd with ((h | h | h) | h) | h | h
      · exact hsign d h
      · rw [h]; exact hd0
      · omega
      · exact hfrac d h
      · omega
      · exact sprintf_d_nonzero _ d h
    · simp only [List.mem_append, List.mem_cons, List.mem_singleton, List.not_mem_nil,
        or_false] at hd
      rcases hd with ((h | h | h) | h) | h
      · exact hsign d h
      · omega
      · omega
      · rw [List.eq_of_mem_replicate h]; decide
      · exact hmem d h
  · split at hd
    · simp only [List.mem_append, List.mem_cons, List.mem_singleton, List.not_mem_nil,
        or_false] at hd
      rcases hd with ((h | h) | h) | h
      · exact hsign d h
      · exact hmem d (List.mem_of_mem_take h)
      · omega
      · exact hmem d (List.mem_of_mem_drop h)
    · split at hd
      · simp only [List.mem_append, List.mem_cons, List.mem_singleton, List.not_mem_nil,
          or_false] at hd
        rcases hd with ((h | h | h) | h) | h | h | h
        · exact hsign d h
        · rw [h]; exact hd0
        · omega
        · exact hfrac d h
        · omega
        · omega
        · exact sprintf_d_nonzero _ d h
      · simp only [List.mem_append, List.mem_cons, List.mem_singleton, List.not_mem_nil,
          or_false] at hd
        rcases hd with ((h | h) | h) | h | h
        · exact hsign d h
        · exact hmem d h
        · rw [List.eq_of_mem_replicate h]; decide
        · omega
        · omega

theorem format_float_rec_finite (E : Env) (k : Nat) (f : Nat) (hf : ieee_exponent f ≠ 0x7ff) :
    format_float_rec E (k + 1) f =
      format_float_layout (E.dtoa f).1 (E.dtoa f).2.1 (E.dtoa f).2.2 := by
  unfold format_float_rec format_special_float
  simp only [hf, if_false]

theorem format_float_finite (E : Env) (f : Nat) (s : List Nat) (decpt : Int) (sign : Bool)
    (hf : ieee_exponent f ≠ 0x7ff) (hd : E.dtoa f = (s, decpt, sign))
    (hs : decimalDigits s) (hne : s ≠ []) :
    format_float E f = format_float_layout s decpt sign := by
  unfold format_float
  rw [format_float_rec_finite E 1 f hf, hd]
  exact cstr_of_nonzero _ (format_float_layout_nonzero s decpt sign hs hne)

theorem format_float_layout_point (s : List Nat) (decpt : Int) (sign : Bool) :
    46 ∈ format_float_layout s decpt sign := by
  unfold format_float_layout
  simp only
  repeat' split
  all_goals simp

/-- The sign of the layout of `format_float()`. -/
def signText (sign : Bool) : List Nat := if sign then [45] else []

/-- C26 fails at the decimal-point position -4: the double 1.0e-5, whose digit
string is `1` with the point four places to the left of it, is written in the
scientific form `1.0e-5`; the plain form ends at position -3 (1.0e-4 is written
`0.0001`). -/
theorem float_decpt_minus_four :
    dtoaEnv.dtoa 0x3EE4F8B588E368F1 = (str "1", -4, false) ∧
    ieee_exponent 0x3EE4F8B588E368F1 ≠ 0x7ff ∧
    format_float dtoaEnv 0x3EE4F8B588E368F1 = str "1.0e-5" ∧
    dtoaEnv.dtoa 0x3F1A36E2EB1C432D = (str "1", -3, false) ∧
    format_float dtoaEnv 0x3F1A36E2EB1C432D = str "0.0001" := by
  decide

/-- C26, amended. For a finite float whose digit string `D` (a non-empty string
of decimal digits) has its decimal point at or to the left of the first digit
(`decpt <= 0`), `format_float()` produces the plain form (optional minus sign,
`0.`, `-decpt` zeros, `D`, no exponent) when `-4 < decpt`, that is for at most
three zeros after the point; for `decpt <= -4` it produces the scientific form:
optional minus sign, first digit, `.`, the remaining digits (`0` when there is
none), `e` and the decimal text of `decpt - 1`. -/
theorem float_point_left (E : Env) (f d0 : Nat) (rest : List Nat) (decpt : Int) (sign : Bool)
    (hf : ieee_exponent f ≠ 0x7ff) (hd : E.dtoa f = (d0 :: rest, decpt, sign))
    (hs : decimalDigits (d0 :: rest)) (hp : decpt ≤ 0) :
    (-4 < decpt → format_float E f =
      signText sign ++ [48, 46] ++ List.replicate (-decpt).toNat 48 ++ (d0 :: rest)) ∧
    (decpt ≤ -4 → format_float E f =
      signText sign ++ [d0, 46] ++ (if rest = [] then [48] else rest) ++
        101 :: sprintf_d (decpt - 1)) := by
  rw [format_float_finite E f (d0 :: rest) decpt sign hf hd hs (by simp)]
  unfold format_float_layout signText
  simp only [hp, if_true]
  constructor
  · intro h
    have : ¬ decpt ≤ -4 := by omega
    simp only [this, if_false]
  · intro h
    simp only [h, if_true, List.headD_cons, List.tail_cons, List.length_cons]
    cases rest with
    | nil => simp
    | cons a r =>
      have : ((r.length + 1 + 1 : Nat) : Int) > 1 := by omega
      simp [this]

/-- C26 at the double 1.0e-5: digit string `1`, point four places to the left. -/
theorem float_point_left_witness :
    ieee_exponent 0x3EE4F8B588E368F1 ≠ 0x7ff ∧
    dtoaEnv.dtoa 0x3EE4F8B588E368F1 = (49 :: [], -4, false) ∧
    decimalDigits (49 :: []) ∧ (-4 : Int) ≤ 0 ∧
    format_float dtoaEnv 0x3EE4F8B588E368F1 =
      signText false ++ [49, 46] ++ (if ([] : List Nat) = [] then [48] else []) ++
        101 :: sprintf_d (-4 - 1) :=
  ⟨by decide, by decide, by intro d hd; simp at hd; omega, by decide,
    (float_point_left dtoaEnv 0x3EE4F8B588E368F1 49 [] (-4) false (by decide) (by decide)
      (by intro d hd; simp at hd; omega) (by decide)).2 (by decide)⟩

/-- C27 fails when the digit string extends past the decimal point: the double
1234567890123456.75, with the 17 digits 12345678901234568 and 16 of them before
the point, is written in the plain form `1234567890123456.8`, although its
integer part has more than 15 digits; the scientific form is used for 1.0e15,
where no fraction digit was generated (`1.0e+15`). -/
theorem float_long_integer_part :
    dtoaEnv.dtoa 0x43118B54F22AEB03 = (str "12345678901234568", 16, false) ∧
    ieee_exponent 0x43118B54F22AEB03 ≠ 0x7ff ∧
    format_float dtoaEnv 0x43118B54F22AEB03 = str "1234567890123456.8" ∧
    dtoaEnv.dtoa 0x430C6BF526340000 = (str "1", 16, false) ∧
    format_float dtoaEnv 0x430C6BF526340000 = str "1.0e+15" := by
  decide

/-- C27, amended. For a finite float whose digit string `D` (a non-empty string
of decimal digits) has a positive decimal-point position `decpt`:
when `D` is longer than `decpt` (a fraction digit was generated), the text is
the plain form with the first `decpt` digits, `.` and the remaining digits,
whatever the length of the integer part; when `D` has at most `decpt` digits,
the text is the plain form `D`, zeros up to `decpt` digits and `.0` for
`decpt <= 15`, and the scientific form (first digit, `.`, the remaining digits
or `0`, `e+`, the decimal text of `decpt - 1`) for `decpt > 15`. -/
theorem float_point_right (E : Env) (f d0 : Nat) (rest : List Nat) (decpt : Int) (sign : Bool)
    (hf : ieee_exponent f ≠ 0x7ff) (hd : E.dtoa f = (d0 :: rest, decpt, sign))
    (hs : decimalDigits (d0 :: rest)) (hp : 0 < decpt) :
    (decpt < ((d0 :: rest).length : Int) → format_float E f =
      signText sign ++ (d0 :: rest).take decpt.toNat ++ [46] ++
        (d0 :: rest).drop decpt.toNat) ∧
    (((d0 :: rest).length : Int) ≤ decpt → decpt ≤ 15 → format_float E f =
      signText sign ++ (d0 :: rest) ++
        List.replicate (decpt - ((d0 :: rest).length : Int)).toNat 48 ++ [46, 48]) ∧
    (((d0 :: rest).length : Int) ≤ decpt → 15 < decpt → format_float E f =
      signText sign ++ [d0, 46] ++ (if rest = [] then [48] else rest) ++
        101 :: 43 :: sprintf_d (decpt - 1)) := by
  rw [format_float_finite E f (d0 :: rest) decpt sign hf hd hs (by simp)]
  unfold format_float_layout signText
  have h0 : ¬ decpt ≤ 0 := by omega
  simp only [h0, if_false]
  refine ⟨?_, ?_, ?_⟩
  · intro h
    have : ((d0 :: rest).length : Int) > decpt := h
    simp only [this, if_true]
  · intro h h15
    have h1 : ¬ ((d0 :: rest).length : Int) > decpt := by omega
    have h2 : ¬ decpt > 15 := by omega
    simp only [h1, h2, if_false]
  · intro h h15
    have h1 : ¬ ((d0 :: rest).length : Int) > decpt := by omega
    have h2 : decpt > 15 := h15
    simp only [h1, h2, if_false, if_true, List.headD_cons, List.tail_cons]
    cases rest with
    | nil => simp
    | cons a r =>
      have h3 : (((d0 :: a :: r).length : Nat) : Int) > 1 := by
        simp only [List.length_cons]
        omega
      simp only [h3, if_true]
      have h4 : decpt - ((d0 :: a :: r).length : Int) + (((d0 :: a :: r).length : Int) - 1) =
          decpt - 1 := by omega
      rw [h4]
      simp

/-- C27 at the double 1234567890123456.75: 17 digits, 16 before the point. -/
theorem float_point_right_witness :
    ieee_exponent 0x43118B54F22AEB03 ≠ 0x7ff ∧
    dtoaEnv.dtoa 0x43118B54F22AEB03 = (49 :: str "2345678901234568", 16, false) ∧
    decimalDigits (49 :: str "2345678901234568") ∧ (0 : Int) < 16 ∧
    format_float dtoaEnv 0x43118B54F22AEB03 =
      signText false ++ (49 :: str "2345678901234568").take (16 : Int).toNat ++ [46] ++
        (49 :: str "2345678901234568").drop (16 : Int).toNat :=
  ⟨by decide, by decide, by decide, by decide,
    (float_point_right dtoaEnv 0x43118B54F22AEB03 49 (str "2345678901234568") 16 false
      (by decide) (by decide) (by decide) (by decide)).1 (by decide)⟩

/-- C28 fails for NaN: the quiet NaN with mantissa bits `0x8000000000000` is
written `1.5NaN`, and the same with the sign bit set `-1.5NaN`: the text of the
double obtained by putting the exponent field to `0x3ff` comes before `NaN`. -/
theorem float_nan_text :
    ieee_exponent 0x7FF8000000000000 = 0x7ff ∧ ieee_mantissa 0x7FF8000000000000 ≠ 0 ∧
    NaN_value 0x7FF8000000000000 = 0x3FF8000000000000 ∧
    format_float dtoaEnv 0x7FF8000000000000 = str "1.5NaN" ∧
    format_float dtoaEnv 0xFFF8000000000000 = str "-1.5NaN" := by
  decide

theorem NaN_value_fields (f : Nat) :
    ieee_exponent (NaN_value f) = 0x3ff ∧ ieee_mantissa (NaN_value f) = ieee_mantissa f ∧
      ieee_negative (NaN_value f) = ieee_negative f := by
  unfold NaN_value ieee_exponent ieee_mantissa ieee_negative
  norm_num
  omega

/-- C28, amended. `format_float()` renders an infinity whose sign bit is clear
as `1.0Inf` and one whose sign bit is set as `-1.0Inf`.  A NaN is rendered as the
text of the finite double with the same sign and mantissa bits and the exponent
field `0x3ff` (a value between 1 and 2 in magnitude), followed by `NaN`; that
text is never empty, so the result is never just `NaN`. -/
theorem float_special (E : Env) (f : Nat) (he : ieee_exponent f = 0x7ff) :
    (ieee_mantissa f = 0 →
      format_float E f = if ieee_negative f = 1 then str "-1.0Inf" else str "1.0Inf") ∧
    (ieee_mantissa f ≠ 0 →
      (ieee_exponent (NaN_value f) = 0x3ff ∧ ieee_mantissa (NaN_value f) = ieee_mantissa f ∧
        ieee_negative (NaN_value f) = ieee_negative f) ∧
      (decimalDigits (E.dtoa (NaN_value f)).1 → (E.dtoa (NaN_value f)).1 ≠ [] →
        format_float E f = format_float E (NaN_value f) ++ str "NaN" ∧
        format_float E (NaN_value f) ≠ [])) := by
  constructor
  · intro hm
    unfold format_float format_float_rec format_special_float writeINF
    simp only [he, if_true, hm, ne_eq, not_true_eq_false, if_false]
    split <;> decide
  · intro hm
    have hv := NaN_value_fields f
    refine ⟨hv, ?_⟩
    intro hs hne
    have hfin : ieee_exponent (NaN_value f) ≠ 0x7ff := by rw [hv.1]; decide
    have h1 := format_float_finite E (NaN_value f) _ _ _ hfin rfl hs hne
    have hnz := format_float_layout_nonzero _ (E.dtoa (NaN_value f)).2.1
      (E.dtoa (NaN_value f)).2.2 hs hne
    constructor
    · rw [h1]
      unfold format_float
      have h2 : format_float_rec E 2 f =
          format_float_layout (E.dtoa (NaN_value f)).1 (E.dtoa (NaN_value f)).2.1
            (E.dtoa (NaN_value f)).2.2 ++ str "NaN" := by
        conv_lhs => unfold format_float_rec format_special_float
        simp only [he, if_true, hm, ne_eq, not_false_eq_true, writeNaN]
        rw [format_float_rec_finite E 0 _ hfin]
      rw [h2]
      apply cstr_of_nonzero
      intro d hd
      rcases List.mem_append.1 hd with h | h
      · exact hnz d h
      · have : d = 78 ∨ d = 97 := by
          have h' : d ∈ [78, 97, 78] := h
          simp at h'
          omega
        omega
    · rw [h1]
      intro hnil
      have := format_float_layout_point (E.dtoa (NaN_value f)).1 (E.dtoa (NaN_value f)).2.1
        (E.dtoa (NaN_value f)).2.2
      rw [hnil] at this
      simp at this

/-- C28 at the quiet NaN `0x7FF8000000000000`, written `1.5NaN`. -/
theorem float_special_witness :
    ieee_exponent 0x7FF8000000000000 = 0x7ff ∧ ieee_mantissa 0x7FF8000000000000 ≠ 0 ∧
    decimalDigits (dtoaEnv.dtoa (NaN_value 0x7FF8000000000000)).1 ∧
    format_float dtoaEnv 0x7FF8000000000000 =
      format_float dtoaEnv (NaN_value 0x7FF8000000000000) ++ str "NaN" ∧
    format_float dtoaEnv (NaN_value 0x7FF8000000000000) ≠ [] :=
  ⟨by decide, by decide, by decide,
    ((float_special dtoaEnv 0x7FF8000000000000 (by decide)).2 (by decide)).2
      (by decide) (by decide)⟩

/-! ## Rationals -/

theorem PutToken_written (E : Env) (c : Nat) (t : List Nat) (s : IOSTREAM)
    (h : (PutToken E (c :: t) s).1 ≠ 0) :
    (PutToken E (c :: t) s).2.buffer =
      s.buffer ++ (if (needSpace E (c % 256) s).1 then [32] else []) ++ (c :: t) := by
  have ho := PutOpenToken_buffer E (c % 256) s
  unfold PutToken at h ⊢
  rcases hq : PutOpenToken E (c % 256) s with ⟨rc, s1⟩
  rw [hq] at ho
  simp only [hq] at h ⊢
  cases rc with
  | zero => simp at h
  | succ n =>
    simp only at h ⊢
    rcases hq2 : PutString (c :: t) s1 with ⟨b2, s2⟩
    simp only [hq2] at h ⊢
    cases b2
    · simp at h
    · simp only
      rw [PutString_eq hq2, ho (by simp)]

theorem PutToken_unlimited_room (E : Env) (t : List Nat) (s : IOSTREAM) (h : s.room = none) :
    (PutToken E t s).2.room = none := by
  cases t with
  | nil => unfold PutToken; exact h
  | cons c r =>
    have ho := PutOpenToken_unlimited E (c % 256) s h
    unfold PutToken
    rcases hq : PutOpenToken E (c % 256) s with ⟨rc, s1⟩
    rw [hq] at ho
    simp only at ho
    obtain ⟨h0, hr, _⟩ := ho
    have h1 := PutString_unlimited (c :: r) s1 hr
    have h2 := PutString_unlimited_room (c :: r) s1 hr
    rcases hq2 : PutString (c :: r) s1 with ⟨b2, s2⟩
    rw [hq2] at h1 h2
    simp only at h1 h2
    obtain ⟨hb2, _⟩ := h1
    subst hb2
    cases rc with
    | zero => exact absurd rfl h0
    | succ n =>
      simp only [hq, hq2]
      exact h2

theorem needSpace_after_EOF (E : Env) (c : Nat) (s : IOSTREAM) (hl : s.lastc = EOF) :
    (needSpace E (c % 256) s).1 = false := by
  have hc : c % 256 ≠ EOF := by
    unfold EOF
    omega
  unfold needSpace
  simp only [hc, hl, if_false, if_true]

/-- C29. For every rational with numerator `n` and denominator `d`,
`WriteNumber()` on a transport without limit succeeds, and whenever it succeeds
it has written the decimal text of `n`, the separator (`/` in natural mode, `r`
otherwise) and the decimal text of `d` with nothing between them, whatever the
last-character slot holds; the only character that can be added is one space
before the numerator, when `needSpace()` asks for it there. -/
theorem rational_text (E : Env) (n d : Int) (o : write_options) :
    (o.out.room = none → (WriteNumber E (.mpq n d) o).1 ≠ 0) ∧
    ((WriteNumber E (.mpq n d) o).1 ≠ 0 →
      (WriteNumber E (.mpq n d) o).2.buffer =
        o.out.buffer ++
          (if (needSpace E ((sprintf_d n).headD 0 % 256) o.out).1 then [32] else []) ++
          sprintf_d n ++ [if o.flags.PL_WRT_RAT_NATURAL then 47 else 114] ++ sprintf_d d) := by
  obtain ⟨cn, tn, hn, _⟩ := sprintf_d_head n
  obtain ⟨cd, td, hd, _⟩ := sprintf_d_head d
  unfold WriteNumber writeMPZ mpz_get_str
  simp only [hn, hd, List.headD_cons]
  constructor
  · intro hr
    have h1 := PutToken_unlimited E cn tn o.out hr
    have h1r := PutToken_unlimited_room E (cn :: tn) o.out hr
    rcases hq1 : PutToken E (cn :: tn) o.out with ⟨rc1, s1⟩
    rw [hq1] at h1 h1r
    simp only at h1 h1r
    cases rc1 with
    | zero => exact absurd rfl h1.1
    | succ k =>
      simp only
      rw [Sputcode_unlimited _ s1 h1r]
      simp only
      have h3 := PutToken_unlimited E cd td
        { buffer := s1.buffer ++ [if o.flags.PL_WRT_RAT_NATURAL = true then 47 else 114],
          lastc := EOF, room := s1.room, ferr := s1.ferr, canrepresent := s1.canrepresent } h1r
      rcases hq3 : PutToken E (cd :: td)
        { buffer := s1.buffer ++ [if o.flags.PL_WRT_RAT_NATURAL = true then 47 else 114],
          lastc := EOF, room := s1.room, ferr := s1.ferr, canrepresent := s1.canrepresent }
        with ⟨rc3, s3⟩
      rw [hq3] at h3
      simp only at h3
      cases rc3 with
      | zero => exact absurd rfl h3.1
      | succ k3 => simp
  · intro h
    have h1 := PutToken_written E cn tn o.out
    rcases hq1 : PutToken E (cn :: tn) o.out with ⟨rc1, s1⟩
    rw [hq1] at h1
    simp only [hq1] at h ⊢
    cases rc1 with
    | zero => simp at h
    | succ k =>
      simp only at h ⊢
      have hb1 := h1 (by simp)
      simp only at hb1
      rcases hq2 : Sputcode (if o.flags.PL_WRT_RAT_NATURAL = true then 47 else 114) s1
        with ⟨b2, s2⟩
      simp only [hq2] at h ⊢
      cases b2
      · simp at h
      · simp only at h ⊢
        have hb2 := Sputcode_eq hq2
        have h3 := PutToken_written E cd td { s2 with lastc := EOF }
        have hsp := needSpace_after_EOF E cd { s2 with lastc := EOF } rfl
        rcases hq3 : PutToken E (cd :: td) { s2 with lastc := EOF } with ⟨rc3, s3⟩
        rw [hq3] at h3
        simp only [hq3] at h ⊢
        cases rc3 with
        | zero => simp at h
        | succ k3 =>
          simp only
          have hb3 := h3 (by simp)
          rw [hsp] at hb3
          simp only at hb3
          rw [hb3, hb2, hb1]
          simp

/-- C29 at the rational 1r3 on a fresh stream and, in natural mode, after the
letter `a`: the texts written are `1r3` and ` 1/3`. -/
theorem rational_text_witness :
    (defaultOptions {}).out.room = none ∧
    (WriteNumber defaultEnv (.mpq 1 3) (defaultOptions {})).1 ≠ 0 ∧
    (WriteNumber defaultEnv (.mpq 1 3) (defaultOptions {})).2.buffer = str "1r3" ∧
    (WriteNumber defaultEnv (.mpq 1 3)
      { defaultOptions { PL_WRT_RAT_NATURAL := true } with
        out := { freshStream with lastc := 97 } }).2.buffer = str " 1/3" :=
  have h := rational_text defaultEnv 1 3 (defaultOptions {})
  have h2 := rational_text defaultEnv 1 3
    { defaultOptions { PL_WRT_RAT_NATURAL := true } with out := { freshStream with lastc := 97 } }
  ⟨rfl, h.1 rfl, (h.2 (h.1 rfl)).trans (by decide), (h2.2 (h2.1 rfl)).trans (by decide)⟩

/-! ## Variable names -/

/-- The text `writeNumberVar()` puts in its buffer for the integer `n`, as the
specification words it: for `n >= 0` the letter with code `A + n mod 26`
followed by the decimal text of `n div 26` unless that is zero, for `n < 0` the
text `S_` followed by the decimal text of `-n`. -/
def numberVarText (n : Int) : List Nat :=
  if n < 0 then str "S_" ++ sprintf_d (-n)
  else (n % 26 + 65).toNat :: (if n / 26 = 0 then [] else sprintf_d (n / 26))

theorem int64_id (x : Int) (h1 : -(2 : Int) ^ 63 ≤ x) (h2 : x < (2 : Int) ^ 63) : int64 x = x := by
  unfold int64
  norm_num at h1 h2 ⊢
  omega

theorem writeNumberVar_integer (E : Env) (t a0 : Term) (o : write_options) (n : Int)
    (ht : deRef o.ld t = .compound E.ATOM_isovar [a0])
    (hold : (o.ld.numbervars_frame && !o.flags.PL_WRT_NUMBERVARS && E.older_isovar t) = false)
    (ha : deRef o.ld a0 = .integer n) :
    writeNumberVar E t o =
      (if (PutToken E (if n < 0 then str "S_" ++ sprintf_d (int64 (-n))
            else (n % 26 + 65).toNat :: (if n / 26 = 0 then [] else sprintf_d (n / 26)))
            o.out).1 = 0 then -1 else 1,
       { o with out := (PutToken E (if n < 0 then str "S_" ++ sprintf_d (int64 (-n))
            else (n % 26 + 65).toNat :: (if n / 26 = 0 then [] else sprintf_d (n / 26)))
            o.out).2 }) := by
  unfold writeNumberVar
  simp only [ht, bne_self_eq_false, Bool.false_eq_true, if_false, hold, ha]
  by_cases hn : n < 0
  · simp only [hn, if_true]
  · simp only [hn, if_false]
    by_cases hj : n / 26 = 0
    · simp only [hj, if_true]
    · simp only [hj, if_false]

/-- C21 (the code departs from the claim at the least 64-bit integer).  For a
numbered-variable marker carrying the integer `N`, not set aside as an older
marker, `writeNumberVar()` hands to `PutToken()` the letter with code
`A + N mod 26` followed by the decimal text of `N div 26` unless that is zero
when `N >= 0`, and `S_` followed by the decimal text of `-N` when
`-2^63 < N < 0`.  For `N = -2^63` the negation `-n` in `int64_t` gives `-2^63`
again and the text is `S_-9223372036854775808`.  Written with `numbervars`
through `writeTerm()`: 0 gives `A`, 1 `B`, 25 `Z`, 26 `A1`, 27 `B1`, -3 `S_3`. -/
theorem numbered_variable_text :
    (∀ (E : Env) (t a0 : Term) (o : write_options) (n : Int),
      deRef o.ld t = .compound E.ATOM_isovar [a0] →
      (o.ld.numbervars_frame && !o.flags.PL_WRT_NUMBERVARS && E.older_isovar t) = false →
      deRef o.ld a0 = .integer n → -(2 : Int) ^ 63 < n →
      writeNumberVar E t o =
        (if (PutToken E (numberVarText n) o.out).1 = 0 then -1 else 1,
         { o with out := (PutToken E (numberVarText n) o.out).2 })) ∧
    (∀ (E : Env) (t a0 : Term) (o : write_options),
      deRef o.ld t = .compound E.ATOM_isovar [a0] →
      (o.ld.numbervars_frame && !o.flags.PL_WRT_NUMBERVARS && E.older_isovar t) = false →
      deRef o.ld a0 = .integer (-(2 : Int) ^ 63) →
      writeNumberVar E t o =
        (if (PutToken E (str "S_-9223372036854775808") o.out).1 = 0 then -1 else 1,
         { o with out := (PutToken E (str "S_-9223372036854775808") o.out).2 })) ∧
    numberVarText (-(2 : Int) ^ 63) = str "S_9223372036854775808" ∧
    written (writeTerm defaultEnv 3
      (.compound defaultEnv.ATOM_isovar [.integer (-(2 : Int) ^ 63)]) 1200
      (defaultOptions { PL_WRT_NUMBERVARS := true }) W_TOP) =
        some (true, str "S_-9223372036854775808") ∧
    (∀ p : Int × String,
      p ∈ [(0, "A"), (1, "B"), (25, "Z"), (26, "A1"), (27, "B1"), (-3, "S_3")] →
      written (writeTerm defaultEnv 3 (.compound defaultEnv.ATOM_isovar [.integer p.1]) 1200
        (defaultOptions { PL_WRT_NUMBERVARS := true }) W_TOP) = some (true, str p.2)) := by
  refine ⟨?_, ?_, by decide, by decide!, by decide!⟩
  · intro E t a0 o n ht hold ha hn
    rw [writeNumberVar_integer E t a0 o n ht hold ha]
    unfold numberVarText
    by_cases h0 : n < 0
    · simp only [h0, if_true]
      rw [int64_id (-n) (by norm_num at hn ⊢; omega) (by norm_num at hn ⊢; omega)]
    · simp only [h0, if_false]
  · intro E t a0 o ht hold ha
    rw [writeNumberVar_integer E t a0 o _ ht hold ha]
    have h0 : (-(2 : Int) ^ 63) < 0 := by norm_num
    simp only [h0, if_true]
    have : str "S_" ++ sprintf_d (int64 (- -(2 : Int) ^ 63)) = str "S_-9223372036854775808" := by
      decide
    rw [this]

/-- C21 at the marker `'$VAR'(27)` on a fresh stream: the token is `B1`. -/
theorem numbered_variable_text_witness :
    deRef (defaultOptions {}).ld (.compound defaultEnv.ATOM_isovar [.integer 27]) =
      .compound defaultEnv.ATOM_isovar [.integer 27] ∧
    numberVarText 27 = str "B1" ∧
    writeNumberVar defaultEnv (.compound defaultEnv.ATOM_isovar [.integer 27])
        (defaultOptions {}) =
      (if (PutToken defaultEnv (numberVarText 27) (defaultOptions {}).out).1 = 0 then -1 else 1,
       { defaultOptions {} with
         out := (PutToken defaultEnv (numberVarText 27) (defaultOptions {}).out).2 }) :=
  ⟨deRef_compound _ _ _, by decide,
    numbered_variable_text.1 defaultEnv (.compound defaultEnv.ATOM_isovar [.integer 27])
      (.integer 27) (defaultOptions {}) 27 (deRef_compound _ _ _) (by decide)
      (deRef_integer _ _) (by decide)⟩

/-- The region of the cells `var_name_ptr()` is meant for: above the base of the
local stack, or from the base of the global stack up to the base of the local
stack. -/
def inStacks (ld : PL_local_data) (p : Nat) : Prop :=
  ld.lBase < p ∨ (ld.gBase ≤ p ∧ p ≤ ld.lBase)

/-- The number in the name `var_name_ptr()` gives to the cell `p`. -/
def var_number (ld : PL_local_data) (p : Nat) : Int :=
  if p > ld.lBase then ((p : Int) - (ld.lBase : Int)) * 2 + 1
  else ((p : Int) - (ld.gBase : Int)) * 2

theorem var_name_ptr_eq (ld : PL_local_data) (p : Nat) (hp : inStacks ld p)
    (hb : p < 2 ^ 61) :
    var_name_ptr ld p = 95 :: sprintf_d (var_number ld p) ∧ 0 ≤ var_number ld p := by
  unfold var_name_ptr var_number
  simp only
  unfold inStacks at hp
  norm_num at hb
  by_cases h : p > ld.lBase
  · simp only [h, if_true]
    rw [int64_id _ (by norm_num; omega) (by norm_num; omega)]
    exact ⟨rfl, by omega⟩
  · simp only [h, if_false]
    rw [int64_id _ (by norm_num; omega) (by norm_num; omega)]
    exact ⟨rfl, by omega⟩

/-- C22. For two cells `p` and `q` of a 64-bit address space (word index below
`2^61`), each above the base of the local stack or between the base of the
global stack and the base of the local stack, `var_name_ptr()` gives the same
name exactly when `p = q`; the name is `_` followed by the decimal text of a
number that is odd for a cell above the local base and even otherwise. -/
theorem var_name_ptr_injective (ld : PL_local_data) (p q : Nat)
    (hp : inStacks ld p) (hq : inStacks ld q) (hpb : p < 2 ^ 61) (hqb : q < 2 ^ 61) :
    (var_name_ptr ld p = var_name_ptr ld q ↔ p = q) ∧
    var_name_ptr ld p = 95 :: sprintf_d (var_number ld p) ∧
    (ld.lBase < p → var_number ld p % 2 = 1) ∧
    (p ≤ ld.lBase → var_number ld p % 2 = 0) := by
  have h1 := var_name_ptr_eq ld p hp hpb
  have h2 := var_name_ptr_eq ld q hq hqb
  refine ⟨?_, h1.1, ?_, ?_⟩
  · constructor
    · intro h
      rw [h1.1, h2.1] at h
      have hn := sprintf_d_inj (List.cons.inj h).2
      unfold var_number at hn
      unfold inStacks at hp hq
      by_cases a : p > ld.lBase <;> by_cases b : q > ld.lBase
      · simp only [a, b, if_true] at hn
        omega
      · simp only [a, b, if_true, if_false] at hn
        omega
      · simp only [a, b, if_true, if_false] at hn
        omega
      · simp only [a, b, if_false] at hn
        omega
    · intro h
      rw [h]
  · intro h
    unfold var_number
    have : p > ld.lBase := h
    simp only [this, if_true]
    omega
  · intro h
    unfold var_number
    have : ¬ p > ld.lBase := by omega
    simp only [this, if_false]
    omega

/-- C22 at the cells 5 (global) and 1000003 (local) of the engine state
`freshLD`: the names are `_10` and `_7`. -/
theorem var_name_ptr_injective_witness :
    inStacks freshLD 5 ∧ inStacks freshLD 1000003 ∧
    (var_name_ptr freshLD 5 = var_name_ptr freshLD 1000003 ↔ 5 = 1000003) ∧
    var_name_ptr freshLD 5 = str "_10" ∧ var_name_ptr freshLD 1000003 = str "_7" :=
  have h := var_name_ptr_injective freshLD 5 1000003 (by unfold inStacks; decide)
    (by unfold inStacks; decide) (by norm_num) (by norm_num)
  ⟨by unfold inStacks; decide, by unfold inStacks; decide, h.1, by decide, by decide⟩

/-! ## Variable names from a binding list -/

/-- The variable-name grammar for an atom: a text atom that is not empty, starts
with an uppercase letter or an underscore and goes on with alphanumeric
characters or underscores; for a wide-character atom the reader's test
`atom_varnameW()` decides. -/
def isVariableName (E : Env) (a : Atom) : Bool :=
  match a.type, a.name with
  | .text, c :: rest => (E.isUpper c || c == 95) && rest.all (fun d => E.isAlpha d)
  | .ucs, _ :: _ => E.atom_varnameW a.name
  | _, _ => false

/-- An element of a binding list as the engine in the state `ld` reads it,
through its bindings: the name and the variable when the element is
`Name = Var` with `Name` an atom that meets the variable-name grammar. -/
def assignmentOf (E : Env) (ld : PL_local_data) (e : Term) : Option (Atom × Term) :=
  match deRef ld e with
  | .compound eq [namet, var] =>
    (match deRef ld namet with
     | .atom name =>
       if eq = E.ATOM_equals ∧ isVariableName E name = true then some (name, var) else none
     | _ => none)
  | _ => none

/-- The error an offending element yields, read in the state `ld`: a type error
when it is not a pair `Name = Var` (an unbound element included) or `Name` is
not an atom (an unbound name included), a domain error when `Name` is an atom
that violates the grammar. -/
def offence (E : Env) (ld : PL_local_data) (e : Term) : PlError :=
  match deRef ld e with
  | .compound eq [namet, _] =>
    if eq = E.ATOM_equals then
      (match deRef ld namet with
       | .atom _ => .domain "variable_name"
       | _ => .type "atom")
    else .type "variable_assignment"
  | _ => .type "variable_assignment"

/-- The effect of one element `Name = Var`: a variable that is unbound is
unified with the numbered-variable marker carrying the name; a bound one is left
alone. -/
def bindOne (E : Env) (name : Atom) (var : Term) (ld : PL_local_data) : PL_local_data :=
  if PL_is_variable (deRef ld var) then
    match E.PL_unify ld.bindings var (.compound E.ATOM_isovar [.atom name]) with
    | some b => { ld with bindings := b }
    | none => ld
  else ld

/-- The effect of visiting one element in the state `ld`. -/
def bindElem (E : Env) (e : Term) (ld : PL_local_data) : PL_local_data :=
  match assignmentOf E ld e with
  | some (name, var) => bindOne E name var ld
  | none => ld

/-- The effect of the cells of a binding list, in order, each element read in
the state its predecessors have left.  A cell is given by its element and its
tail term. -/
def bindAll (E : Env) : List (Term × Term) → PL_local_data → PL_local_data
  | [], ld => ld
  | (e, _) :: rest, ld => bindAll E rest (bindElem E e ld)

/-- Every element is, in the state in which it is visited, `Name = Var` with
`Name` an atom meeting the variable-name grammar. -/
def allAssignments (E : Env) : List (Term × Term) → PL_local_data → Bool
  | [], _ => true
  | (e, _) :: rest, ld =>
    (assignmentOf E ld e).isSome && allAssignments E rest (bindElem E e ld)

/-- The spine of a binding list as the loop walks it from the term `t` in the
state `ld`: the term reads, through the bindings, as a list cell with the
element and the tail term of the first entry, and so on from that tail term in
the state the element has left. -/
def spineAt (E : Env) : List (Term × Term) → Term → PL_local_data → Prop
  | [], _, _ => True
  | (e, t1) :: rest, t, ld =>
    deRef ld t = .compound E.ATOM_dot [e, t1] ∧ spineAt E rest t1 (bindElem E e ld)

/-- The term at which the walk along the cells arrives: the tail term of the
last cell, the start when there is no cell. -/
def spineEnd : List (Term × Term) → Term → Term
  | [], t => t
  | (_, t1) :: rest, _ => spineEnd rest t1

/-- The cells of the list `mkList E es tl`. -/
def cellsOf (E : Env) : List Term → Term → List (Term × Term)
  | [], _ => []
  | e :: rest, tl => (e, mkList E rest tl) :: cellsOf E rest tl

/-- Unifying an unbound variable with a term succeeds. -/
def unifyBinds (E : Env) : Prop :=
  ∀ (b : List (Nat × Term)) (v t : Term),
    PL_is_variable (deRef_rec b (b.length + 1) v) = true → (E.PL_unify b v t).isSome = true

/-- The length of a proper list is not reported as -1 by `lengthList()`. -/
def properHasLength (E : Env) : Prop :=
  ∀ (b : List (Nat × Term)) (l : List Term), E.lengthList b (mkList E l (.atom E.ATOM_nil)) ≠ -1

/-- The one cycle test of the loop, made after the element that brings the
countdown `cca` to 0, finds a length for what is left of the list. -/
def checkAt (E : Env) (cca : Int) (cells : List (Term × Term)) (t : Term)
    (ld : PL_local_data) : Prop :=
  ∀ i : Nat, (i : Int) + 1 = cca → i < cells.length →
    E.lengthList (bindAll E (cells.take (i + 1)) ld).bindings
      (spineEnd (cells.take (i + 1)) t) ≠ -1

/-- The cycle test of `bind_varnames()`, made once after the 1000th element,
finds a length for what is left of the list; a list of fewer elements is not
tested. -/
def cycleCheck (E : Env) (cells : List (Term × Term)) (t : Term) (ld : PL_local_data) : Prop :=
  1000 ≤ cells.length →
    E.lengthList (bindAll E (cells.take 1000) ld).bindings (spineEnd (cells.take 1000) t) ≠ -1

theorem deRef_resolved (ld : PL_local_data) (t : Term) (h : PL_is_variable t = false) :
    deRef ld t = t := by
  unfold deRef
  cases t <;> first | rfl | (simp [PL_is_variable] at h)

theorem atomIsVarName_eq (E : Env) (a : Atom) : atomIsVarName E a = isVariableName E a := by
  rcases a with ⟨name, ty⟩
  cases name with
  | nil => cases ty <;> rfl
  | cons c rest =>
    cases ty
    · show (if (E.isUpper c || c == 95) = true then rest.all (fun d => E.isAlpha d) else false) =
        ((E.isUpper c || c == 95) && rest.all (fun d => E.isAlpha d))
      cases (E.isUpper c || c == 95) <;> rfl
    · rfl
    · rfl
    · rfl

theorem assignmentOf_some {E : Env} {ld : PL_local_data} {e : Term} {name : Atom} {var : Term}
    (h : assignmentOf E ld e = some (name, var)) :
    ∃ namet, deRef ld e = .compound E.ATOM_equals [namet, var] ∧
      deRef ld namet = .atom name ∧ atomIsVarName E name = true := by
  unfold assignmentOf at h
  generalize hd : deRef ld e = d at h
  cases d with
  | compound f args =>
    rcases args with _ | ⟨n, _ | ⟨v, _ | ⟨w, r⟩⟩⟩
    · cases h
    · cases h
    · simp only at h
      generalize hn : deRef ld n = dn at h
      cases dn with
      | atom a =>
        simp only at h
        split at h
        · rename_i hc
          simp only [Option.some.injEq, Prod.mk.injEq] at h
          refine ⟨n, ?_, ?_, ?_⟩
          · rw [hc.1, h.2]
          · rw [hn, h.1]
          · rw [atomIsVarName_eq, ← h.1]
            exact hc.2
        · cases h
      | _ => cases h
    · cases h
  | _ => cases h

theorem bindElem_some {E : Env} {ld : PL_local_data} {e : Term} {name : Atom} {var : Term}
    (h : assignmentOf E ld e = some (name, var)) : bindElem E e ld = bindOne E name var ld := by
  unfold bindElem
  rw [h]

theorem bindElem_none {E : Env} {ld : PL_local_data} {e : Term}
    (h : assignmentOf E ld e = none) : bindElem E e ld = ld := by
  unfold bindElem
  rw [h]

theorem mkList_cons (E : Env) (e : Term) (es : List Term) (tl : Term) :
    mkList E (e :: es) tl = .compound E.ATOM_dot [e, mkList E es tl] := rfl

theorem bind_step_good (E : Env) (hu : unifyBinds E) (fuel : Nat) (cca : Int) (t e tail1 : Term)
    (ld : PL_local_data) (hd : deRef ld t = .compound E.ATOM_dot [e, tail1])
    (h : (assignmentOf E ld e).isSome = true) :
    bind_varnames_loop E (fuel + 1) cca t ld =
      if cca - 1 = 0 ∧ E.lengthList (bindElem E e ld).bindings tail1 = -1 then
        (false, { bindElem E e ld with exception := some (.type "list") })
      else bind_varnames_loop E fuel (cca - 1) tail1 (bindElem E e ld) := by
  rcases ha : assignmentOf E ld e with _ | ⟨name, var⟩
  · rw [ha] at h
    cases h
  obtain ⟨namet, hde, hdn, hn⟩ := assignmentOf_some ha
  rw [bindElem_some ha]
  conv_lhs => unfold bind_varnames_loop
  simp only [hd, hde, hdn, bne_self_eq_false, Bool.false_eq_true, if_false, hn,
    Bool.not_true]
  unfold bindOne
  by_cases hv : PL_is_variable (deRef ld var) = true
  · simp only [hv, if_true]
    have := hu ld.bindings var (.compound E.ATOM_isovar [.atom name]) hv
    rcases hq : E.PL_unify ld.bindings var (.compound E.ATOM_isovar [.atom name]) with _ | b
    · rw [hq] at this
      cases this
    · simp only [Bool.and_eq_true, decide_eq_true_eq]
  · simp only [hv, Bool.false_eq_true, if_false, Bool.and_eq_true, decide_eq_true_eq]

theorem bind_step_bad (E : Env) (fuel : Nat) (cca : Int) (t e tail1 : Term)
    (ld : PL_local_data) (hd : deRef ld t = .compound E.ATOM_dot [e, tail1])
    (h : assignmentOf E ld e = none) :
    bind_varnames_loop E (fuel + 1) cca t ld =
      (false, { ld with exception := some (offence E ld e) }) := by
  conv_lhs => unfold bind_varnames_loop
  simp only [hd, bne_self_eq_false, Bool.false_eq_true, if_false]
  unfold assignmentOf at h
  unfold offence
  generalize deRef ld e = d at h ⊢
  cases d with
  | compound f args =>
    rcases args with _ | ⟨n, _ | ⟨v, _ | ⟨w, r⟩⟩⟩
    · rfl
    · rfl
    · simp only at h ⊢
      generalize deRef ld n = dn at h ⊢
      by_cases hf : f = E.ATOM_equals
      · subst hf
        simp only [bne_self_eq_false, Bool.false_eq_true, if_false, if_true]
        cases dn with
        | atom a =>
          have hv : atomIsVarName E a = false := by
            rw [atomIsVarName_eq]
            simp only [true_and] at h
            cases hx : isVariableName E a
            · rfl
            · rw [hx] at h
              simp at h
          simp only [hv, Bool.not_false, if_true]
        | _ => rfl
      · have hb : (f != E.ATOM_equals) = true := by simpa using hf
        simp only [hb, if_true, hf, if_false]
    · rfl
  | _ => rfl

theorem bind_end (E : Env) (fuel : Nat) (cca : Int) (tl : Term) (ld : PL_local_data)
    (hf : PL_is_functor (deRef ld tl) E.ATOM_dot 2 = false) :
    bind_varnames_loop E (fuel + 1) cca tl ld =
      if PL_get_nil E (deRef ld tl) = true then (true, ld)
      else (false, { ld with exception := some (.type "list") }) := by
  unfold bind_varnames_loop
  generalize deRef ld tl = d at hf ⊢
  cases d with
  | atom a =>
    by_cases ha : a = E.ATOM_nil
    · simp [PL_get_nil, ha]
    · simp [PL_get_nil, ha]
  | compound f args =>
    rcases args with _ | ⟨n, _ | ⟨v, _ | ⟨w, r⟩⟩⟩
    · rfl
    · rfl
    · have hb : (f != E.ATOM_dot) = true := by
        unfold PL_is_functor at hf
        simpa using hf
      simp only [hb, if_true, PL_get_nil, Bool.false_eq_true, if_false]
    · rfl
  | _ => rfl

theorem bindAll_append (E : Env) : ∀ (pre post : List (Term × Term)) (ld : PL_local_data),
    bindAll E (pre ++ post) ld = bindAll E post (bindAll E pre ld) := by
  intro pre
  induction pre with
  | nil => intro post ld; rfl
  | cons x rest ih => intro post ld; exact ih post (bindElem E x.1 ld)

theorem spineEnd_append : ∀ (pre post : List (Term × Term)) (t : Term),
    spineEnd (pre ++ post) t = spineEnd post (spineEnd pre t) := by
  intro pre
  induction pre with
  | nil => intro post t; rfl
  | cons x rest ih => intro post t; exact ih post x.2

theorem spineAt_append (E : Env) : ∀ (pre post : List (Term × Term)) (t : Term)
    (ld : PL_local_data), spineAt E (pre ++ post) t ld →
      spineAt E pre t ld ∧ spineAt E post (spineEnd pre t) (bindAll E pre ld) := by
  intro pre
  induction pre with
  | nil => intro post t ld h; exact ⟨trivial, h⟩
  | cons x rest ih =>
    intro post t ld h
    obtain ⟨h1, h2⟩ : deRef ld t = .compound E.ATOM_dot [x.1, x.2] ∧
      spineAt E (rest ++ post) x.2 (bindElem E x.1 ld) := h
    have := ih post x.2 (bindElem E x.1 ld) h2
    exact ⟨⟨h1, this.1⟩, this.2⟩

theorem allAssignments_append (E : Env) :
    ∀ (pre post : List (Term × Term)) (ld : PL_local_data),
    allAssignments E (pre ++ post) ld =
      (allAssignments E pre ld && allAssignments E post (bindAll E pre ld)) := by
  intro pre
  induction pre with
  | nil => intro post ld; rfl
  | cons x rest ih =>
    intro post ld
    show ((assignmentOf E ld x.1).isSome &&
        allAssignments E (rest ++ post) (bindElem E x.1 ld)) =
      (((assignmentOf E ld x.1).isSome && allAssignments E rest (bindElem E x.1 ld)) &&
        allAssignments E post (bindAll E rest (bindElem E x.1 ld)))
    rw [ih post (bindElem E x.1 ld), Bool.and_assoc]

theorem allAssignments_cons {E : Env} {c : Term × Term} {rest : List (Term × Term)}
    {ld : PL_local_data} (h : allAssignments E (c :: rest) ld = true) :
    (assignmentOf E ld c.1).isSome = true ∧
      allAssignments E rest (bindElem E c.1 ld) = true := by
  have h1 : ((assignmentOf E ld c.1).isSome &&
      allAssignments E rest (bindElem E c.1 ld)) = true := h
  simpa using h1

theorem spineAt_cons {E : Env} {c : Term × Term} {rest : List (Term × Term)} {t : Term}
    {ld : PL_local_data} (h : spineAt E (c :: rest) t ld) :
    deRef ld t = .compound E.ATOM_dot [c.1, c.2] ∧ spineAt E rest c.2 (bindElem E c.1 ld) := h

theorem checkAt_tail {E : Env} {cca : Int} {c : Term × Term} {rest : List (Term × Term)}
    {t : Term} {ld : PL_local_data} (h : checkAt E cca (c :: rest) t ld) :
    checkAt E (cca - 1) rest c.2 (bindElem E c.1 ld) := by
  intro i hi hlt
  have := h (i + 1) (by push_cast; omega) (by simp; omega)
  exact this

theorem checkAt_head {E : Env} {cca : Int} {c : Term × Term} {rest : List (Term × Term)}
    {t : Term} {ld : PL_local_data} (h : checkAt E cca (c :: rest) t ld) :
    ¬(cca - 1 = 0 ∧ E.lengthList (bindElem E c.1 ld).bindings c.2 = -1) := by
  intro hc
  have := h 0 (by push_cast; omega) (by simp)
  exact this hc.2

/-- The loop over elements that are all assignments, while the cycle test finds
a length: the loop arrives at the end of the cells in the state `bindAll`
describes. -/
theorem bind_loop_walk (E : Env) (hu : unifyBinds E) :
    ∀ (cells : List (Term × Term)) (fuel : Nat) (cca : Int) (t : Term) (ld : PL_local_data),
      cells.length < fuel → spineAt E cells t ld → allAssignments E cells ld = true →
      checkAt E cca cells t ld →
      bind_varnames_loop E fuel cca t ld =
        bind_varnames_loop E (fuel - cells.length) (cca - (cells.length : Int))
          (spineEnd cells t) (bindAll E cells ld) := by
  intro cells
  induction cells with
  | nil =>
    intro fuel cca t ld _ _ _ _
    simp [spineEnd, bindAll]
  | cons c rest ih =>
    intro fuel cca t ld hf hs hg hc
    obtain ⟨k, rfl⟩ : ∃ k, fuel = k + 1 := ⟨fuel - 1, by simp at hf; omega⟩
    obtain ⟨he, hrest⟩ := allAssignments_cons hg
    obtain ⟨hd, hsr⟩ := spineAt_cons hs
    rw [bind_step_good E hu k cca t c.1 c.2 ld hd he, if_neg (checkAt_head hc),
      ih k (cca - 1) c.2 _ (by simp at hf; omega) hsr hrest (checkAt_tail hc)]
    have h1 : k + 1 - (c :: rest).length = k - rest.length := by simp
    have h2 : cca - ((c :: rest).length : Int) = cca - 1 - (rest.length : Int) := by
      simp only [List.length_cons]
      push_cast
      ring
    rw [h1, h2]
    rfl

/-- A list whose elements are all assignments fails unless it succeeds at its
tail: every exit on the way reports failure with a type error. -/
theorem bind_loop_improper (E : Env) (hu : unifyBinds E) :
    ∀ (cells : List (Term × Term)) (fuel : Nat) (cca : Int) (t : Term) (ld : PL_local_data),
      cells.length < fuel → spineAt E cells t ld → allAssignments E cells ld = true →
      PL_is_functor (deRef (bindAll E cells ld) (spineEnd cells t)) E.ATOM_dot 2 = false →
      PL_get_nil E (deRef (bindAll E cells ld) (spineEnd cells t)) = false →
      (bind_varnames_loop E fuel cca t ld).1 = false ∧
      (bind_varnames_loop E fuel cca t ld).2.exception = some (.type "list") := by
  intro cells
  induction cells with
  | nil =>
    intro fuel cca t ld hfu _ _ hcell hnil
    obtain ⟨k, rfl⟩ : ∃ k, fuel = k + 1 := ⟨fuel - 1, by simp at hfu; omega⟩
    have hcell1 : PL_is_functor (deRef ld t) E.ATOM_dot 2 = false := hcell
    have hnil1 : PL_get_nil E (deRef ld t) = false := hnil
    rw [bind_end E k cca t ld hcell1, hnil1]
    exact ⟨rfl, rfl⟩
  | cons c rest ih =>
    intro fuel cca t ld hfu hs hg hcell hnil
    obtain ⟨k, rfl⟩ : ∃ k, fuel = k + 1 := ⟨fuel - 1, by simp at hfu; omega⟩
    obtain ⟨he, hrest⟩ := allAssignments_cons hg
    obtain ⟨hd, hsr⟩ := spineAt_cons hs
    rw [bind_step_good E hu k cca t c.1 c.2 ld hd he]
    split
    · exact ⟨rfl, rfl⟩
    · exact ih k (cca - 1) c.2 _ (by simp at hfu; omega) hsr hrest hcell hnil

theorem first_offending (E : Env) : ∀ (cells : List (Term × Term)) (ld : PL_local_data),
    allAssignments E cells ld = false →
    ∃ pre c post, cells = pre ++ c :: post ∧ allAssignments E pre ld = true ∧
      assignmentOf E (bindAll E pre ld) c.1 = none := by
  intro cells
  induction cells with
  | nil => intro ld h; cases h
  | cons x rest ih =>
    intro ld h
    rcases hx : assignmentOf E ld x.1 with _ | p
    · refine ⟨[], x, rest, rfl, ?_, hx⟩
      rfl
    · have h1 : ((assignmentOf E ld x.1).isSome &&
          allAssignments E rest (bindElem E x.1 ld)) = false := h
      rw [hx] at h1
      have hrest : allAssignments E rest (bindElem E x.1 ld) = false := by simpa using h1
      obtain ⟨pre, e, post, h2, h3, h4⟩ := ih _ hrest
      refine ⟨x :: pre, e, post, by rw [h2]; rfl, ?_, h4⟩
      show ((assignmentOf E ld x.1).isSome && allAssignments E pre (bindElem E x.1 ld)) = true
      rw [hx, h3]
      rfl

/-- A list with an offending element fails, whatever the cycle test finds. -/
theorem bind_loop_fails (E : Env) (hu : unifyBinds E) :
    ∀ (pre : List (Term × Term)) (c : Term × Term) (post : List (Term × Term)) (fuel : Nat)
      (cca : Int) (t : Term) (ld : PL_local_data),
      pre.length < fuel → spineAt E (pre ++ c :: post) t ld → allAssignments E pre ld = true →
      assignmentOf E (bindAll E pre ld) c.1 = none →
      (bind_varnames_loop E fuel cca t ld).1 = false := by
  intro pre
  induction pre with
  | nil =>
    intro c post fuel cca t ld hf hs _ hn
    obtain ⟨k, rfl⟩ : ∃ k, fuel = k + 1 := ⟨fuel - 1, by simp at hf; omega⟩
    obtain ⟨hd, _⟩ := spineAt_cons hs
    rw [bind_step_bad E k cca t c.1 c.2 ld hd hn]
  | cons x rest ih =>
    intro c post fuel cca t ld hf hs hg hn
    obtain ⟨k, rfl⟩ : ∃ k, fuel = k + 1 := ⟨fuel - 1, by simp at hf; omega⟩
    obtain ⟨hx, hrest⟩ := allAssignments_cons hg
    obtain ⟨hd, hsr⟩ := spineAt_cons hs
    rw [bind_step_good E hu k cca t x.1 x.2 ld hd hx]
    split
    · rfl
    · exact ih c post k (cca - 1) x.2 _ (by simp at hf; omega) hsr hrest hn

theorem checkAt_of_cycleCheck {E : Env} {cells : List (Term × Term)} {t : Term}
    {ld : PL_local_data} (h : cycleCheck E cells t ld) : checkAt E 1000 cells t ld := by
  intro i hi hlt
  have h999 : i = 999 := by omega
  subst h999
  exact h (by omega)

theorem spineAt_mkList (E : Env) : ∀ (es : List Term) (tl : Term) (ld : PL_local_data),
    spineAt E (cellsOf E es tl) (mkList E es tl) ld := by
  intro es
  induction es with
  | nil => intro tl ld; trivial
  | cons e rest ih =>
    intro tl ld
    exact ⟨by rw [mkList_cons, deRef_compound], ih tl _⟩

theorem spineEnd_mkList (E : Env) : ∀ (es : List Term) (tl : Term),
    spineEnd (cellsOf E es tl) (mkList E es tl) = tl := by
  intro es
  induction es with
  | nil => intro tl; rfl
  | cons e rest ih => intro tl; exact ih tl

theorem cellsOf_length (E : Env) : ∀ (es : List Term) (tl : Term),
    (cellsOf E es tl).length = es.length ∧ (cellsOf E es tl).map Prod.fst = es := by
  intro es
  induction es with
  | nil => intro tl; exact ⟨rfl, rfl⟩
  | cons e rest ih =>
    intro tl
    have := ih tl
    exact ⟨by simp [cellsOf, this.1], by simp [cellsOf, this.2]⟩

theorem unifyBinds_default : unifyBinds defaultEnv := by
  intro b v t h
  show (match deRef_rec b (b.length + 1) v with
    | .var p => some ((p, t) :: b)
    | .attvar p _ => some ((p, t) :: b)
    | _ => none).isSome = true
  cases hd : deRef_rec b (b.length + 1) v <;> simp_all [PL_is_variable]

theorem lengthList_rec_proper (b : List (Nat × Term)) :
    ∀ (l : List Term) (fuel : Nat), l.length < fuel →
      lengthList_rec b defaultEnv.ATOM_dot defaultEnv.ATOM_nil fuel
        (mkList defaultEnv l (.atom defaultEnv.ATOM_nil)) = (l.length : Int) := by
  intro l
  induction l with
  | nil =>
    intro fuel hf
    obtain ⟨k, rfl⟩ : ∃ k, fuel = k + 1 := ⟨fuel - 1, by simp at hf; omega⟩
    unfold lengthList_rec
    rfl
  | cons e rest ih =>
    intro fuel hf
    obtain ⟨k, rfl⟩ : ∃ k, fuel = k + 1 := ⟨fuel - 1, by simp at hf; omega⟩
    rw [mkList_cons]
    unfold lengthList_rec
    have hd : deRef_rec b (b.length + 1)
        (.compound defaultEnv.ATOM_dot [e, mkList defaultEnv rest (.atom defaultEnv.ATOM_nil)]) =
        .compound defaultEnv.ATOM_dot [e, mkList defaultEnv rest (.atom defaultEnv.ATOM_nil)] := rfl
    rw [hd]
    simp only [if_true]
    rw [ih k (by simp at hf; omega)]
    split
    · rename_i hx
      have : (0 : Int) ≤ (rest.length : Int) := Int.ofNat_nonneg _
      omega
    · simp

theorem size_mkList (E : Env) : ∀ (l : List Term) (tl : Term),
    l.length < (mkList E l tl).size := by
  intro l
  induction l with
  | nil =>
    intro tl
    cases tl <;> simp [mkList, Term.size]
  | cons e rest ih =>
    intro tl
    rw [mkList_cons]
    have := ih tl
    simp only [Term.size, Term.sizeList, List.length_cons]
    omega

theorem properHasLength_default : properHasLength defaultEnv := by
  intro b l
  show lengthList_rec b defaultEnv.ATOM_dot defaultEnv.ATOM_nil
    (pathBound b (mkList defaultEnv l (.atom defaultEnv.ATOM_nil)))
    (mkList defaultEnv l (.atom defaultEnv.ATOM_nil)) ≠ -1
  rw [lengthList_rec_proper b l _ (by
    have := size_mkList defaultEnv l (.atom defaultEnv.ATOM_nil)
    unfold pathBound
    omega)]
  have : (0 : Int) ≤ (l.length : Int) := Int.ofNat_nonneg _
  omega

theorem assignmentOf_iff (E : Env) (ld : PL_local_data) (e : Term) (name : Atom) (var : Term) :
    assignmentOf E ld e = some (name, var) ↔
      ∃ namet, deRef ld e = .compound E.ATOM_equals [namet, var] ∧
        deRef ld namet = .atom name ∧ isVariableName E name = true := by
  constructor
  · intro h
    obtain ⟨namet, h1, h2, h3⟩ := assignmentOf_some h
    exact ⟨namet, h1, h2, by rw [← atomIsVarName_eq]; exact h3⟩
  · rintro ⟨namet, h1, h2, h3⟩
    unfold assignmentOf
    rw [h1]
    simp only [h2, h3, and_self, if_true]

theorem bindOne_cases (E : Env) (hu : unifyBinds E) (name : Atom) (var : Term)
    (ld : PL_local_data) :
    (PL_is_variable (deRef ld var) = false → bindOne E name var ld = ld) ∧
    (PL_is_variable (deRef ld var) = true →
      ∃ b, E.PL_unify ld.bindings var (.compound E.ATOM_isovar [.atom name]) = some b ∧
        bindOne E name var ld = { ld with bindings := b }) := by
  constructor
  · intro h
    unfold bindOne
    rw [h]
    rfl
  · intro h
    have := hu ld.bindings var (.compound E.ATOM_isovar [.atom name]) h
    rcases hq : E.PL_unify ld.bindings var (.compound E.ATOM_isovar [.atom name]) with _ | b
    · rw [hq] at this
      cases this
    · refine ⟨b, rfl, ?_⟩
      unfold bindOne
      rw [h, hq]
      rfl

/-- The cycle test that fails: the loop has walked 1000 assignments and
`lengthList()` reports -1 for what is left. -/
theorem bind_loop_cycle (E : Env) (hu : unifyBinds E) (t : Term) (pre : List (Term × Term))
    (fuel : Nat) (ld : PL_local_data) (hfuel : pre.length < fuel) (hlen : pre.length = 1000)
    (hs : spineAt E pre t ld) (hall : allAssignments E pre ld = true)
    (hc : E.lengthList (bindAll E pre ld).bindings (spineEnd pre t) = -1) :
    bind_varnames_loop E fuel 1000 t ld =
      (false, { bindAll E pre ld with exception := some (.type "list") }) := by
  have hne : pre ≠ [] := by
    intro h
    rw [h] at hlen
    cases hlen
  have hsplit := List.dropLast_append_getLast hne
  generalize pre.dropLast = init at hsplit
  generalize pre.getLast hne = c at hsplit
  subst hsplit
  have hil : init.length = 999 := by
    simp at hlen
    exact hlen
  rw [allAssignments_append] at hall
  have hall1 : allAssignments E init ld = true ∧
      allAssignments E [c] (bindAll E init ld) = true := by simpa using hall
  have he : (assignmentOf E (bindAll E init ld) c.1).isSome = true :=
    (allAssignments_cons hall1.2).1
  obtain ⟨hs1, hs2⟩ := spineAt_append E init [c] t ld hs
  obtain ⟨hd, _⟩ := spineAt_cons hs2
  have hwalk := bind_loop_walk E hu init fuel 1000 t ld
    (by simp at hfuel; omega) hs1 hall1.1 (by
      intro i hi hlt
      omega)
  obtain ⟨k, hk⟩ : ∃ k, fuel - init.length = k + 1 :=
    ⟨fuel - init.length - 1, by simp at hfuel; omega⟩
  have hb : bindAll E (init ++ [c]) ld = bindElem E c.1 (bindAll E init ld) := by
    rw [bindAll_append]
    rfl
  have he2 : spineEnd (init ++ [c]) t = c.2 := by
    rw [spineEnd_append]
    rfl
  rw [hb, he2] at hc
  rw [hb, hwalk, hk, bind_step_good E hu k _ _ c.1 c.2 _ hd he,
    if_pos ⟨by rw [hil]; norm_num, hc⟩]

/-- C23. The binding list is the term `t` as the engine reads it in the state
`ld`: `cells` are the list cells the loop walks, each with its element and its
tail term, every term read through the bindings in the state reached (`spineAt`),
so a cell, an element or a name may be a variable, bound or not; the walk ends
at the term `spineEnd cells t`.  In an engine where unifying an unbound variable
succeeds: if `bind_varnames()` succeeds and the walk has ended at a term that is
no list cell, that term reads as the empty list (the list is proper) and every
element is, when visited, `Name = Var` with `Name` an atom meeting the
variable-name grammar.  Conversely such a list succeeds, provided the one cycle
test made after the 1000th element finds a length, and leaves the engine as
`bindAll` describes: every `Var` that is unbound when its element is visited is
unified with the numbered-variable marker carrying its name and every other
element changes nothing.  The first offending element ends the call with
`offence` as pending error: a type error when the element is not `Name = Var`
(an unbound element included) or `Name` is no atom (an unbound name included),
a domain error when the atom violates the grammar.  A list whose elements are
all right but which ends in a term that is neither a cell nor the empty list,
an unbound variable included (a partial list), fails with a type error, and so
does a list for which the cycle test after 1000 elements finds no length.  The
cells of `mkList E es tl` are `cellsOf E es tl` in every state. -/
theorem bind_varnames_result (E : Env) (hu : unifyBinds E)
    (cells : List (Term × Term)) (t : Term) (fuel : Nat) (ld : PL_local_data)
    (hsp : spineAt E cells t ld) (hfuel : cells.length < fuel) :
    (PL_is_functor (deRef (bindAll E cells ld) (spineEnd cells t)) E.ATOM_dot 2 = false →
      (bind_varnames E fuel t ld).1 = true →
      PL_get_nil E (deRef (bindAll E cells ld) (spineEnd cells t)) = true ∧
        allAssignments E cells ld = true) ∧
    (PL_get_nil E (deRef (bindAll E cells ld) (spineEnd cells t)) = true →
      allAssignments E cells ld = true → cycleCheck E cells t ld →
      bind_varnames E fuel t ld = (true, bindAll E cells ld)) ∧
    (∀ (pre : List (Term × Term)) (c : Term × Term) (post : List (Term × Term)),
      cells = pre ++ c :: post → allAssignments E pre ld = true →
      assignmentOf E (bindAll E pre ld) c.1 = none → cycleCheck E pre t ld →
      bind_varnames E fuel t ld =
        (false, { bindAll E pre ld with
          exception := some (offence E (bindAll E pre ld) c.1) })) ∧
    (PL_is_functor (deRef (bindAll E cells ld) (spineEnd cells t)) E.ATOM_dot 2 = false →
      PL_get_nil E (deRef (bindAll E cells ld) (spineEnd cells t)) = false →
      allAssignments E cells ld = true →
      (bind_varnames E fuel t ld).1 = false ∧
      (bind_varnames E fuel t ld).2.exception = some (.type "list")) ∧
    (∀ (pre post : List (Term × Term)), cells = pre ++ post → pre.length = 1000 →
      allAssignments E pre ld = true →
      E.lengthList (bindAll E pre ld).bindings (spineEnd pre t) = -1 →
      bind_varnames E fuel t ld =
        (false, { bindAll E pre ld with exception := some (.type "list") })) ∧
    (∀ (st : PL_local_data) (e : Term) (name : Atom) (var : Term),
      assignmentOf E st e = some (name, var) ↔
        ∃ namet, deRef st e = .compound E.ATOM_equals [namet, var] ∧
          deRef st namet = .atom name ∧ isVariableName E name = true) ∧
    (∀ (st : PL_local_data) (name : Atom) (var : Term),
      (PL_is_variable (deRef st var) = false → bindOne E name var st = st) ∧
      (PL_is_variable (deRef st var) = true →
        ∃ b, E.PL_unify st.bindings var (.compound E.ATOM_isovar [.atom name]) = some b ∧
          bindOne E name var st = { st with bindings := b })) ∧
    (∀ a : Atom, atomIsVarName E a = isVariableName E a) ∧
    (∀ (es : List Term) (tl : Term) (st : PL_local_data),
      spineAt E (cellsOf E es tl) (mkList E es tl) st ∧
      spineEnd (cellsOf E es tl) (mkList E es tl) = tl ∧
      (cellsOf E es tl).map Prod.fst = es) := by
  unfold bind_varnames
  have hC : PL_is_functor (deRef (bindAll E cells ld) (spineEnd cells t)) E.ATOM_dot 2 = false →
      PL_get_nil E (deRef (bindAll E cells ld) (spineEnd cells t)) = false →
      allAssignments E cells ld = true →
      (bind_varnames_loop E fuel 1000 t ld).1 = false ∧
      (bind_varnames_loop E fuel 1000 t ld).2.exception = some (.type "list") := by
    intro hcell h1 h2
    exact bind_loop_improper E hu cells fuel 1000 t ld hfuel hsp h2 hcell h1
  refine ⟨?_, ?_, ?_, hC, ?_, assignmentOf_iff E,
    fun st name var => bindOne_cases E hu name var st, atomIsVarName_eq E,
    fun es tl st => ⟨spineAt_mkList E es tl st, spineEnd_mkList E es tl,
      (cellsOf_length E es tl).2⟩⟩
  · intro hcell hs
    rcases hall : allAssignments E cells ld with _ | _
    · obtain ⟨pre, c, post, h1, h2, h3⟩ := first_offending E cells ld hall
      have hlen : pre.length < fuel := by
        rw [h1] at hfuel
        simp at hfuel
        omega
      have := bind_loop_fails E hu pre c post fuel 1000 t ld hlen (by rw [← h1]; exact hsp)
        h2 h3
      rw [this] at hs
      cases hs
    · rcases hnil : PL_get_nil E (deRef (bindAll E cells ld) (spineEnd cells t)) with _ | _
      · rw [(hC hcell hnil hall).1] at hs
        cases hs
      · exact ⟨rfl, rfl⟩
  · intro hnil hall hcc
    have hcell : PL_is_functor (deRef (bindAll E cells ld) (spineEnd cells t)) E.ATOM_dot 2 =
        false := by
      generalize deRef (bindAll E cells ld) (spineEnd cells t) = d at hnil
      cases d <;> first | rfl | (simp [PL_get_nil] at hnil)
    obtain ⟨k, hk⟩ : ∃ k, fuel - cells.length = k + 1 := ⟨fuel - cells.length - 1, by omega⟩
    rw [bind_loop_walk E hu cells fuel 1000 t ld hfuel hsp hall (checkAt_of_cycleCheck hcc), hk,
      bind_end E k _ _ _ hcell, if_pos hnil]
  · intro pre c post h1 h2 h3 hcc
    have hlen : pre.length < fuel := by
      rw [h1] at hfuel
      simp at hfuel
      omega
    obtain ⟨k, hk⟩ : ∃ k, fuel - pre.length = k + 1 := ⟨fuel - pre.length - 1, by omega⟩
    rw [h1] at hsp
    obtain ⟨hs1, hs2⟩ := spineAt_append E pre (c :: post) t ld hsp
    obtain ⟨hd, _⟩ := spineAt_cons hs2
    rw [bind_loop_walk E hu pre fuel 1000 t ld hlen hs1 h2 (checkAt_of_cycleCheck hcc), hk,
      bind_step_bad E k _ _ c.1 c.2 _ hd h3]
  · intro pre post h1 h2 h3 h4
    rw [h1] at hsp
    exact bind_loop_cycle E hu t pre fuel ld (by rw [h1] at hfuel; simp at hfuel; omega)
      h2 (spineAt_append E pre post t ld hsp).1 h3 h4

theorem spineEnd_take (E : Env) : ∀ (n : Nat) (es : List Term) (tl : Term),
    spineEnd ((cellsOf E es tl).take n) (mkList E es tl) = mkList E (es.drop n) tl := by
  intro n
  induction n with
  | zero => intro es tl; rfl
  | succ n ih =>
    intro es tl
    cases es with
    | nil => rfl
    | cons e rest => exact ih rest tl

theorem cycleCheck_proper (E : Env) (hl : properHasLength E) (es : List Term)
    (ld : PL_local_data) :
    cycleCheck E (cellsOf E es (.atom E.ATOM_nil)) (mkList E es (.atom E.ATOM_nil)) ld := by
  intro _
  rw [spineEnd_take]
  exact hl _ _

/-- C23 in a fresh engine: the proper list `['X' = _1, 'Y' = foo]` succeeds and
binds the variable 1 to `'$VAR'('X')`; the partial list `['X' = _1 | _2]` fails
with a type error; the list `[_3]` with an unbound element and the list
`[_4 = _1]` with an unbound name end with a type error, the list `[x = _1]` with
a domain error.  With the variable 5 bound to `'X' = _1`, the variable 6 bound
to the empty list and the variable 7 bound to the cell `[_5 | _6]`, the list
`_7` succeeds and binds the variable 1.  For a list of cells ending in the empty
list the cycle test finds a length, however long the list. -/
theorem bind_varnames_result_witness :
    unifyBinds defaultEnv ∧
    (∀ (es : List Term) (ld : PL_local_data),
      cycleCheck defaultEnv (cellsOf defaultEnv es (.atom defaultEnv.ATOM_nil))
        (mkList defaultEnv es (.atom defaultEnv.ATOM_nil)) ld) ∧
    bind_varnames defaultEnv 3
      (mkList defaultEnv [.compound defaultEnv.ATOM_equals [atomTerm "X", .var 1],
        .compound defaultEnv.ATOM_equals [atomTerm "Y", atomTerm "foo"]]
        (.atom defaultEnv.ATOM_nil)) freshLD =
      (true, { freshLD with
        bindings := [(1, .compound defaultEnv.ATOM_isovar [atomTerm "X"])] }) ∧
    ((bind_varnames defaultEnv 2
      (mkList defaultEnv [.compound defaultEnv.ATOM_equals [atomTerm "X", .var 1]] (.var 2))
      freshLD).1 = false ∧
     (bind_varnames defaultEnv 2
      (mkList defaultEnv [.compound defaultEnv.ATOM_equals [atomTerm "X", .var 1]] (.var 2))
      freshLD).2.exception = some (.type "list")) ∧
    bind_varnames defaultEnv 2 (mkList defaultEnv [.var 3] (.atom defaultEnv.ATOM_nil)) freshLD =
      (false, { freshLD with exception := some (.type "variable_assignment") }) ∧
    bind_varnames defaultEnv 2
      (mkList defaultEnv [.compound defaultEnv.ATOM_equals [.var 4, .var 1]]
        (.atom defaultEnv.ATOM_nil)) freshLD =
      (false, { freshLD with exception := some (.type "atom") }) ∧
    bind_varnames defaultEnv 2
      (mkList defaultEnv [.compound defaultEnv.ATOM_equals [atomTerm "x", .var 1]]
        (.atom defaultEnv.ATOM_nil)) freshLD =
      (false, { freshLD with exception := some (.domain "variable_name") }) ∧
    bind_varnames defaultEnv 2 (.var 7)
      { freshLD with
        bindings := [(5, .compound defaultEnv.ATOM_equals [atomTerm "X", .var 1]),
          (6, .atom defaultEnv.ATOM_nil),
          (7, .compound defaultEnv.ATOM_dot [.var 5, .var 6])] } =
      (true, { freshLD with
        bindings := [(1, .compound defaultEnv.ATOM_isovar [atomTerm "X"]),
          (5, .compound defaultEnv.ATOM_equals [atomTerm "X", .var 1]),
          (6, .atom defaultEnv.ATOM_nil),
          (7, .compound defaultEnv.ATOM_dot [.var 5, .var 6])] }) :=
  ⟨unifyBinds_default, cycleCheck_proper defaultEnv properHasLength_default,
    (bind_varnames_result defaultEnv unifyBinds_default
      (cellsOf defaultEnv [.compound defaultEnv.ATOM_equals [atomTerm "X", .var 1],
        .compound defaultEnv.ATOM_equals [atomTerm "Y", atomTerm "foo"]]
        (.atom defaultEnv.ATOM_nil)) _ 3 freshLD (spineAt_mkList defaultEnv _ _ freshLD)
      (by decide)).2.1 rfl rfl
      (fun h => absurd h (by decide)),
    (bind_varnames_result defaultEnv unifyBinds_default
      (cellsOf defaultEnv [.compound defaultEnv.ATOM_equals [atomTerm "X", .var 1]] (.var 2))
      _ 2 freshLD (spineAt_mkList defaultEnv _ _ freshLD) (by decide)).2.2.2.1 rfl rfl rfl,
    (bind_varnames_result defaultEnv unifyBinds_default
      (cellsOf defaultEnv [.var 3] (.atom defaultEnv.ATOM_nil)) _ 2 freshLD
      (spineAt_mkList defaultEnv _ _ freshLD) (by decide)).2.2.1 []
      (.var 3, .atom defaultEnv.ATOM_nil) [] rfl rfl rfl
      (fun h => absurd h (by decide)),
    (bind_varnames_result defaultEnv unifyBinds_default
      (cellsOf defaultEnv [.compound defaultEnv.ATOM_equals [.var 4, .var 1]]
        (.atom defaultEnv.ATOM_nil)) _ 2 freshLD (spineAt_mkList defaultEnv _ _ freshLD)
      (by decide)).2.2.1 []
      (.compound defaultEnv.ATOM_equals [.var 4, .var 1], .atom defaultEnv.ATOM_nil) []
      rfl rfl rfl (fun h => absurd h (by decide)),
    (bind_varnames_result defaultEnv unifyBinds_default
      (cellsOf defaultEnv [.compound defaultEnv.ATOM_equals [atomTerm "x", .var 1]]
        (.atom defaultEnv.ATOM_nil)) _ 2 freshLD (spineAt_mkList defaultEnv _ _ freshLD)
      (by decide)).2.2.1 []
      (.compound defaultEnv.ATOM_equals [atomTerm "x", .var 1], .atom defaultEnv.ATOM_nil) []
      rfl rfl rfl (fun h => absurd h (by decide)),
    (bind_varnames_result defaultEnv unifyBinds_default [(.var 5, .var 6)] (.var 7) 2
      { freshLD with
        bindings := [(5, .compound defaultEnv.ATOM_equals [atomTerm "X", .var 1]),
          (6, .atom defaultEnv.ATOM_nil),
          (7, .compound defaultEnv.ATOM_dot [.var 5, .var 6])] } ⟨rfl, trivial⟩
      (by decide)).2.1 rfl rfl (fun h => absurd h (by decide))⟩

/-! ## Termination -/

/-- Every path through the term, followed through the bindings and into the
attribute values of attributed variables, has fewer than `n` nodes.  A term is
finite and acyclic exactly when this holds for some `n`. -/
def finiteBelow (b : List (Nat × Term)) : Nat → Term → Bool
  | 0, _ => false
  | n + 1, .var p =>
    (match lookup b p with
     | some v => finiteBelow b n v
     | none => true)
  | n + 1, .attvar p att =>
    finiteBelow b n att &&
    (match lookup b p with
     | some v => finiteBelow b n v
     | none => true)
  | n + 1, .compound _ args => args.all (fun a => finiteBelow b n a)
  | _ + 1, _ => true

/-- The pairs `PL_for_dict()` enumerates for a dict are arguments of the dict
term. -/
def dictPairsInside (E : Env) : Prop :=
  ∀ (f : Atom) (args : List Term) (kv : Term × Term),
    kv ∈ E.dict_pairs (.compound f args) → kv.1 ∈ args ∧ kv.2 ∈ args

/-- A writer step started in `o` returns and leaves the configuration alone. -/
def Done (o : write_options) (r : Option (Bool × write_options)) : Prop :=
  r ≠ none ∧ Frames o r

/-- The term `a` is a subterm of `root` under the bindings `b`: it is reached
from `root` by taking arguments of compound terms and attribute values of
attributed variables and by dereferencing. -/
inductive Subterm (b : List (Nat × Term)) (root : Term) : Term → Prop where
  | refl : Subterm b root root
  | arg (f : Atom) (args : List Term) (a : Term) :
      Subterm b root (.compound f args) → a ∈ args → Subterm b root a
  | att (p : Nat) (v : Term) : Subterm b root (.attvar p v) → Subterm b root v
  | deref (m : Nat) (a : Term) : Subterm b root a → Subterm b root (deRef_rec b m a)

/-- A measure on terms under the bindings `b` that goes down from a compound
term to its arguments and from an attributed variable to its attribute value,
and is kept by dereferencing; `low n a` reads: the measure of `a` is below
`n`. -/
structure Height (b : List (Nat × Term)) where
  low : Nat → Term → Prop
  zero : ∀ a, ¬low 0 a
  le : ∀ n m a, n ≤ m → low n a → low m a
  args : ∀ n f as, low (n + 1) (.compound f as) → ∀ a ∈ as, low n a
  att : ∀ n p v, low (n + 1) (.attvar p v) → low n v
  deref : ∀ n m a, low n a → low n (deRef_rec b m a)

/-- The callback `wt` returns, leaving the configuration alone, on every term
whose measure is below `n`. -/
def WT.DoneBelow (wt : WT) (b : List (Nat × Term)) (H : Height b) (n : Nat) : Prop :=
  ∀ (a : Term) (p : Int) (o : write_options) (f : Nat),
    o.ld.bindings = b → H.low n a → Done o (wt a p o f)

theorem finiteBelow_mono (b : List (Nat × Term)) :
    ∀ (n : Nat) (t : Term), finiteBelow b n t = true → finiteBelow b (n + 1) t = true := by
  intro n
  induction n with
  | zero => intro t h; simp [finiteBelow] at h
  | succ k ih =>
    intro t h
    cases t with
    | var p =>
      unfold finiteBelow at h ⊢
      split at h
      · next v hv => exact ih v h
      · rfl
    | attvar p att =>
      unfold finiteBelow at h ⊢
      simp only [Bool.and_eq_true] at h ⊢
      refine ⟨ih att h.1, ?_⟩
      have h2 := h.2
      split at h2
      · next v hv => exact ih v h2
      · rfl
    | compound f args =>
      unfold finiteBelow at h ⊢
      simp only [List.all_eq_true] at h ⊢
      exact fun a ha => ih a (h a ha)
    | atom a => rfl
    | integer i => rfl
    | mpz i => rfl
    | mpq x y => rfl
    | float x => rfl
    | string x => rfl

theorem finiteBelow_le (b : List (Nat × Term)) (t : Term) :
    ∀ (n m : Nat), n ≤ m → finiteBelow b n t = true → finiteBelow b m t = true := by
  intro n m h
  induction h with
  | refl => exact id
  | step _ ih => exact fun h => finiteBelow_mono b _ t (ih h)

theorem finiteBelow_deRef_rec (b : List (Nat × Term)) :
    ∀ (m n : Nat) (t : Term), finiteBelow b n t = true →
      finiteBelow b n (deRef_rec b m t) = true := by
  intro m
  induction m with
  | zero => intro n t h; unfold deRef_rec; exact h
  | succ k ih =>
    intro n t h
    cases n with
    | zero => simp [finiteBelow] at h
    | succ j =>
      cases t with
      | var p =>
        unfold deRef_rec
        unfold finiteBelow at h
        rcases hv : lookup b p with _ | v
        · show finiteBelow b (j + 1) (.var p) = true
          unfold finiteBelow
          simp only [hv]
        · rw [hv] at h
          exact finiteBelow_mono b j _ (ih j v h)
      | attvar p att =>
        unfold deRef_rec
        have h0 := h
        unfold finiteBelow at h
        simp only [Bool.and_eq_true] at h
        have h2 := h.2
        rcases hv : lookup b p with _ | v
        · exact h0
        · rw [hv] at h2
          exact finiteBelow_mono b j _ (ih j v h2)
      | compound f args => exact h
      | atom a => rfl
      | integer i => rfl
      | mpz i => rfl
      | mpq x y => rfl
      | float x => rfl
      | string x => rfl

theorem finiteBelow_deRef (ld : PL_local_data) (n : Nat) (t : Term)
    (h : finiteBelow ld.bindings n t = true) : finiteBelow ld.bindings n (deRef ld t) = true :=
  finiteBelow_deRef_rec ld.bindings _ n t h

theorem finiteBelow_args (b : List (Nat × Term)) (n : Nat) (f : Atom) (args : List Term)
    (h : finiteBelow b (n + 1) (.compound f args) = true) :
    ∀ a ∈ args, finiteBelow b n a = true := by
  unfold finiteBelow at h
  simpa only [List.all_eq_true] using h

theorem finiteBelow_att (b : List (Nat × Term)) (n : Nat) (p : Nat) (att : Term)
    (h : finiteBelow b (n + 1) (.attvar p att) = true) : finiteBelow b n att = true := by
  unfold finiteBelow at h
  simp only [Bool.and_eq_true] at h
  exact h.1

theorem bindings_config {o o1 : write_options} (h : config o1 = config o) :
    o1.ld.bindings = o.ld.bindings := by
  simp only [config, ldconfig, Prod.mk.injEq] at h
  exact h.2.2.2.2.2.1

theorem Height.deRef {b : List (Nat × Term)} (H : Height b) (ld : PL_local_data)
    (hb : ld.bindings = b) (n : Nat) (a : Term) (h : H.low n a) : H.low n (deRef ld a) := by
  unfold PlWrite.deRef
  rw [hb]
  exact H.deref n _ a h

theorem Height.pair {b : List (Nat × Term)} (H : Height b) (m : Nat) (f : Atom) (h t : Term)
    (hl : H.low (m + 1) (.compound f [h, t])) :
    H.low m h ∧ H.low m t ∧ ∃ k, m = k + 1 := by
  have ha := H.args m f [h, t] hl
  have h1 := ha h (by simp)
  have h2 := ha t (by simp)
  refine ⟨h1, h2, ?_⟩
  cases m with
  | zero => exact absurd h1 (H.zero h)
  | succ k => exact ⟨k, rfl⟩

theorem Done_some {o o1 : write_options} (b : Bool) (h : config o1 = config o) :
    Done o (some (b, o1)) :=
  ⟨by simp, Frames_some b h⟩

theorem Done_mono {o o1 : write_options} {r : Option (Bool × write_options)}
    (h1 : config o1 = config o) (h : Done o1 r) : Done o r :=
  ⟨h.1, Frames_mono h1 h.2⟩

theorem Done_TRY {o : write_options} {r : Option (Bool × write_options)}
    {k : write_options → Option (Bool × write_options)}
    (hr : Done o r) (hk : ∀ o1, config o1 = config o → Done o1 (k o1)) :
    Done o (TRY r k) := by
  refine ⟨?_, Frames_TRY hr.2 (fun o1 h1 => (hk o1 h1).2)⟩
  rcases hq : r with _ | ⟨b, o1⟩
  · exact absurd hq hr.1
  · cases b
    · simp [TRY]
    · have := (hk o1 (hr.2 (true, o1) hq)).1
      simpa [TRY] using this

theorem Done_onOut (o : write_options) (r : Bool × IOSTREAM) : Done o (onOut o r) :=
  Done_some _ rfl

theorem Done_onOutN (o : write_options) (r : Nat × IOSTREAM) : Done o (onOutN o r) :=
  Done_some _ rfl

theorem Done_atomStep (E : Env) (a : Atom) (o : write_options) : Done o (atomStep E a o) := by
  refine ⟨?_, Frames_atomStep E a o⟩
  unfold atomStep
  simp

theorem Done_writeAttVar (E : Env) (wt : WT) (b : List (Nat × Term)) (H : Height b)
    (n : Nat) (hT : WT.DoneBelow wt b H n) (p : Nat) (att : Term) (o : write_options)
    (hb : o.ld.bindings = b) (ha : H.low n att) :
    Done o (writeAttVar E wt (.attvar p att) o) := by
  unfold writeAttVar
  apply Done_TRY (Done_onOutN _ _)
  intro o1 h1
  have hb1 : o1.ld.bindings = b := (bindings_config h1).trans hb
  split
  · exact Done_onOut _ _
  · split
    · apply Done_TRY
      · exact Done_mono rfl (hT _ _ _ _ hb1 ha)
      · intro o3 h3
        exact Done_some _ rfl
    · have hl := enterPortray_ldconfig E o1.ld
      repeat' split
      all_goals first
        | exact Done_some _ rfl
        | (apply Done_some; simp_all [config, ldconfig, leavePortray])

theorem Done_writePrimitive (E : Env) (wt : WT) (b : List (Nat × Term)) (H : Height b)
    (n : Nat) (hT : WT.DoneBelow wt b H n) (t : Term) (o : write_options)
    (hb : o.ld.bindings = b) (ht : H.low (n + 1) t) :
    Done o (writePrimitive E wt t o) := by
  unfold writePrimitive
  split
  · next p att => exact Done_writeAttVar E wt b H n hT p att o hb (H.att n p att ht)
  · exact Done_onOutN _ _
  · exact Done_atomStep E _ o
  · exact Done_onOutN _ _
  · exact Done_onOutN _ _
  · exact Done_onOutN _ _
  · exact Done_onOutN _ _
  · exact Done_onOut _ _
  · exact Done_some _ rfl

theorem PL_is_functor_pair {t : Term} {f : Atom} (h : PL_is_functor t f 2 = true) :
    ∃ g x y, t = .compound g [x, y] := by
  unfold PL_is_functor at h
  cases t with
  | compound g args =>
    rcases args with _ | ⟨x, _ | ⟨y, _ | ⟨z, r⟩⟩⟩
    · simp at h
    · simp at h
    · exact ⟨g, x, y, rfl⟩
    · simp at h
  | _ => simp at h

theorem Done_writeList_bracket (E : Env) (wt : WT) (b : List (Nat × Term)) (H : Height b)
    (n : Nat) (hT : WT.DoneBelow wt b H n) :
    ∀ (fuel m : Nat) (f : Atom) (h t : Term) (o : write_options),
      o.ld.bindings = b → H.low (m + 1) (.compound f [h, t]) →
      m ≤ fuel → m ≤ n →
      Done o (writeList_bracket E wt fuel (.compound f [h, t]) o) := by
  intro fuel
  induction fuel with
  | zero =>
    intro m f h t o hb hl hm hn
    obtain ⟨_, _, k, hk⟩ := H.pair m f h t hl
    omega
  | succ fuel ih =>
    intro m f h t o hb hl hm hn
    obtain ⟨hh, ht, k, hk⟩ := H.pair m f h t hl
    unfold writeList_bracket
    simp only [deRef_compound]
    apply Done_TRY (hT _ _ _ _ hb (H.le m n h hn hh))
    intro o1 h1
    have hb1 : o1.ld.bindings = b := (bindings_config h1).trans hb
    have hl1 : H.low m (deRef o1.ld t) := H.deRef o1.ld hb1 m t ht
    split
    · exact Done_onOut _ _
    · split
      · exact Done_mono rfl (Done_onOut _ _)
      · split
        · apply @Done_mono _ { o1 with depth := o1.depth + 1 } _ rfl
          apply Done_TRY (Done_onOut _ _)
          intro o3 h3
          have hb3 : o3.ld.bindings = b := (bindings_config h3).trans hb1
          apply Done_TRY (hT _ _ _ _ hb3 (H.le m n _ hn hl1))
          intro o4 h4
          exact Done_onOut _ _
        · next hfun =>
          apply @Done_mono _ { o1 with depth := o1.depth + 1 } _ rfl
          apply Done_TRY (Done_onOut _ _)
          intro o3 h3
          have hb3 : o3.ld.bindings = b := (bindings_config h3).trans hb1
          have hf2 : PL_is_functor (deRef o1.ld t) E.ATOM_dot 2 = true := by
            simpa using hfun
          obtain ⟨g, x, y, hxy⟩ := PL_is_functor_pair hf2
          rw [hxy]
          rw [hxy, hk] at hl1
          exact ih k g x y o3 hb3 hl1 (by omega) (by omega)

theorem Done_writeList_dot (E : Env) (wt : WT) (b : List (Nat × Term)) (H : Height b)
    (n : Nat) (hT : WT.DoneBelow wt b H n) :
    ∀ (fuel depth m : Nat) (f : Atom) (h t : Term) (o : write_options),
      o.ld.bindings = b → H.low (m + 1) (.compound f [h, t]) →
      m ≤ fuel → m ≤ n →
      Done o (writeList_dot E wt fuel depth (.compound f [h, t]) o) := by
  intro fuel
  induction fuel with
  | zero =>
    intro depth m f h t o hb hl hm hn
    obtain ⟨_, _, k, hk⟩ := H.pair m f h t hl
    omega
  | succ fuel ih =>
    intro depth m f h t o hb hl hm hn
    obtain ⟨hh, ht, k, hk⟩ := H.pair m f h t hl
    unfold writeList_dot
    simp only [deRef_compound]
    apply Done_TRY
    · split
      · exact Done_onOutN _ _
      · exact Done_atomStep E _ o
    · intro o1 h1
      apply Done_TRY (Done_onOut _ _)
      intro o2 h2
      have hb2 : o2.ld.bindings = b :=
        (bindings_config h2).trans ((bindings_config h1).trans hb)
      apply Done_TRY (hT _ _ _ _ hb2 (H.le m n h hn hh))
      intro o3 h3
      apply Done_TRY (Done_onOut _ _)
      intro o4 h4
      have hb4 : o4.ld.bindings = b :=
        (bindings_config h4).trans ((bindings_config h3).trans hb2)
      have hl4 : H.low m (deRef o4.ld t) := H.deRef o4.ld hb4 m t ht
      split
      · apply Done_TRY (Done_onOutN _ _)
        intro o5 h5
        exact Done_onOut _ _
      · split
        · apply @Done_mono _ { o4 with depth := o4.depth + 1 } _ rfl
          apply Done_TRY (Done_onOutN _ _)
          intro o6 h6
          exact Done_onOut _ _
        · split
          · apply @Done_mono _ { o4 with depth := o4.depth + 1 } _ rfl
            apply Done_TRY (hT _ _ { o4 with depth := o4.depth + 1 } _ hb4
              (H.le m n _ hn hl4))
            intro o6 h6
            exact Done_onOut _ _
          · next hfun =>
            apply @Done_mono _ { o4 with depth := o4.depth + 1 } _ rfl
            have hf2 : PL_is_functor (deRef o4.ld t) E.ATOM_dot 2 = true := by
              simpa using hfun
            obtain ⟨g, x, y, hxy⟩ := PL_is_functor_pair hf2
            rw [hxy]
            rw [hxy, hk] at hl4
            exact ih _ k g x y _ hb4 hl4 (by omega) (by omega)

theorem Done_writeList (E : Env) (wt : WT) (b : List (Nat × Term)) (H : Height b)
    (n : Nat) (hT : WT.DoneBelow wt b H n) (fuel m : Nat) (f : Atom) (h t : Term) (o : write_options)
    (hb : o.ld.bindings = b) (hl : H.low (m + 1) (.compound f [h, t]))
    (hm : m ≤ fuel) (hn : m ≤ n) :
    Done o (writeList E wt fuel (.compound f [h, t]) o) := by
  unfold writeList
  split
  · apply Done_TRY (Done_onOut _ _)
    intro o1 h1
    exact Done_writeList_bracket E wt b H n hT fuel m f h t o1
      ((bindings_config h1).trans hb) hl hm hn
  · exact Done_writeList_dot E wt b H n hT fuel 0 m f h t o hb hl hm hn

theorem Done_writeDictPair (E : Env) (wt : WT) (b : List (Nat × Term)) (H : Height b)
    (n : Nat) (hT : WT.DoneBelow wt b H n) (name value : Term) (last : Bool) (o : write_options)
    (hb : o.ld.bindings = b) (h1 : H.low n name)
    (h2 : H.low n value) :
    Done o (writeDictPair E wt name value last o) := by
  unfold writeDictPair
  apply Done_TRY (hT _ _ _ _ hb h1)
  intro o1 c1
  apply Done_TRY (Done_onOutN _ _)
  intro o2 c2
  have hb2 : o2.ld.bindings = b := (bindings_config c2).trans ((bindings_config c1).trans hb)
  apply Done_TRY (hT _ _ _ _ hb2 h2)
  intro o3 c3
  split
  · exact Done_some _ rfl
  · exact Done_onOut _ _

theorem Done_PL_for_dict (E : Env) (wt : WT) (b : List (Nat × Term)) (H : Height b)
    (n : Nat) (hT : WT.DoneBelow wt b H n) :
    ∀ (pairs : List (Term × Term)) (o : write_options), o.ld.bindings = b →
      (∀ kv ∈ pairs, H.low n kv.1 ∧ H.low n kv.2) →
      Done o (PL_for_dict E wt pairs o) := by
  intro pairs
  induction pairs with
  | nil => intro o _ _; exact Done_some _ rfl
  | cons kv rest ih =>
    intro o hb hp
    obtain ⟨k, v⟩ := kv
    have hkv := hp (k, v) (List.mem_cons_self _ _)
    unfold PL_for_dict
    apply Done_TRY (Done_writeDictPair E wt b H n hT _ _ _ _ hb hkv.1 hkv.2)
    intro o1 c1
    exact ih o1 ((bindings_config c1).trans hb) (fun x hx => hp x (List.mem_cons_of_mem _ hx))

theorem Done_writeTerm2_args (E : Env) (wt : WT) (b : List (Nat × Term)) (H : Height b)
    (n : Nat) (hT : WT.DoneBelow wt b H n) :
    ∀ (args : List Term) (i : Nat) (o : write_options), o.ld.bindings = b →
      (∀ a ∈ args, H.low n a) →
      Done o (writeTerm2_args E wt i args o) := by
  intro args
  induction args with
  | nil => intro i o _ _; exact Done_some _ rfl
  | cons a rest ih =>
    intro i o hb ha
    unfold writeTerm2_args
    apply Done_TRY
    · split
      · exact Done_onOut _ _
      · exact Done_some _ rfl
    · intro o1 c1
      have hb1 : o1.ld.bindings = b := (bindings_config c1).trans hb
      apply Done_TRY (hT _ _ _ _ hb1 (ha a (List.mem_cons_self _ _)))
      intro o2 c2
      exact ih _ _ ((bindings_config c2).trans hb1) (fun x hx => ha x (List.mem_cons_of_mem _ hx))

theorem Done_writeTerm2_canonical (E : Env) (wt : WT) (b : List (Nat × Term)) (H : Height b)
    (n : Nat) (hT : WT.DoneBelow wt b H n) (functor : Atom) (args : List Term) (o : write_options)
    (hb : o.ld.bindings = b) (ha : ∀ a ∈ args, H.low n a) :
    Done o (writeTerm2_canonical E wt functor args o) := by
  unfold writeTerm2_canonical
  apply Done_TRY (Done_atomStep E _ o)
  intro o1 c1
  apply Done_TRY (Done_onOut _ _)
  intro o2 c2
  have hb2 : o2.ld.bindings = b := (bindings_config c2).trans ((bindings_config c1).trans hb)
  apply Done_TRY (Done_writeTerm2_args E wt b H n hT _ _ _ hb2 ha)
  intro o3 c3
  exact Done_onOut _ _

theorem getD_mem_of_lt {args : List Term} {i : Nat} (d : Term) (h : i < args.length) :
    args.getD i d ∈ args := by
  rw [List.getD_eq_getElem _ _ h]
  exact List.getElem_mem h

theorem Done_writeTerm2_prefix_at (E : Env) (wt : WT) (b : List (Nat × Term)) (H : Height b)
    (n : Nat) (hT : WT.DoneBelow wt b H n) (functor : Atom) (args : List Term) (embrace : Bool) (pa : Int)
    (o : write_options) (hb : o.ld.bindings = b)
    (ha : ∀ a ∈ args, H.low n a) (hne : 0 < args.length) :
    Done o (writeTerm2_prefix_at E wt functor args embrace pa o) := by
  have h0 := ha _ (getD_mem_of_lt (.atom functor) hne)
  have hlast := ha _ (getD_mem_of_lt (i := args.length - 1) (.atom functor) (by omega))
  unfold writeTerm2_prefix_at
  apply Done_TRY
  · split
    · exact Done_onOutN _ _
    · exact Done_some _ rfl
  · intro o1 c1
    have hb1 : o1.ld.bindings = b := (bindings_config c1).trans hb
    apply Done_TRY
    · split
      · exact Done_atomStep E _ _
      · exact hT _ _ _ _ hb1 h0
    · intro o2 c2
      have hb2 : o2.ld.bindings = b := (bindings_config c2).trans hb1
      simp only
      apply @Done_mono _ (if functor = E.ATOM_minus then
          orLastc (orLastc o2 C_PREFIX_OP) C_PREFIX_SIGN else orLastc o2 C_PREFIX_OP) _
      · split <;> rfl
      · apply Done_TRY
        · apply hT _ _ _ _ _ hlast
          split <;> exact hb2
        · intro o5 c5
          split
          · exact Done_onOut _ _
          · exact Done_some _ rfl

theorem Done_writeTerm2_postfix_at (E : Env) (wt : WT) (b : List (Nat × Term)) (H : Height b)
    (n : Nat) (hT : WT.DoneBelow wt b H n) (functor : Atom) (args : List Term) (embrace : Bool) (pa : Int)
    (o : write_options) (hb : o.ld.bindings = b)
    (ha : ∀ a ∈ args, H.low n a) (hne : 0 < args.length) :
    Done o (writeTerm2_postfix_at E wt functor args embrace pa o) := by
  have h0 := ha _ (getD_mem_of_lt (.atom functor) hne)
  have hlast := ha _ (getD_mem_of_lt (i := args.length - 1) (.atom functor) (by omega))
  unfold writeTerm2_postfix_at
  apply Done_TRY
  · split
    · exact Done_onOutN _ _
    · exact Done_some _ rfl
  · intro o1 c1
    have hb1 : o1.ld.bindings = b := (bindings_config c1).trans hb
    apply Done_TRY (hT _ _ _ _ hb1 hlast)
    intro o2 c2
    have hb2 : o2.ld.bindings = b := (bindings_config c2).trans hb1
    apply Done_TRY
    · split
      · exact Done_atomStep E _ _
      · apply Done_TRY
        · split
          · exact Done_onOut _ _
          · exact Done_some _ rfl
        · intro o3 c3
          exact hT _ _ _ _ ((bindings_config c3).trans hb2) h0
    · intro o4 c4
      split
      · exact Done_onOut _ _
      · exact Done_some _ rfl

theorem Done_writeTerm2_infix_at (E : Env) (wt : WT) (b : List (Nat × Term)) (H : Height b)
    (n : Nat) (hT : WT.DoneBelow wt b H n) (functor : Atom) (args : List Term) (embrace : Bool)
    (pl pr : Int) (o : write_options) (hb : o.ld.bindings = b)
    (ha : ∀ a ∈ args, H.low n a) (hne : 0 < args.length) :
    Done o (writeTerm2_infix_at E wt functor args embrace pl pr o) := by
  have h0 := ha _ (getD_mem_of_lt (.atom functor) hne)
  have hlast := ha _ (getD_mem_of_lt (i := args.length - 1) (.atom functor) (by omega))
  have hleft := ha _ (getD_mem_of_lt (i := args.length - 2) (.atom functor) (by omega))
  unfold writeTerm2_infix_at
  apply Done_TRY
  · split
    · exact Done_onOutN _ _
    · exact Done_some _ rfl
  · intro o1 c1
    have hb1 : o1.ld.bindings = b := (bindings_config c1).trans hb
    apply Done_TRY (hT _ _ _ _ hb1 hleft)
    intro o2 c2
    have hb2 : o2.ld.bindings = b := (bindings_config c2).trans hb1
    apply Done_TRY
    · split
      · apply Done_TRY
        · split
          · exact Done_onOut _ _
          · split
            · exact Done_onOut _ _
            · split
              · exact Done_onOutN _ _
              · have h := writeAtom_config E functor o2
                split
                · apply Done_some; simp_all
                · next o heq =>
                  rw [heq] at h
                  exact Done_mono h (Done_onOut _ _)
                · apply Done_some; simp_all
        · intro o3 c3
          exact Done_some _ rfl
      · exact hT _ _ _ _ hb2 h0
    · intro o4 c4
      have hb4 : o4.ld.bindings = b := (bindings_config c4).trans hb2
      apply Done_TRY (hT _ _ _ _ hb4 hlast)
      intro o5 c5
      split
      · exact Done_onOut _ _
      · exact Done_some _ rfl

theorem Done_writeTerm2_operators (E : Env) (wt : WT) (b : List (Nat × Term)) (H : Height b)
    (n : Nat) (hT : WT.DoneBelow wt b H n) (functor : Atom) (args : List Term) (prec : Int)
    (o : write_options) (hb : o.ld.bindings = b)
    (ha : ∀ a ∈ args, H.low n a) :
    Done o (writeTerm2_operators E wt functor args prec o) := by
  unfold writeTerm2_operators
  simp only
  split
  · split
    · next hc =>
      have hne : 0 < args.length := by
        simp only [Bool.or_eq_true, Bool.and_eq_true, decide_eq_true_eq] at hc
        omega
      split
      · exact Done_writeTerm2_prefix_at E wt b H n hT _ _ _ _ _ hb ha hne
      · split
        · exact Done_writeTerm2_postfix_at E wt b H n hT _ _ _ _ _ hb ha hne
        · exact Done_writeTerm2_canonical E wt b H n hT _ _ _ hb ha
    · split
      · next hc =>
        have hne : 0 < args.length := by
          simp only [Bool.or_eq_true, Bool.and_eq_true, decide_eq_true_eq] at hc
          omega
        split
        · exact Done_writeTerm2_infix_at E wt b H n hT _ _ _ _ _ _ hb ha hne
        · exact Done_writeTerm2_canonical E wt b H n hT _ _ _ hb ha
      · exact Done_writeTerm2_canonical E wt b H n hT _ _ _ hb ha
  · exact Done_writeTerm2_canonical E wt b H n hT _ _ _ hb ha

theorem Done_writeTerm2_compound (E : Env) (hdict : dictPairsInside E) (wt : WT)
    (b : List (Nat × Term)) (H : Height b) (n : Nat) (hT : WT.DoneBelow wt b H n) (fuel : Nat) (hfuel : n ≤ fuel)
    (t : Term) (functor : Atom) (args : List Term) (prec : Int) (o : write_options)
    (hb : o.ld.bindings = b) (hshape : t = .compound functor args ∨ args = [])
    (ht : H.low (n + 1) t) (ha : ∀ a ∈ args, H.low n a) :
    Done o (writeTerm2_compound E wt fuel t functor args prec o) := by
  unfold writeTerm2_compound
  have hnv := writeNumberVar_config E t o
  have hc : config (if (o.flags.PL_WRT_NUMBERVARS || o.flags.PL_WRT_VARNAMES) = true then
      writeNumberVar E t o else ((0 : Int), o)).2 = config o := by
    split
    · exact hnv
    · rfl
  simp only
  generalize (if (o.flags.PL_WRT_NUMBERVARS || o.flags.PL_WRT_VARNAMES) = true then
      writeNumberVar E t o else ((0 : Int), o)) = nv at hc ⊢
  split
  · exact Done_some _ hc
  · exact Done_some _ hc
  · next o1 _ _ =>
    have hb1 : o1.ld.bindings = b := (bindings_config hc).trans hb
    apply Done_mono hc
    split
    · next hcond =>
      have hlen : args.length = 1 := by
        simp only [Bool.and_eq_true, decide_eq_true_eq] at hcond
        exact hcond.2
      have h0 := ha _ (getD_mem_of_lt (i := 0) t (by omega))
      apply Done_TRY (Done_onOutN _ _)
      intro o2 c2
      apply Done_TRY (hT _ _ _ _ ((bindings_config c2).trans hb1) h0)
      intro o3 c3
      exact Done_onOut _ _
    · split
      · next hcond =>
        have hlen : args.length = 2 := by
          simp only [Bool.and_eq_true, decide_eq_true_eq] at hcond
          exact hcond.2
        rcases args with _ | ⟨x, _ | ⟨y, _ | ⟨z, r⟩⟩⟩
        · simp at hlen
        · simp at hlen
        · rcases hshape with h | h
          · subst h
            exact Done_writeList E wt b H n hT fuel n functor x y o1 hb1 ht hfuel (Nat.le_refl _)
          · cases h
        · simp at hlen
      · split
        · rcases args with _ | ⟨cls, rest⟩
          · exact Done_some _ rfl
          · rcases hshape with h | h
            · have hcls := ha cls (List.mem_cons_self _ _)
              apply Done_TRY (hT _ _ _ _ hb1 hcls)
              intro o2 c2
              apply Done_TRY (Done_onOut _ _)
              intro o3 c3
              have hb3 : o3.ld.bindings = b :=
                (bindings_config c3).trans ((bindings_config c2).trans hb1)
              apply Done_TRY
              · apply Done_PL_for_dict E wt b H n hT _ _ hb3
                intro kv hkv
                rw [h] at hkv
                have := hdict _ _ kv hkv
                exact ⟨ha _ this.1, ha _ this.2⟩
              · intro o4 c4
                exact Done_onOut _ _
            · cases h
        · exact Done_writeTerm2_operators E wt b H n hT _ _ _ _ hb1 ha

theorem Done_writeTerm2_rest (E : Env) (hdict : dictPairsInside E) (wt : WT)
    (b : List (Nat × Term)) (H : Height b) (n : Nat) (hT : WT.DoneBelow wt b H n) (fuel : Nat) (hfuel : n ≤ fuel)
    (t : Term) (prec : Int) (o : write_options) (hb : o.ld.bindings = b)
    (ht : H.low (n + 1) t) :
    Done o (writeTerm2_rest E wt fuel t prec o) := by
  unfold writeTerm2_rest
  split
  · next functor args =>
    exact Done_writeTerm2_compound E hdict wt b H n hT fuel hfuel _ _ _ _ _ hb (Or.inl rfl) ht
      (H.args n functor args ht)
  · split
    · exact Done_writeTerm2_compound E hdict wt b H n hT fuel hfuel _ _ _ _ _ hb (Or.inr rfl) ht
        (fun a ha => absurd ha (List.not_mem_nil a))
    · exact Done_writePrimitive E wt b H n hT _ _ hb ht
  · exact Done_writePrimitive E wt b H n hT _ _ hb ht

theorem Done_writeTerm2_atom (E : Env) (hdict : dictPairsInside E) (wt : WT)
    (b : List (Nat × Term)) (H : Height b) (n : Nat) (hT : WT.DoneBelow wt b H n) (fuel : Nat) (hfuel : n ≤ fuel)
    (t : Term) (prec : Int) (o : write_options) (flags : Nat) (hb : o.ld.bindings = b)
    (ht : H.low (n + 1) t) :
    Done o (writeTerm2_atom E wt fuel t prec o flags) := by
  have hrest : ∀ o1 : write_options, config o1 = config o →
      Done o1 (writeTerm2_rest E wt fuel t prec o1) := fun o1 c1 =>
    Done_writeTerm2_rest E hdict wt b H n hT fuel hfuel t prec o1
      ((bindings_config c1).trans hb) ht
  unfold writeTerm2_atom
  split
  · next a =>
    split
    · split
      · exact Done_mono rfl (hrest _ rfl)
      · next s1 _ _ =>
        have h := writeAtom_config E a { o with out := s1 }
        split
        · next o2 heq =>
          rw [heq] at h
          exact Done_mono h (hrest _ h)
        · next o2 _ heq =>
          rw [heq] at h
          split
          · exact @Done_mono _ o2 _ h (Done_mono rfl (hrest _ h))
          · exact Done_some _ h
    · exact Done_atomStep E _ _
  · exact hrest o rfl

theorem Done_writeTerm2 (E : Env) (hdict : dictPairsInside E) (wt : WT)
    (b : List (Nat × Term)) (H : Height b) (n : Nat) (hT : WT.DoneBelow wt b H n) (fuel : Nat) (hfuel : n ≤ fuel)
    (t : Term) (prec : Int) (o : write_options) (flags : Nat) (hb : o.ld.bindings = b)
    (ht : H.low (n + 1) t) :
    Done o (writeTerm2 E wt fuel t prec o flags) := by
  have ht1 : H.low (n + 1) (deRef o.ld t) := H.deRef o.ld hb (n + 1) t ht
  unfold writeTerm2
  simp only
  split
  · have h := callPortray_config E (deRef o.ld t) prec o
    split
    · next o1 heq => rw [heq] at h; exact Done_some _ h
    · next o1 heq =>
      rw [heq] at h
      exact Done_mono h (Done_writeTerm2_atom E hdict wt b H n hT fuel hfuel _ _ _ _
        ((bindings_config h).trans hb) ht1)
    · next o1 _ _ heq => rw [heq] at h; exact Done_some _ h
  · exact Done_writeTerm2_atom E hdict wt b H n hT fuel hfuel _ _ _ _ hb ht1

theorem Done_writeTerm (E : Env) (hdict : dictPairsInside E) (b : List (Nat × Term))
    (H : Height b) : ∀ fuel : Nat, WT.DoneBelow (writeTerm E fuel) b H fuel := by
  intro fuel
  induction fuel with
  | zero =>
    intro a p o f _ ha
    exact absurd ha (H.zero a)
  | succ n ih =>
    intro t p o f hb ht
    have h := Done_writeTerm2 E hdict (writeTerm E n) b H n ih n (Nat.le_refl _) t p
      { o with ld := { o.ld with signals := (o.ld.signals).tail }, depth := o.depth + 1 } f hb ht
    unfold writeTerm
    simp only
    split
    · exact Done_some _ rfl
    · split
      · exact Done_some _ rfl
      · rcases hq : writeTerm2 E (writeTerm E n) n t p
          { o with ld := { o.ld with signals := (o.ld.signals).tail }, depth := o.depth + 1 } f
          with _ | ⟨rval, o2⟩
        · exact absurd hq h.1
        · simp only
          exact Done_some _ (h.2 (rval, o2) hq)

/-- The measure `finiteBelow`. -/
def heightOf (b : List (Nat × Term)) : Height b :=
  { low := fun n a => finiteBelow b n a = true
    zero := fun a h => by simp [finiteBelow] at h
    le := fun n m a h1 h2 => finiteBelow_le b a n m h1 h2
    args := fun n f as h => finiteBelow_args b n f as h
    att := fun n p v h => finiteBelow_att b n p v h
    deref := fun n m a h => finiteBelow_deRef_rec b m n a h }

/-- The measure `finiteBelow`, on the subterms of `root` only. -/
def heightIn (b : List (Nat × Term)) (root : Term) : Height b :=
  { low := fun n a => finiteBelow b n a = true ∧ Subterm b root a
    zero := fun a h => by simp [finiteBelow] at h
    le := fun n m a h1 h2 => ⟨finiteBelow_le b a n m h1 h2.1, h2.2⟩
    args := fun n f as h a ha => ⟨finiteBelow_args b n f as h.1 a ha, Subterm.arg f as a h.2 ha⟩
    att := fun n p v h => ⟨finiteBelow_att b n p v h.1, Subterm.att p v h.2⟩
    deref := fun n m a h => ⟨finiteBelow_deRef_rec b m n a h.1, Subterm.deref m a h.2⟩ }

theorem dictPairsInside_default : dictPairsInside defaultEnv := by
  intro f args kv h
  exact absurd h (List.not_mem_nil kv)

/-- C30, amended. Attribute values count as parts of a term: `finiteBelow`
follows the bindings, the arguments of compound terms and the attribute values
of attributed variables.  In an environment whose dicts enumerate their own
arguments, with the portray hooks taken as functions that return: for a term
`t` all of whose paths have at most `n + 1` nodes, `writeTerm2()` returns
provided its callback returns on the subterms of `t` whose paths have at most
`n` nodes, so every call it makes of the callback is on an argument, a list
element or tail, or an attribute value, of smaller height; the spine loop of
`writeList()` on a list cell returns under the same condition within `n`
rounds, each round going on with the tail of the cell; and `writeTerm()`
returns on every term that is finite and acyclic in this sense, for every
option set, once the bound on the nesting of calls is at least the height of
the term. -/
theorem rendering_terminates (E : Env) (hdict : dictPairsInside E) :
    (∀ (wt : WT) (b : List (Nat × Term)) (n fuel : Nat) (t : Term) (prec : Int)
        (o : write_options) (flags : Nat),
      (∀ (a : Term) (p : Int) (o1 : write_options) (f : Nat), o1.ld.bindings = b →
        finiteBelow b n a = true → Subterm b t a → Done o1 (wt a p o1 f)) →
      o.ld.bindings = b → finiteBelow b (n + 1) t = true → n ≤ fuel →
      writeTerm2 E wt fuel t prec o flags ≠ none) ∧
    (∀ (wt : WT) (b : List (Nat × Term)) (n fuel : Nat) (f : Atom) (h tl : Term)
        (o : write_options),
      (∀ (a : Term) (p : Int) (o1 : write_options) (g : Nat), o1.ld.bindings = b →
        finiteBelow b n a = true → Subterm b (.compound f [h, tl]) a →
        Done o1 (wt a p o1 g)) →
      o.ld.bindings = b → finiteBelow b (n + 1) (.compound f [h, tl]) = true → n ≤ fuel →
      writeList E wt fuel (.compound f [h, tl]) o ≠ none) ∧
    (∀ (n fuel : Nat) (t : Term) (prec : Int) (o : write_options) (flags : Nat),
      finiteBelow o.ld.bindings n t = true → n ≤ fuel →
      writeTerm E fuel t prec o flags ≠ none) := by
  refine ⟨?_, ?_, ?_⟩
  · intro wt b n fuel t prec o flags hT hb ht hf
    exact (Done_writeTerm2 E hdict wt b (heightIn b t) n
      (fun a p o1 f h1 h2 => hT a p o1 f h1 h2.1 h2.2) fuel hf t prec o flags hb
      ⟨ht, Subterm.refl⟩).1
  · intro wt b n fuel f h tl o hT hb ht hf
    exact (Done_writeList E wt b (heightIn b (.compound f [h, tl])) n
      (fun a p o1 g h1 h2 => hT a p o1 g h1 h2.1 h2.2) fuel n f h tl o hb
      ⟨ht, Subterm.refl⟩ hf (Nat.le_refl _)).1
  · intro n fuel t prec o flags ht hf
    exact (Done_writeTerm E hdict o.ld.bindings (heightOf o.ld.bindings) fuel t prec o flags rfl
      (finiteBelow_le o.ld.bindings t n fuel hf ht)).1

/-- C30 at the term `f([a, _G], - b)` in a fresh engine: every path has at most
four nodes and `writeTerm()` returns with a nesting bound of four. -/
theorem rendering_terminates_witness :
    dictPairsInside defaultEnv ∧
    finiteBelow (defaultOptions {}).ld.bindings 4
      (.compound (textAtom "f")
        [mkList defaultEnv [atomTerm "a", .var 5] (.atom defaultEnv.ATOM_nil),
         .compound (textAtom "-") [atomTerm "b"]]) = true ∧
    writeTerm defaultEnv 4
      (.compound (textAtom "f")
        [mkList defaultEnv [atomTerm "a", .var 5] (.atom defaultEnv.ATOM_nil),
         .compound (textAtom "-") [atomTerm "b"]]) 1200 (defaultOptions {}) W_TOP ≠ none :=
  ⟨dictPairsInside_default, by decide,
    (rendering_terminates defaultEnv dictPairsInside_default).2.2 4 4 _ 1200 (defaultOptions {})
      W_TOP (by decide) (Nat.le_refl _)⟩

/-- Engine state in which the cell 8 is a reference to the attributed variable
at cell 7, whose attribute value is that same reference: the state after
`put_attr(X, a, X)`, with the attribute value reduced to `X`. -/
def attrLD : PL_local_data :=
  { freshLD with bindings := [(8, .attvar 7 (.var 8))] }

/-- Options for `attributes(write)` on an unlimited stream in the state
`attrLD`. -/
def attrOptions : write_options :=
  { defaultOptions { PL_WRT_ATTVAR_WRITE := true } with ld := attrLD }

theorem writeTerm2_attvar (E : Env) (wt : WT) (fuel : Nat) (t : Term) (prec : Int)
    (o : write_options) (flags : Nat) (p : Nat) (att : Term)
    (h : deRef o.ld t = .attvar p att) :
    writeTerm2 E wt fuel t prec o flags = writeAttVar E wt (.attvar p att) o := by
  unfold writeTerm2
  simp only [h, PL_is_variable, Bool.not_true, Bool.false_and, Bool.false_eq_true, if_false]
  rfl

theorem writeAttVar_write (E : Env) (wt : WT) (p : Nat) (att : Term) (o : write_options)
    (hr : o.out.room = none) (hd : o.flags.PL_WRT_ATTVAR_DOTS = false)
    (hw : o.flags.PL_WRT_ATTVAR_WRITE = true) :
    writeAttVar E wt (.attvar p att) o =
      TRY (wt att 1200
        { o with out := (Sputcode 123 (PutToken E (var_name_ptr o.ld p) o.out).2).2 } W_TOP)
        fun o3 => some (true, { o3 with out := (Sputcode 125 o3.out).2 }) := by
  have hput := PutToken_unlimited E 95 (sprintf_d (int64 (var_number o.ld p))) o.out hr
  have hne : ((PutToken E (var_name_ptr o.ld p) o.out).1 != 0) = true := by
    simp only [bne_iff_ne, ne_eq]
    exact hput.1
  unfold writeAttVar onOutN
  simp only [varName, hne, TRY_true, hd, hw, Bool.false_eq_true, if_false, if_true]

theorem writeTerm_attribute_loop : ∀ (fuel : Nat) (p : Int) (o : write_options) (f : Nat),
    o.ld.bindings = attrLD.bindings → o.flags = attrOptions.flags → o.out.room = none →
    o.ld.signals = [] → o.max_depth = 0 →
    writeTerm defaultEnv fuel (.var 8) p o f = none := by
  intro fuel
  induction fuel with
  | zero => intro p o f _ _ _ _ _; rfl
  | succ n ih =>
    intro p o f hb hfl hr hs hm
    have hd : deRef { o.ld with signals := o.ld.signals.tail } (.var 8) =
        .attvar 7 (.var 8) := by
      unfold deRef
      simp only [hb]
      rfl
    rw [writeTerm_normal defaultEnv n _ p o f (Or.inl hm) (by rw [hs]; simp)]
    have e2 := writeTerm2_attvar defaultEnv (writeTerm defaultEnv n) n (.var 8) p
      { o with ld := { o.ld with signals := o.ld.signals.tail }, depth := o.depth + 1 } f 7
      (.var 8) hd
    have e3 := writeAttVar_write defaultEnv (writeTerm defaultEnv n) 7 (.var 8)
      { o with ld := { o.ld with signals := o.ld.signals.tail }, depth := o.depth + 1 }
      hr (by rw [hfl]; rfl) (by rw [hfl]; rfl)
    have hroom := PutToken_unlimited_room defaultEnv
      (var_name_ptr { o.ld with signals := o.ld.signals.tail } 7) o.out hr
    have e4 := ih 1200
      { o with ld := { o.ld with signals := o.ld.signals.tail }, depth := o.depth + 1,
               out := (Sputcode 123 (PutToken defaultEnv
                 (var_name_ptr { o.ld with signals := o.ld.signals.tail } 7) o.out).2).2 }
      W_TOP hb hfl (by rw [Sputcode_unlimited _ _ hroom]; exact hroom)
      (by simp only [hs, List.tail_nil]) hm
    rw [e2, e3, e4]
    rfl

/-- C30 fails for attributed variables under `attributes(write)`: the variable
`X` of `put_attr(X, a, X)` passes the acyclicity test of `writeTopTerm()`, and
`writeAttVar()` calls `writeTerm()` on its attribute value, which leads back to
`X`; on an unlimited stream with no depth limit `writeTerm()` and
`writeTopTerm()` do not return, whatever the bound on the nesting of calls. -/
theorem attribute_cycle_never_returns :
    defaultEnv.PL_is_acyclic attrOptions.ld.bindings (.var 8) = true ∧
    deRef attrOptions.ld (.var 8) = .attvar 7 (.var 8) ∧
    attrOptions.flags.PL_WRT_PORTRAY = false ∧
    (∀ fuel : Nat, writeTerm defaultEnv fuel (.var 8) 1200 attrOptions W_TOP = none) ∧
    (∀ fuel : Nat, writeTopTerm defaultEnv fuel (.var 8) 1200 attrOptions = none) := by
  have h : ∀ fuel : Nat, writeTerm defaultEnv fuel (.var 8) 1200 attrOptions W_TOP = none :=
    fun fuel => writeTerm_attribute_loop fuel 1200 attrOptions W_TOP rfl rfl rfl rfl rfl
  refine ⟨by decide, rfl, rfl, h, ?_⟩
  intro fuel
  unfold writeTopTerm
  have ha : defaultEnv.PL_is_acyclic attrOptions.ld.bindings (.var 8) = true := by decide
  simp only [ha, Bool.or_true, if_true]
  exact h fuel

/-! ## The depth limit along a bracket list -/

/-- The text of a list cut by the depth limit, after the opening bracket: the
element `e` at maximum priority 999; then, for each further element, a comma
and the element; after the last of them `|...]`.  The depth counter goes up by
one after each element. -/
def bracketCutText (E : Env) (wt : WT) : Term → List Term → write_options →
    Option (Bool × write_options)
  | e, [], o =>
    TRY (wt e 999 o W_TOP) fun o1 =>
      onOut { o1 with depth := o1.depth + 1 } (PutString (str "|...]") o1.out)
  | e, e2 :: rest, o =>
    TRY (wt e 999 o W_TOP) fun o1 =>
      TRY (onOut { o1 with depth := o1.depth + 1 }
            (PutComma E { o1 with depth := o1.depth + 1 })) fun o3 =>
        bracketCutText E wt e2 rest o3

/-- The number `max(1, d - k)` for the depth limit `d` and the depth counter
`k` of the options. -/
def spineLimit (o : write_options) : Nat := (max 1 (o.max_depth - o.depth)).toNat

/-- The number of items of a list the limit applies to: its elements, and its
tail when that is not the empty list. -/
def spineItems (E : Env) (ld : PL_local_data) (es : List Term) (tl : Term) : Nat :=
  es.length + (if PL_get_nil E (deRef ld tl) then 0 else 1)

theorem spineItems_config (E : Env) {o o1 : write_options} (h : config o1 = config o)
    (es : List Term) (tl : Term) : spineItems E o1.ld es tl = spineItems E o.ld es tl := by
  unfold spineItems
  rw [deRef_config h]

theorem writeList_bracket_limit (E : Env) (wt : WT) (hwt : WT.Frames wt)
    (hwd : ∀ t p o f r, wt t p o f = some r → r.2.depth = o.depth) (tl : Term) :
    ∀ (es : List Term) (e : Term) (fuel : Nat) (o : write_options),
      es.length < fuel → 0 < o.max_depth →
      PL_is_functor (deRef o.ld tl) E.ATOM_dot 2 = false →
      writeList_bracket E wt fuel (mkList E (e :: es) tl) o =
        if spineItems E o.ld (e :: es) tl ≤ spineLimit o then bracketText E wt e es tl o
        else bracketCutText E wt e (es.take (spineLimit o - 1)) o := by
  intro es
  induction es with
  | nil =>
    intro e fuel o hf hm hc
    obtain ⟨n, rfl⟩ : ∃ n, fuel = n + 1 := ⟨fuel - 1, by simp at hf; omega⟩
    have hcell : deRef o.ld (mkList E [e] tl) = .compound E.ATOM_dot [e, tl] := by
      rw [mkList_cons, deRef_compound]
      rfl
    have h1 : 1 ≤ spineLimit o := by
      unfold spineLimit
      omega
    rcases hn : PL_get_nil E (deRef o.ld tl) with _ | _
    · by_cases hd : o.depth + 1 ≥ o.max_depth
      · rw [writeList_bracket_cut E wt hwt hwd n _ _ _ _ o hcell hn (by omega) hd]
        have hs : spineLimit o = 1 := by
          unfold spineLimit
          have : max 1 (o.max_depth - o.depth) = 1 := by omega
          rw [this]; rfl
        have hl : ¬(spineItems E o.ld [e] tl ≤ spineLimit o) := by
          unfold spineItems
          rw [hs, hn]
          simp
        rw [if_neg hl, hs]
        rfl
      · rw [writeList_bracket_step E wt hwt hwd n _ _ _ _ o hcell hn (Or.inr (by omega))]
        have hs : spineLimit o = (o.max_depth - o.depth).toNat := by
          unfold spineLimit
          have : max 1 (o.max_depth - o.depth) = o.max_depth - o.depth := by omega
          rw [this]
        have hl : spineItems E o.ld [e] tl ≤ spineLimit o := by
          unfold spineItems
          rw [hs, hn]
          simp only [List.length_cons, List.length_nil, Bool.false_eq_true, if_false]
          omega
        simp only [hl, if_true]
        unfold bracketText
        apply TRY_congr_of (SameLevel_wt hwt hwd ⟨rfl, rfl⟩ e 999 W_TOP)
        intro o1 h1
        have hc1 : PL_is_functor (deRef o1.ld tl) E.ATOM_dot 2 = false := by
          rw [deRef_config h1.1]; exact hc
        have hn1 : PL_get_nil E (deRef o1.ld tl) = false := by
          rw [deRef_config h1.1]; exact hn
        simp only [hc1, hn1, Bool.false_eq_true, if_false]
    · have hl : spineItems E o.ld [e] tl ≤ spineLimit o := by
        unfold spineItems
        rw [hn]
        simpa using h1
      simp only [hl, if_true]
      unfold writeList_bracket bracketText
      simp only [hcell]
      apply TRY_congr_of (SameLevel_wt hwt hwd ⟨rfl, rfl⟩ e 999 W_TOP)
      intro o1 h1
      have hn1 : PL_get_nil E (deRef o1.ld tl) = true := by
        rw [deRef_config h1.1]; exact hn
      simp only [hn1, if_true]
  | cons e2 rest ih =>
    intro e fuel o hf hm hc
    obtain ⟨n, rfl⟩ : ∃ n, fuel = n + 1 := ⟨fuel - 1, by simp at hf; omega⟩
    have hcell : deRef o.ld (mkList E (e :: e2 :: rest) tl) =
        .compound E.ATOM_dot [e, mkList E (e2 :: rest) tl] := by
      rw [mkList_cons, deRef_compound]
    have htl : ∀ ld : PL_local_data, deRef ld (mkList E (e2 :: rest) tl) =
        .compound E.ATOM_dot [e2, mkList E rest tl] := by
      intro ld
      rw [mkList_cons, deRef_compound]
    have hnn : PL_get_nil E (deRef o.ld (mkList E (e2 :: rest) tl)) = false := by
      rw [htl]; rfl
    have hitems : spineItems E o.ld (e :: e2 :: rest) tl =
        spineItems E o.ld (e2 :: rest) tl + 1 := by
      unfold spineItems
      simp only [List.length_cons]
      omega
    have hi2 : 2 ≤ spineItems E o.ld (e :: e2 :: rest) tl := by
      unfold spineItems
      simp only [List.length_cons]
      omega
    by_cases hd : o.depth + 1 ≥ o.max_depth
    · rw [writeList_bracket_cut E wt hwt hwd n _ _ _ _ o hcell hnn (by omega) hd]
      have hs : spineLimit o = 1 := by
        unfold spineLimit
        have : max 1 (o.max_depth - o.depth) = 1 := by omega
        rw [this]; rfl
      have hl : ¬(spineItems E o.ld (e :: e2 :: rest) tl ≤ spineLimit o) := by
        rw [hs]; omega
      rw [if_neg hl, hs]
      rfl
    · rw [writeList_bracket_step E wt hwt hwd n _ _ _ _ o hcell hnn (Or.inr (by omega))]
      have hs : spineLimit o = (o.max_depth - o.depth).toNat := by
        unfold spineLimit
        have : max 1 (o.max_depth - o.depth) = o.max_depth - o.depth := by omega
        rw [this]
      have hs2 : 2 ≤ spineLimit o := by rw [hs]; omega
      have key : ∀ o3 : write_options, SameLevel { o with depth := o.depth + 1 } o3 →
          writeList_bracket E wt n (mkList E (e2 :: rest) tl) o3 =
            if spineItems E o.ld (e2 :: rest) tl ≤ spineLimit o - 1 then
              bracketText E wt e2 rest tl o3
            else bracketCutText E wt e2 (rest.take (spineLimit o - 1 - 1)) o3 := by
        intro o3 h3
        have hmd : o3.max_depth = o.max_depth := max_depth_config h3.1
        have hdp : o3.depth = o.depth + 1 := h3.2
        have hs3 : spineLimit o3 = spineLimit o - 1 := by
          rw [hs]
          unfold spineLimit
          rw [hmd, hdp]
          have : max 1 (o.max_depth - (o.depth + 1)) = o.max_depth - (o.depth + 1) := by omega
          rw [this]
          omega
        have hc3 : PL_is_functor (deRef o3.ld tl) E.ATOM_dot 2 = false := by
          rw [@deRef_config { o with depth := o.depth + 1 } o3 h3.1]
          exact hc
        have hi3 : spineItems E o3.ld (e2 :: rest) tl = spineItems E o.ld (e2 :: rest) tl :=
          @spineItems_config E { o with depth := o.depth + 1 } o3 h3.1 _ _
        rw [ih e2 n o3 (by simp at hf; omega) (by rw [hmd]; exact hm) hc3, hs3, hi3]
      by_cases hl : spineItems E o.ld (e :: e2 :: rest) tl ≤ spineLimit o
      · simp only [hl, if_true]
        unfold bracketText
        apply TRY_congr_of (SameLevel_wt hwt hwd ⟨rfl, rfl⟩ e 999 W_TOP)
        intro o1 h1
        rw [htl]
        have hdot : PL_is_functor (.compound E.ATOM_dot [e2, mkList E rest tl])
            E.ATOM_dot 2 = true := by simp [PL_is_functor]
        simp only [hdot, if_true]
        apply TRY_congr_of (P := SameLevel { o with depth := o.depth + 1 })
        · exact @SameLevel_onOut { o with depth := o.depth + 1 } { o1 with depth := o1.depth + 1 }
            ⟨h1.1, by show o1.depth + 1 = o.depth + 1; rw [h1.2]⟩ _
        · intro o3 h3
          have : spineItems E o.ld (e2 :: rest) tl ≤ spineLimit o - 1 := by omega
          rw [← mkList_cons, key o3 h3, if_pos this]
      · simp only [hl, if_false]
        obtain ⟨m, hm2⟩ : ∃ m, spineLimit o - 1 = m + 1 := ⟨spineLimit o - 2, by omega⟩
        rw [hm2, List.take_succ_cons]
        unfold bracketCutText
        apply TRY_congr_of (SameLevel_wt hwt hwd ⟨rfl, rfl⟩ e 999 W_TOP)
        intro o1 h1
        rw [htl]
        have hdot : PL_is_functor (.compound E.ATOM_dot [e2, mkList E rest tl])
            E.ATOM_dot 2 = true := by simp [PL_is_functor]
        simp only [hdot, if_true]
        apply TRY_congr_of (P := SameLevel { o with depth := o.depth + 1 })
        · exact @SameLevel_onOut { o with depth := o.depth + 1 } { o1 with depth := o1.depth + 1 }
            ⟨h1.1, by show o1.depth + 1 = o.depth + 1; rw [h1.2]⟩ _
        · intro o3 h3
          have : ¬(spineItems E o.ld (e2 :: rest) tl ≤ spineLimit o - 1) := by omega
          rw [← mkList_cons, key o3 h3, if_neg this, hm2, Nat.add_sub_cancel]

theorem spineLimit_SameLevel {o o1 : write_options} (h : SameLevel o o1) :
    spineLimit o1 = spineLimit o := by
  unfold spineLimit
  rw [max_depth_config h.1, h.2]

theorem writeTerm_ellipsis (E : Env) (fuel : Nat) (t : Term) (prec : Int) (o : write_options)
    (flags : Nat) (hm : o.max_depth ≠ 0) (hd : o.depth + 1 > o.max_depth)
    (hs : o.ld.signals.head? ≠ some true) :
    writeTerm E (fuel + 1) t prec o flags =
      some ((PutString (str "...") (PutOpenToken E 46 o.out).2).1,
        { o with ld := { o.ld with signals := o.ld.signals.tail },
                 out := (PutString (str "...") (PutOpenToken E 46 o.out).2).2 }) := by
  unfold writeTerm
  simp only
  split
  · rename_i rest hsig
    rw [hsig] at hs
    exact absurd rfl hs
  · have hc : (decide (o.depth + 1 > o.max_depth) && (o.max_depth != 0)) = true := by
      simp [hd, hm]
    simp only [hc, if_true]

/-- The step `writeTerm()` makes for a term beyond the depth limit: `...` as a
token, whatever the term is. -/
def ellipsisStep (E : Env) (o : write_options) : Option (Bool × write_options) :=
  some ((PutString (str "...") (PutOpenToken E 46 o.out).2).1,
    { o with ld := { o.ld with signals := o.ld.signals.tail },
             out := (PutString (str "...") (PutOpenToken E 46 o.out).2).2 })

theorem writeList_at_limit (E : Env) (n : Nat) (e : Term) (es : List Term) (tl : Term)
    (fuel : Nat) (o : write_options)
    (hdl : o.flags.PL_WRT_DOTLISTS = false) (hnl : o.flags.PL_WRT_NO_LISTS = false)
    (hm : 0 < o.max_depth) (hk : o.max_depth ≤ o.depth)
    (hs : o.ld.signals.head? ≠ some true) (hf : es.length < fuel)
    (hc : PL_is_functor (deRef o.ld tl) E.ATOM_dot 2 = false) :
    writeList E (writeTerm E (n + 1)) fuel (mkList E (e :: es) tl) o =
      TRY (onOut o (Putc 91 o.out)) fun o1 =>
        TRY (ellipsisStep E o1) fun o2 =>
          if es.isEmpty && PL_get_nil E (deRef o.ld tl) then onOut o2 (Putc 93 o2.out)
          else onOut { o2 with depth := o2.depth + 1 } (PutString (str "|...]") o2.out) := by
  unfold writeList
  simp only [hdl, hnl, Bool.or_self, Bool.not_false, if_true]
  rcases hp : Putc 91 o.out with ⟨b, s1⟩
  cases b
  · rfl
  · show writeList_bracket E (writeTerm E (n + 1)) fuel (mkList E (e :: es) tl)
        { o with out := s1 } = TRY (ellipsisStep E { o with out := s1 }) _
    have hlim : spineLimit { o with out := s1 } = 1 := by
      unfold spineLimit
      show (max 1 (o.max_depth - o.depth)).toNat = 1
      have : max 1 (o.max_depth - o.depth) = 1 := by omega
      rw [this]; rfl
    rw [writeList_bracket_limit E (writeTerm E (n + 1)) (Frames_writeTerm E (n + 1))
      (writeTerm_depth E (n + 1)) tl es e fuel { o with out := s1 } hf hm hc, hlim]
    have hell : ∀ t, writeTerm E (n + 1) t 999 { o with out := s1 } W_TOP =
        ellipsisStep E { o with out := s1 } := fun t =>
      writeTerm_ellipsis E n t 999 { o with out := s1 } W_TOP (by
        show o.max_depth ≠ 0
        omega) (by
        show o.depth + 1 > o.max_depth
        omega) hs
    have hder : ∀ (x : Bool × IOSTREAM),
        deRef ({ o with ld := { o.ld with signals := o.ld.signals.tail }, out := x.2 } :
          write_options).ld tl = deRef o.ld tl := fun _ => rfl
    rcases hn : PL_get_nil E (deRef o.ld tl) with _ | _
    · have hl : ¬(spineItems E ({ o with out := s1 } : write_options).ld (e :: es) tl ≤ 1) := by
        unfold spineItems
        show ¬((e :: es).length + (if PL_get_nil E (deRef o.ld tl) then 0 else 1) ≤ 1)
        rw [hn]
        simp
      rw [if_neg hl]
      simp only [Bool.and_false, Bool.false_eq_true, if_false, Nat.sub_self, List.take_zero]
      unfold bracketCutText
      rw [hell]
    · cases es with
      | nil =>
        have hl : spineItems E ({ o with out := s1 } : write_options).ld [e] tl ≤ 1 := by
          unfold spineItems
          show [e].length + (if PL_get_nil E (deRef o.ld tl) then 0 else 1) ≤ 1
          rw [hn]
          simp
        rw [if_pos hl]
        simp only [List.isEmpty_nil, Bool.and_self, if_true]
        unfold bracketText
        rw [hell]
        unfold ellipsisStep
        rcases hq : PutString (str "...") (PutOpenToken E 46 s1).2 with ⟨rv, s2⟩
        cases rv
        · rfl
        · show (if PL_get_nil E (deRef o.ld tl) = true then _ else _) = _
          rw [hn]
          rfl
      | cons e2 rest =>
        have hl : ¬(spineItems E ({ o with out := s1 } : write_options).ld
            (e :: e2 :: rest) tl ≤ 1) := by
          unfold spineItems
          simp only [List.length_cons]
          omega
        rw [if_neg hl]
        simp only [List.isEmpty_cons, Bool.false_and, Bool.false_eq_true, if_false,
          Nat.sub_self, List.take_zero]
        unfold bracketCutText
        rw [hell]

/-- C31 fails when the list is entered with the counter at the limit and when
the list does not end in the empty list.  With `max_depth = 1` the top-level
list is entered at `k = d = 1`: `[1]` is written `[...]` and `[1,2,3]` is
written `[...|...]`, so the one element the claim counts is not written.  With
`max_depth = 3` the list `[1,2|foo]` of two elements, entered at `k = 1`, is
written `[1,2|...]` although `2 <= max(1, 3 - 1)`; without a limit it is written
`[1,2|foo]`. -/
theorem list_depth_limit_edges :
    written (writeTerm defaultEnv 5
      (mkList defaultEnv [.integer 1] (.atom defaultEnv.ATOM_nil))
      1200 { defaultOptions {} with max_depth := 1 } W_TOP) = some (true, str "[...]") ∧
    written (writeTerm defaultEnv 5
      (mkList defaultEnv [.integer 1, .integer 2, .integer 3] (.atom defaultEnv.ATOM_nil))
      1200 { defaultOptions {} with max_depth := 1 } W_TOP) = some (true, str "[...|...]") ∧
    written (writeTerm defaultEnv 5
      (mkList defaultEnv [.integer 1, .integer 2] (atomTerm "foo"))
      1200 { defaultOptions {} with max_depth := 3 } W_TOP) = some (true, str "[1,2|...]") ∧
    written (writeTerm defaultEnv 5
      (mkList defaultEnv [.integer 1, .integer 2] (atomTerm "foo"))
      1200 (defaultOptions {}) W_TOP) = some (true, str "[1,2|foo]") ∧
    spineLimit { defaultOptions {} with max_depth := 1, depth := 1 } = 1 ∧
    spineLimit { defaultOptions {} with max_depth := 3, depth := 1 } = 2 := by
  refine ⟨by decide!, by decide!, by decide!, by decide!, by decide, by decide⟩

/-- C31, amended. In bracket-list mode with a depth limit `d > 0`, take a list
of `n` elements whose spine ends in the term `tl` (no list cell), entered by
`writeList()` with the depth counter at `k` (1 for the top term), and let
`m = max(1, d - k)`.  The limit counts the items of the list: its elements, and
the tail when `tl` is not the empty list.  When the list has at most `m` items
it is written completely: `[`, the elements separated by commas, then `]`, or
`|`, the tail and `]`.  Otherwise `[`, the first `m` elements separated by
commas, and `|...]` in place of the rest are written.  Each element reached is
passed to `writeTerm()` at maximum priority 999 with the counter at `k`, `k + 1`,
... in turn.  When `k < d` these values are all below `d`, so every element
reached is written.  When `k >= d` one element is reached and it lies beyond the
limit: `writeTerm()` writes `...` for it whatever it is, so the list is written
`[...]` when it has one element and ends in the empty list, and `[...|...]`
otherwise.  The top-level list `[1,2,3,4,5]` with `max_depth = 3` gives
`[1,2|...]`, with `max_depth = 6` it is written in full; `[[1,2,3],4]` with
`max_depth = 3` gives `[[1|...],4]`; `[1,2|foo]` gives `[1,2|...]` with
`max_depth = 3` and `[1,2|foo]` with `max_depth = 4`. -/
theorem list_depth_limit :
    (∀ (E : Env) (n : Nat) (e : Term) (es : List Term) (tl : Term) (fuel : Nat)
      (o : write_options),
      o.flags.PL_WRT_DOTLISTS = false → o.flags.PL_WRT_NO_LISTS = false →
      0 < o.max_depth → es.length < fuel →
      PL_is_functor (deRef o.ld tl) E.ATOM_dot 2 = false →
      (spineItems E o.ld (e :: es) tl ≤ spineLimit o →
        writeList E (writeTerm E n) fuel (mkList E (e :: es) tl) o =
          TRY (onOut o (Putc 91 o.out)) fun o1 =>
            bracketText E (writeTerm E n) e es tl o1) ∧
      (spineLimit o < spineItems E o.ld (e :: es) tl →
        (e :: es.take (spineLimit o - 1)).length = spineLimit o ∧
        writeList E (writeTerm E n) fuel (mkList E (e :: es) tl) o =
          TRY (onOut o (Putc 91 o.out)) fun o1 =>
            bracketCutText E (writeTerm E n) e (es.take (spineLimit o - 1)) o1)) ∧
    (∀ (E : Env) (ld : PL_local_data) (es : List Term) (tl : Term),
      (PL_get_nil E (deRef ld tl) = true → spineItems E ld es tl = es.length) ∧
      (PL_get_nil E (deRef ld tl) = false → spineItems E ld es tl = es.length + 1)) ∧
    (∀ d k : Int, ∀ o : write_options, o.max_depth = d → o.depth = k →
      (spineLimit o : Int) = max 1 (d - k) ∧
      (k < d → ∀ i : Nat, i < spineLimit o → k + i + 1 ≤ d) ∧
      (d ≤ k → spineLimit o = 1 ∧ k + 1 > d)) ∧
    (∀ (E : Env) (n : Nat) (e : Term) (es : List Term) (tl : Term) (fuel : Nat)
      (o : write_options),
      o.flags.PL_WRT_DOTLISTS = false → o.flags.PL_WRT_NO_LISTS = false →
      0 < o.max_depth → o.max_depth ≤ o.depth → o.ld.signals.head? ≠ some true →
      es.length < fuel → PL_is_functor (deRef o.ld tl) E.ATOM_dot 2 = false →
      writeList E (writeTerm E (n + 1)) fuel (mkList E (e :: es) tl) o =
        TRY (onOut o (Putc 91 o.out)) fun o1 =>
          TRY (ellipsisStep E o1) fun o2 =>
            if es.isEmpty && PL_get_nil E (deRef o.ld tl) then onOut o2 (Putc 93 o2.out)
            else onOut { o2 with depth := o2.depth + 1 }
              (PutString (str "|...]") o2.out)) ∧
    written (writeTerm defaultEnv 5
      (mkList defaultEnv [.integer 1, .integer 2, .integer 3, .integer 4, .integer 5]
        (.atom defaultEnv.ATOM_nil))
      1200 { defaultOptions {} with max_depth := 3 } W_TOP) = some (true, str "[1,2|...]") ∧
    written (writeTerm defaultEnv 7
      (mkList defaultEnv [.integer 1, .integer 2, .integer 3, .integer 4, .integer 5]
        (.atom defaultEnv.ATOM_nil))
      1200 { defaultOptions {} with max_depth := 6 } W_TOP) = some (true, str "[1,2,3,4,5]") ∧
    written (writeTerm defaultEnv 7
      (mkList defaultEnv
        [mkList defaultEnv [.integer 1, .integer 2, .integer 3] (.atom defaultEnv.ATOM_nil),
         .integer 4] (.atom defaultEnv.ATOM_nil))
      1200 { defaultOptions {} with max_depth := 3 } W_TOP) =
        some (true, str "[[1|...],4]") ∧
    written (writeTerm defaultEnv 5
      (mkList defaultEnv [.integer 1, .integer 2] (atomTerm "foo"))
      1200 { defaultOptions {} with max_depth := 4 } W_TOP) = some (true, str "[1,2|foo]") ∧
    written (writeTerm defaultEnv 5
      (mkList defaultEnv [atomTerm "a", atomTerm "b"] (atomTerm "foo"))
      1200 { defaultOptions {} with max_depth := 3 } W_TOP) = some (true, str "[a,b|...]") ∧
    written (writeTerm defaultEnv 5
      (mkList defaultEnv [atomTerm "a", atomTerm "b"] (.atom defaultEnv.ATOM_nil))
      1200 { defaultOptions {} with max_depth := 1 } W_TOP) = some (true, str "[...|...]") := by
  refine ⟨?_, ?_, ?_, ?_, by decide!, by decide!, by decide!, by decide!, by decide!,
    by decide!⟩
  · intro E n e es tl fuel o hd hn hm hf hc
    have key : writeList E (writeTerm E n) fuel (mkList E (e :: es) tl) o =
        TRY (onOut o (Putc 91 o.out)) fun o1 =>
          if spineItems E o.ld (e :: es) tl ≤ spineLimit o then
            bracketText E (writeTerm E n) e es tl o1
          else bracketCutText E (writeTerm E n) e (es.take (spineLimit o - 1)) o1 := by
      unfold writeList
      simp only [hd, hn, Bool.or_self, Bool.not_false, if_true]
      apply TRY_congr_of (P := SameLevel o) (SameLevel_onOut ⟨rfl, rfl⟩ _)
      intro o1 h1
      rw [writeList_bracket_limit E (writeTerm E n) (Frames_writeTerm E n)
        (writeTerm_depth E n) tl es e fuel o1 hf (by rw [max_depth_config h1.1]; exact hm)
        (by rw [deRef_config h1.1]; exact hc),
        spineLimit_SameLevel h1, spineItems_config E h1.1]
    constructor
    · intro hl
      rw [key]
      simp only [hl, if_true]
    · intro hl
      have h1 : 1 ≤ spineLimit o := by unfold spineLimit; omega
      have h2 : spineItems E o.ld (e :: es) tl ≤ es.length + 2 := by
        unfold spineItems
        simp only [List.length_cons]
        split <;> omega
      refine ⟨?_, ?_⟩
      · simp only [List.length_cons, List.length_take]
        omega
      · rw [key]
        have : ¬(spineItems E o.ld (e :: es) tl ≤ spineLimit o) := by omega
        simp only [this, if_false]
  · intro E ld es tl
    unfold spineItems
    constructor
    · intro h
      rw [h]
      rfl
    · intro h
      rw [h]
      rfl
  · intro d k o hd hk
    have h1 : (spineLimit o : Int) = max 1 (d - k) := by
      unfold spineLimit
      rw [hd, hk]
      omega
    refine ⟨h1, ?_, ?_⟩
    · intro hlt i hi
      have : (i : Int) < max 1 (d - k) := by rw [← h1]; exact_mod_cast hi
      omega
    · intro hle
      constructor
      · have : (spineLimit o : Int) = 1 := by rw [h1]; omega
        exact_mod_cast this
      · omega
  · intro E n e es tl fuel o hd hn hm hk hs hf hc
    exact writeList_at_limit E n e es tl fuel o hd hn hm hk hs hf hc

/-- C31, amended, at the list `[1,2,3,4,5]` entered with the counter at 1 (cut
after two elements with `max_depth = 3`, written in full with `max_depth = 6`),
at `[1,2|foo]` with `max_depth = 3` (three items, cut after two elements) and at
`[1,2,3]` entered with the counter at the limit 1. -/
theorem list_depth_limit_witness :
    (spineLimit { defaultOptions {} with max_depth := 3, depth := 1 } = 2 ∧
     spineLimit { defaultOptions {} with max_depth := 6, depth := 1 } = 5 ∧
     spineItems defaultEnv freshLD [Term.integer 1, .integer 2, .integer 3, .integer 4,
       .integer 5] (.atom defaultEnv.ATOM_nil) = 5 ∧
     spineItems defaultEnv freshLD [Term.integer 1, .integer 2] (atomTerm "foo") = 3) ∧
    writeList defaultEnv (writeTerm defaultEnv 3) 5
        (mkList defaultEnv [.integer 1, .integer 2, .integer 3, .integer 4, .integer 5]
          (.atom defaultEnv.ATOM_nil))
        { defaultOptions {} with max_depth := 3, depth := 1 } =
      (TRY (onOut { defaultOptions {} with max_depth := 3, depth := 1 }
          (Putc 91 ({ defaultOptions {} with max_depth := 3, depth := 1 } :
            write_options).out)) fun o1 =>
        bracketCutText defaultEnv (writeTerm defaultEnv 3) (.integer 1)
          ([Term.integer 2, .integer 3, .integer 4, .integer 5].take
            (spineLimit { defaultOptions {} with max_depth := 3, depth := 1 } - 1)) o1) ∧
    writeList defaultEnv (writeTerm defaultEnv 3) 5
        (mkList defaultEnv [.integer 1, .integer 2, .integer 3, .integer 4, .integer 5]
          (.atom defaultEnv.ATOM_nil))
        { defaultOptions {} with max_depth := 6, depth := 1 } =
      (TRY (onOut { defaultOptions {} with max_depth := 6, depth := 1 }
          (Putc 91 ({ defaultOptions {} with max_depth := 6, depth := 1 } :
            write_options).out)) fun o1 =>
        bracketText defaultEnv (writeTerm defaultEnv 3) (.integer 1)
          [.integer 2, .integer 3, .integer 4, .integer 5] (.atom defaultEnv.ATOM_nil) o1) ∧
    writeList defaultEnv (writeTerm defaultEnv 3) 5
        (mkList defaultEnv [.integer 1, .integer 2] (atomTerm "foo"))
        { defaultOptions {} with max_depth := 3, depth := 1 } =
      (TRY (onOut { defaultOptions {} with max_depth := 3, depth := 1 }
          (Putc 91 ({ defaultOptions {} with max_depth := 3, depth := 1 } :
            write_options).out)) fun o1 =>
        bracketCutText defaultEnv (writeTerm defaultEnv 3) (.integer 1)
          ([Term.integer 2].take
            (spineLimit { defaultOptions {} with max_depth := 3, depth := 1 } - 1)) o1) ∧
    writeList defaultEnv (writeTerm defaultEnv (2 + 1)) 5
        (mkList defaultEnv [.integer 1, .integer 2, .integer 3] (.atom defaultEnv.ATOM_nil))
        { defaultOptions {} with max_depth := 1, depth := 1 } =
      (TRY (onOut { defaultOptions {} with max_depth := 1, depth := 1 }
          (Putc 91 ({ defaultOptions {} with max_depth := 1, depth := 1 } :
            write_options).out)) fun o1 =>
        TRY (ellipsisStep defaultEnv o1) fun o2 =>
          if ([Term.integer 2, .integer 3] : List Term).isEmpty &&
              PL_get_nil defaultEnv
                (deRef ({ defaultOptions {} with max_depth := 1, depth := 1 } :
                  write_options).ld (.atom defaultEnv.ATOM_nil))
          then onOut o2 (Putc 93 o2.out)
          else onOut { o2 with depth := o2.depth + 1 } (PutString (str "|...]") o2.out)) ∧
    (written (writeList defaultEnv (writeTerm defaultEnv 3) 5
        (mkList defaultEnv [.integer 1, .integer 2, .integer 3, .integer 4, .integer 5]
          (.atom defaultEnv.ATOM_nil))
        { defaultOptions {} with max_depth := 3, depth := 1 }) =
      some (true, str "[1,2|...]") ∧
     written (writeList defaultEnv (writeTerm defaultEnv 3) 5
        (mkList defaultEnv [.integer 1, .integer 2, .integer 3, .integer 4, .integer 5]
          (.atom defaultEnv.ATOM_nil))
        { defaultOptions {} with max_depth := 6, depth := 1 }) =
      some (true, str "[1,2,3,4,5]") ∧
     written (writeList defaultEnv (writeTerm defaultEnv 3) 5
        (mkList defaultEnv [.integer 1, .integer 2] (atomTerm "foo"))
        { defaultOptions {} with max_depth := 3, depth := 1 }) =
      some (true, str "[1,2|...]") ∧
     written (writeList defaultEnv (writeTerm defaultEnv 3) 5
        (mkList defaultEnv [.integer 1, .integer 2, .integer 3] (.atom defaultEnv.ATOM_nil))
        { defaultOptions {} with max_depth := 1, depth := 1 }) =
      some (true, str "[...|...]")) :=
  ⟨⟨by decide, by decide, by decide, by decide⟩,
    ((list_depth_limit.1 defaultEnv 3 (.integer 1)
      [.integer 2, .integer 3, .integer 4, .integer 5] (.atom defaultEnv.ATOM_nil) 5
      { defaultOptions {} with max_depth := 3, depth := 1 } rfl rfl (by decide)
      (by decide) rfl).2 (by decide)).2,
    (list_depth_limit.1 defaultEnv 3 (.integer 1)
      [.integer 2, .integer 3, .integer 4, .integer 5] (.atom defaultEnv.ATOM_nil) 5
      { defaultOptions {} with max_depth := 6, depth := 1 } rfl rfl (by decide)
      (by decide) rfl).1 (by decide),
    ((list_depth_limit.1 defaultEnv 3 (.integer 1) [.integer 2] (atomTerm "foo") 5
      { defaultOptions {} with max_depth := 3, depth := 1 } rfl rfl (by decide)
      (by decide) rfl).2 (by decide)).2,
    list_depth_limit.2.2.2.1 defaultEnv 2 (.integer 1) [.integer 2, .integer 3]
      (.atom defaultEnv.ATOM_nil) 5 { defaultOptions {} with max_depth := 1, depth := 1 }
      rfl rfl (by decide) (by decide) (by decide) (by decide) rfl,
    ⟨by decide!, by decide!, by decide!, by decide!⟩⟩

/-! ## Brackets and parentheses of `writeList()` -/

/-- The weight of a text under a weighting of the characters. -/
def weight (w : Nat → Int) (t : List Nat) : Int := (t.map w).sum

/-- The stream `s1` is the stream `s` with a text of weight `v` appended. -/
def Adds (w : Nat → Int) (s s1 : IOSTREAM) (v : Int) : Prop :=
  ∃ txt, s1.buffer = s.buffer ++ txt ∧ weight w txt = v

/-- The weighting that counts the character `c`. -/
def counting (c : Nat) : Nat → Int := fun d => if d = c then 1 else 0

/-- The weighting that counts `open` as 1 and `close` as -1. -/
def excess (opening closing : Nat) : Nat → Int :=
  fun d => if d = opening then 1 else if d = closing then -1 else 0

theorem weight_append (w : Nat → Int) (a b : List Nat) :
    weight w (a ++ b) = weight w a + weight w b := by
  unfold weight
  rw [List.map_append, List.sum_append]

theorem weight_replicate (w : Nat → Int) (n c : Nat) :
    weight w (List.replicate n c) = n * w c := by
  unfold weight
  rw [List.map_replicate, List.sum_replicate, nsmul_eq_mul]

theorem weight_counting (c : Nat) : ∀ t : List Nat, weight (counting c) t = (t.count c : Int) := by
  intro t
  induction t with
  | nil => rfl
  | cons d ds ih =>
    have h : weight (counting c) (d :: ds) = counting c d + weight (counting c) ds := by
      unfold weight
      simp
    rw [h, ih, List.count_cons]
    unfold counting
    by_cases hd : d = c
    · simp [hd]; omega
    · simp [hd]

theorem weight_excess (a b : Nat) (hab : a ≠ b) : ∀ t : List Nat,
    weight (excess a b) t = (t.count a : Int) - (t.count b : Int) := by
  intro t
  induction t with
  | nil => rfl
  | cons d ds ih =>
    have h : weight (excess a b) (d :: ds) = excess a b d + weight (excess a b) ds := by
      unfold weight
      simp
    rw [h, ih, List.count_cons, List.count_cons]
    unfold excess
    by_cases hd : d = a
    · have hb : ¬(d = b) := fun h2 => hab (hd.symm.trans h2)
      simp [hd, hab]; omega
    · by_cases hd2 : d = b
      · simp [hd, hd2]; omega
      · simp [hd, hd2]

theorem Adds_refl (w : Nat → Int) (s : IOSTREAM) : Adds w s s 0 :=
  ⟨[], by simp, rfl⟩

theorem Adds_trans {w : Nat → Int} {s s1 s2 : IOSTREAM} {u v : Int}
    (h1 : Adds w s s1 u) (h2 : Adds w s1 s2 v) : Adds w s s2 (u + v) := by
  obtain ⟨t1, hb1, hw1⟩ := h1
  obtain ⟨t2, hb2, hw2⟩ := h2
  exact ⟨t1 ++ t2, by rw [hb2, hb1, List.append_assoc], by rw [weight_append, hw1, hw2]⟩

theorem Adds_text {w : Nat → Int} {s s1 : IOSTREAM} (t : List Nat)
    (h : s1.buffer = s.buffer ++ t) : Adds w s s1 (weight w t) := ⟨t, h, rfl⟩

theorem TRY_some_true {r : Option (Bool × write_options)}
    {k : write_options → Option (Bool × write_options)} {o' : write_options}
    (h : TRY r k = some (true, o')) : ∃ o1, r = some (true, o1) ∧ k o1 = some (true, o') := by
  unfold TRY at h
  rcases r with _ | ⟨b, o1⟩
  · cases h
  · cases b
    · cases h
    · exact ⟨o1, rfl, h⟩

theorem onOut_true {ob o1 : write_options} {r : Bool × IOSTREAM}
    (h : onOut ob r = some (true, o1)) : r.1 = true ∧ o1 = { ob with out := r.2 } := by
  unfold onOut at h
  simp only [Option.some.injEq, Prod.mk.injEq] at h
  exact ⟨h.1, h.2.symm⟩

theorem onOutN_true {ob o1 : write_options} {r : Nat × IOSTREAM}
    (h : onOutN ob r = some (true, o1)) : r.1 ≠ 0 ∧ o1 = { ob with out := r.2 } := by
  unfold onOutN at h
  simp only [Option.some.injEq, Prod.mk.injEq, bne_iff_ne, ne_eq] at h
  exact ⟨h.1, h.2.symm⟩

theorem Putc_adds (w : Nat → Int) (c : Nat) (s : IOSTREAM) (h : (Putc c s).1 = true) :
    Adds w s (Putc c s).2 (w c) := by
  have hb := Sputcode_buffer c s h
  exact ⟨[c], hb, by simp [weight]⟩

theorem PutString_adds (w : Nat → Int) (t : List Nat) (s : IOSTREAM)
    (h : (PutString t s).1 = true) : Adds w s (PutString t s).2 (weight w t) :=
  ⟨t, PutString_buffer t s h, rfl⟩

theorem PutToken_adds (E : Env) (w : Nat → Int) (hsp : w 32 = 0) (t : List Nat) (s : IOSTREAM)
    (h : (PutToken E t s).1 ≠ 0) : Adds w s (PutToken E t s).2 (weight w t) := by
  obtain ⟨sp, hs, hb⟩ := PutToken_buffer E t s h
  refine ⟨sp ++ t, by rw [hb, List.append_assoc], ?_⟩
  rw [weight_append]
  rcases hs with h1 | h1 <;> subst h1 <;> simp [weight, hsp]

theorem PutComma_adds (E : Env) (w : Nat → Int) (hsp : w 32 = 0) (hc : w 44 = 0)
    (o : write_options) (h : (PutComma E o).1 = true) : Adds w o.out (PutComma E o).2 0 := by
  unfold PutComma at h ⊢
  split
  · rename_i hq
    simp only [hq, if_true] at h
    have := PutString_adds w (str ", ") o.out h
    have hz : weight w (str ", ") = 0 := by
      show weight w [44, 32] = 0
      simp [weight, hsp, hc]
    rw [hz] at this
    exact this
  · rename_i hq
    simp only [hq, if_false] at h
    have := PutString_adds w (str ",") o.out h
    have hz : weight w (str ",") = 0 := by
      show weight w [44] = 0
      simp [weight, hc]
    rw [hz] at this
    exact this

theorem writeList_close_adds (w : Nat → Int) : ∀ (n : Nat) (s : IOSTREAM),
    (writeList_close n s).1 = true → Adds w s (writeList_close n s).2 (n * w 41) := by
  intro n
  induction n with
  | zero =>
    intro s _
    simp only [writeList_close, Nat.cast_zero, zero_mul]
    exact Adds_refl w s
  | succ m ih =>
    intro s h
    unfold writeList_close at h ⊢
    have hp := Putc_adds w 41 s
    rcases hq : Putc 41 s with ⟨b, s1⟩
    rw [hq] at hp
    simp only [hq] at h ⊢
    cases b
    · simp at h
    · simp only at h ⊢
      have h2 := Adds_trans (hp rfl) (ih s1 h)
      have : w 41 + (m : Int) * w 41 = ((m + 1 : Nat) : Int) * w 41 := by push_cast; ring
      rw [this] at h2
      exact h2

theorem writeList_dot_adds (E : Env) (wt : WT) (w : Nat → Int)
    (hw : ∀ c, c ≠ 40 → c ≠ 41 → w c = 0) (hF : WT.Frames wt)
    (hwt : ∀ t p o1 f o2, wt t p o1 f = some (true, o2) → Adds w o1.out o2.out 0)
    (o : write_options)
    (hfun : o.flags.PL_WRT_DOTLISTS = false →
      ∀ o1 o2, atomStep E E.ATOM_dot o1 = some (true, o2) → Adds w o1.out o2.out 0) :
    ∀ (fuel depth : Nat) (l : Term) (oc o' : write_options), config oc = config o →
      writeList_dot E wt fuel depth l oc = some (true, o') →
      ∃ n : Nat, 1 ≤ n ∧ Adds w oc.out o'.out (n * w 40 + ((depth + n : Nat) : Int) * w 41) := by
  have h32 : w 32 = 0 := hw 32 (by decide) (by decide)
  have h44 : w 44 = 0 := hw 44 (by decide) (by decide)
  have h46 : w 46 = 0 := hw 46 (by decide) (by decide)
  have h91 : w 91 = 0 := hw 91 (by decide) (by decide)
  have h93 : w 93 = 0 := hw 93 (by decide) (by decide)
  have hnil : weight w (str "[]") = 0 := by
    show weight w [91, 93] = 0
    simp [weight, h91, h93]
  have hdots : weight w (str "...") = 0 := by
    show weight w [46, 46, 46] = 0
    simp [weight, h46]
  have hone : ∀ (d : Nat) (a b c : Int), a + b = w 40 → c = ((d + 1 : Nat) : Int) * w 41 →
      a + b + c = ((1 : Nat) : Int) * w 40 + ((d + 1 : Nat) : Int) * w 41 := by
    intro d a b c h1 h2
    rw [h1, h2]
    push_cast
    ring
  intro fuel
  induction fuel with
  | zero =>
    intro depth l oc o' _ h
    simp [writeList_dot] at h
  | succ m ih =>
    intro depth l oc o' hc h
    unfold writeList_dot at h
    split at h
    · rename_i f head tail hl
      obtain ⟨o1, h1, h⟩ := TRY_some_true h
      obtain ⟨o2, h2, h⟩ := TRY_some_true h
      obtain ⟨o3, h3, h⟩ := TRY_some_true h
      obtain ⟨o4, h4, h⟩ := TRY_some_true h
      -- the functor
      have a1 : Adds w oc.out o1.out 0 ∧ config o1 = config o := by
        by_cases hd : oc.flags.PL_WRT_DOTLISTS = true
        · simp only [hd, if_true] at h1
          obtain ⟨hrc, ho⟩ := onOutN_true h1
          subst ho
          have := PutToken_adds E w h32 [46] oc.out hrc
          have hz : weight w [46] = 0 := by simp [weight, h46]
          rw [hz] at this
          exact ⟨this, hc⟩
        · have hd2 : oc.flags.PL_WRT_DOTLISTS = false := by simpa using hd
          simp only [hd2, Bool.false_eq_true, if_false] at h1
          have hco : o.flags.PL_WRT_DOTLISTS = false := by
            have : oc.flags = o.flags := by
              simp only [config, Prod.mk.injEq] at hc
              exact hc.1
            rw [← this]
            exact hd2
          exact ⟨hfun hco oc o1 h1, (Frames_atomStep E E.ATOM_dot oc (true, o1) h1).trans hc⟩
      -- the parenthesis
      obtain ⟨hr2, ho2⟩ := onOut_true h2
      have a2 : Adds w o1.out o2.out (w 40) := by
        subst ho2
        exact Putc_adds w 40 o1.out hr2
      have c2 : config o2 = config o := by
        subst ho2
        exact a1.2
      -- the head
      have a3 : Adds w o2.out o3.out 0 := hwt head 999 o2 W_TOP o3 h3
      have c3 : config o3 = config o := (hF head 999 o2 W_TOP (true, o3) h3).trans c2
      -- the comma
      obtain ⟨hr4, ho4⟩ := onOut_true h4
      have a4 : Adds w o3.out o4.out 0 := by
        subst ho4
        exact PutComma_adds E w h32 h44 o3 hr4
      have c4 : config o4 = config o := by
        subst ho4
        exact c3
      have a04 : Adds w oc.out o4.out (w 40) := by
        have := Adds_trans (Adds_trans (Adds_trans a1.1 a2) a3) a4
        simp only [zero_add, add_zero] at this
        exact this
      simp only at h
      split at h
      · -- the empty list ends the spine
        obtain ⟨o5, h5, h⟩ := TRY_some_true h
        obtain ⟨hr5, ho5⟩ := onOutN_true h5
        obtain ⟨hr6, ho6⟩ := onOut_true h
        have a5 : Adds w o4.out o5.out 0 := by
          subst ho5
          have := PutToken_adds E w h32 (str "[]") o4.out hr5
          rw [hnil] at this
          exact this
        have a6 : Adds w o5.out o'.out (((depth + 1 : Nat) : Int) * w 41) := by
          subst ho6
          exact writeList_close_adds w (depth + 1) o5.out hr6
        refine ⟨1, Nat.le_refl 1, ?_⟩
        have := Adds_trans (Adds_trans a04 a5) a6
        rw [hone depth (w 40) 0 _ (by ring) rfl] at this
        exact this
      · split at h
        · -- the depth limit cuts the spine
          obtain ⟨o6, h6, h⟩ := TRY_some_true h
          obtain ⟨hr6, ho6⟩ := onOutN_true h6
          obtain ⟨hr7, ho7⟩ := onOut_true h
          have a6 : Adds w o4.out o6.out 0 := by
            subst ho6
            have := PutToken_adds E w h32 (str "...") o4.out hr6
            rw [hdots] at this
            exact this
          have a7 : Adds w o6.out o'.out (((depth + 1 : Nat) : Int) * w 41) := by
            subst ho7
            exact writeList_close_adds w (depth + 1) o6.out hr7
          refine ⟨1, Nat.le_refl 1, ?_⟩
          have := Adds_trans (Adds_trans a04 a6) a7
          rw [hone depth (w 40) 0 _ (by ring) rfl] at this
          exact this
        · split at h
          · -- a tail that is no list
            obtain ⟨o6, h6, h⟩ := TRY_some_true h
            obtain ⟨hr7, ho7⟩ := onOut_true h
            have a6 : Adds w o4.out o6.out 0 :=
              hwt _ 999 { o4 with depth := o4.depth + 1 } W_TOP o6 h6
            have a7 : Adds w o6.out o'.out (((depth + 1 : Nat) : Int) * w 41) := by
              subst ho7
              exact writeList_close_adds w (depth + 1) o6.out hr7
            refine ⟨1, Nat.le_refl 1, ?_⟩
            have := Adds_trans (Adds_trans a04 a6) a7
            rw [hone depth (w 40) 0 _ (by ring) rfl] at this
            exact this
          · -- the next cell
            obtain ⟨n, hn, hrec⟩ := ih (depth + 1) _ { o4 with depth := o4.depth + 1 } o' c4 h
            refine ⟨n + 1, by omega, ?_⟩
            have := Adds_trans a04 hrec
            have e : w 40 + ((n : Int) * w 40 + ((depth + 1 + n : Nat) : Int) * w 41) =
                ((n + 1 : Nat) : Int) * w 40 + ((depth + (n + 1) : Nat) : Int) * w 41 := by
              push_cast
              ring
            rw [e] at this
            exact this
    · cases h

theorem writeList_bracket_adds (E : Env) (wt : WT) (w : Nat → Int)
    (hw : ∀ c, c ≠ 91 → c ≠ 93 → w c = 0)
    (hwt : ∀ t p o1 f o2, wt t p o1 f = some (true, o2) → Adds w o1.out o2.out 0) :
    ∀ (fuel : Nat) (l : Term) (oc o' : write_options),
      writeList_bracket E wt fuel l oc = some (true, o') → Adds w oc.out o'.out (w 93) := by
  have h32 : w 32 = 0 := hw 32 (by decide) (by decide)
  have h44 : w 44 = 0 := hw 44 (by decide) (by decide)
  have h46 : w 46 = 0 := hw 46 (by decide) (by decide)
  have h124 : w 124 = 0 := hw 124 (by decide) (by decide)
  have hcut : weight w (str "|...]") = w 93 := by
    show weight w [124, 46, 46, 46, 93] = w 93
    simp [weight, h46, h124]
  intro fuel
  induction fuel with
  | zero =>
    intro l oc o' h
    simp [writeList_bracket] at h
  | succ m ih =>
    intro l oc o' h
    unfold writeList_bracket at h
    split at h
    · rename_i f head tail hl
      obtain ⟨o1, h1, h⟩ := TRY_some_true h
      have a1 : Adds w oc.out o1.out 0 := hwt head 999 oc W_TOP o1 h1
      simp only at h
      split at h
      · obtain ⟨hr, ho⟩ := onOut_true h
        have a2 : Adds w o1.out o'.out (w 93) := by
          subst ho
          exact Putc_adds w 93 o1.out hr
        have := Adds_trans a1 a2
        rw [zero_add] at this
        exact this
      · split at h
        · obtain ⟨hr, ho⟩ := onOut_true h
          have a2 : Adds w o1.out o'.out (w 93) := by
            subst ho
            have := PutString_adds w (str "|...]") o1.out hr
            rw [hcut] at this
            exact this
          have := Adds_trans a1 a2
          rw [zero_add] at this
          exact this
        · split at h
          · obtain ⟨o3, h3, h⟩ := TRY_some_true h
            obtain ⟨o4, h4, h⟩ := TRY_some_true h
            obtain ⟨hr3, ho3⟩ := onOut_true h3
            obtain ⟨hr5, ho5⟩ := onOut_true h
            have a3 : Adds w o1.out o3.out 0 := by
              subst ho3
              have := Putc_adds w 124 o1.out hr3
              rw [h124] at this
              exact this
            have a4 : Adds w o3.out o4.out 0 := hwt _ 999 o3 W_TOP o4 h4
            have a5 : Adds w o4.out o'.out (w 93) := by
              subst ho5
              exact Putc_adds w 93 o4.out hr5
            have := Adds_trans (Adds_trans (Adds_trans a1 a3) a4) a5
            simp only [zero_add, add_zero] at this
            exact this
          · obtain ⟨o3, h3, h⟩ := TRY_some_true h
            obtain ⟨hr3, ho3⟩ := onOut_true h3
            have a3 : Adds w o1.out o3.out 0 := by
              subst ho3
              exact PutComma_adds E w h32 h44 { o1 with depth := o1.depth + 1 } hr3
            have := Adds_trans (Adds_trans a1 a3) (ih _ o3 o' h)
            simp only [zero_add] at this
            exact this
    · cases h

/-- The stream `s1` is the stream `s` with a text appended that has the
property `P`. -/
def Wrote (s s1 : IOSTREAM) (P : List Nat → Prop) : Prop :=
  ∃ txt, s1.buffer = s.buffer ++ txt ∧ P txt

theorem Adds_excess {s s1 : IOSTREAM} {a b : Nat} (hab : a ≠ b)
    (h : Wrote s s1 (fun t => t.count a = t.count b)) : Adds (excess a b) s s1 0 := by
  obtain ⟨txt, hb, hc⟩ := h
  refine ⟨txt, hb, ?_⟩
  rw [weight_excess a b hab, hc]
  omega

theorem Adds_counting {s s1 : IOSTREAM} {c : Nat}
    (h : Wrote s s1 (fun t => t.count c = 0)) : Adds (counting c) s s1 0 := by
  obtain ⟨txt, hb, hc⟩ := h
  refine ⟨txt, hb, ?_⟩
  rw [weight_counting, hc]
  rfl

theorem Wrote_mono {s s1 : IOSTREAM} {P Q : List Nat → Prop} (h : Wrote s s1 P)
    (hPQ : ∀ t, P t → Q t) : Wrote s s1 Q := by
  obtain ⟨txt, hb, hp⟩ := h
  exact ⟨txt, hb, hPQ txt hp⟩

theorem writeList_nested (E : Env) (wt : WT) (w : Nat → Int) (fuel : Nat) (list : Term)
    (o o' : write_options)
    (hm : (o.flags.PL_WRT_DOTLISTS || o.flags.PL_WRT_NO_LISTS) = true)
    (hw : ∀ c, c ≠ 40 → c ≠ 41 → w c = 0) (hF : WT.Frames wt)
    (hwt : ∀ t p o1 f o2, wt t p o1 f = some (true, o2) → Adds w o1.out o2.out 0)
    (hfun : o.flags.PL_WRT_DOTLISTS = false →
      ∀ o1 o2, atomStep E E.ATOM_dot o1 = some (true, o2) → Adds w o1.out o2.out 0)
    (h : writeList E wt fuel list o = some (true, o')) :
    ∃ n : Nat, 1 ≤ n ∧ Adds w o.out o'.out (n * w 40 + n * w 41) := by
  unfold writeList at h
  simp only [hm, Bool.not_true, Bool.false_eq_true, if_false] at h
  obtain ⟨n, hn, ha⟩ := writeList_dot_adds E wt w hw hF hwt o hfun fuel 0 list o o' rfl h
  refine ⟨n, hn, ?_⟩
  simp only [Nat.zero_add] at ha
  exact ha

theorem writeList_brackets (E : Env) (wt : WT) (w : Nat → Int) (fuel : Nat) (list : Term)
    (o o' : write_options)
    (hm : (o.flags.PL_WRT_DOTLISTS || o.flags.PL_WRT_NO_LISTS) = false)
    (hw : ∀ c, c ≠ 91 → c ≠ 93 → w c = 0)
    (hwt : ∀ t p o1 f o2, wt t p o1 f = some (true, o2) → Adds w o1.out o2.out 0)
    (h : writeList E wt fuel list o = some (true, o')) :
    Adds w o.out o'.out (w 91 + w 93) := by
  unfold writeList at h
  simp only [hm, Bool.not_false, if_true] at h
  obtain ⟨o1, h1, h⟩ := TRY_some_true h
  obtain ⟨hr, ho⟩ := onOut_true h1
  have a1 : Adds w o.out o1.out (w 91) := by
    subst ho
    exact Putc_adds w 91 o.out hr
  exact Adds_trans a1 (writeList_bracket_adds E wt w hw hwt fuel list o1 o' h)

theorem excess_zero (a b c : Nat) (ha : c ≠ a) (hb : c ≠ b) : excess a b c = 0 := by
  unfold excess
  simp [ha, hb]

theorem counting_zero (a c : Nat) (ha : c ≠ a) : counting a c = 0 := by
  unfold counting
  simp [ha]

/-- A stand-in for `writeTerm()` that writes `f(x)` in place of every term. -/
def compoundProbe : WT := fun _ _ o _ => onOut o (PutString (str "f(x)") o.out)

/-- A stand-in for `writeTerm()` that writes `x` in place of every term. -/
def atomProbe : WT := fun _ _ o _ => onOut o (PutString (str "x") o.out)

/-- C36. What `writeList()` has appended to the stream when it succeeds, for
every list term (every tail shape), every depth limit and every `writeTerm()`
that leaves the configuration alone.  In nested-call mode (`dotlists` or
`no_lists`): when every call of `writeTerm()` and, without `dotlists`, the
writing of the list functor append texts with as many `)` as `(`, so does
`writeList()`; when they append texts without parentheses, the text appended by
`writeList()` contains as many `)` as `(` and at least one, all of them its
own.  In bracket mode: when every call of `writeTerm()` appends a text with as
many `]` as `[`, so does `writeList()`; when they append texts without
brackets, the text appended by `writeList()` contains exactly one `[` and
exactly one `]`.  This holds whether the spine ends in the empty list, in
another term, or is cut by the depth limit.  With the writer itself:
`.(1,.(2,.(3,[])))` and, cut by `max_depth = 3`, `.(1,.(2,...))`;
`[|](1,[|](2,x))`; `[[1],2|...]`. -/
theorem list_brackets_balanced :
    (∀ (E : Env) (wt : WT) (fuel : Nat) (list : Term) (o o' : write_options),
      (o.flags.PL_WRT_DOTLISTS || o.flags.PL_WRT_NO_LISTS) = true → WT.Frames wt →
      (∀ t p o1 f o2, wt t p o1 f = some (true, o2) →
        Wrote o1.out o2.out (fun txt => txt.count 40 = txt.count 41)) →
      (o.flags.PL_WRT_DOTLISTS = false →
        ∀ o1 o2, atomStep E E.ATOM_dot o1 = some (true, o2) →
          Wrote o1.out o2.out (fun txt => txt.count 40 = txt.count 41)) →
      writeList E wt fuel list o = some (true, o') →
      Wrote o.out o'.out (fun txt => txt.count 40 = txt.count 41)) ∧
    (∀ (E : Env) (wt : WT) (fuel : Nat) (list : Term) (o o' : write_options),
      (o.flags.PL_WRT_DOTLISTS || o.flags.PL_WRT_NO_LISTS) = true → WT.Frames wt →
      (∀ t p o1 f o2, wt t p o1 f = some (true, o2) →
        Wrote o1.out o2.out (fun txt => txt.count 40 = 0 ∧ txt.count 41 = 0)) →
      (o.flags.PL_WRT_DOTLISTS = false →
        ∀ o1 o2, atomStep E E.ATOM_dot o1 = some (true, o2) →
          Wrote o1.out o2.out (fun txt => txt.count 40 = 0 ∧ txt.count 41 = 0)) →
      writeList E wt fuel list o = some (true, o') →
      Wrote o.out o'.out (fun txt => txt.count 40 = txt.count 41 ∧ 1 ≤ txt.count 40)) ∧
    (∀ (E : Env) (wt : WT) (fuel : Nat) (list : Term) (o o' : write_options),
      (o.flags.PL_WRT_DOTLISTS || o.flags.PL_WRT_NO_LISTS) = false →
      (∀ t p o1 f o2, wt t p o1 f = some (true, o2) →
        Wrote o1.out o2.out (fun txt => txt.count 91 = txt.count 93)) →
      writeList E wt fuel list o = some (true, o') →
      Wrote o.out o'.out (fun txt => txt.count 91 = txt.count 93)) ∧
    (∀ (E : Env) (wt : WT) (fuel : Nat) (list : Term) (o o' : write_options),
      (o.flags.PL_WRT_DOTLISTS || o.flags.PL_WRT_NO_LISTS) = false →
      (∀ t p o1 f o2, wt t p o1 f = some (true, o2) →
        Wrote o1.out o2.out (fun txt => txt.count 91 = 0 ∧ txt.count 93 = 0)) →
      writeList E wt fuel list o = some (true, o') →
      Wrote o.out o'.out (fun txt => txt.count 91 = 1 ∧ txt.count 93 = 1)) ∧
    written (writeTerm defaultEnv 6
      (mkList defaultEnv [.integer 1, .integer 2, .integer 3] (.atom defaultEnv.ATOM_nil))
      1200 (defaultOptions { PL_WRT_DOTLISTS := true }) W_TOP) =
        some (true, str ".(1,.(2,.(3,[])))") ∧
    written (writeTerm defaultEnv 6
      (mkList defaultEnv [.integer 1, .integer 2, .integer 3] (.atom defaultEnv.ATOM_nil))
      1200 { defaultOptions { PL_WRT_DOTLISTS := true } with max_depth := 3 } W_TOP) =
        some (true, str ".(1,.(2,...))") ∧
    written (writeTerm defaultEnv 6
      (mkList defaultEnv [.integer 1, .integer 2] (atomTerm "x"))
      1200 (defaultOptions { PL_WRT_NO_LISTS := true }) W_TOP) =
        some (true, str "[|](1,[|](2,x))") ∧
    written (writeTerm defaultEnv 6
      (mkList defaultEnv
        [mkList defaultEnv [.integer 1] (.atom defaultEnv.ATOM_nil), .integer 2, .integer 3]
        (.atom defaultEnv.ATOM_nil))
      1200 { defaultOptions {} with max_depth := 3 } W_TOP) =
        some (true, str "[[1],2|...]") := by
  refine ⟨?_, ?_, ?_, ?_, by decide!, by decide!, by decide!, by decide!⟩
  · intro E wt fuel list o o' hm hF hwt hfun h
    obtain ⟨n, _, txt, hb, hv⟩ := writeList_nested E wt (excess 40 41) fuel list o o' hm
      (fun c h1 h2 => excess_zero 40 41 c h1 h2) hF
      (fun t p o1 f o2 hx => Adds_excess (by decide) (hwt t p o1 f o2 hx))
      (fun hd o1 o2 hx => Adds_excess (by decide) (hfun hd o1 o2 hx)) h
    refine ⟨txt, hb, ?_⟩
    rw [weight_excess 40 41 (by decide)] at hv
    have e : excess 40 41 40 = 1 := by decide
    have e2 : excess 40 41 41 = -1 := by decide
    rw [e, e2] at hv
    omega
  · intro E wt fuel list o o' hm hF hwt hfun h
    obtain ⟨n, hn, txt, hb, hv⟩ := writeList_nested E wt (counting 40) fuel list o o' hm
      (fun c h1 _ => counting_zero 40 c h1) hF
      (fun t p o1 f o2 hx => Adds_counting (Wrote_mono (hwt t p o1 f o2 hx) (fun _ hp => hp.1)))
      (fun hd o1 o2 hx => Adds_counting (Wrote_mono (hfun hd o1 o2 hx) (fun _ hp => hp.1))) h
    obtain ⟨n2, _, txt2, hb2, hv2⟩ := writeList_nested E wt (counting 41) fuel list o o' hm
      (fun c _ h2 => counting_zero 41 c h2) hF
      (fun t p o1 f o2 hx => Adds_counting (Wrote_mono (hwt t p o1 f o2 hx) (fun _ hp => hp.2)))
      (fun hd o1 o2 hx => Adds_counting (Wrote_mono (hfun hd o1 o2 hx) (fun _ hp => hp.2))) h
    obtain ⟨n3, _, txt3, hb3, hv3⟩ := writeList_nested E wt (excess 40 41) fuel list o o' hm
      (fun c h1 h2 => excess_zero 40 41 c h1 h2) hF
      (fun t p o1 f o2 hx => Adds_excess (by decide)
        (Wrote_mono (hwt t p o1 f o2 hx) (fun _ hp => by rw [hp.1, hp.2])))
      (fun hd o1 o2 hx => Adds_excess (by decide)
        (Wrote_mono (hfun hd o1 o2 hx) (fun _ hp => by rw [hp.1, hp.2]))) h
    have ht3 : txt3 = txt := List.append_cancel_left (hb3.symm.trans hb)
    subst ht3
    refine ⟨txt3, hb, ?_⟩
    rw [weight_counting] at hv
    rw [weight_excess 40 41 (by decide)] at hv3
    have e1 : counting 40 40 = 1 := by decide
    have e2 : counting 40 41 = 0 := by decide
    have e3 : excess 40 41 40 = 1 := by decide
    have e4 : excess 40 41 41 = -1 := by decide
    rw [e1, e2] at hv
    rw [e3, e4] at hv3
    constructor
    · omega
    · have : (txt3.count 40 : Int) = n := by rw [hv]; ring
      omega
  · intro E wt fuel list o o' hm hwt h
    obtain ⟨txt, hb, hv⟩ := writeList_brackets E wt (excess 91 93) fuel list o o' hm
      (fun c h1 h2 => excess_zero 91 93 c h1 h2)
      (fun t p o1 f o2 hx => Adds_excess (by decide) (hwt t p o1 f o2 hx)) h
    refine ⟨txt, hb, ?_⟩
    rw [weight_excess 91 93 (by decide)] at hv
    have e : excess 91 93 91 = 1 := by decide
    have e2 : excess 91 93 93 = -1 := by decide
    rw [e, e2] at hv
    omega
  · intro E wt fuel list o o' hm hwt h
    obtain ⟨txt, hb, hv⟩ := writeList_brackets E wt (counting 91) fuel list o o' hm
      (fun c h1 _ => counting_zero 91 c h1)
      (fun t p o1 f o2 hx => Adds_counting (Wrote_mono (hwt t p o1 f o2 hx) (fun _ hp => hp.1)))
      h
    obtain ⟨txt2, hb2, hv2⟩ := writeList_brackets E wt (counting 93) fuel list o o' hm
      (fun c _ h2 => counting_zero 93 c h2)
      (fun t p o1 f o2 hx => Adds_counting (Wrote_mono (hwt t p o1 f o2 hx) (fun _ hp => hp.2)))
      h
    have ht : txt2 = txt := List.append_cancel_left (hb2.symm.trans hb)
    subst ht
    refine ⟨txt2, hb, ?_⟩
    rw [weight_counting] at hv hv2
    have e1 : counting 91 91 = 1 := by decide
    have e2 : counting 91 93 = 0 := by decide
    have e3 : counting 93 91 = 0 := by decide
    have e4 : counting 93 93 = 1 := by decide
    rw [e1, e2] at hv
    rw [e3, e4] at hv2
    constructor <;> omega

theorem compoundProbe_wrote (t : Term) (p : Int) (o1 : write_options) (f : Nat)
    (o2 : write_options) (h : compoundProbe t p o1 f = some (true, o2)) :
    Wrote o1.out o2.out
      (fun txt => txt.count 40 = txt.count 41 ∧ txt.count 91 = 0 ∧ txt.count 93 = 0) := by
  obtain ⟨hr, ho⟩ := onOut_true h
  subst ho
  exact ⟨str "f(x)", PutString_buffer _ _ hr, by decide⟩

theorem atomProbe_wrote (t : Term) (p : Int) (o1 : write_options) (f : Nat)
    (o2 : write_options) (h : atomProbe t p o1 f = some (true, o2)) :
    Wrote o1.out o2.out
      (fun txt => txt.count 40 = 0 ∧ txt.count 41 = 0 ∧ txt.count 91 = 0 ∧ txt.count 93 = 0) := by
  obtain ⟨hr, ho⟩ := onOut_true h
  subst ho
  exact ⟨str "x", PutString_buffer _ _ hr, by decide⟩

/-- C36 with stand-ins for `writeTerm()`: the list `[1,2]` in `dotlists` mode
with elements written as `f(x)`; the list `[1,2|t]` cut by `max_depth = 1` in
`dotlists` mode and in bracket mode with elements written as `x`; the list
`[1,2]` in bracket mode with elements written as `f(x)`. -/
theorem list_brackets_balanced_witness :
    (∃ x, writeList defaultEnv compoundProbe 5
        (mkList defaultEnv [.integer 1, .integer 2] (.atom defaultEnv.ATOM_nil))
        (defaultOptions { PL_WRT_DOTLISTS := true }) = some (true, x) ∧
      x.out.buffer = str ".(f(x),.(f(x),[]))" ∧
      Wrote (defaultOptions { PL_WRT_DOTLISTS := true }).out x.out
        (fun txt => txt.count 40 = txt.count 41)) ∧
    (∃ x, writeList defaultEnv atomProbe 5
        (mkList defaultEnv [.integer 1, .integer 2] (atomTerm "t"))
        { defaultOptions { PL_WRT_DOTLISTS := true } with max_depth := 1 } = some (true, x) ∧
      x.out.buffer = str ".(x,...)" ∧
      Wrote ({ defaultOptions { PL_WRT_DOTLISTS := true } with max_depth := 1 } :
          write_options).out x.out
        (fun txt => txt.count 40 = txt.count 41 ∧ 1 ≤ txt.count 40)) ∧
    (∃ x, writeList defaultEnv compoundProbe 5
        (mkList defaultEnv [.integer 1, .integer 2] (.atom defaultEnv.ATOM_nil))
        (defaultOptions {}) = some (true, x) ∧
      x.out.buffer = str "[f(x),f(x)]" ∧
      Wrote (defaultOptions {}).out x.out (fun txt => txt.count 91 = txt.count 93)) ∧
    (∃ x, writeList defaultEnv atomProbe 5
        (mkList defaultEnv [.integer 1, .integer 2] (atomTerm "t"))
        { defaultOptions {} with max_depth := 1 } = some (true, x) ∧
      x.out.buffer = str "[x|...]" ∧
      Wrote ({ defaultOptions {} with max_depth := 1 } : write_options).out x.out
        (fun txt => txt.count 91 = 1 ∧ txt.count 93 = 1)) := by
  have hF1 : WT.Frames compoundProbe := fun t p o f => Frames_onOut o _
  have hF2 : WT.Frames atomProbe := fun t p o f => Frames_onOut o _
  refine ⟨?_, ?_, ?_, ?_⟩
  · have hv : written (writeList defaultEnv compoundProbe 5
        (mkList defaultEnv [.integer 1, .integer 2] (.atom defaultEnv.ATOM_nil))
        (defaultOptions { PL_WRT_DOTLISTS := true })) =
        some (true, str ".(f(x),.(f(x),[]))") := by decide!
    rcases hq : writeList defaultEnv compoundProbe 5
        (mkList defaultEnv [.integer 1, .integer 2] (.atom defaultEnv.ATOM_nil))
        (defaultOptions { PL_WRT_DOTLISTS := true }) with _ | ⟨b, x⟩
    · rw [hq] at hv
      cases hv
    · rw [hq] at hv
      simp only [written, Option.some.injEq, Prod.mk.injEq] at hv
      obtain ⟨rfl, hb⟩ := hv
      exact ⟨x, rfl, hb, list_brackets_balanced.1 defaultEnv compoundProbe 5 _
        (defaultOptions { PL_WRT_DOTLISTS := true }) x (by decide) hF1
        (fun t p o1 f o2 hx => Wrote_mono (compoundProbe_wrote t p o1 f o2 hx)
          (fun _ hp => hp.1))
        (fun hd => absurd hd (by decide)) hq⟩
  · have hv : written (writeList defaultEnv atomProbe 5
        (mkList defaultEnv [.integer 1, .integer 2] (atomTerm "t"))
        { defaultOptions { PL_WRT_DOTLISTS := true } with max_depth := 1 }) =
        some (true, str ".(x,...)") := by decide!
    rcases hq : writeList defaultEnv atomProbe 5
        (mkList defaultEnv [.integer 1, .integer 2] (atomTerm "t"))
        { defaultOptions { PL_WRT_DOTLISTS := true } with max_depth := 1 } with _ | ⟨b, x⟩
    · rw [hq] at hv
      cases hv
    · rw [hq] at hv
      simp only [written, Option.some.injEq, Prod.mk.injEq] at hv
      obtain ⟨rfl, hb⟩ := hv
      exact ⟨x, rfl, hb, list_brackets_balanced.2.1 defaultEnv atomProbe 5 _
        { defaultOptions { PL_WRT_DOTLISTS := true } with max_depth := 1 } x (by decide) hF2
        (fun t p o1 f o2 hx => Wrote_mono (atomProbe_wrote t p o1 f o2 hx)
          (fun _ hp => ⟨hp.1, hp.2.1⟩))
        (fun hd => absurd hd (by decide)) hq⟩
  · have hv : written (writeList defaultEnv compoundProbe 5
        (mkList defaultEnv [.integer 1, .integer 2] (.atom defaultEnv.ATOM_nil))
        (defaultOptions {})) = some (true, str "[f(x),f(x)]") := by decide!
    rcases hq : writeList defaultEnv compoundProbe 5
        (mkList defaultEnv [.integer 1, .integer 2] (.atom defaultEnv.ATOM_nil))
        (defaultOptions {}) with _ | ⟨b, x⟩
    · rw [hq] at hv
      cases hv
    · rw [hq] at hv
      simp only [written, Option.some.injEq, Prod.mk.injEq] at hv
      obtain ⟨rfl, hb⟩ := hv
      exact ⟨x, rfl, hb, list_brackets_balanced.2.2.1 defaultEnv compoundProbe 5 _
        (defaultOptions {}) x (by decide)
        (fun t p o1 f o2 hx => Wrote_mono (compoundProbe_wrote t p o1 f o2 hx)
          (fun _ hp => by rw [hp.2.1, hp.2.2])) hq⟩
  · have hv : written (writeList defaultEnv atomProbe 5
        (mkList defaultEnv [.integer 1, .integer 2] (atomTerm "t"))
        { defaultOptions {} with max_depth := 1 }) = some (true, str "[x|...]") := by decide!
    rcases hq : writeList defaultEnv atomProbe 5
        (mkList defaultEnv [.integer 1, .integer 2] (atomTerm "t"))
        { defaultOptions {} with max_depth := 1 } with _ | ⟨b, x⟩
    · rw [hq] at hv
      cases hv
    · rw [hq] at hv
      simp only [written, Option.some.injEq, Prod.mk.injEq] at hv
      obtain ⟨rfl, hb⟩ := hv
      exact ⟨x, rfl, hb, list_brackets_balanced.2.2.2.1 defaultEnv atomProbe 5 _
        { defaultOptions {} with max_depth := 1 } x (by decide)
        (fun t p o1 f o2 hx => Wrote_mono (atomProbe_wrote t p o1 f o2 hx)
          (fun _ hp => ⟨hp.2.2.1, hp.2.2.2⟩)) hq⟩

/-! ## The value of a float text -/

/-- A decimal digit character. -/
def isDecimal (c : Nat) : Bool := decide (48 ≤ c) && decide (c ≤ 57)

/-- The integer an exponent text denotes: an optional `+` or `-` followed by one
or more decimal digits. -/
def exponentValue (t : List Nat) : Option Int :=
  match t with
  | 43 :: r => if r ≠ [] ∧ r.all isDecimal then some (decVal r : Int) else none
  | 45 :: r => if r ≠ [] ∧ r.all isDecimal then some (-(decVal r : Int)) else none
  | r => if r ≠ [] ∧ r.all isDecimal then some (decVal r : Int) else none

/-- The number a float text denotes.  The text is an optional `-`, one or more
digits, a `.`, one or more digits and, optionally, `e` with an exponent; it
denotes the decimal fraction times ten to the power of the exponent, negated
after `-`.  Any other text denotes nothing. -/
def floatValue (t : List Nat) : Option ℚ :=
  let neg : Bool := t.head? = some 45
  let t1 := if neg then t.tail else t
  let ip := t1.takeWhile isDecimal
  match t1.dropWhile isDecimal with
  | 46 :: t3 =>
    let fp := t3.takeWhile isDecimal
    if ip = [] ∨ fp = [] then none
    else
      let m : ℚ := (decVal ip : ℚ) + (decVal fp : ℚ) / 10 ^ fp.length
      let e : Option Int :=
        match t3.dropWhile isDecimal with
        | [] => some 0
        | 101 :: r => exponentValue r
        | _ => none
      e.map (fun e => (if neg then -1 else 1) * m * (10 : ℚ) ^ e)
  | _ => none

theorem decimalDigits_all {s : List Nat} (h : decimalDigits s) : ∀ d ∈ s, isDecimal d = true := by
  intro d hd
  have := h d hd
  simp [isDecimal, this.1, this.2]

theorem takeWhile_digits (a : List Nat) (b : List Nat) (ha : decimalDigits a)
    (hb : b.head?.all (fun c => !isDecimal c) = true) :
    (a ++ b).takeWhile isDecimal = a ∧ (a ++ b).dropWhile isDecimal = b := by
  have hall := decimalDigits_all ha
  induction a with
  | nil =>
    cases b with
    | nil => simp
    | cons c r =>
      simp only [List.head?_cons, Option.all_some, Bool.not_eq_eq_eq_not, Bool.not_true] at hb
      simp [List.takeWhile, List.dropWhile, hb]
  | cons x xs ih =>
    have hx : isDecimal x = true := hall x (List.mem_cons_self _ _)
    have h2 := ih (fun d hd => ha d (List.mem_cons_of_mem _ hd))
      (fun d hd => hall d (List.mem_cons_of_mem _ hd))
    rw [List.cons_append, List.takeWhile_cons_of_pos hx, List.dropWhile_cons_of_pos hx, h2.1]
    exact ⟨rfl, h2.2⟩

theorem decVal_foldl (b : List Nat) : ∀ x : Nat,
    b.foldl (fun a d => a * 10 + (d - 48)) x = x * 10 ^ b.length + decVal b := by
  induction b with
  | nil => intro x; simp [decVal]
  | cons c r ih =>
    intro x
    unfold decVal
    simp only [List.foldl_cons, List.length_cons]
    rw [ih, ih (0 * 10 + (c - 48))]
    ring

theorem decVal_append_list (a b : List Nat) :
    decVal (a ++ b) = decVal a * 10 ^ b.length + decVal b := by
  conv_lhs => unfold decVal
  rw [List.foldl_append, decVal_foldl]
  rfl

theorem decVal_zeros (n : Nat) : decVal (List.replicate n 48) = 0 := by
  induction n with
  | zero => rfl
  | succ k ih =>
    rw [List.replicate_succ]
    have : (48 :: List.replicate k 48) = [48] ++ List.replicate k 48 := rfl
    rw [this, decVal_append_list, ih]
    simp [decVal]

theorem exponentValue_sprintf_d (i : Int) : exponentValue (sprintf_d i) = some i := by
  have hu := sprintf_u_spec i.natAbs
  have hall : (sprintf_u i.natAbs).all isDecimal = true := by
    rw [List.all_eq_true]
    exact decimalDigits_all hu.2.1
  have hne : sprintf_u i.natAbs ≠ [] := by
    intro h; rw [h] at hu; simp at hu
  unfold sprintf_d
  by_cases hi : i < 0
  · simp only [hi, if_true]
    unfold exponentValue
    simp only [hne, ne_eq, not_false_eq_true, hall, and_self, if_true, hu.1]
    congr 1
    omega
  · simp only [hi, if_false]
    obtain ⟨c, r, hc⟩ : ∃ c r, sprintf_u i.natAbs = c :: r := by
      cases h : sprintf_u i.natAbs with
      | nil => exact absurd h hne
      | cons c r => exact ⟨c, r, rfl⟩
    have hcd := hu.2.1 c (by rw [hc]; exact List.mem_cons_self _ _)
    have h43 : c ≠ 43 := by omega
    have h45 : c ≠ 45 := by omega
    have hv : decVal (c :: r) = i.natAbs := by rw [← hc]; exact hu.1
    have hall2 : (c :: r).all isDecimal = true := by rw [← hc]; exact hall
    rw [hc]
    unfold exponentValue
    split
    · rename_i r2 heq
      simp only [List.cons.injEq] at heq
      exact absurd heq.1 h43
    · rename_i r2 heq
      simp only [List.cons.injEq] at heq
      exact absurd heq.1 h45
    · simp only [ne_eq, reduceCtorEq, not_false_eq_true, hall2, and_self, if_true, hv]
      congr 1
      omega

theorem exponentValue_plus (i : Int) (hi : 0 ≤ i) :
    exponentValue (43 :: sprintf_d i) = some i := by
  have hu := sprintf_u_spec i.natAbs
  have hall : (sprintf_u i.natAbs).all isDecimal = true := by
    rw [List.all_eq_true]
    exact decimalDigits_all hu.2.1
  have hne : sprintf_u i.natAbs ≠ [] := by
    intro h; rw [h] at hu; simp at hu
  have hn : ¬ i < 0 := by omega
  unfold sprintf_d exponentValue
  simp only [hn, if_false, hne, ne_eq, not_false_eq_true, hall, and_self, if_true, hu.1]
  congr 1
  omega

theorem floatValue_form (sign : Bool) (ip fp t4 : List Nat)
    (hip : decimalDigits ip) (hfp : decimalDigits fp) (hi : ip ≠ []) (hf : fp ≠ [])
    (h4 : t4.head?.all (fun c => !isDecimal c) = true) :
    floatValue (signText sign ++ (ip ++ 46 :: (fp ++ t4))) =
      (match t4 with
        | [] => some 0
        | 101 :: r => exponentValue r
        | _ => none).map
        (fun e => (if sign then -1 else 1) *
          ((decVal ip : ℚ) + (decVal fp : ℚ) / 10 ^ fp.length) * (10 : ℚ) ^ e) := by
  obtain ⟨c, r, hc⟩ : ∃ c r, ip = c :: r := by
    cases ip with
    | nil => exact absurd rfl hi
    | cons c r => exact ⟨c, r, rfl⟩
  have hcd := hip c (by rw [hc]; exact List.mem_cons_self _ _)
  have h1 := takeWhile_digits ip (46 :: (fp ++ t4)) hip (by simp [isDecimal])
  have h2 := takeWhile_digits fp t4 hfp h4
  have key : ∀ t1 : List Nat, t1 = ip ++ 46 :: (fp ++ t4) →
      (match t1.dropWhile isDecimal with
        | 46 :: t3 =>
          if t1.takeWhile isDecimal = [] ∨ t3.takeWhile isDecimal = [] then none
          else
            (match t3.dropWhile isDecimal with
              | [] => some 0
              | 101 :: r => exponentValue r
              | _ => none).map (fun e => (if sign then -1 else 1) *
                ((decVal (t1.takeWhile isDecimal) : ℚ) +
                  (decVal (t3.takeWhile isDecimal) : ℚ) / 10 ^ (t3.takeWhile isDecimal).length) *
                (10 : ℚ) ^ e)
        | _ => none) =
      (match t4 with
        | [] => some 0
        | 101 :: r => exponentValue r
        | _ => none).map
        (fun e => (if sign then -1 else 1) *
          ((decVal ip : ℚ) + (decVal fp : ℚ) / 10 ^ fp.length) * (10 : ℚ) ^ e) := by
    intro t1 ht
    rw [ht, h1.2]
    simp only [h1.1, h2.1, h2.2, hi, hf, or_self, if_false]
  cases sign with
  | true =>
    have : floatValue (signText true ++ (ip ++ 46 :: (fp ++ t4))) = _ :=
      key (ip ++ 46 :: (fp ++ t4)) rfl
    exact this
  | false =>
    have hneg : (signText false ++ (ip ++ 46 :: (fp ++ t4))).head? ≠ some 45 := by
      rw [hc]
      simp only [signText, Bool.false_eq_true, if_false, List.nil_append, List.cons_append,
        List.head?_cons, ne_eq, Option.some.injEq]
      omega
    unfold floatValue
    simp only [hneg, decide_False, Bool.false_eq_true, if_false]
    exact key _ rfl

/-- The number `(-1)^sign * 0.D * 10^decpt` that the digit generator delivers as
the digits `D`, the position `decpt` of the decimal point and the sign. -/
def dtoaValue (s : List Nat) (decpt : Int) (sign : Bool) : ℚ :=
  (if sign then -1 else 1) * ((decVal s : ℚ) / 10 ^ s.length) * (10 : ℚ) ^ decpt

theorem decimalDigits_cons {c : Nat} {r : List Nat} (h : decimalDigits (c :: r)) :
    decimalDigits [c] ∧ decimalDigits r := by
  constructor
  · intro d hd
    simp only [List.mem_singleton] at hd
    rw [hd]
    exact h c (List.mem_cons_self _ _)
  · intro d hd
    exact h d (List.mem_cons_of_mem _ hd)

theorem floatValue_scientific (sign : Bool) (c : Nat) (r et : List Nat) (decpt : Int)
    (hs : decimalDigits (c :: r)) (he : exponentValue et = some (decpt - 1)) :
    floatValue (signText sign ++ ([c] ++ 46 :: ((if r ≠ [] then r else [48]) ++ 101 :: et))) =
      some (dtoaValue (c :: r) decpt sign) := by
  obtain ⟨hc, hr⟩ := decimalDigits_cons hs
  have hfrac : decimalDigits (if r ≠ [] then r else [48]) := by
    split
    · exact hr
    · intro d hd
      simp only [List.mem_singleton] at hd
      omega
  have hfne : (if r ≠ [] then r else [48]) ≠ [] := by
    split
    · assumption
    · simp
  rw [floatValue_form sign [c] _ (101 :: et) hc hfrac (by simp) hfne (by simp [isDecimal])]
  simp only [he, Option.map]
  congr 1
  unfold dtoaValue
  have hv : decVal (c :: r) = decVal [c] * 10 ^ r.length + decVal r :=
    decVal_append_list [c] r
  have hx : (10 : ℚ) ^ (decpt - 1) = (10 : ℚ) ^ decpt / 10 := by
    rw [zpow_sub_one₀ (by norm_num : (10 : ℚ) ≠ 0)]
    rfl
  rw [hv, hx]
  generalize (if sign = true then (-1 : ℚ) else 1) = sg
  by_cases hrn : r = []
  · subst hrn
    simp only [ne_eq, not_true_eq_false, if_false, List.length_cons, List.length_nil]
    have : decVal [48] = 0 := by decide
    have h0 : decVal ([] : List Nat) = 0 := by decide
    rw [this, h0]
    push_cast
    ring
  · simp only [ne_eq, hrn, not_false_eq_true, if_true, List.length_cons]
    push_cast
    have h10 : (10 : ℚ) ^ r.length ≠ 0 := pow_ne_zero _ (by norm_num)
    rw [pow_succ]
    field_simp

theorem floatValue_leading_zeros (sign : Bool) (s : List Nat) (k : Nat)
    (hs : decimalDigits s) (hne : s ≠ []) :
    floatValue (signText sign ++ ([48] ++ 46 :: ((List.replicate k 48 ++ s) ++ []))) =
      some (dtoaValue s (-(k : Int)) sign) := by
  have hz : decimalDigits (List.replicate k 48 ++ s) := by
    intro d hd
    rcases List.mem_append.1 hd with h | h
    · have := List.eq_of_mem_replicate h
      omega
    · exact hs d h
  rw [floatValue_form sign [48] _ [] (by intro d hd; simp at hd; omega) hz (by simp)
    (by simp [hne]) (by simp)]
  simp only [Option.map]
  congr 1
  unfold dtoaValue
  rw [decVal_append_list, decVal_zeros]
  have : decVal [48] = 0 := by decide
  rw [this]
  generalize (if sign = true then (-1 : ℚ) else 1) = sg
  simp only [List.length_append, List.length_replicate, zpow_zero, zpow_neg, zpow_natCast]
  push_cast
  have h1 : (10 : ℚ) ^ k ≠ 0 := pow_ne_zero _ (by norm_num)
  have h2 : (10 : ℚ) ^ s.length ≠ 0 := pow_ne_zero _ (by norm_num)
  rw [pow_add, mul_comm ((10 : ℚ) ^ k)]
  field_simp

theorem floatValue_point_inside (sign : Bool) (s : List Nat) (d : Nat)
    (hs : decimalDigits s) (h0 : 0 < d) (hd : d < s.length) :
    floatValue (signText sign ++ (s.take d ++ 46 :: (s.drop d ++ []))) =
      some (dtoaValue s (d : Int) sign) := by
  have ht : decimalDigits (s.take d) := fun x hx => hs x (List.mem_of_mem_take hx)
  have hdr : decimalDigits (s.drop d) := fun x hx => hs x (List.mem_of_mem_drop hx)
  have htn : s.take d ≠ [] := by
    intro h
    have := congrArg List.length h
    simp only [List.length_take, List.length_nil] at this
    omega
  have hdn : s.drop d ≠ [] := by
    intro h
    have := congrArg List.length h
    simp only [List.length_drop, List.length_nil] at this
    omega
  rw [floatValue_form sign _ _ [] ht hdr htn hdn (by simp)]
  simp only [Option.map]
  congr 1
  unfold dtoaValue
  have hv : decVal s = decVal (s.take d) * 10 ^ (s.drop d).length + decVal (s.drop d) := by
    rw [← decVal_append_list, List.take_append_drop]
  have hl : s.length = d + (s.drop d).length := by
    simp only [List.length_drop]
    omega
  rw [hv, hl]
  generalize (if sign = true then (-1 : ℚ) else 1) = sg
  simp only [zpow_zero, zpow_natCast]
  push_cast
  have h1 : (10 : ℚ) ^ d ≠ 0 := pow_ne_zero _ (by norm_num)
  have h2 : (10 : ℚ) ^ (s.drop d).length ≠ 0 := pow_ne_zero _ (by norm_num)
  rw [pow_add]
  field_simp
  ring

theorem floatValue_trailing_zeros (sign : Bool) (s : List Nat) (z : Nat)
    (hs : decimalDigits s) (hne : s ≠ []) :
    floatValue (signText sign ++ ((s ++ List.replicate z 48) ++ 46 :: ([48] ++ []))) =
      some (dtoaValue s ((s.length + z : Nat) : Int) sign) := by
  have hz : decimalDigits (s ++ List.replicate z 48) := by
    intro d hd
    rcases List.mem_append.1 hd with h | h
    · exact hs d h
    · have := List.eq_of_mem_replicate h
      omega
  rw [floatValue_form sign _ [48] [] hz (by intro d hd; simp at hd; omega) (by simp [hne])
    (by simp) (by simp)]
  simp only [Option.map]
  congr 1
  unfold dtoaValue
  rw [decVal_append_list, decVal_zeros]
  have : decVal [48] = 0 := by decide
  rw [this]
  generalize (if sign = true then (-1 : ℚ) else 1) = sg
  simp only [List.length_replicate, zpow_zero, zpow_natCast]
  push_cast
  have h2 : (10 : ℚ) ^ s.length ≠ 0 := pow_ne_zero _ (by norm_num)
  rw [pow_add]
  field_simp
  ring

theorem dotted_form (sign : Bool) (ip fp t4 : List Nat)
    (hip : decimalDigits ip) (hfp : decimalDigits fp) (hi : ip ≠ []) (hf : fp ≠ []) :
    ∃ pre d1 d2 post, signText sign ++ (ip ++ 46 :: (fp ++ t4)) = pre ++ d1 :: 46 :: d2 :: post ∧
      isDecimal d1 = true ∧ isDecimal d2 = true := by
  obtain ⟨d2, fr, hfr⟩ : ∃ d2 fr, fp = d2 :: fr := by
    cases fp with
    | nil => exact absurd rfl hf
    | cons a b => exact ⟨a, b, rfl⟩
  refine ⟨signText sign ++ ip.dropLast, ip.getLast hi, d2, fr ++ t4, ?_, ?_, ?_⟩
  · conv_lhs => rw [← List.dropLast_append_getLast hi, hfr]
    simp
  · exact decimalDigits_all hip _ (List.getLast_mem hi)
  · exact decimalDigits_all hfp _ (by rw [hfr]; exact List.mem_cons_self _ _)

theorem layout_scientific_small (c : Nat) (r : List Nat) (decpt : Int) (sign : Bool)
    (h : decpt ≤ -4) :
    format_float_layout (c :: r) decpt sign =
      signText sign ++ ([c] ++ 46 :: ((if r ≠ [] then r else [48]) ++
        101 :: sprintf_d (decpt - 1))) := by
  have h0 : decpt ≤ 0 := by omega
  cases r with
  | nil => simp [format_float_layout, signText, h0, h]
  | cons a b =>
    have h2 : ((c :: a :: b).length : Int) > 1 := by
      simp only [List.length_cons]; omega
    unfold format_float_layout signText
    simp only [h0, h, h2, if_true]
    simp

theorem layout_scientific_large (c : Nat) (r : List Nat) (decpt : Int) (sign : Bool)
    (h : decpt > 15) (hlen : ((c :: r).length : Int) ≤ decpt) :
    format_float_layout (c :: r) decpt sign =
      signText sign ++ ([c] ++ 46 :: ((if r ≠ [] then r else [48]) ++
        101 :: 43 :: sprintf_d (decpt - 1))) := by
  have h0 : ¬decpt ≤ 0 := by omega
  have h1 : ¬(((c :: r).length : Int) > decpt) := by omega
  cases r with
  | nil =>
    unfold format_float_layout signText
    simp only [h0, h1, h, if_true, if_false]
    simp
  | cons a b =>
    have h2 : ((c :: a :: b).length : Int) > 1 := by
      simp only [List.length_cons]; omega
    have h3 : decpt - ((c :: a :: b).length : Int) + (((c :: a :: b).length : Int) - 1) =
        decpt - 1 := by omega
    unfold format_float_layout signText
    simp only [h0, h1, h, h2, if_true, if_false, h3]
    simp

theorem layout_leading_zeros (s : List Nat) (decpt : Int) (sign : Bool)
    (h0 : decpt ≤ 0) (h : ¬decpt ≤ -4) :
    format_float_layout s decpt sign =
      signText sign ++ ([48] ++ 46 :: ((List.replicate (-decpt).toNat 48 ++ s) ++ [])) := by
  unfold format_float_layout signText
  simp [h0, h]

theorem layout_point_inside (s : List Nat) (decpt : Int) (sign : Bool)
    (h0 : ¬decpt ≤ 0) (h : (s.length : Int) > decpt) :
    format_float_layout s decpt sign =
      signText sign ++ (s.take decpt.toNat ++ 46 :: (s.drop decpt.toNat ++ [])) := by
  unfold format_float_layout signText
  simp [h0, h]

theorem layout_trailing_zeros (s : List Nat) (decpt : Int) (sign : Bool)
    (h0 : ¬decpt ≤ 0) (h : ¬(s.length : Int) > decpt) (h15 : ¬decpt > 15) :
    format_float_layout s decpt sign =
      signText sign ++ ((s ++ List.replicate (decpt - s.length).toNat 48) ++
        46 :: ([48] ++ [])) := by
  unfold format_float_layout signText
  simp [h0, h, h15]

/-- C32. The layout of `format_float()` keeps the value.  For a finite double
for which the digit generator delivers the non-empty digit string `D`, the
position `decpt` and the sign, the text of `format_float()` denotes
`(-1)^sign * 0.D * 10^decpt`, whichever of the five layouts is taken; the text
holds a `.` with a digit right before it and a digit right after it; and in the
two scientific layouts (`decpt <= -4`, and `decpt > 15` with no more than `decpt`
digits) the text is the sign, the first digit, `.`, the other digits (`0` when
there is none) and `e`, respectively `e+`, with the decimal text of
`decpt - 1`. -/
theorem format_float_value (E : Env) (f : Nat) (s : List Nat) (decpt : Int) (sign : Bool)
    (hf : ieee_exponent f ≠ 0x7ff) (hd : E.dtoa f = (s, decpt, sign))
    (hs : decimalDigits s) (hne : s ≠ []) :
    floatValue (format_float E f) = some (dtoaValue s decpt sign) ∧
    (∃ pre d1 d2 post, format_float E f = pre ++ d1 :: 46 :: d2 :: post ∧
      isDecimal d1 = true ∧ isDecimal d2 = true) ∧
    (decpt ≤ -4 →
      format_float E f = signText sign ++ [s.headD 0, 46] ++
        (if s.tail ≠ [] then s.tail else [48]) ++ 101 :: sprintf_d (decpt - 1)) ∧
    (decpt > 15 → (s.length : Int) ≤ decpt →
      format_float E f = signText sign ++ [s.headD 0, 46] ++
        (if s.tail ≠ [] then s.tail else [48]) ++ 101 :: 43 :: sprintf_d (decpt - 1)) := by
  rw [format_float_finite E f s decpt sign hf hd hs hne]
  obtain ⟨c, r, rfl⟩ : ∃ c r, s = c :: r := by
    cases s with
    | nil => exact absurd rfl hne
    | cons c r => exact ⟨c, r, rfl⟩
  obtain ⟨hc, hr⟩ := decimalDigits_cons hs
  have hfrac : decimalDigits (if r ≠ [] then r else [48]) := by
    split
    · exact hr
    · intro d hd
      simp only [List.mem_singleton] at hd
      omega
  have hfne : (if r ≠ [] then r else [48]) ≠ [] := by
    split
    · assumption
    · simp
  refine ⟨?_, ?_, ?_, ?_⟩
  · by_cases h0 : decpt ≤ 0
    · by_cases h4 : decpt ≤ -4
      · rw [layout_scientific_small c r decpt sign h4]
        exact floatValue_scientific sign c r _ decpt hs (exponentValue_sprintf_d _)
      · rw [layout_leading_zeros _ decpt sign h0 h4,
          floatValue_leading_zeros sign _ _ hs hne]
        congr 2
        omega
    · by_cases hl : (((c :: r).length : Nat) : Int) > decpt
      · rw [layout_point_inside _ decpt sign h0 hl,
          floatValue_point_inside sign _ _ hs (by omega) (by omega)]
        congr 2
        omega
      · by_cases h15 : decpt > 15
        · rw [layout_scientific_large c r decpt sign h15 (by omega)]
          exact floatValue_scientific sign c r _ decpt hs (exponentValue_plus _ (by omega))
        · rw [layout_trailing_zeros _ decpt sign h0 hl h15,
            floatValue_trailing_zeros sign _ _ hs hne]
          congr 2
          omega
  · by_cases h0 : decpt ≤ 0
    · by_cases h4 : decpt ≤ -4
      · rw [layout_scientific_small c r decpt sign h4]
        exact dotted_form sign [c] _ _ hc hfrac (by simp) hfne
      · rw [layout_leading_zeros _ decpt sign h0 h4]
        refine dotted_form sign [48] _ _ (by intro d hd; simp at hd; omega) ?_ (by simp)
          (by simp)
        intro d hd
        rcases List.mem_append.1 hd with h | h
        · have := List.eq_of_mem_replicate h
          omega
        · exact hs d h
    · by_cases hl : (((c :: r).length : Nat) : Int) > decpt
      · rw [layout_point_inside _ decpt sign h0 hl]
        refine dotted_form sign _ _ _ (fun x hx => hs x (List.mem_of_mem_take hx))
          (fun x hx => hs x (List.mem_of_mem_drop hx)) ?_ ?_
        · intro h
          have := congrArg List.length h
          simp only [List.length_take, List.length_nil] at this
          omega
        · intro h
          have := congrArg List.length h
          simp only [List.length_drop, List.length_nil] at this
          omega
      · by_cases h15 : decpt > 15
        · rw [layout_scientific_large c r decpt sign h15 (by omega)]
          exact dotted_form sign [c] _ _ hc hfrac (by simp) hfne
        · rw [layout_trailing_zeros _ decpt sign h0 hl h15]
          refine dotted_form sign _ [48] _ ?_ (by intro d hd; simp at hd; omega) (by simp)
            (by simp)
          intro d hd
          rcases List.mem_append.1 hd with h | h
          · exact hs d h
          · have := List.eq_of_mem_replicate h
            omega
  · intro h4
    rw [layout_scientific_small c r decpt sign h4]
    simp
  · intro h15 hl
    rw [layout_scientific_large c r decpt sign h15 hl]
    simp

/-- C32 at the doubles 1.0e-4, 1.0e-5 and 1.0e15 with the digits a
shortest-digits generator delivers for them (the digit `1` with the positions
-3, -4 and 16): the texts are `0.0001`, `1.0e-5` and `1.0e+15` and denote
1/10000, 1/100000 and 10^15.  The texts `1.5` and `-1.5` denote 3/2 and -3/2;
`1.`, `.5` and `15` denote nothing. -/
theorem format_float_value_witness :
    format_float dtoaEnv 0x3F1A36E2EB1C432D = str "0.0001" ∧
    floatValue (format_float dtoaEnv 0x3F1A36E2EB1C432D) =
      some (dtoaValue (str "1") (-3) false) ∧
    dtoaValue (str "1") (-3) false = 1 / 10000 ∧
    format_float dtoaEnv 0x3EE4F8B588E368F1 =
      signText false ++ [(str "1").headD 0, 46] ++
        (if (str "1").tail ≠ [] then (str "1").tail else [48]) ++
        101 :: sprintf_d (-4 - 1) ∧
    format_float dtoaEnv 0x3EE4F8B588E368F1 = str "1.0e-5" ∧
    floatValue (str "1.0e-5") = some (1 / 100000) ∧
    format_float dtoaEnv 0x430C6BF526340000 =
      signText false ++ [(str "1").headD 0, 46] ++
        (if (str "1").tail ≠ [] then (str "1").tail else [48]) ++
        101 :: 43 :: sprintf_d (16 - 1) ∧
    format_float dtoaEnv 0x430C6BF526340000 = str "1.0e+15" ∧
    floatValue (format_float dtoaEnv 0x430C6BF526340000) =
      some (dtoaValue (str "1") 16 false) ∧
    dtoaValue (str "1") 16 false = 1000000000000000 ∧
    floatValue (str "1.5") = some (3 / 2) ∧
    floatValue (str "-1.5") = some (-3 / 2) ∧
    floatValue (str "1.") = none ∧ floatValue (str ".5") = none ∧
    floatValue (str "15") = none :=
  ⟨by decide,
    (format_float_value dtoaEnv 0x3F1A36E2EB1C432D (str "1") (-3) false (by decide) (by decide)
      (by decide) (by decide)).1,
    by decide!,
    (format_float_value dtoaEnv 0x3EE4F8B588E368F1 (str "1") (-4) false (by decide) (by decide)
      (by decide) (by decide)).2.2.1 (by decide),
    by decide, by decide!,
    (format_float_value dtoaEnv 0x430C6BF526340000 (str "1") 16 false (by decide) (by decide)
      (by decide) (by decide)).2.2.2 (by decide) (by decide),
    by decide,
    (format_float_value dtoaEnv 0x430C6BF526340000 (str "1") 16 false (by decide) (by decide)
      (by decide) (by decide)).1,
    by decide!, by decide!, by decide!, by decide!, by decide!, by decide!⟩

/-! ## `NaN_value()` and `make_nan()` -/

/-- C33. On the 64 bits of a double: for every NaN `f`, `NaN_value(f)` has the
sign bit and the mantissa of `f` and the exponent field `0x3ff`, and `make_nan()`
applied to it reports `NUM_OK` and leaves the bits of `f`; applied to a double
whose mantissa is zero, `make_nan()` reports `NUM_CONSTRANGE` and leaves the
double as it was. -/
theorem make_nan_NaN_value :
    (∀ f : Nat, f < 2 ^ 64 → ieee_exponent f = 0x7ff → ieee_mantissa f ≠ 0 →
      ieee_negative (NaN_value f) = ieee_negative f ∧
      ieee_mantissa (NaN_value f) = ieee_mantissa f ∧
      ieee_exponent (NaN_value f) = 0x3ff ∧
      make_nan (NaN_value f) = (true, f)) ∧
    (∀ f : Nat, ieee_mantissa f = 0 → make_nan f = (false, f)) := by
  constructor
  · intro f hf he hm
    have hv := NaN_value_fields f
    refine ⟨hv.2.2, hv.2.1, hv.1, ?_⟩
    unfold make_nan isnan
    simp only [hv.2.2, hv.2.1]
    have hu : ieee_negative f * 2 ^ 63 + 0x7ff * 2 ^ 52 + ieee_mantissa f = f := by
      unfold ieee_exponent at he
      unfold ieee_negative ieee_mantissa
      norm_num at he hf ⊢
      omega
    rw [hu, he]
    simp [hm]
  · intro f hm
    unfold make_nan isnan
    have h2 : ieee_mantissa (ieee_negative f * 2 ^ 63 + 0x7ff * 2 ^ 52 + ieee_mantissa f) = 0 := by
      unfold ieee_mantissa ieee_negative at *
      norm_num at hm ⊢
      omega
    simp only [h2]
    simp

/-- C33 at the quiet NaN `0x7FF8000000000000`, the negative NaN
`0xFFF0000000000001` and the double 1.0. -/
theorem make_nan_NaN_value_witness :
    (0x7FF8000000000000 < 2 ^ 64 ∧ ieee_exponent 0x7FF8000000000000 = 0x7ff ∧
      ieee_mantissa 0x7FF8000000000000 ≠ 0 ∧
      NaN_value 0x7FF8000000000000 = 0x3FF8000000000000 ∧
      make_nan (NaN_value 0x7FF8000000000000) = (true, 0x7FF8000000000000)) ∧
    make_nan (NaN_value 0xFFF0000000000001) = (true, 0xFFF0000000000001) ∧
    (ieee_mantissa 0x3FF0000000000000 = 0 ∧
      make_nan 0x3FF0000000000000 = (false, 0x3FF0000000000000)) :=
  ⟨⟨by decide, by decide, by decide, by decide,
      (make_nan_NaN_value.1 0x7FF8000000000000 (by decide) (by decide) (by decide)).2.2.2⟩,
    (make_nan_NaN_value.1 0xFFF0000000000001 (by decide) (by decide) (by decide)).2.2.2,
    ⟨by decide, make_nan_NaN_value.2 0x3FF0000000000000 (by decide)⟩⟩

/-! ## Distinct names of numbered variables -/

theorem numberVarText_head (n : Int) :
    ∃ c t, numberVarText n = c :: t ∧ 65 ≤ c ∧ c ≤ 90 ∧ (c : Int) = (if n < 0 then 83 else n % 26 + 65) := by
  unfold numberVarText
  by_cases h : n < 0
  · simp only [h, if_true]
    exact ⟨83, _, rfl, by decide, by decide, rfl⟩
  · simp only [h, if_false]
    refine ⟨_, _, rfl, ?_, ?_, ?_⟩ <;> omega

theorem numberVarText_injective {m n : Int} (h : numberVarText m = numberVarText n) : m = n := by
  unfold numberVarText at h
  by_cases hm : m < 0 <;> by_cases hn : n < 0
  · simp only [hm, hn, if_true] at h
    have h1 : sprintf_d (-m) = sprintf_d (-n) := by
      have : str "S_" = [83, 95] := by decide
      rw [this] at h
      simpa using h
    have := sprintf_d_inj h1
    omega
  · simp only [hm, hn, if_true, if_false] at h
    have hs : str "S_" = [83, 95] := by decide
    rw [hs] at h
    obtain ⟨d, t, hd, hd2⟩ := sprintf_d_head (n / 26)
    by_cases hq : n / 26 = 0
    · simp only [hq, if_true] at h
      simp at h
    · simp only [hq, if_false, hd] at h
      simp only [List.cons_append, List.nil_append, List.cons.injEq] at h
      omega
  · simp only [hm, hn, if_true, if_false] at h
    have hs : str "S_" = [83, 95] := by decide
    rw [hs] at h
    obtain ⟨d, t, hd, hd2⟩ := sprintf_d_head (m / 26)
    by_cases hq : m / 26 = 0
    · simp only [hq, if_true] at h
      simp at h
    · simp only [hq, if_false, hd] at h
      simp only [List.cons_append, List.nil_append, List.cons.injEq] at h
      omega
  · simp only [hm, hn, if_false, List.cons.injEq] at h
    obtain ⟨h1, h2⟩ := h
    have h3 : m % 26 = n % 26 := by omega
    by_cases hqm : m / 26 = 0 <;> by_cases hqn : n / 26 = 0
    · omega
    · simp only [hqm, hqn, if_true, if_false] at h2
      obtain ⟨d, t, hd, _⟩ := sprintf_d_head (n / 26)
      rw [hd] at h2
      cases h2
    · simp only [hqm, hqn, if_true, if_false] at h2
      obtain ⟨d, t, hd, _⟩ := sprintf_d_head (m / 26)
      rw [hd] at h2
      cases h2
    · simp only [hqm, hqn, if_false] at h2
      have := sprintf_d_inj h2
      omega

theorem writeNumberVar_unlimited (E : Env) (o : write_options) (n : Int)
    (hn : -(2 : Int) ^ 63 < n) (hnv : o.flags.PL_WRT_NUMBERVARS = true)
    (hr : o.out.room = none) :
    (writeNumberVar E (.compound E.ATOM_isovar [.integer n]) o).1 = 1 ∧
    ∃ sp, (sp = [] ∨ sp = [32]) ∧
      (writeNumberVar E (.compound E.ATOM_isovar [.integer n]) o).2.out.buffer =
        o.out.buffer ++ sp ++ numberVarText n := by
  have e := writeNumberVar_integer E (.compound E.ATOM_isovar [.integer n]) (.integer n) o n
    (deRef_compound _ _ _) (by simp [hnv]) (deRef_integer _ _)
  have ht : (if n < 0 then str "S_" ++ sprintf_d (int64 (-n))
      else (n % 26 + 65).toNat :: (if n / 26 = 0 then [] else sprintf_d (n / 26))) =
      numberVarText n := by
    unfold numberVarText
    by_cases h0 : n < 0
    · simp only [h0, if_true]
      rw [int64_id (-n) (by norm_num at hn ⊢; omega) (by norm_num at hn ⊢; omega)]
    · simp only [h0, if_false]
  rw [ht] at e
  rw [e]
  obtain ⟨c, t, hc, _⟩ := numberVarText_head n
  rw [hc]
  have h := PutToken_unlimited E c t o.out hr
  refine ⟨by simp [h.1], _, ?_, h.2⟩
  split <;> simp

/-- C34. The names of numbered variables are pairwise different.  For integers
`M` and `N` above the least 64-bit integer, `M` different from `N`, written with
`numbervars` to a stream that accepts every character from the same state,
`writeNumberVar()` processes both markers, the texts it hands to `PutToken()`
(the letter with the quotient, or `S_` with the digits) are different, and so is
what the stream holds afterwards. -/
theorem numbered_variable_injective (E : Env) (o : write_options) (M N : Int)
    (hM : -(2 : Int) ^ 63 < M) (hN : -(2 : Int) ^ 63 < N) (hne : M ≠ N)
    (hnv : o.flags.PL_WRT_NUMBERVARS = true) (hr : o.out.room = none) :
    (writeNumberVar E (.compound E.ATOM_isovar [.integer M]) o).1 = 1 ∧
    (writeNumberVar E (.compound E.ATOM_isovar [.integer N]) o).1 = 1 ∧
    (∃ sp, (sp = [] ∨ sp = [32]) ∧
      (writeNumberVar E (.compound E.ATOM_isovar [.integer M]) o).2.out.buffer =
        o.out.buffer ++ sp ++ numberVarText M) ∧
    (∃ sp, (sp = [] ∨ sp = [32]) ∧
      (writeNumberVar E (.compound E.ATOM_isovar [.integer N]) o).2.out.buffer =
        o.out.buffer ++ sp ++ numberVarText N) ∧
    numberVarText M ≠ numberVarText N ∧
    (writeNumberVar E (.compound E.ATOM_isovar [.integer M]) o).2.out.buffer ≠
      (writeNumberVar E (.compound E.ATOM_isovar [.integer N]) o).2.out.buffer := by
  have h1 := writeNumberVar_unlimited E o M hM hnv hr
  have h2 := writeNumberVar_unlimited E o N hN hnv hr
  have hinj : numberVarText M ≠ numberVarText N := fun h => hne (numberVarText_injective h)
  refine ⟨h1.1, h2.1, h1.2, h2.2, hinj, ?_⟩
  obtain ⟨sp1, hs1, hb1⟩ := h1.2
  obtain ⟨sp2, hs2, hb2⟩ := h2.2
  rw [hb1, hb2]
  intro h
  simp only [List.append_assoc, List.append_cancel_left_eq] at h
  obtain ⟨c1, t1, hc1, hl1, hu1, _⟩ := numberVarText_head M
  obtain ⟨c2, t2, hc2, hl2, hu2, _⟩ := numberVarText_head N
  rcases hs1 with rfl | rfl <;> rcases hs2 with rfl | rfl
  · exact hinj (by simpa using h)
  · rw [hc1, hc2] at h
    simp only [List.nil_append, List.singleton_append, List.cons.injEq] at h
    omega
  · rw [hc1, hc2] at h
    simp only [List.nil_append, List.singleton_append, List.cons.injEq] at h
    omega
  · exact hinj (by simpa using h)

/-- C34 at the integers 18 and -1, whose names `S` and `S_1` start alike, after
the letter `a` was written. -/
theorem numbered_variable_injective_witness :
    numberVarText 18 = str "S" ∧ numberVarText (-1) = str "S_1" ∧
    (writeNumberVar defaultEnv (.compound defaultEnv.ATOM_isovar [.integer 18])
      { defaultOptions { PL_WRT_NUMBERVARS := true } with
        out := { freshStream with buffer := [97], lastc := 97 } }).2.out.buffer = str "a S" ∧
    (writeNumberVar defaultEnv (.compound defaultEnv.ATOM_isovar [.integer 18])
      { defaultOptions { PL_WRT_NUMBERVARS := true } with
        out := { freshStream with buffer := [97], lastc := 97 } }).2.out.buffer ≠
    (writeNumberVar defaultEnv (.compound defaultEnv.ATOM_isovar [.integer (-1)])
      { defaultOptions { PL_WRT_NUMBERVARS := true } with
        out := { freshStream with buffer := [97], lastc := 97 } }).2.out.buffer :=
  ⟨by decide, by decide, by decide,
    (numbered_variable_injective defaultEnv
      { defaultOptions { PL_WRT_NUMBERVARS := true } with
        out := { freshStream with buffer := [97], lastc := 97 } } 18 (-1)
      (by decide) (by decide) (by decide) rfl rfl).2.2.2.2.2⟩

/-! ## The buffer of `writeMPZ()` -/

theorem sizeCore_two : ∀ (fuel n : Nat), n < fuel →
    1 ≤ sizeCore 2 fuel n ∧ n < 2 ^ sizeCore 2 fuel n ∧
      (n ≠ 0 → 2 ^ (sizeCore 2 fuel n - 1) ≤ n) ∧ (n = 0 → sizeCore 2 fuel n = 1) := by
  intro fuel
  induction fuel with
  | zero => intro n h; omega
  | succ k ih =>
    intro n h
    unfold sizeCore
    by_cases hn : n / 2 = 0
    · simp only [hn, if_true]
      refine ⟨le_refl 1, by omega, fun h0 => by simp; omega, fun _ => trivial⟩
    · simp only [hn, if_false]
      obtain ⟨h1, h2, h3, _⟩ := ih (n / 2) (by omega)
      refine ⟨by omega, ?_, fun _ => ?_, fun h0 => by omega⟩
      · rw [pow_succ]
        omega
      · have h4 := h3 hn
        simp only [Nat.add_sub_cancel]
        obtain ⟨m, hm⟩ : ∃ m, sizeCore 2 k (n / 2) = m + 1 := ⟨_, (Nat.sub_add_cancel h1).symm⟩
        rw [hm] at h4 ⊢
        simp only [Nat.add_sub_cancel] at h4
        rw [pow_succ]
        omega

theorem decCore_length : ∀ (fuel n : Nat) (acc : List Nat), n < fuel →
    ∃ ds, decCore fuel n acc = ds ++ acc ∧ 1 ≤ ds.length ∧
      (n = 0 ∨ 10 ^ (ds.length - 1) ≤ n) := by
  intro fuel
  induction fuel with
  | zero => intro n acc h; omega
  | succ k ih =>
    intro n acc h
    unfold decCore
    by_cases hn : n / 10 = 0
    · simp only [hn, if_true]
      refine ⟨[48 + n % 10], rfl, by simp, ?_⟩
      by_cases h0 : n = 0
      · exact Or.inl h0
      · right; simp; omega
    · simp only [hn, if_false]
      obtain ⟨ds, h1, h2, h3⟩ := ih (n / 10) ((48 + n % 10) :: acc) (by omega)
      refine ⟨ds ++ [48 + n % 10], by rw [h1]; simp, by simp, Or.inr ?_⟩
      rcases h3 with h3 | h3
      · exact absurd h3 hn
      · simp only [List.length_append, List.length_singleton, Nat.add_sub_cancel]
        obtain ⟨m, hm⟩ : ∃ m, ds.length = m + 1 := ⟨_, (Nat.sub_add_cancel h2).symm⟩
        rw [hm] at h3 ⊢
        simp only [Nat.add_sub_cancel] at h3
        rw [pow_succ]
        omega

theorem sprintf_u_length (n : Nat) :
    1 ≤ (sprintf_u n).length ∧ (n = 0 ∨ 10 ^ ((sprintf_u n).length - 1) ≤ n) := by
  unfold sprintf_u
  obtain ⟨ds, h1, h2, h3⟩ := decCore_length (n + 1) n [] (by omega)
  rw [h1, List.append_nil]
  exact ⟨h2, h3⟩

theorem sprintf_u_length_le_bits (n : Nat) :
    (sprintf_u n).length ≤ sizeCore 2 (n + 1) n := by
  obtain ⟨h1, h2, _, h4⟩ := sizeCore_two (n + 1) n (by omega)
  obtain ⟨h5, h6⟩ := sprintf_u_length n
  rcases h6 with h6 | h6
  · subst h6
    rw [h4 rfl]
    decide
  · by_contra hc
    have hc1 : sizeCore 2 (n + 1) n ≤ (sprintf_u n).length - 1 := by omega
    have h7 : 2 ^ sizeCore 2 (n + 1) n ≤ 2 ^ ((sprintf_u n).length - 1) :=
      Nat.pow_le_pow_right (by decide) hc1
    have h8 : 2 ^ ((sprintf_u n).length - 1) ≤ 10 ^ ((sprintf_u n).length - 1) :=
      Nat.pow_le_pow_left (by decide) _
    omega

/-- C35. The buffer of `writeMPZ()` is large enough.  With `b` the number of
bits of the integer as `mpz_sizeinbase(mpz, 2)` reports it (`b = 1` for zero,
and `2^(b-1) <= |mpz| < 2^b` otherwise) and `b * 10` within `size_t`, the size
is `sz = b * 10 / 3 + 10`; the number of decimal digits of `|mpz|` plus two (a
minus sign and the terminating NUL) is at most `sz`, so the text
`mpz_get_str()` delivers fits with its terminator; and the stack buffer is
used exactly when `sz` is at most 1024. -/
theorem writeMPZ_buffer_size (mpz : Int) (h : mpz_sizeinbase mpz 2 * 10 < 2 ^ 64) :
    1 ≤ mpz_sizeinbase mpz 2 ∧
    (mpz = 0 → mpz_sizeinbase mpz 2 = 1) ∧
    (mpz ≠ 0 → 2 ^ (mpz_sizeinbase mpz 2 - 1) ≤ mpz.natAbs) ∧
    mpz.natAbs < 2 ^ mpz_sizeinbase mpz 2 ∧
    writeMPZ_sz mpz = mpz_sizeinbase mpz 2 * 10 / 3 + 10 ∧
    (sprintf_u mpz.natAbs).length + 2 ≤ writeMPZ_sz mpz ∧
    (mpz_get_str mpz).length + 1 ≤ writeMPZ_sz mpz ∧
    (writeMPZ_tmp mpz = true ↔ mpz_sizeinbase mpz 2 * 10 / 3 + 10 ≤ 1024) := by
  have hs := sizeCore_two (mpz.natAbs + 1) mpz.natAbs (by omega)
  have hl := sprintf_u_length_le_bits mpz.natAbs
  have hsz : writeMPZ_sz mpz = mpz_sizeinbase mpz 2 * 10 / 3 + 10 := by
    unfold writeMPZ_sz
    rw [Nat.mod_eq_of_lt h, Nat.mod_eq_of_lt]
    norm_num at h ⊢
    omega
  have hlen : (sprintf_d mpz).length ≤ (sprintf_u mpz.natAbs).length + 1 := by
    unfold sprintf_d
    split <;> simp
  refine ⟨hs.1, fun h0 => hs.2.2.2 (by omega), fun h0 => hs.2.2.1 (by omega), hs.2.1, hsz,
    ?_, ?_, ?_⟩
  · rw [hsz]
    unfold mpz_sizeinbase
    omega
  · rw [hsz]
    unfold mpz_sizeinbase mpz_get_str
    omega
  · unfold writeMPZ_tmp
    rw [hsz]
    simp

/-- C35 at the integers `-2^64` (65 bits, 20 digits, size 226) and `2^400`
(401 bits, size 1346, not on the stack). -/
theorem writeMPZ_buffer_size_witness :
    mpz_sizeinbase (-(2 : Int) ^ 64) 2 = 65 ∧
    mpz_get_str (-(2 : Int) ^ 64) = str "-18446744073709551616" ∧
    writeMPZ_sz (-(2 : Int) ^ 64) = 226 ∧
    (mpz_get_str (-(2 : Int) ^ 64)).length + 1 ≤ writeMPZ_sz (-(2 : Int) ^ 64) ∧
    writeMPZ_tmp (-(2 : Int) ^ 64) = true ∧
    writeMPZ_tmp ((2 : Int) ^ 400) = false :=
  have h := writeMPZ_buffer_size (-(2 : Int) ^ 64) (by decide)
  ⟨by decide, by decide, by decide, h.2.2.2.2.2.2.1, by decide, by decide!⟩

/-! ## `unquoted_atom()` and the writer -/

theorem atomType_range (E : Env) (a : Atom) (opt : Option write_options) :
    atomType E a opt = AT_LOWER ∨ atomType E a opt = AT_QUOTE ∨ atomType E a opt = AT_FULLSTOP ∨
      atomType E a opt = AT_SYMBOL ∨ atomType E a opt = AT_SOLO ∨ atomType E a opt = AT_SPECIAL := by
  unfold atomType
  simp only
  repeat' split
  all_goals simp

theorem code_requires_quoted_plain (c : Int) (s : IOSTREAM) (flags : WrtFlags)
    (hq : flags.PL_WRT_QUOTE_NON_ASCII = false) (hs : ∀ c, s.canrepresent c = true) :
    code_requires_quoted c (some s) flags = code_requires_quoted c none {} := by
  unfold code_requires_quoted Scanrepresent
  simp [hq, hs]

theorem atomType_alpha_plain (E : Env) (s : IOSTREAM) (flags : WrtFlags)
    (hq : flags.PL_WRT_QUOTE_NON_ASCII = false) (hs : ∀ c, s.canrepresent c = true) :
    ∀ l : List Nat, atomType_alpha E (some s) flags l = atomType_alpha E none {} l := by
  intro l
  induction l with
  | nil => rfl
  | cons c cs ih =>
    unfold atomType_alpha
    rw [code_requires_quoted_plain (plainChar c) s flags hq hs, ih]

theorem atomType_lower_plain (E : Env) (s : IOSTREAM) (flags : WrtFlags) (dot : Bool)
    (hq : flags.PL_WRT_QUOTE_NON_ASCII = false) (hs : ∀ c, s.canrepresent c = true) :
    ∀ (fuel : Nat) (l : List Nat),
      atomType_lower E (some s) flags dot fuel l = atomType_lower E none {} dot fuel l := by
  intro fuel
  induction fuel with
  | zero => intro l; rfl
  | succ n ih =>
    intro l
    unfold atomType_lower
    rw [atomType_alpha_plain E s flags hq hs]
    split
    · rw [ih]
    · rfl

theorem atomType_symbol_plain (E : Env) (o : write_options)
    (hq : o.flags.PL_WRT_QUOTE_NON_ASCII = false)
    (hb : o.flags.PL_WRT_BACKQUOTE_IS_SYMBOL = false) (hs : ∀ c, o.out.canrepresent c = true) :
    ∀ l : List Nat,
      atomType_symbol E (some o) (some o.out) o.flags l = atomType_symbol E none none {} l := by
  intro l
  induction l with
  | nil => rfl
  | cons c cs ih =>
    unfold atomType_symbol
    rw [code_requires_quoted_plain (plainChar c) o.out o.flags hq hs, ih]
    simp [wr_is_symbol, hb]

theorem atomType_default (E : Env) (a : Atom) (o : write_options)
    (hm : o.module = E.MODULE_user)
    (hq : o.flags.PL_WRT_QUOTE_NON_ASCII = false)
    (hb : o.flags.PL_WRT_BACKQUOTE_IS_SYMBOL = false)
    (hd : o.flags.PL_WRT_NODOTINATOM = false)
    (hs : ∀ c, o.out.canrepresent c = true) :
    atomType E a (some o) = atomType E a none := by
  unfold atomType
  simp only [Option.map, hm, hd, atomType_lower_plain E o.out o.flags _ hq hs,
    atomType_symbol_plain E o hq hb hs]
  simp [wr_is_symbol, hb]

/-- C37 (the code departs from the claim at the atom `.`).  For an ordinary
text atom written successfully in quoted mode with the module `user`, a stream
that can represent every character and none of the flags that change the
classification: when `atomType()` does not give FullStop, `unquoted_atom()` is
true exactly when `writeAtom()` writes the text without quotes; when it gives
FullStop, `unquoted_atom()` is true, because it only excludes NeedsQuote, while
`writeAtom()` treats FullStop like NeedsQuote and writes the atom between
quotes.  For the atom `.`: `unquoted_atom()` is true and the writer gives
`'.'`; for `foo` and the atom `Foo Bar` the two agree. -/
theorem unquoted_atom_writer :
    (∀ (E : Env) (a : Atom) (o : write_options), a.type = .text →
      o.module = E.MODULE_user → o.flags.PL_WRT_QUOTED = true →
      o.flags.PL_WRT_QUOTE_NON_ASCII = false → o.flags.PL_WRT_BACKQUOTE_IS_SYMBOL = false →
      o.flags.PL_WRT_NODOTINATOM = false → (∀ c, o.out.canrepresent c = true) →
      (writeAtom E a o).1 ≠ 0 →
      (atomType E a none ≠ AT_FULLSTOP →
        (unquoted_atom E a = true ↔ writtenUnquoted a o.out (writeAtom E a o).2.out)) ∧
      (atomType E a none = AT_FULLSTOP →
        unquoted_atom E a = true ∧ writtenQuoted E a o (writeAtom E a o).2.out ∧
        ¬writtenUnquoted a o.out (writeAtom E a o).2.out)) ∧
    atomType defaultEnv (textAtom ".") none = AT_FULLSTOP ∧
    unquoted_atom defaultEnv (textAtom ".") = true ∧
    (writeAtom defaultEnv (textAtom ".")
      (defaultOptions { PL_WRT_QUOTED := true })).2.out.buffer = str "'.'" ∧
    unquoted_atom defaultEnv (textAtom "foo") = true ∧
    (writeAtom defaultEnv (textAtom "foo")
      (defaultOptions { PL_WRT_QUOTED := true })).2.out.buffer = str "foo" ∧
    unquoted_atom defaultEnv (textAtom "Foo Bar") = false ∧
    (writeAtom defaultEnv (textAtom "Foo Bar")
      (defaultOptions { PL_WRT_QUOTED := true })).2.out.buffer = str "'Foo Bar'" := by
  refine ⟨?_, by decide, by decide, by decide, by decide, by decide, by decide, by decide⟩
  intro E a o ha hm hQ hq hb hd hs hok
  have hty := atomType_default E a o hm hq hb hd hs
  have hu : unquoted_atom E a = (atomType E a none != AT_QUOTE) := by
    unfold unquoted_atom Atom.isText Atom.hasWrite
    simp [ha]
  rw [writeAtom_text E a o ha] at hok ⊢
  simp only at hok ⊢
  have hr := atomType_range E a none
  constructor
  · intro hnf
    constructor
    · intro h
      rw [hu] at h
      apply writeAtom_plain_unquoted E a o ha hQ hok
      rw [hty]
      have hne : atomType E a none ≠ AT_QUOTE := by simpa using h
      rcases hr with h1 | h1 | h1 | h1 | h1 | h1
      · exact Or.inl h1
      · exact absurd h1 hne
      · exact absurd h1 hnf
      · exact Or.inr (Or.inl h1)
      · exact Or.inr (Or.inr (Or.inl h1))
      · exact Or.inr (Or.inr (Or.inr h1))
    · intro hw
      by_contra hc
      rw [hu] at hc
      have hq1 : atomType E a none = AT_QUOTE := by simpa using hc
      have hnot : ¬(atomType E a (some o) = AT_LOWER ∨ atomType E a (some o) = AT_SYMBOL ∨
          atomType E a (some o) = AT_SOLO ∨ atomType E a (some o) = AT_SPECIAL) := by
        rw [hty, hq1]
        decide
      exact writtenQuoted_not_unquoted E a o _ (writeAtom_plain_quoted E a o ha hQ hok hnot) hw
  · intro hf
    have hnot : ¬(atomType E a (some o) = AT_LOWER ∨ atomType E a (some o) = AT_SYMBOL ∨
        atomType E a (some o) = AT_SOLO ∨ atomType E a (some o) = AT_SPECIAL) := by
      rw [hty, hf]
      decide
    have hwq := writeAtom_plain_quoted E a o ha hQ hok hnot
    refine ⟨?_, hwq, writtenQuoted_not_unquoted E a o _ hwq⟩
    rw [hu, hf]
    decide

/-- C37 at the atoms `.` and `foo` written in quoted mode to a fresh stream. -/
theorem unquoted_atom_writer_witness :
    (textAtom ".").type = .text ∧
    (defaultOptions { PL_WRT_QUOTED := true }).module = defaultEnv.MODULE_user ∧
    (writeAtom defaultEnv (textAtom ".") (defaultOptions { PL_WRT_QUOTED := true })).1 ≠ 0 ∧
    atomType defaultEnv (textAtom ".") none = AT_FULLSTOP ∧
    (unquoted_atom defaultEnv (textAtom ".") = true ∧
      writtenQuoted defaultEnv (textAtom ".") (defaultOptions { PL_WRT_QUOTED := true })
        (writeAtom defaultEnv (textAtom ".")
          (defaultOptions { PL_WRT_QUOTED := true })).2.out ∧
      ¬writtenUnquoted (textAtom ".") (defaultOptions { PL_WRT_QUOTED := true }).out
        (writeAtom defaultEnv (textAtom ".")
          (defaultOptions { PL_WRT_QUOTED := true })).2.out) ∧
    atomType defaultEnv (textAtom "foo") none ≠ AT_FULLSTOP ∧
    (unquoted_atom defaultEnv (textAtom "foo") = true ↔
      writtenUnquoted (textAtom "foo") (defaultOptions { PL_WRT_QUOTED := true }).out
        (writeAtom defaultEnv (textAtom "foo")
          (defaultOptions { PL_WRT_QUOTED := true })).2.out) :=
  ⟨rfl, rfl, by decide, by decide,
    (unquoted_atom_writer.1 defaultEnv (textAtom ".") (defaultOptions { PL_WRT_QUOTED := true })
      rfl rfl rfl rfl rfl rfl (fun _ => rfl) (by decide)).2 (by decide),
    by decide,
    (unquoted_atom_writer.1 defaultEnv (textAtom "foo") (defaultOptions { PL_WRT_QUOTED := true })
      rfl rfl rfl rfl rfl rfl (fun _ => rfl) (by decide)).1 (by decide)⟩

/-! ## Failure of the term and the trailing newline -/

/-- The part of `pl_write_term3()` before its call of `writeTopTerm()`: the
options record it has filled in at that point, from the scanned option values,
the stream and the engine state; nothing when it returns before the call. -/
def pl_write_term3_options (E : Env) (fuel : Nat) (stream : Option IOSTREAM)
    (opts : Option scanned_options) (ld : PL_local_data) : Option write_options :=
  match opts with
  | none => none
  | some sc =>
    let attrMask : Option WrtFlags :=
      if sc.attr = E.ATOM_nil then some ld.write_attributes else writeAttributeMask E sc.attr
    match attrMask with
    | none => none
    | some f1 =>
      let blobMask : Option WrtFlags :=
        if sc.blobs != E.ATOM_nil then writeBlobMask E sc.blobs else some {}
      match blobMask with
      | none => none
      | some f2 =>
        if sc.priority < 0 || sc.priority > OP_MAXPRIORITY then none
        else if !(sc.spacing = E.ATOM_standard || sc.spacing = E.ATOM_next_argument) then none
        else
          let module : Module :=
            match E.isCurrentModule sc.mname with
            | some m => m
            | none => E.MODULE_user
          let f3 : WrtFlags := (f1.or f2).or
            { PL_WRT_CHARESCAPES :=
                sc.charescape = some true || (sc.charescape = none && module.M_CHARESCAPE)
              PL_WRT_CHARESCAPES_UNICODE :=
                sc.charescape_unicode = some true ||
                (sc.charescape_unicode = none && E.PLFLAG_CHARESCAPE_UNICODE)
              PL_WRT_RAT_NATURAL := module.RAT_NATURAL }
          let portray : Bool :=
            if sc.gportray.isSome && !f3.PL_WRT_BLOB_PORTRAY then true else sc.portray
          let numbervars : Bool :=
            match sc.numbervars with
            | none => portray
            | some b => b
          let f4 : WrtFlags := f3.or
            { PL_WRT_QUOTED := sc.quoted
              PL_WRT_QUOTE_NON_ASCII := sc.quote_non_ascii
              PL_WRT_IGNOREOPS := sc.ignore_ops
              PL_WRT_DOTLISTS := sc.dotlists
              PL_WRT_BRACETERMS := !sc.braceterms
              PL_WRT_NUMBERVARS := numbervars
              PL_WRT_PORTRAY := portray
              PL_WRT_NO_CYCLES := !sc.cycles
              PL_WRT_NO_LISTS := sc.no_lists
              PL_WRT_PARTIAL := sc.partial_ }
          let bqFlags : Option WrtFlags :=
            match sc.bq with
            | none => some {}
            | some bq =>
              match E.setBackQuotes bq with
              | none => none
              | some .string => some { PL_WRT_BACKQUOTED_STRING := true }
              | some .symbol_char => some { PL_WRT_BACKQUOTE_IS_SYMBOL := true }
              | some .codes => some {}
          match bqFlags with
          | none => none
          | some f5 =>
            let ld0 : PL_local_data :=
              { ld with numbervars_frame := ld.numbervars_frame || sc.varnames.isSome }
            let bound : Bool × PL_local_data × WrtFlags :=
              match sc.varnames with
              | none => (true, ld0, f4.or f5)
              | some names =>
                match bind_varnames E fuel names ld0 with
                | (true, ld1) => (true, ld1, (f4.or f5).or { PL_WRT_VARNAMES := true })
                | (false, ld1) => (false, ld1, f4.or f5)
            match bound with
            | (false, _, _) => none
            | (true, ld1, flags) =>
              match stream with
              | none => none
              | some s =>
                some { flags := flags, max_depth := sc.max_depth, depth := 0,
                       spacing := sc.spacing, module := module,
                       out := if !sc.partial_ then (PutOpenToken E EOF s).2 else s,
                       portray_goal := sc.gportray, ld := ld1 }

/-- The part of `do_write2()` before its call of `writeTopTerm()`: the options
record it has filled in at that point. -/
def do_write2_options (E : Env) (s : IOSTREAM) (flags : WrtFlags) (canonical : Bool)
    (ld : PL_local_data) : write_options :=
  { flags := (if !canonical then flags.or ld.write_attributes else flags).or
      { PL_WRT_CHARESCAPES := E.MODULE_user.M_CHARESCAPE
        PL_WRT_BACKQUOTED_STRING := E.MODULE_user.BQ_STRING },
    max_depth := 0, depth := 0, spacing := E.ATOM_standard, module := E.MODULE_user,
    out := (PutOpenToken E EOF s).2, portray_goal := none, ld := ld }

theorem pl_write_term3_after_term (E : Env) (fuel : Nat) (s : IOSTREAM) (term : Term)
    (sc : scanned_options) (ld : PL_local_data) (r : top_result)
    (h : pl_write_term3 E fuel (some s) term (some sc) ld = some r) (hout : r.out ≠ none) :
    ∃ options rc o,
      pl_write_term3_options E fuel (some s) (some sc) ld = some options ∧
      writeTopTerm E fuel term sc.priority options = some (rc, o) ∧
      (rc = false → sc.nl = false → r.rc = false ∧ r.out = some o.out) ∧
      (rc = false → sc.nl = true →
        r.out = some (Putc 10 o.out).2 ∧
        r.rc = (streamStatus (Putc 10 o.out).2 && (Putc 10 o.out).1)) := by
  unfold pl_write_term3 at h
  unfold pl_write_term3_options
  simp only at h ⊢
  generalize (if sc.attr = E.ATOM_nil then some ld.write_attributes
    else writeAttributeMask E sc.attr) = am at h ⊢
  rcases am with _ | f1
  · cases h; exact absurd rfl hout
  simp only at h ⊢
  generalize (if (sc.blobs != E.ATOM_nil) = true then writeBlobMask E sc.blobs
    else some {}) = bm at h ⊢
  rcases bm with _ | f2
  · cases h; exact absurd rfl hout
  simp only at h ⊢
  by_cases h3 : (decide (sc.priority < 0) || decide (sc.priority > OP_MAXPRIORITY)) = true
  · simp only [h3, if_true] at h
    cases h; exact absurd rfl hout
  by_cases h4 : (!(decide (sc.spacing = E.ATOM_standard) ||
      decide (sc.spacing = E.ATOM_next_argument))) = true
  · simp only [h3, h4, if_true, if_false] at h
    cases h; exact absurd rfl hout
  simp only [h3, h4, if_false] at h ⊢
  have fin : ∀ (options : write_options) (r : top_result),
      (match writeTopTerm E fuel term sc.priority options with
        | none => none
        | some (rc, o) =>
          some { rc := streamStatus
                   (if (rc && sc.fullstop) = true then
                      match PutToken E [46] o.out with
                      | (0, s2) => (false, s2)
                      | (_, s2) => Putc (if sc.nl = true then 10 else 32) s2
                    else if sc.nl = true then Putc 10 o.out else (rc, o.out)).2 &&
                   (if (rc && sc.fullstop) = true then
                      match PutToken E [46] o.out with
                      | (0, s2) => (false, s2)
                      | (_, s2) => Putc (if sc.nl = true then 10 else 32) s2
                    else if sc.nl = true then Putc 10 o.out else (rc, o.out)).1,
                 out := some
                   (if (rc && sc.fullstop) = true then
                      match PutToken E [46] o.out with
                      | (0, s2) => (false, s2)
                      | (_, s2) => Putc (if sc.nl = true then 10 else 32) s2
                    else if sc.nl = true then Putc 10 o.out else (rc, o.out)).2,
                 ld := { o.ld with numbervars_frame := ld.numbervars_frame,
                                   bindings := ld.bindings } }) = some r →
      ∃ rc o, writeTopTerm E fuel term sc.priority options = some (rc, o) ∧
        (rc = false → sc.nl = false → r.rc = false ∧ r.out = some o.out) ∧
        (rc = false → sc.nl = true →
          r.out = some (Putc 10 o.out).2 ∧
          r.rc = (streamStatus (Putc 10 o.out).2 && (Putc 10 o.out).1)) := by
    intro options r hr
    rcases hq : writeTopTerm E fuel term sc.priority options with _ | ⟨rc, o⟩
    · rw [hq] at hr
      cases hr
    · rw [hq] at hr
      simp only [Option.some.injEq] at hr
      subst hr
      refine ⟨rc, o, rfl, ?_, ?_⟩
      · intro hrc hnl
        subst hrc
        simp [hnl]
      · intro hrc hnl
        subst hrc
        simp [hnl]
  have dead : ∀ (ldx : PL_local_data),
      (some { rc := false, out := none, ld := ldx } : Option top_result) = some r → False := by
    intro ldx hx
    simp only [Option.some.injEq] at hx
    subst hx
    exact hout rfl
  rcases hbq : sc.bq with _ | bq
  · simp only [hbq] at h ⊢
    (rcases hv : sc.varnames with _ | names <;> simp only [hv] at h ⊢ <;> first
      | (obtain ⟨rc, o, h1, h2⟩ := fin _ _ h
         exact ⟨_, rc, o, rfl, h1, h2⟩)
      | (rcases hb : bind_varnames E fuel names
           { ld with numbervars_frame := ld.numbervars_frame || (some names).isSome }
           with ⟨b, ld1⟩
         rw [hb] at h
         cases b <;> first
           | exact absurd h (fun hx => dead _ hx)
           | (simp only at h ⊢
              obtain ⟨rc, o, h1, h2⟩ := fin _ _ h
              exact ⟨_, rc, o, rfl, h1, h2⟩)))
  · simp only [hbq] at h ⊢
    rcases hs : E.setBackQuotes bq with _ | b
    · simp only [hs] at h
      exact absurd h (fun hx => dead _ hx)
    · cases b <;> simp only [hs] at h ⊢ <;>
      (rcases hv : sc.varnames with _ | names <;> simp only [hv] at h ⊢ <;> first
        | (obtain ⟨rc, o, h1, h2⟩ := fin _ _ h
           exact ⟨_, rc, o, rfl, h1, h2⟩)
        | (rcases hb : bind_varnames E fuel names
             { ld with numbervars_frame := ld.numbervars_frame || (some names).isSome }
             with ⟨b, ld1⟩
           rw [hb] at h
           cases b <;> first
             | exact absurd h (fun hx => dead _ hx)
             | (simp only at h ⊢
                obtain ⟨rc, o, h1, h2⟩ := fin _ _ h
                exact ⟨_, rc, o, rfl, h1, h2⟩)))

theorem do_write2_after_term (E : Env) (fuel : Nat) (s : IOSTREAM) (term : Term)
    (flags : WrtFlags) (canonical : Bool) (ld : PL_local_data) (r : top_result)
    (h : do_write2 E fuel (some s) term flags canonical ld = some r) :
    ∃ rc o,
      writeTopTerm E fuel term 1200 (do_write2_options E s flags canonical ld) = some (rc, o) ∧
      (rc = false → r.rc = false ∧ r.out = some o.out) := by
  unfold do_write2 at h
  unfold do_write2_options
  simp only at h ⊢
  split at h
  · cases h
  rename_i rc o heq
  cases h
  refine ⟨rc, o, heq, ?_⟩
  intro hrc
  subst hrc
  simp

/-- Engine state in which an interrupt is pending at the first poll of
`PL_handle_signals()`. -/
def interruptLD : PL_local_data := { freshLD with signals := [true] }

/-- C38 (the code departs from the claim when `nl(true)` is given).  Whenever
`pl_write_term3()` gets as far as the stream, it calls `writeTopTerm()` on the
term with the options it has filled in.  When that call fails and `nl` is not
set, `pl_write_term3()` reports failure and the stream is as `writeTopTerm()`
left it: no full stop and no newline follow, with and without `fullstop`.  When
that call fails and `nl` is set, `Putc('\n', s)` is run all the same and its
result replaces the failure, with and without `fullstop`.  In `do_write2()` the
newline is guarded by the result: a failed `writeTopTerm()` gives failure and
nothing more on the stream.  With an interrupt pending, writing `foo` with
`[nl(true)]` or `[nl(true), fullstop(true)]` to a fresh stream reports success
with one newline as output; with `[]` or `[fullstop(true)]` it reports failure,
with no output. -/
theorem pl_write_term3_failure :
    (∀ (E : Env) (fuel : Nat) (s : IOSTREAM) (term : Term) (sc : scanned_options)
      (ld : PL_local_data) (r : top_result),
      pl_write_term3 E fuel (some s) term (some sc) ld = some r → r.out ≠ none →
      ∃ options rc o,
        pl_write_term3_options E fuel (some s) (some sc) ld = some options ∧
        writeTopTerm E fuel term sc.priority options = some (rc, o) ∧
        (rc = false → sc.nl = false → r.rc = false ∧ r.out = some o.out) ∧
        (rc = false → sc.nl = true →
          r.out = some (Putc 10 o.out).2 ∧
          r.rc = (streamStatus (Putc 10 o.out).2 && (Putc 10 o.out).1))) ∧
    (∀ (E : Env) (fuel : Nat) (s : IOSTREAM) (term : Term) (flags : WrtFlags)
      (canonical : Bool) (ld : PL_local_data) (r : top_result),
      do_write2 E fuel (some s) term flags canonical ld = some r →
      ∃ rc o,
        writeTopTerm E fuel term 1200 (do_write2_options E s flags canonical ld) =
          some (rc, o) ∧
        (rc = false → r.rc = false ∧ r.out = some o.out)) ∧
    (∀ nl fs : Bool,
      (pl_write_term3_options defaultEnv 2 (some freshStream)
        (some { scanned_defaults defaultEnv with nl := nl, fullstop := fs }) interruptLD).bind
        (fun o => written (writeTopTerm defaultEnv 2 (atomTerm "foo") 1200 o)) =
          some (false, [])) ∧
    (∀ fs : Bool,
      outcome (pl_write_term3 defaultEnv 2 (some freshStream) (atomTerm "foo")
        (some { scanned_defaults defaultEnv with nl := true, fullstop := fs }) interruptLD) =
          some (true, some [10], none) ∧
      outcome (pl_write_term3 defaultEnv 2 (some freshStream) (atomTerm "foo")
        (some { scanned_defaults defaultEnv with fullstop := fs }) interruptLD) =
          some (false, some [], none)) ∧
    outcome (do_write2 defaultEnv 2 (some freshStream) (atomTerm "foo")
      { PL_WRT_NEWLINE := true } false interruptLD) = some (false, some [], none) ∧
    outcome (pl_write_term3 defaultEnv 2 (some freshStream) (atomTerm "foo")
      (some { scanned_defaults defaultEnv with nl := true, fullstop := true }) freshLD) =
        some (true, some (str "foo.\n"), none) := by
  refine ⟨pl_write_term3_after_term, do_write2_after_term, ?_, ?_, by decide!,
    by decide!⟩
  · intro nl fs
    cases nl <;> cases fs <;> decide!
  · intro fs
    cases fs <;> exact ⟨by decide!, by decide!⟩

/-- C38 at the atom `foo` with an interrupt pending on a fresh stream: with the
options `[nl(true)]` `pl_write_term3()` reports success and the stream holds a
newline; `do_write2()` with the newline flag reports failure and the stream
holds nothing. -/
theorem pl_write_term3_failure_witness :
    pl_write_term3 defaultEnv 2 (some freshStream) (atomTerm "foo")
        (some { scanned_defaults defaultEnv with nl := true }) interruptLD =
      some { rc := true, out := some { freshStream with buffer := [10], lastc := 10 },
             ld := freshLD } ∧
    (∃ options rc o,
      pl_write_term3_options defaultEnv 2 (some freshStream)
        (some { scanned_defaults defaultEnv with nl := true }) interruptLD = some options ∧
      writeTopTerm defaultEnv 2 (atomTerm "foo")
        ({ scanned_defaults defaultEnv with nl := true } : scanned_options).priority
        options = some (rc, o) ∧
      (rc = false →
        ({ scanned_defaults defaultEnv with nl := true } : scanned_options).nl = false →
        ({ rc := true, out := some { freshStream with buffer := [10], lastc := 10 },
           ld := freshLD } : top_result).rc = false ∧
        ({ rc := true, out := some { freshStream with buffer := [10], lastc := 10 },
           ld := freshLD } : top_result).out = some o.out) ∧
      (rc = false →
        ({ scanned_defaults defaultEnv with nl := true } : scanned_options).nl = true →
        ({ rc := true, out := some { freshStream with buffer := [10], lastc := 10 },
           ld := freshLD } : top_result).out = some (Putc 10 o.out).2 ∧
        ({ rc := true, out := some { freshStream with buffer := [10], lastc := 10 },
           ld := freshLD } : top_result).rc =
          (streamStatus (Putc 10 o.out).2 && (Putc 10 o.out).1))) ∧
    do_write2 defaultEnv 2 (some freshStream) (atomTerm "foo") { PL_WRT_NEWLINE := true } false
        interruptLD =
      some { rc := false, out := some freshStream, ld := freshLD } ∧
    (∃ rc o,
      writeTopTerm defaultEnv 2 (atomTerm "foo") 1200
        (do_write2_options defaultEnv freshStream { PL_WRT_NEWLINE := true } false
          interruptLD) = some (rc, o) ∧
      (rc = false →
        ({ rc := false, out := some freshStream, ld := freshLD } : top_result).rc = false ∧
        ({ rc := false, out := some freshStream, ld := freshLD } : top_result).out =
          some o.out)) :=
  ⟨rfl, pl_write_term3_failure.1 defaultEnv 2 freshStream (atomTerm "foo")
    { scanned_defaults defaultEnv with nl := true } interruptLD _ rfl
    (fun h => Option.noConfusion h),
   rfl, pl_write_term3_failure.2.1 defaultEnv 2 freshStream (atomTerm "foo")
    { PL_WRT_NEWLINE := true } false interruptLD _ rfl⟩

/-! ## The portray nesting counter -/

/-- An environment in which `portray/1` is defined and `saveWakeup()` fails. -/
def noWakeupEnv : Env := { defaultEnv with portray_defined := true, saveWakeup := false }

theorem enterPortray_below (E : Env) (ld : PL_local_data)
    (h : ld.portray_nesting < E.MAX_PORTRAY_NESTING) :
    enterPortray E ld = (true, { ld with portray_nesting := ld.portray_nesting + 1 }) := by
  unfold enterPortray
  have : ¬(ld.portray_nesting ≥ E.MAX_PORTRAY_NESTING) := by omega
  simp only [this, if_false]

theorem enterPortray_limit (E : Env) (ld : PL_local_data)
    (h : ld.portray_nesting ≥ E.MAX_PORTRAY_NESTING) :
    enterPortray E ld = (false, { ld with exception := some (.resource "portray_nesting") }) := by
  unfold enterPortray
  simp only [h, if_true]

theorem callPortray_nesting (E : Env) (arg : Term) (prec : Int) (o : write_options) :
    (E.saveWakeup = true →
      (callPortray E arg prec o).2.ld.portray_nesting = o.ld.portray_nesting) ∧
    (o.ld.portray_nesting ≤ E.MAX_PORTRAY_NESTING →
      (callPortray E arg prec o).2.ld.portray_nesting ≤ E.MAX_PORTRAY_NESTING) ∧
    (E.saveWakeup = false → E.cleaning_gt_CLN_PROLOG = false →
      (o.portray_goal.isSome = true ∨ E.portray_defined = true) →
      o.ld.portray_nesting < E.MAX_PORTRAY_NESTING →
      callPortray E arg prec o =
        (-1, { o with ld := { o.ld with portray_nesting := o.ld.portray_nesting + 1 } })) := by
  unfold callPortray
  by_cases hc : E.cleaning_gt_CLN_PROLOG = true
  · simp [hc]
  by_cases hp : (o.portray_goal.isNone && !E.portray_defined) = true
  · simp only [hc, hp, if_true, Bool.false_eq_true, if_false]
    refine ⟨?_, ?_, ?_⟩
    · intro _; trivial
    · intro h; exact h
    · intro _ _ hq _
      rcases hq with hq | hq
      · cases hg : o.portray_goal <;> simp_all
      · simp_all
  simp only [hc, hp, Bool.false_eq_true, if_false]
  by_cases hn : o.ld.portray_nesting < E.MAX_PORTRAY_NESTING
  · rw [enterPortray_below E o.ld hn]
    by_cases hs : E.saveWakeup = true
    · simp only [hs, Bool.not_true, Bool.false_eq_true, if_false, leavePortray]
      refine ⟨fun _ => ?_, fun _ => ?_, fun h => ?_⟩
      · simp
      · simp; omega
      · simp at h
    · have hs2 : E.saveWakeup = false := by simpa using hs
      rw [hs2]
      simp only [Bool.not_false, if_true]
      refine ⟨fun h => ?_, fun _ => ?_, fun _ _ _ _ => trivial⟩
      · simp at h
      · omega
  · rw [enterPortray_limit E o.ld (by omega)]
    refine ⟨fun _ => rfl, fun h => h, fun _ _ _ h => absurd h hn⟩

theorem writeAttVar_nesting (E : Env) (wt : WT) (av : Term) (o : write_options)
    (r : Bool × write_options) (hw : o.flags.PL_WRT_ATTVAR_WRITE = false)
    (h : writeAttVar E wt av o = some r) :
    (E.saveWakeup = true → r.2.ld.portray_nesting = o.ld.portray_nesting) ∧
    (o.ld.portray_nesting ≤ E.MAX_PORTRAY_NESTING →
      r.2.ld.portray_nesting ≤ E.MAX_PORTRAY_NESTING) ∧
    (E.saveWakeup = false → E.cleaning_gt_CLN_PROLOG = false →
      o.flags.PL_WRT_ATTVAR_DOTS = false → o.flags.PL_WRT_ATTVAR_PORTRAY = true →
      o.ld.portray_nesting < E.MAX_PORTRAY_NESTING →
      (PutToken E (varName o.ld av) o.out).1 ≠ 0 →
      r.1 = false ∧ r.2.ld.portray_nesting = o.ld.portray_nesting + 1) := by
  unfold writeAttVar TRY onOutN onOut at h
  by_cases ht : (PutToken E (varName o.ld av) o.out).1 = 0
  · simp only [ht, bne_self_eq_false] at h
    cases h
    exact ⟨fun _ => rfl, fun h => h, fun _ _ _ _ _ h => absurd ht h⟩
  have ht2 : ((PutToken E (varName o.ld av) o.out).1 != 0) = true := by simp [ht]
  simp only [ht2] at h
  by_cases hd : o.flags.PL_WRT_ATTVAR_DOTS = true
  · simp only [hd, if_true] at h
    cases h
    exact ⟨fun _ => rfl, fun h => h, fun _ _ h => by simp [hd] at h⟩
  simp only [hd, hw, Bool.false_eq_true, if_false] at h
  by_cases hp : (o.flags.PL_WRT_ATTVAR_PORTRAY && !E.cleaning_gt_CLN_PROLOG) = true
  · simp only [hp, if_true] at h
    by_cases hn : o.ld.portray_nesting < E.MAX_PORTRAY_NESTING
    · rw [enterPortray_below E o.ld hn] at h
      by_cases hs : E.saveWakeup = true
      · simp only [hs, Bool.not_true, Bool.false_eq_true, if_false, leavePortray] at h
        cases h
        refine ⟨fun _ => ?_, fun _ => ?_, fun h => ?_⟩
        · simp
        · simp; omega
        · simp [hs] at h
      · simp only [hs, Bool.not_false, if_true] at h
        cases h
        refine ⟨fun h => absurd h hs, fun _ => ?_, fun _ _ _ _ _ _ => ⟨rfl, rfl⟩⟩
        simp; omega
    · rw [enterPortray_limit E o.ld (by omega)] at h
      simp only at h
      cases h
      exact ⟨fun _ => rfl, fun h => h, fun _ _ _ _ h => absurd h hn⟩
  · simp only [hp, Bool.false_eq_true, if_false] at h
    cases h
    refine ⟨fun _ => rfl, fun h => h, fun _ hc _ hq => ?_⟩
    simp [hc, hq] at hp

/-- C39 (the code departs from the claim when the wakeup state cannot be
saved).  `enterPortray()` fails with the resource error `portray_nesting`, and
does not count, once the counter has reached `MAX_PORTRAY_NESTING`; so a counter
within the bound stays within it across `callPortray()` and across
`writeAttVar()` (outside `attributes(write)`, where it calls `writeTerm()`).
When `saveWakeup()` succeeds the counter has its value on entry on every return
of the two functions: hooks disabled or undefined, nesting limit reached, hook
succeeded, failed or raised.  When `saveWakeup()` fails after `enterPortray()`
has counted, both functions return (-1 and `FALSE`) without `leavePortray()` and
the counter is one higher than on entry.  Writing `foo` with `portray(true)`
where `portray/1` is defined and `saveWakeup()` fails leaves the counter at 1;
where `saveWakeup()` succeeds it leaves 0. -/
theorem portray_nesting_balance :
    (∀ (E : Env) (ld : PL_local_data), ld.portray_nesting ≥ E.MAX_PORTRAY_NESTING →
      enterPortray E ld =
        (false, { ld with exception := some (.resource "portray_nesting") })) ∧
    (∀ (E : Env) (arg : Term) (prec : Int) (o : write_options),
      (E.saveWakeup = true →
        (callPortray E arg prec o).2.ld.portray_nesting = o.ld.portray_nesting) ∧
      (o.ld.portray_nesting ≤ E.MAX_PORTRAY_NESTING →
        (callPortray E arg prec o).2.ld.portray_nesting ≤ E.MAX_PORTRAY_NESTING) ∧
      (E.saveWakeup = false → E.cleaning_gt_CLN_PROLOG = false →
        (o.portray_goal.isSome = true ∨ E.portray_defined = true) →
        o.ld.portray_nesting < E.MAX_PORTRAY_NESTING →
        callPortray E arg prec o =
          (-1, { o with ld := { o.ld with portray_nesting := o.ld.portray_nesting + 1 } }))) ∧
    (∀ (E : Env) (wt : WT) (av : Term) (o : write_options) (r : Bool × write_options),
      o.flags.PL_WRT_ATTVAR_WRITE = false → writeAttVar E wt av o = some r →
      (E.saveWakeup = true → r.2.ld.portray_nesting = o.ld.portray_nesting) ∧
      (o.ld.portray_nesting ≤ E.MAX_PORTRAY_NESTING →
        r.2.ld.portray_nesting ≤ E.MAX_PORTRAY_NESTING) ∧
      (E.saveWakeup = false → E.cleaning_gt_CLN_PROLOG = false →
        o.flags.PL_WRT_ATTVAR_DOTS = false → o.flags.PL_WRT_ATTVAR_PORTRAY = true →
        o.ld.portray_nesting < E.MAX_PORTRAY_NESTING →
        (PutToken E (varName o.ld av) o.out).1 ≠ 0 →
        r.1 = false ∧ r.2.ld.portray_nesting = o.ld.portray_nesting + 1)) ∧
    (writeTerm noWakeupEnv 2 (atomTerm "foo") 1200
        (defaultOptions { PL_WRT_PORTRAY := true }) W_TOP).map
      (fun r => (r.1, r.2.ld.portray_nesting, r.2.out.buffer)) = some (false, 1, []) ∧
    (writeTerm { defaultEnv with portray_defined := true } 2 (atomTerm "foo") 1200
        (defaultOptions { PL_WRT_PORTRAY := true }) W_TOP).map
      (fun r => (r.1, r.2.ld.portray_nesting, r.2.out.buffer)) = some (true, 0, str "foo") ∧
    (writeTerm noWakeupEnv 2 (.attvar 5 (atomTerm "a")) 1200
        (defaultOptions { PL_WRT_ATTVAR_PORTRAY := true }) W_TOP).map
      (fun r => (r.1, r.2.ld.portray_nesting)) = some (false, 1) :=
  ⟨enterPortray_limit, callPortray_nesting, writeAttVar_nesting, by decide!, by decide!,
    by decide!⟩

/-- C39 at the term `foo` and at an attributed variable: with the counter at
the bound `enterPortray()` fails and leaves it there; with `saveWakeup()`
failing `callPortray()` and `writeAttVar()` leave the counter one higher than
they found it. -/
theorem portray_nesting_balance_witness :
    ({ freshLD with portray_nesting := 100 } : PL_local_data).portray_nesting ≥
      defaultEnv.MAX_PORTRAY_NESTING ∧
    enterPortray defaultEnv { freshLD with portray_nesting := 100 } =
      (false, { freshLD with portray_nesting := 100,
                             exception := some (.resource "portray_nesting") }) ∧
    noWakeupEnv.saveWakeup = false ∧
    callPortray noWakeupEnv (atomTerm "foo") 1200 (defaultOptions { PL_WRT_PORTRAY := true }) =
      (-1, { defaultOptions { PL_WRT_PORTRAY := true } with
             ld := { freshLD with portray_nesting := 1 } }) ∧
    ∃ r, writeAttVar noWakeupEnv (writeTerm noWakeupEnv 1) (.attvar 5 (atomTerm "a"))
        (defaultOptions { PL_WRT_ATTVAR_PORTRAY := true }) = some r ∧
      r.1 = false ∧
      r.2.ld.portray_nesting =
        (defaultOptions { PL_WRT_ATTVAR_PORTRAY := true }).ld.portray_nesting + 1 := by
  refine ⟨by decide, portray_nesting_balance.1 defaultEnv { freshLD with portray_nesting := 100 }
      (by decide), rfl,
    (portray_nesting_balance.2.1 noWakeupEnv (atomTerm "foo") 1200
      (defaultOptions { PL_WRT_PORTRAY := true })).2.2 rfl rfl (Or.inr rfl) (by decide), ?_⟩
  rcases hq : writeAttVar noWakeupEnv (writeTerm noWakeupEnv 1) (.attvar 5 (atomTerm "a"))
      (defaultOptions { PL_WRT_ATTVAR_PORTRAY := true }) with _ | r
  · have hv : (writeAttVar noWakeupEnv (writeTerm noWakeupEnv 1) (.attvar 5 (atomTerm "a"))
        (defaultOptions { PL_WRT_ATTVAR_PORTRAY := true })).isSome = true := by decide!
    rw [hq] at hv
    cases hv
  · exact ⟨r, rfl, (portray_nesting_balance.2.2.1 noWakeupEnv (writeTerm noWakeupEnv 1)
      (.attvar 5 (atomTerm "a")) (defaultOptions { PL_WRT_ATTVAR_PORTRAY := true }) r rfl
      hq).2.2 rfl rfl rfl rfl (by decide) (by decide!)⟩

end PlWrite
